import Mathlib

/-!
# Cobra card game engine: shallow embedding and verified properties

The development embeds `src/game/Deck.js`, `src/game/Player.js` and
`src/game/Game.js`.

Modelling conventions.

* A JavaScript array slot is a `Slot := Option Card`; `none` is the missing
  value.  `null`, `undefined` and an array hole all read as `none`: the
  engine only tests such values for truthiness and `reduce` adds 0 for them.
  A hole differs from a stored `undefined` in that `map` does not visit it,
  which `getOwnHandView` shows; so a hand array also records the indices of
  its holes (`Player.handHoles`).  Missing slots and holes arise only from
  the unchecked indices of `resolveBlackJackSwap`.
* Index arguments are integers (`Int`); player and socket identities are
  natural numbers compared by equality, as the strings of the source are.
  The identity generated by `addPlayer` is an argument of the operation.
* `Math.random` is an oracle `Rnd := Nat → Nat`: at loop index `i` of the
  Fisher-Yates shuffle the chosen position is `rnd i % (i + 1)`, so every
  oracle yields an admissible choice `0 ≤ j ≤ i` and every admissible choice
  is yielded by some oracle.  An operation that may shuffle takes its oracle
  as an argument.
* An uncaught JavaScript `TypeError` is the outcome `Outcome.threw`.
* A method returns a pair: the outcome and the state afterwards.
-/

namespace Cobra

/-! ## Deck.js -/

/-- The four suits, in the order of `SUITS`. -/
inductive Suit where
  | hearts | diamonds | clubs | spades
  deriving DecidableEq, Repr

/-- The thirteen ranks, in the order of `RANKS` (`n2` is the rank `'2'`, and so on). -/
inductive Rank where
  | A | n2 | n3 | n4 | n5 | n6 | n7 | n8 | n9 | n10 | J | Q | K
  deriving DecidableEq, Repr

/-- A card object `{ suit, rank, id }`; the `id` string is determined by rank and suit. -/
structure Card where
  suit : Suit
  rank : Rank
  deriving DecidableEq, Repr

/-- An array slot or nullable field: `none` is `null` / `undefined`. -/
abbrev Slot := Option Card

/-- The source of randomness of one shuffle. -/
abbrev Rnd := Nat → Nat

/-- The constant `SUITS`. -/
def SUITS : List Suit := [Suit.hearts, Suit.diamonds, Suit.clubs, Suit.spades]

/-- The constant `RANKS`. -/
def RANKS : List Rank :=
  [Rank.A, Rank.n2, Rank.n3, Rank.n4, Rank.n5, Rank.n6, Rank.n7, Rank.n8, Rank.n9,
   Rank.n10, Rank.J, Rank.Q, Rank.K]

/-- The powers returned by `Deck.hasPower` (the result `false` is `none`). -/
inductive Power where
  | peekOwn | peekOther | queenSwap | blackJack
  deriving DecidableEq, Repr

/-- The class `Deck`: draw pile `cards` (back = next drawn) and `discardPile` (back = top). -/
structure Deck where
  cards : List Slot
  discardPile : List Slot
  deriving DecidableEq, Repr

/-- The method `Deck.init` followed by the constructor's empty discard pile: `new Deck()`. -/
def Deck.init : Deck :=
  { cards := SUITS.flatMap (fun suit => RANKS.map (fun rank => some { suit := suit, rank := rank })),
    discardPile := [] }

/-- Exchange of the array elements at positions `i` and `j` (both inside the array). -/
def swapAt (l : List Slot) (i j : Nat) : List Slot :=
  match l[i]?, l[j]? with
  | some a, some b => (l.set i b).set j a
  | _, _ => l

/-- The loop of `Deck.shuffle` run for the indices `i, i-1, ..., 1`. -/
def shuffleLoop (rnd : Rnd) : Nat → List Slot → List Slot
  | 0, cs => cs
  | i + 1, cs => shuffleLoop rnd i (swapAt cs (i + 1) (rnd (i + 1) % (i + 2)))

/-- The method `Deck.shuffle` on the draw pile. -/
def shuffle (rnd : Rnd) (cs : List Slot) : List Slot :=
  shuffleLoop rnd (cs.length - 1) cs

/-- The JavaScript `pop` result of an array. -/
def popVal (l : List Slot) : Slot := l.getLast?.join

/-- The method `Deck.draw`: the returned value and the deck afterwards. -/
def Deck.draw (d : Deck) (rnd : Rnd) : Slot × Deck :=
  if d.cards.length = 0 then
    if d.discardPile.length ≤ 1 then (none, d)
    else
      let topDiscard := popVal d.discardPile
      let cs := shuffle rnd d.discardPile.dropLast
      (popVal cs, { cards := cs.dropLast, discardPile := [topDiscard] })
  else (popVal d.cards, { d with cards := d.cards.dropLast })

/-- The method `Deck.shuffle` on the deck object: it permutes `cards` in place. -/
def Deck.shuffle (d : Deck) (rnd : Rnd) : Deck :=
  { d with cards := Cobra.shuffle rnd d.cards }

/-- The method `Deck.discard`. -/
def Deck.discard (d : Deck) (card : Slot) : Deck :=
  { d with discardPile := d.discardPile ++ [card] }

/-- The method `Deck.getTopDiscard`. -/
def Deck.getTopDiscard (d : Deck) : Slot := popVal d.discardPile

/-- The method `Deck.remaining`. -/
def Deck.remaining (d : Deck) : Nat := d.cards.length

/-- The call `parseInt(rank)` on the rank strings; `none` is `NaN`. -/
def parseIntRank : Rank → Option Int
  | Rank.n2 => some 2
  | Rank.n3 => some 3
  | Rank.n4 => some 4
  | Rank.n5 => some 5
  | Rank.n6 => some 6
  | Rank.n7 => some 7
  | Rank.n8 => some 8
  | Rank.n9 => some 9
  | Rank.n10 => some 10
  | Rank.A => none
  | Rank.J => none
  | Rank.Q => none
  | Rank.K => none

/-- The static method `Deck.getCardValue`. -/
def getCardValue : Slot → Int
  | none => 0
  | some c =>
    if c.rank = Rank.A then 1
    else
      match parseIntRank c.rank with
      | some n => n
      | none =>
        if c.rank = Rank.K ∧ (c.suit = Suit.hearts ∨ c.suit = Suit.diamonds) then -1
        else if c.rank = Rank.K ∨ c.rank = Rank.Q ∨ c.rank = Rank.J then 10
        else 0

/-- The static method `Deck.hasPower`. -/
def hasPower : Slot → Option Power
  | none => none
  | some c =>
    if c.rank = Rank.n7 ∨ c.rank = Rank.n8 then some Power.peekOwn
    else if c.rank = Rank.n9 ∨ c.rank = Rank.n10 then some Power.peekOther
    else if c.rank = Rank.Q then some Power.queenSwap
    else if c.rank = Rank.J ∧ (c.suit = Suit.spades ∨ c.suit = Suit.clubs) then some Power.blackJack
    else none

/-! ## Player.js -/

/-- The class `Player`.  `handProps` holds the properties of the `hand` array object whose
integer key is not an array index (a negative key, or one beyond `2^32 - 2`); they are
written only by an unchecked assignment `hand[k] = v`.  `handHoles` holds the indices below
`hand.length` at which the array has no element (the holes of a sparse array): such a slot
reads as a missing card, `Array.prototype.map` does not visit it, and only an unchecked
assignment beyond the end of the array makes one. -/
structure Player where
  id : Nat
  name : String
  socketId : Nat
  hand : List Slot
  handProps : List (Int × Slot)
  handHoles : List Nat
  knownCards : List Int
  connected : Bool
  score : Int
  totalScore : Int
  deriving DecidableEq, Repr

/-- The constructor `new Player(id, name, socketId)`. -/
def Player.new (id : Nat) (name : String) (socketId : Nat) : Player :=
  { id := id, name := name, socketId := socketId, hand := [], handProps := [],
    handHoles := [], knownCards := [], connected := true, score := 0, totalScore := 0 }

/-- Whether an integer key is an array index of a JavaScript array. -/
def isArrayIndex (i : Int) : Bool := decide (0 ≤ i) && decide (i < 4294967295)

/-- The unchecked read `hand[i]`. -/
def Player.handGet (p : Player) (i : Int) : Slot :=
  if isArrayIndex i then (p.hand[i.toNat]?).join else (p.handProps.lookup i).join

/-- The unchecked write `hand[i] = v`: inside the array it stores the element (a hole at `i`
is filled), beyond the end it extends the array, leaving holes at the indices from the old
length up to `i`, and for a key that is no array index it sets a property. -/
def Player.handSet (p : Player) (i : Int) (v : Slot) : Player :=
  if isArrayIndex i then
    if i.toNat < p.hand.length then
      { p with
        hand := p.hand.set i.toNat v
        handHoles := p.handHoles.filter (fun h => h ≠ i.toNat) }
    else
      { p with
        hand := p.hand ++ List.replicate (i.toNat - p.hand.length) none ++ [v]
        handHoles := p.handHoles ++ List.range' p.hand.length (i.toNat - p.hand.length) }
  else { p with handProps := (i, v) :: p.handProps }

/-- The method `Player.addCard` (the returned index is not used by the engine). -/
def Player.addCard (p : Player) (card : Slot) : Player :=
  { p with hand := p.hand ++ [card] }

/-- The method `Player.removeCard`: the returned card and the player afterwards.  `splice`
moves the elements and the holes behind the removed slot one index down. -/
def Player.removeCard (p : Player) (index : Int) : Slot × Player :=
  if index < 0 ∨ index ≥ p.hand.length then (none, p)
  else
    ((p.hand[index.toNat]?).join,
     { p with
       hand := p.hand.eraseIdx index.toNat
       handHoles := (p.handHoles.filter (fun h => h ≠ index.toNat)).map
         (fun h => if h > index.toNat then h - 1 else h)
       knownCards := (p.knownCards.filter (fun i => i ≠ index)).map
         (fun i => if i > index then i - 1 else i) })

/-- The method `Player.swapCard`: the returned old card and the player afterwards. -/
def Player.swapCard (p : Player) (index : Int) (newCard : Slot) : Slot × Player :=
  if index < 0 ∨ index ≥ p.hand.length then (none, p)
  else
    ((p.hand[index.toNat]?).join,
     { p with
       hand := p.hand.set index.toNat newCard
       handHoles := p.handHoles.filter (fun h => h ≠ index.toNat)
       knownCards := p.knownCards.filter (fun i => i ≠ index) })

/-- The method `Player.markKnown`. -/
def Player.markKnown (p : Player) (index : Int) : Player :=
  if index ≥ 0 ∧ index < p.hand.length ∧ ¬ p.knownCards.contains index then
    { p with knownCards := p.knownCards ++ [index] }
  else p

/-- The method `Player.getScore`. -/
def Player.getScore (p : Player) : Int :=
  p.hand.foldl (fun sum card => sum + getCardValue card) 0

/-- One element of the array returned by `getOwnHandView`. -/
structure OwnSlotView where
  index : Nat
  known : Bool
  card : Slot
  deriving DecidableEq, Repr

/-- The method `Player.getOwnHandView`.  `Array.prototype.map` calls the function for the
elements of the array only: at a hole of the hand the returned array has a hole as well, here
`none`, and at every other index it holds the entry built for the slot. -/
def Player.getOwnHandView (p : Player) : List (Option OwnSlotView) :=
  p.hand.enum.map (fun ic =>
    if p.handHoles.contains ic.1 then none
    else
      some { index := ic.1
             known := p.knownCards.contains (ic.1 : Int)
             card := if p.knownCards.contains (ic.1 : Int) then ic.2 else none })

/-- The result of `getPublicHandView`. -/
structure PublicHandView where
  id : Nat
  name : String
  cardCount : Nat
  connected : Bool
  deriving DecidableEq, Repr

/-- The method `Player.getPublicHandView`. -/
def Player.getPublicHandView (p : Player) : PublicHandView :=
  { id := p.id, name := p.name, cardCount := p.hand.length, connected := p.connected }

/-- The method `Player.reset`. -/
def Player.reset (p : Player) : Player :=
  { p with hand := [], handProps := [], handHoles := [], knownCards := [], score := 0 }

/-! ## Game.js -/

/-- The constant `PHASES`. -/
inductive Phase where
  | waiting | initialPeek | playing | cobraCalled | roundOver
  deriving DecidableEq, Repr

/-- The record stored in `pendingPower`; `swapPhase` is `phase === 'swap'`. -/
structure PendingPower where
  type : Power
  card : Card
  playerId : Nat
  swapPhase : Bool
  peekedIndices : Option (List Int)
  deriving DecidableEq, Repr

/-- The class `Game` (the timer handle `snapTimeout` belongs to the server and is left out). -/
structure Game where
  roomCode : String
  players : List Player
  deck : Deck
  phase : Phase
  currentPlayerIndex : Nat
  drawnCard : Option Card
  cobraCaller : Option Nat
  cobraCallerIndex : Option Nat
  turnsSinceCobra : Nat
  hostId : Option Nat
  lastDiscard : Slot
  snapWindow : Bool
  pendingPower : Option PendingPower
  roundNumber : Nat
  deriving DecidableEq, Repr

/-- One element of the `results` array of `endRound`. -/
structure RoundEntry where
  id : Nat
  name : String
  hand : List Slot
  score : Int
  isCaller : Bool
  penalty : Bool
  isWinner : Bool
  deriving DecidableEq, Repr

/-- The `winner` object returned by `endRound`. -/
structure WinnerInfo where
  id : Nat
  name : String
  score : Int
  deriving DecidableEq, Repr

/-- What an engine method returns. -/
inductive Outcome where
  /-- The structured error `{ error: msg }`. -/
  | error (msg : String)
  /-- The plain result `{ success: true, ... }`. -/
  | success
  /-- The result of `drawCard`: the card and its power. -/
  | drew (card : Card) (power : Option Power)
  /-- The mismatch result of `doubleDrop`: `{ success: false, penalty: true, penaltyCount }`. -/
  | dropPenalty (penaltyCount : Nat)
  /-- The match result of `doubleDrop`: the power (if chained) and the `pendingPower` flag. -/
  | dropped (power : Option Power) (pendingPower : Bool)
  /-- The cards shown by a peek. -/
  | peeked (cards : List Slot)
  /-- The result of `snapCard` / `stealCard`: `matched`, the card shown, `penaltyCard`. -/
  | reaction (matched : Bool) (card : Slot) (penaltyCard : Bool)
  /-- The result of `endRound`. -/
  | roundOver (results : List RoundEntry) (winner : WinnerInfo)
  /-- The player object returned by the player-management methods (`none` is `undefined`). -/
  | player (p : Option Player)
  /-- An uncaught `TypeError`. -/
  | threw
  deriving DecidableEq, Repr

/-- Whether an outcome is a structured error. -/
def Outcome.isError : Outcome → Bool
  | Outcome.error _ => true
  | _ => false

/-- The position of the first element satisfying `f` (`Array.prototype.findIndex`, and the
position of the object returned by `Array.prototype.find`). -/
def firstIdx {α : Type} (f : α → Bool) : List α → Option Nat
  | [] => none
  | x :: xs => if f x then some 0 else (firstIdx f xs).map (fun k => k + 1)

/-- The constructor `new Game(roomCode)`. -/
def Game.new (roomCode : String) : Game :=
  { roomCode := roomCode, players := [], deck := Deck.init, phase := Phase.waiting,
    currentPlayerIndex := 0, drawnCard := none, cobraCaller := none, cobraCallerIndex := none,
    turnsSinceCobra := 0, hostId := none, lastDiscard := none, snapWindow := false,
    pendingPower := none, roundNumber := 0 }

/-- The position in `players` of the object returned by `getPlayerById`. -/
def Game.playerIdx (g : Game) (playerId : Nat) : Option Nat :=
  firstIdx (fun p => decide (p.id = playerId)) g.players

/-- The method `Game.getPlayerById`. -/
def Game.getPlayerById (g : Game) (playerId : Nat) : Option Player :=
  match g.playerIdx playerId with
  | some k => g.players[k]?
  | none => none

/-- The method `Game.getCurrentPlayer`. -/
def Game.getCurrentPlayer (g : Game) : Option Player := g.players[g.currentPlayerIndex]?

/-- The method `Game.getConnectedPlayers`. -/
def Game.getConnectedPlayers (g : Game) : List Player := g.players.filter (fun p => p.connected)

/-- Replacement of the player object at position `k`. -/
def Game.setPlayer (g : Game) (k : Nat) (p : Player) : Game :=
  { g with players := g.players.set k p }

/-- The method `Game.addPlayer`; the freshly generated identity is the argument `id`. -/
def Game.addPlayer (g : Game) (id : Nat) (name : String) (socketId : Nat) : Outcome × Game :=
  let player := Player.new id name socketId
  (Outcome.player (some player),
   { g with
     players := g.players ++ [player]
     hostId := match g.hostId with
       | none => some id
       | some h => some h })

/-- The method `Game.reconnectPlayer`. -/
def Game.reconnectPlayer (g : Game) (socketId playerId : Nat) : Outcome × Game :=
  match g.playerIdx playerId with
  | none => (Outcome.player none, g)
  | some k =>
    match g.players[k]? with
    | none => (Outcome.player none, g)
    | some player =>
      let player1 := { player with socketId := socketId, connected := true }
      (Outcome.player (some player1), g.setPlayer k player1)

/-- Insertion of a result before the first one whose score is not smaller. -/
def insertByScore (r : RoundEntry) : List RoundEntry → List RoundEntry
  | [] => [r]
  | x :: xs => if r.score ≤ x.score then r :: x :: xs else x :: insertByScore r xs

/-- The call `results.sort((a, b) => a.score - b.score)`: the stable ascending sort. -/
def sortByScore : List RoundEntry → List RoundEntry
  | [] => []
  | r :: rs => insertByScore r (sortByScore rs)

/-- Application of `f` to the element at position `k`. -/
def modifyAt {α : Type} (f : α → α) (k : Nat) (l : List α) : List α :=
  match l[k]? with
  | some x => l.set k (f x)
  | none => l

/-- The loop `for (const r of results)` of `endRound` that updates the total scores. -/
def applyTotals : List RoundEntry → Game → Game
  | [], g => g
  | r :: rs, g =>
    match g.playerIdx r.id with
    | none => applyTotals rs g
    | some k =>
      match g.players[k]? with
      | none => applyTotals rs g
      | some player =>
        let player1 := { player with totalScore := player.totalScore + r.score }
        let player2 :=
          if r.penalty then { player1 with totalScore := player1.totalScore + 10 } else player1
        applyTotals rs (g.setPlayer k player2)

/-- The sorted `results` array of `endRound` before any flag is set. -/
def Game.roundResults (g : Game) : List RoundEntry :=
  sortByScore (g.players.map (fun p =>
    { id := p.id, name := p.name, hand := p.hand, score := p.getScore,
      isCaller := decide (some p.id = g.cobraCaller), penalty := false, isWinner := false }))

/-- The position in `results` of `callerResult`. -/
def callerPos (results : List RoundEntry) : Option Nat :=
  firstIdx (fun r => r.isCaller) results

/-- The value `callerScore` (`none` is `Infinity`). -/
def callerScoreOf (results : List RoundEntry) : Option Int :=
  match callerPos results with
  | some c => (results[c]?).map (fun r => r.score)
  | none => none

/-- The position in `results` of `tiedWithCaller`. -/
def tiedPos (results : List RoundEntry) : Option Nat :=
  firstIdx (fun r => !r.isCaller && decide (some r.score = callerScoreOf results)) results

/-- The position of `winner` in `results` and whether `callerResult.penalty` is set. -/
def arbitrate (results : List RoundEntry) : Nat × Bool :=
  match tiedPos results with
  | some t => (t, true)
  | none =>
    match callerPos results with
    | some c =>
      if (results[c]?).map (fun r => r.score) = (results[0]?).map (fun r => r.score)
      then (c, false) else (0, true)
    | none => (0, false)

/-- The `results` array of `endRound` with the `penalty` and `isWinner` flags set. -/
def Game.finalResults (g : Game) : List RoundEntry :=
  let results := g.roundResults
  let a := arbitrate results
  let results1 :=
    match callerPos results with
    | some c => if a.2 then modifyAt (fun r => { r with penalty := true }) c results else results
    | none => results
  modifyAt (fun r => { r with isWinner := true }) a.1 results1

/-- The method `Game.endRound`. -/
def Game.endRound (g : Game) : Outcome × Game :=
  let g1 := { g with phase := Phase.roundOver }
  let results := g1.finalResults
  match results[(arbitrate g1.roundResults).1]? with
  | none => (Outcome.threw, g1)
  | some winner =>
    (Outcome.roundOver results { id := winner.id, name := winner.name, score := winner.score },
     applyTotals results g1)

/-- Whether the seat at position `i` is connected. -/
def connectedAt (ps : List Player) (i : Nat) : Bool :=
  match ps[i]? with
  | some p => p.connected
  | none => false

/-- The `do ... while` loop of `nextTurn`, entered with the current `nextIndex` and
`attempts`; `fuel` bounds the number of iterations (`players.length` always suffices, since
the loop stops once `attempts` reaches it). -/
def nextIndexLoop (ps : List Player) : Nat → Nat → Nat → Nat
  | 0, nextIndex, _ => nextIndex
  | fuel + 1, nextIndex, attempts =>
    let nextIndex1 := (nextIndex + 1) % ps.length
    let attempts1 := attempts + 1
    if !connectedAt ps nextIndex1 && decide (attempts1 < ps.length)
    then nextIndexLoop ps fuel nextIndex1 attempts1
    else nextIndex1

/-- The method `Game.nextTurn`.  With no seated player the modulus is `NaN` and the lookup
of `connected` throws. -/
def Game.nextTurn (g : Game) : Outcome × Game :=
  let g1 := { g with snapWindow := false, drawnCard := none, pendingPower := none }
  if g1.players.length = 0 then (Outcome.threw, g1)
  else
    let nextIndex := nextIndexLoop g1.players g1.players.length g1.currentPlayerIndex 0
    if g1.phase = Phase.cobraCalled then
      let g2 := { g1 with turnsSinceCobra := g1.turnsSinceCobra + 1 }
      if some nextIndex = g2.cobraCallerIndex then g2.endRound
      else (Outcome.success, { g2 with currentPlayerIndex := nextIndex })
    else (Outcome.success, { g1 with currentPlayerIndex := nextIndex })

/-- The method `Game.removePlayer`. -/
def Game.removePlayer (g : Game) (socketId : Nat) : Outcome × Game :=
  match firstIdx (fun p => decide (p.socketId = socketId)) g.players with
  | none => (Outcome.player none, g)
  | some k =>
    match g.players[k]? with
    | none => (Outcome.player none, g)
    | some player =>
      let player1 := { player with connected := false }
      let g1 := g.setPlayer k player1
      if g1.phase = Phase.playing ∧
          g1.getCurrentPlayer.map (fun p => p.socketId) = some socketId then
        (Outcome.player (some player1),
         ({ g1 with drawnCard := none, pendingPower := none } : Game).nextTurn.2)
      else (Outcome.player (some player1), g1)

/-- The inner loop of `startGame`: `n` draws, each added to the hand when truthy. -/
def dealCards (rnd : Rnd) : Nat → Player → Deck → Player × Deck
  | 0, p, d => (p, d)
  | n + 1, p, d =>
    let r := d.draw rnd
    dealCards rnd n (match r.1 with
      | some c => p.addCard (some c)
      | none => p) r.2

/-- The outer loop of `startGame`: reset every player and deal 4 cards to each. -/
def dealAll (rnd : Rnd) : List Player → Deck → List Player × Deck
  | [], d => ([], d)
  | p :: ps, d =>
    let r := dealCards rnd 4 p.reset d
    let rest := dealAll rnd ps r.2
    (r.1 :: rest.1, rest.2)

/-- The two lines of `startGame` that start the discard pile: one draw, discarded when
truthy. -/
def Deck.flipFirst (d : Deck) (rnd : Rnd) : Deck :=
  match (d.draw rnd).1 with
  | some c => (d.draw rnd).2.discard (some c)
  | none => (d.draw rnd).2

/-- The method `Game.startGame`. -/
def Game.startGame (g : Game) (rnd : Rnd) : Outcome × Game :=
  if g.players.length < 2 then (Outcome.error "Need at least 2 players", g)
  else
    let deck0 : Deck := { Deck.init with cards := shuffle rnd Deck.init.cards }
    let dealt := dealAll rnd g.players deck0
    let deck1 := dealt.2.flipFirst rnd
    (Outcome.success,
     { g with
       roundNumber := g.roundNumber + 1
       deck := deck1
       phase := Phase.initialPeek
       cobraCaller := none
       cobraCallerIndex := none
       turnsSinceCobra := 0
       drawnCard := none
       lastDiscard := none
       snapWindow := false
       pendingPower := none
       players := dealt.1
       currentPlayerIndex := 0 })

/-- The call `indices.forEach(i => player.markKnown(i))`. -/
def markAll (p : Player) (indices : List Int) : Player :=
  indices.foldl (fun q i => q.markKnown i) p

/-- The method `Game.initialPeek`. -/
def Game.initialPeek (g : Game) (playerId : Nat) (indices : List Int) : Outcome × Game :=
  if g.phase ≠ Phase.initialPeek then (Outcome.error "Not in peek phase", g)
  else
    match g.playerIdx playerId with
    | none => (Outcome.error "Player not found", g)
    | some k =>
      match g.players[k]? with
      | none => (Outcome.error "Player not found", g)
      | some player =>
        if indices.length ≠ 2 then (Outcome.error "Must peek at exactly 2 cards", g)
        else if indices.any (fun i => decide (i < 0) || decide (i ≥ player.hand.length)) then
          (Outcome.error "Invalid card index", g)
        else
          let player1 := markAll player indices
          (Outcome.peeked (indices.map (fun i => (player1.hand[i.toNat]?).join)),
           g.setPlayer k player1)

/-- The method `Game.startPlaying`. -/
def Game.startPlaying (g : Game) : Outcome × Game :=
  (Outcome.success, { g with phase := Phase.playing, currentPlayerIndex := 0 })

/-- The method `Game.drawCard`. -/
def Game.drawCard (g : Game) (playerId : Nat) (rnd : Rnd) : Outcome × Game :=
  match g.getCurrentPlayer with
  | none => (Outcome.error "Not your turn", g)
  | some player =>
    if player.id ≠ playerId then (Outcome.error "Not your turn", g)
    else if g.phase ≠ Phase.playing ∧ g.phase ≠ Phase.cobraCalled then
      (Outcome.error "Game not in play", g)
    else if g.drawnCard.isSome then (Outcome.error "Already drew a card", g)
    else
      let r := g.deck.draw rnd
      match r.1 with
      | none => (Outcome.error "Deck is empty", { g with deck := r.2 })
      | some card =>
        (Outcome.drew card (hasPower (some card)),
         { g with deck := r.2, drawnCard := some card, snapWindow := false })

/-- The method `Game.swapWithHand`. -/
def Game.swapWithHand (g : Game) (playerId : Nat) (handIndex : Int) : Outcome × Game :=
  match g.getCurrentPlayer with
  | none => (Outcome.error "Not your turn", g)
  | some player =>
    if player.id ≠ playerId then (Outcome.error "Not your turn", g)
    else
      match g.drawnCard with
      | none => (Outcome.error "No card drawn", g)
      | some drawn =>
        if handIndex < 0 ∨ handIndex ≥ player.hand.length then
          (Outcome.error "Invalid hand index", g)
        else
          let sw := player.swapCard handIndex (some drawn)
          let oldCard := sw.1
          let player1 := sw.2.markKnown handIndex
          (Outcome.success,
           { g with
             players := g.players.set g.currentPlayerIndex player1
             deck := g.deck.discard oldCard
             lastDiscard := oldCard
             drawnCard := none
             snapWindow := true })

/-- The method `Game.discardDrawnCard`. -/
def Game.discardDrawnCard (g : Game) (playerId : Nat) : Outcome × Game :=
  match g.getCurrentPlayer with
  | none => (Outcome.error "Not your turn", g)
  | some player =>
    if player.id ≠ playerId then (Outcome.error "Not your turn", g)
    else
      match g.drawnCard with
      | none => (Outcome.error "No card drawn", g)
      | some card =>
        (Outcome.success,
         { g with
           deck := g.deck.discard (some card)
           lastDiscard := some card
           drawnCard := none
           snapWindow := true })

/-- The method `Game.usePower`. -/
def Game.usePower (g : Game) (playerId : Nat) : Outcome × Game :=
  match g.getCurrentPlayer with
  | none => (Outcome.error "Not your turn", g)
  | some player =>
    if player.id ≠ playerId then (Outcome.error "Not your turn", g)
    else
      match g.drawnCard with
      | none => (Outcome.error "No card drawn", g)
      | some drawn =>
        match hasPower (some drawn) with
        | none => (Outcome.error "This card has no power", g)
        | some power =>
          if power = Power.queenSwap ∧ g.getConnectedPlayers.length < 3 then
            (Outcome.error "Queen swap requires 3+ players. Swap or discard instead.", g)
          else
            (Outcome.success,
             { g with
               pendingPower := some { type := power, card := drawn, playerId := playerId,
                                      swapPhase := false, peekedIndices := none } })

/-- The penalty loop of `doubleDrop`: `n` draws, each pushed onto the hand when truthy;
the third component counts the pushed cards.  The draw made with `n + 1` iterations left
uses the oracle `rnds n`. -/
def penaltyDraws (rnds : Nat → Rnd) : Nat → Player → Deck → Nat → Player × Deck × Nat
  | 0, p, d, cnt => (p, d, cnt)
  | n + 1, p, d, cnt =>
    let r := d.draw (rnds n)
    match r.1 with
    | some c => penaltyDraws rnds n (p.addCard (some c)) r.2 (cnt + 1)
    | none => penaltyDraws rnds n p r.2 cnt

/-- The method `Game.doubleDrop`.  Reading `handCard.rank` of a missing card throws. -/
def Game.doubleDrop (g : Game) (playerId : Nat) (handIndex : Int) (usePowerToo : Bool)
    (rnds : Nat → Rnd) : Outcome × Game :=
  match g.getCurrentPlayer with
  | none => (Outcome.error "Not your turn", g)
  | some player =>
    if player.id ≠ playerId then (Outcome.error "Not your turn", g)
    else
      match g.drawnCard with
      | none => (Outcome.error "No card drawn", g)
      | some drawn =>
        if handIndex < 0 ∨ handIndex ≥ player.hand.length then
          (Outcome.error "Invalid hand index", g)
        else
          match (player.hand[handIndex.toNat]?).join with
          | none => (Outcome.threw, g)
          | some handCard =>
            if handCard.rank ≠ drawn.rank then
              let pen := penaltyDraws rnds 2 player g.deck 0
              (Outcome.dropPenalty pen.2.2,
               { g with
                 players := g.players.set g.currentPlayerIndex pen.1
                 deck := pen.2.1.discard (some drawn)
                 lastDiscard := some drawn
                 drawnCard := none
                 snapWindow := true })
            else
              let power := hasPower (some drawn)
              let rm := player.removeCard handIndex
              let g1 : Game :=
                { g with
                  players := g.players.set g.currentPlayerIndex rm.2
                  deck := (g.deck.discard rm.1).discard (some drawn)
                  lastDiscard := some drawn
                  drawnCard := none
                  snapWindow := true }
              match power with
              | some pw =>
                if usePowerToo then
                  (Outcome.dropped (some pw) true,
                   { g1 with
                     pendingPower := some { type := pw, card := drawn, playerId := playerId,
                                            swapPhase := false, peekedIndices := none } })
                else (Outcome.dropped none false, g1)
              | none => (Outcome.dropped none false, g1)

/-- The common tail of every completed power resolution: discard the power card, record it
as `lastDiscard`, clear `drawnCard` and `pendingPower`, open the snap window. -/
def Game.finishPower (g : Game) (pp : PendingPower) : Game :=
  { g with
    deck := g.deck.discard (some pp.card)
    lastDiscard := some pp.card
    drawnCard := none
    pendingPower := none
    snapWindow := true }

/-- The method `Game.resolvePeekOwn`. -/
def Game.resolvePeekOwn (g : Game) (playerId : Nat) (cardIndex : Int) : Outcome × Game :=
  match g.pendingPower with
  | none => (Outcome.error "No peek own power pending", g)
  | some pp =>
    if pp.type ≠ Power.peekOwn then (Outcome.error "No peek own power pending", g)
    else
      match g.playerIdx playerId with
      | none => (Outcome.error "Player not found", g)
      | some k =>
        match g.players[k]? with
        | none => (Outcome.error "Player not found", g)
        | some player =>
          if cardIndex < 0 ∨ cardIndex ≥ player.hand.length then
            (Outcome.error "Invalid index", g)
          else
            let player1 := player.markKnown cardIndex
            (Outcome.peeked [(player1.hand[cardIndex.toNat]?).join],
             (g.setPlayer k player1).finishPower pp)

/-- The method `Game.resolvePeekOther`. -/
def Game.resolvePeekOther (g : Game) (playerId targetPlayerId : Nat) (cardIndex : Int) :
    Outcome × Game :=
  match g.pendingPower with
  | none => (Outcome.error "No peek other power pending", g)
  | some pp =>
    if pp.type ≠ Power.peekOther then (Outcome.error "No peek other power pending", g)
    else if playerId = targetPlayerId then
      (Outcome.error "Cannot peek at your own card with this power", g)
    else
      match g.getPlayerById targetPlayerId with
      | none => (Outcome.error "Target player not found", g)
      | some targetPlayer =>
        if cardIndex < 0 ∨ cardIndex ≥ targetPlayer.hand.length then
          (Outcome.error "Invalid index", g)
        else
          (Outcome.peeked [(targetPlayer.hand[cardIndex.toNat]?).join], g.finishPower pp)

/-- The method `Game.resolveQueenSwap`. -/
def Game.resolveQueenSwap (g : Game) (_playerId player1Id : Nat) (card1Index : Int)
    (player2Id : Nat) (card2Index : Int) : Outcome × Game :=
  match g.pendingPower with
  | none => (Outcome.error "No queen swap power pending", g)
  | some pp =>
    if pp.type ≠ Power.queenSwap then (Outcome.error "No queen swap power pending", g)
    else
      match g.playerIdx player1Id, g.playerIdx player2Id with
      | some k1, some k2 =>
        match g.players[k1]?, g.players[k2]? with
        | some p1, some p2 =>
          if player1Id = player2Id then (Outcome.error "Must swap between different players", g)
          else if card1Index < 0 ∨ card1Index ≥ p1.hand.length then
            (Outcome.error "Invalid card index for player 1", g)
          else if card2Index < 0 ∨ card2Index ≥ p2.hand.length then
            (Outcome.error "Invalid card index for player 2", g)
          else
            let temp := (p1.hand[card1Index.toNat]?).join
            let p1a : Player :=
              { p1 with
                hand := p1.hand.set card1Index.toNat (p2.hand[card2Index.toNat]?).join
                handHoles := p1.handHoles.filter (fun h => h ≠ card1Index.toNat)
                knownCards := p1.knownCards.filter (fun i => i ≠ card1Index) }
            let p2a : Player :=
              { p2 with
                hand := p2.hand.set card2Index.toNat temp
                handHoles := p2.handHoles.filter (fun h => h ≠ card2Index.toNat)
                knownCards := p2.knownCards.filter (fun i => i ≠ card2Index) }
            (Outcome.success, ((g.setPlayer k1 p1a).setPlayer k2 p2a).finishPower pp)
        | _, _ => (Outcome.error "Player not found", g)
      | _, _ => (Outcome.error "Player not found", g)

/-- The method `Game.resolveBlackJackPeek`. -/
def Game.resolveBlackJackPeek (g : Game) (playerId : Nat) (indices : List Int) :
    Outcome × Game :=
  match g.pendingPower with
  | none => (Outcome.error "No black jack power pending", g)
  | some pp =>
    if pp.type ≠ Power.blackJack then (Outcome.error "No black jack power pending", g)
    else
      match g.playerIdx playerId with
      | none => (Outcome.error "Player not found", g)
      | some k =>
        match g.players[k]? with
        | none => (Outcome.error "Player not found", g)
        | some player =>
          if indices.length ≠ 2 then (Outcome.error "Must peek at exactly 2 cards", g)
          else
            let player1 := markAll player indices
            (Outcome.peeked (indices.map player1.handGet),
             { g.setPlayer k player1 with
               pendingPower :=
                 some { pp with swapPhase := true, peekedIndices := some indices } })

/-- The method `Game.resolveBlackJackSwap`; the two indices are used unchecked. -/
def Game.resolveBlackJackSwap (g : Game) (playerId : Nat) (myCardIndex : Int)
    (targetPlayerId : Nat) (targetCardIndex : Int) : Outcome × Game :=
  match g.pendingPower with
  | none => (Outcome.error "No black jack swap pending", g)
  | some pp =>
    if pp.type ≠ Power.blackJack ∨ pp.swapPhase ≠ true then
      (Outcome.error "No black jack swap pending", g)
    else
      match g.playerIdx playerId, g.playerIdx targetPlayerId with
      | some k, some kt =>
        match g.players[k]?, g.players[kt]? with
        | some player, some target =>
          if playerId = targetPlayerId then
            (Outcome.error "Must swap with a different player", g)
          else
            let temp := player.handGet myCardIndex
            let player1 := player.handSet myCardIndex (target.handGet targetCardIndex)
            let target1 := target.handSet targetCardIndex temp
            let player2 : Player :=
              { player1 with knownCards := player1.knownCards.filter (fun i => i ≠ myCardIndex) }
            let target2 : Player :=
              { target1 with
                knownCards := target1.knownCards.filter (fun i => i ≠ targetCardIndex) }
            (Outcome.success, ((g.setPlayer k player2).setPlayer kt target2).finishPower pp)
        | _, _ => (Outcome.error "Player not found", g)
      | _, _ => (Outcome.error "Player not found", g)

/-- The method `Game.resolveBlackJackSkip`. -/
def Game.resolveBlackJackSkip (g : Game) (_playerId : Nat) : Outcome × Game :=
  match g.pendingPower with
  | none => (Outcome.error "No black jack swap pending", g)
  | some pp =>
    if pp.type ≠ Power.blackJack ∨ pp.swapPhase ≠ true then
      (Outcome.error "No black jack swap pending", g)
    else (Outcome.success, g.finishPower pp)

/-- The failure branch shared by `snapCard` and `stealCard`: the player at position `k`
draws one penalty card, added to the hand when truthy. -/
def Game.penaltyCard (g : Game) (k : Nat) (player : Player) (rnd : Rnd) : Bool × Game :=
  let r := g.deck.draw rnd
  match r.1 with
  | some c => (true, { g with deck := r.2, players := g.players.set k (player.addCard (some c)) })
  | none => (false, { g with deck := r.2 })

/-- The method `Game.snapCard`.  Reading `snappedCard.rank` of a missing card throws. -/
def Game.snapCard (g : Game) (playerId : Nat) (cardIndex : Int) (rnd : Rnd) : Outcome × Game :=
  match g.lastDiscard with
  | none => (Outcome.error "No snap available right now", g)
  | some last =>
    if g.snapWindow = false then (Outcome.error "No snap available right now", g)
    else
      match g.playerIdx playerId with
      | none => (Outcome.error "Player not found", g)
      | some k =>
        match g.players[k]? with
        | none => (Outcome.error "Player not found", g)
        | some player =>
          if cardIndex < 0 ∨ cardIndex ≥ player.hand.length then
            (Outcome.error "Invalid card index", g)
          else
            match (player.hand[cardIndex.toNat]?).join with
            | none => (Outcome.threw, g)
            | some snappedCard =>
              if snappedCard.rank = last.rank then
                (Outcome.reaction true (some snappedCard) false,
                 { g with
                   players := g.players.set k (player.removeCard cardIndex).2
                   deck := g.deck.discard (some snappedCard)
                   lastDiscard := some snappedCard })
              else
                let pen := g.penaltyCard k player rnd
                (Outcome.reaction false (some snappedCard) pen.1, pen.2)

/-- The method `Game.stealCard`.  Reading `targetCard.rank` of a missing card throws. -/
def Game.stealCard (g : Game) (thiefId targetId : Nat) (targetCardIndex thiefCardIndex : Int)
    (rnd : Rnd) : Outcome × Game :=
  match g.lastDiscard with
  | none => (Outcome.error "No discard to match against", g)
  | some last =>
    match g.playerIdx thiefId, g.playerIdx targetId with
    | some kth, some kta =>
      match g.players[kth]?, g.players[kta]? with
      | some thief, some target =>
        if thiefId = targetId then (Outcome.error "Cannot steal from yourself", g)
        else if targetCardIndex < 0 ∨ targetCardIndex ≥ target.hand.length then
          (Outcome.error "Invalid target card index", g)
        else if thiefCardIndex < 0 ∨ thiefCardIndex ≥ thief.hand.length then
          (Outcome.error "Invalid thief card index", g)
        else
          match (target.hand[targetCardIndex.toNat]?).join with
          | none => (Outcome.threw, g)
          | some targetCard =>
            if targetCard.rank = last.rank then
              let thiefCard := (thief.hand[thiefCardIndex.toNat]?).join
              let target1 : Player :=
                { target with
                  hand := target.hand.set targetCardIndex.toNat thiefCard
                  handHoles := target.handHoles.filter (fun h => h ≠ targetCardIndex.toNat) }
              let thief1 : Player :=
                { thief with
                  hand := thief.hand.set thiefCardIndex.toNat (some targetCard)
                  handHoles := thief.handHoles.filter (fun h => h ≠ thiefCardIndex.toNat) }
              let thief2 := (thief1.removeCard thiefCardIndex).2
              let target2 : Player :=
                { target1 with
                  knownCards := target1.knownCards.filter (fun i => i ≠ targetCardIndex) }
              (Outcome.reaction true (some targetCard) false,
               { g with
                 players := (g.players.set kth thief2).set kta target2
                 deck := g.deck.discard (some targetCard)
                 lastDiscard := some targetCard })
            else
              let pen := g.penaltyCard kth thief rnd
              (Outcome.reaction false (some targetCard) pen.1, pen.2)
      | _, _ => (Outcome.error "Player not found", g)
    | _, _ => (Outcome.error "Player not found", g)

/-- The method `Game.callCobra`. -/
def Game.callCobra (g : Game) (playerId : Nat) : Outcome × Game :=
  if g.phase ≠ Phase.playing then (Outcome.error "Cannot call cobra now", g)
  else if g.cobraCaller.isSome then (Outcome.error "Cobra already called", g)
  else
    match g.playerIdx playerId with
    | none => (Outcome.error "Player not found", g)
    | some playerIndex =>
      (Outcome.success,
       { g with
         cobraCaller := some playerId
         cobraCallerIndex := some playerIndex
         phase := Phase.cobraCalled
         turnsSinceCobra := 0 })

/-- One element of the `players` array of `getStateForPlayer`. -/
structure PlayerView where
  id : Nat
  name : String
  cardCount : Nat
  connected : Bool
  isCurrentTurn : Option Bool
  isYou : Bool
  totalScore : Int
  deriving DecidableEq, Repr

/-- The object returned by `getStateForPlayer`.  A field computed as `current && ...` is
`none` when `current` is `null`. -/
structure StateView where
  roomCode : String
  phase : Phase
  roundNumber : Nat
  currentPlayer : Option (Nat × String)
  isYourTurn : Option Bool
  yourHand : List (Option OwnSlotView)
  yourId : Nat
  players : List PlayerView
  deckCount : Nat
  topDiscard : Slot
  lastDiscard : Slot
  cobraCaller : Option Nat
  drawnCard : Option Card
  pendingPower : Option PendingPower
  snapWindow : Bool
  deriving DecidableEq, Repr

/-- The test `current && current.id === playerId` used as a condition. -/
def Game.holdsTurn (g : Game) (playerId : Nat) : Bool :=
  match g.getCurrentPlayer with
  | some current => decide (current.id = playerId)
  | none => false

/-- The method `Game.getStateForPlayer`. -/
def Game.getStateForPlayer (g : Game) (playerId : Nat) : StateView :=
  let player := g.getPlayerById playerId
  let current := g.getCurrentPlayer
  { roomCode := g.roomCode
    phase := g.phase
    roundNumber := g.roundNumber
    currentPlayer := current.map (fun c => (c.id, c.name))
    isYourTurn := current.map (fun c => decide (c.id = playerId))
    yourHand := match player with
      | some p => p.getOwnHandView
      | none => []
    yourId := playerId
    players := g.players.map (fun p =>
      { id := p.getPublicHandView.id
        name := p.getPublicHandView.name
        cardCount := p.getPublicHandView.cardCount
        connected := p.getPublicHandView.connected
        isCurrentTurn := current.map (fun c => decide (c.id = p.id))
        isYou := decide (p.id = playerId)
        totalScore := p.totalScore })
    deckCount := g.deck.remaining
    topDiscard := g.deck.getTopDiscard
    lastDiscard := g.lastDiscard
    cobraCaller := g.cobraCaller
    drawnCard := if g.holdsTurn playerId then g.drawnCard else none
    pendingPower := if g.holdsTurn playerId then g.pendingPower else none
    snapWindow := g.snapWindow }

/-! ## The engine as a transition system -/

/-- An engine operation together with its arguments and the randomness it may consume. -/
inductive Op where
  | addPlayer (id : Nat) (name : String) (socketId : Nat)
  | removePlayer (socketId : Nat)
  | reconnectPlayer (socketId playerId : Nat)
  | startGame (rnd : Rnd)
  | initialPeek (playerId : Nat) (indices : List Int)
  | startPlaying
  | drawCard (playerId : Nat) (rnd : Rnd)
  | swapWithHand (playerId : Nat) (handIndex : Int)
  | discardDrawnCard (playerId : Nat)
  | usePower (playerId : Nat)
  | doubleDrop (playerId : Nat) (handIndex : Int) (usePowerToo : Bool) (rnds : Nat → Rnd)
  | resolvePeekOwn (playerId : Nat) (cardIndex : Int)
  | resolvePeekOther (playerId targetPlayerId : Nat) (cardIndex : Int)
  | resolveQueenSwap (playerId player1Id : Nat) (card1Index : Int) (player2Id : Nat)
      (card2Index : Int)
  | resolveBlackJackPeek (playerId : Nat) (indices : List Int)
  | resolveBlackJackSwap (playerId : Nat) (myCardIndex : Int) (targetPlayerId : Nat)
      (targetCardIndex : Int)
  | resolveBlackJackSkip (playerId : Nat)
  | snapCard (playerId : Nat) (cardIndex : Int) (rnd : Rnd)
  | stealCard (thiefId targetId : Nat) (targetCardIndex thiefCardIndex : Int) (rnd : Rnd)
  | callCobra (playerId : Nat)
  | nextTurn

/-- One engine call: the returned outcome and the state afterwards. -/
def step (g : Game) : Op → Outcome × Game
  | Op.addPlayer id name socketId => g.addPlayer id name socketId
  | Op.removePlayer socketId => g.removePlayer socketId
  | Op.reconnectPlayer socketId playerId => g.reconnectPlayer socketId playerId
  | Op.startGame rnd => g.startGame rnd
  | Op.initialPeek playerId indices => g.initialPeek playerId indices
  | Op.startPlaying => g.startPlaying
  | Op.drawCard playerId rnd => g.drawCard playerId rnd
  | Op.swapWithHand playerId handIndex => g.swapWithHand playerId handIndex
  | Op.discardDrawnCard playerId => g.discardDrawnCard playerId
  | Op.usePower playerId => g.usePower playerId
  | Op.doubleDrop playerId handIndex usePowerToo rnds =>
    g.doubleDrop playerId handIndex usePowerToo rnds
  | Op.resolvePeekOwn playerId cardIndex => g.resolvePeekOwn playerId cardIndex
  | Op.resolvePeekOther playerId targetPlayerId cardIndex =>
    g.resolvePeekOther playerId targetPlayerId cardIndex
  | Op.resolveQueenSwap playerId player1Id card1Index player2Id card2Index =>
    g.resolveQueenSwap playerId player1Id card1Index player2Id card2Index
  | Op.resolveBlackJackPeek playerId indices => g.resolveBlackJackPeek playerId indices
  | Op.resolveBlackJackSwap playerId myCardIndex targetPlayerId targetCardIndex =>
    g.resolveBlackJackSwap playerId myCardIndex targetPlayerId targetCardIndex
  | Op.resolveBlackJackSkip playerId => g.resolveBlackJackSkip playerId
  | Op.snapCard playerId cardIndex rnd => g.snapCard playerId cardIndex rnd
  | Op.stealCard thiefId targetId targetCardIndex thiefCardIndex rnd =>
    g.stealCard thiefId targetId targetCardIndex thiefCardIndex rnd
  | Op.callCobra playerId => g.callCobra playerId
  | Op.nextTurn => g.nextTurn

/-- The state after a sequence of engine calls. -/
def run (g : Game) : List Op → Game
  | [] => g
  | op :: ops => run (step g op).2 ops

/-- The states reachable from a new match by engine calls. -/
inductive Reachable : Game → Prop where
  | init (roomCode : String) : Reachable (Game.new roomCode)
  | step (g : Game) (op : Op) : Reachable g → Reachable (step g op).2

/-! ## Notions used in the statements -/

/-- The `results` element that `endRound` builds for the player `p`. -/
def Game.entryOf (g : Game) (p : Player) : RoundEntry :=
  { id := p.id, name := p.name, hand := p.hand, score := p.getScore,
    isCaller := decide (some p.id = g.cobraCaller), penalty := false, isWinner := false }

/-- What the `results` elements carrying the identity `id` add to a total score. -/
def bonus (rs : List RoundEntry) (id : Nat) : Int :=
  ((rs.filter (fun r => decide (r.id = id))).map
    (fun r => r.score + if r.penalty then 10 else 0)).sum

/-- Whether `endRound` sets the `penalty` flag on the caller's result. -/
def Game.callerPenalized (g : Game) : Bool :=
  g.finalResults.any (fun r => r.isCaller && r.penalty)

/-- A player holding the given hand, for the concrete instances below. -/
def seat (id : Nat) (name : String) (hand : List Slot) : Player :=
  { Player.new id name (100 + id) with hand := hand }

/-- Three seats with hand scores 2, 5, 5; the first 5-scorer (identity 2) called cobra. -/
def tieGame : Game :=
  { Game.new "ROOM" with
    players := [seat 1 "ann" [some ⟨Suit.hearts, Rank.n2⟩],
                seat 2 "bob" [some ⟨Suit.hearts, Rank.n5⟩],
                seat 3 "cyd" [some ⟨Suit.clubs, Rank.n5⟩]]
    phase := Phase.cobraCalled
    cobraCaller := some 2
    cobraCallerIndex := some 1 }

/-- Three seats with hand scores 1, 3, 7; the 1-scorer (identity 1) called cobra. -/
def uniqueMinGame : Game :=
  { Game.new "ROOM" with
    players := [seat 1 "ann" [some ⟨Suit.hearts, Rank.A⟩],
                seat 2 "bob" [some ⟨Suit.hearts, Rank.n3⟩],
                seat 3 "cyd" [some ⟨Suit.clubs, Rank.n7⟩]]
    phase := Phase.cobraCalled
    cobraCaller := some 1
    cobraCallerIndex := some 0 }

/-- Three seats with hand scores 4, 6, 9; the 6-scorer (identity 2) called cobra. -/
def lowerGame : Game :=
  { Game.new "ROOM" with
    players := [seat 1 "ann" [some ⟨Suit.hearts, Rank.n4⟩],
                seat 2 "bob" [some ⟨Suit.hearts, Rank.n6⟩],
                seat 3 "cyd" [some ⟨Suit.clubs, Rank.n9⟩]]
    phase := Phase.cobraCalled
    cobraCaller := some 2
    cobraCallerIndex := some 1 }

/-- Every known index of the player is an index of the hand. -/
def Player.knownValid (p : Player) : Prop :=
  ∀ i ∈ p.knownCards, 0 ≤ i ∧ i < (p.hand.length : Int)

/-- Every known index of every seated player is an index of that player's hand. -/
def Game.knownValid (g : Game) : Prop := ∀ p ∈ g.players, p.knownValid

/-- The indices an operation shows to the player with identity `id` (the peeks). -/
def Op.peeks : Op → Nat → Int → Prop
  | Op.initialPeek playerId indices, id, i => id = playerId ∧ i ∈ indices
  | Op.resolvePeekOwn playerId cardIndex, id, i => id = playerId ∧ i = cardIndex
  | Op.resolveBlackJackPeek playerId indices, id, i => id = playerId ∧ i ∈ indices
  | _, _, _ => False

/-- The slot an operation lets the player with identity `id` fill deliberately. -/
def Op.places : Op → Nat → Int → Prop
  | Op.swapWithHand playerId handIndex, id, i => id = playerId ∧ i = handIndex
  | _, _, _ => False

/-- The player `q` after a change of the player `p`: the known indices of `q` are valid, and
each of them is either one of the indices `N` or refers to a card that `p` already knew, at
the same slot or (after a removal) one slot higher. -/
def Keeps (N : Int → Prop) (p q : Player) : Prop :=
  q.knownValid ∧
    ∀ i ∈ q.knownCards, N i ∨
      ∃ j ∈ p.knownCards, (j = i ∨ (j = i + 1 ∧ q.hand.length + 1 = p.hand.length)) ∧
        q.hand[i.toNat]? = p.hand[j.toNat]?

/-- The indices that an operation newly marks for the player `p`: a peeked index that `p`
did not know yet, or the slot that `p` fills in `swapWithHand`. -/
def Op.news (op : Op) (p : Player) (i : Int) : Prop :=
  (op.peeks p.id i ∧ i ∉ p.knownCards) ∨ op.places p.id i

/-- The seats `ps2` after a change of the seats `ps`: every seat already present is related
by `Keeps`, and a new seat knows nothing. -/
def StepOK (N : Player → Int → Prop) (ps ps2 : List Player) : Prop :=
  ∀ (k : Nat) (q : Player), ps2[k]? = some q →
    (∀ p, ps[k]? = some p → Keeps (N p) p q) ∧ (ps[k]? = none → q.knownCards = [])

/-- Both piles of the deck hold cards only (no missing entry). -/
def Deck.allCards (d : Deck) : Prop :=
  (∀ x ∈ d.cards, x ≠ none) ∧ (∀ x ∈ d.discardPile, x ≠ none)

/-- A player who holds 5, 7, 7 and knows the slots 0 and 2. -/
def snapBefore : Player :=
  { seat 1 "ann" [some ⟨Suit.hearts, Rank.n5⟩, some ⟨Suit.clubs, Rank.n7⟩,
                  some ⟨Suit.diamonds, Rank.n7⟩] with knownCards := [0, 2] }

/-- The player `snapBefore` once the 7 at slot 1 is gone: 5, 7 with the slots 0 and 1 known. -/
def snapAfter : Player :=
  { seat 1 "ann" [some ⟨Suit.hearts, Rank.n5⟩, some ⟨Suit.diamonds, Rank.n7⟩] with
    knownCards := [0, 1] }

/-- A match of two seats in the reaction window after a 7 was discarded. -/
def snapGame : Game :=
  { Game.new "ROOM" with
    players := [snapBefore, seat 2 "bob" [some ⟨Suit.hearts, Rank.n9⟩]]
    deck := { cards := [some ⟨Suit.spades, Rank.A⟩, some ⟨Suit.spades, Rank.n2⟩],
              discardPile := [some ⟨Suit.spades, Rank.n7⟩] }
    phase := Phase.playing
    lastDiscard := some ⟨Suit.spades, Rank.n7⟩
    snapWindow := true }

/-- The opening of a match: two players join, the cards are dealt with the identity
shuffle, and the first player peeks at the slots 0 and 1. -/
def openingOps : List Op :=
  [Op.addPlayer 1 "ann" 101, Op.addPlayer 2 "bob" 102, Op.startGame (fun i => i),
   Op.initialPeek 1 [0, 1]]

instance (p : Player) : Decidable p.knownValid :=
  inferInstanceAs (Decidable (∀ i ∈ p.knownCards, 0 ≤ i ∧ i < (p.hand.length : Int)))

instance (g : Game) : Decidable g.knownValid :=
  inferInstanceAs (Decidable (∀ p ∈ g.players, p.knownValid))

/-- The result `r` of an engine call on `g` is no error, or it left the state alone. -/
def ErrAtomic (g : Game) (r : Outcome × Game) : Prop :=
  ∀ msg, r.1 = Outcome.error msg → r.2 = g

instance (d : Deck) : Decidable d.allCards :=
  inferInstanceAs (Decidable ((∀ x ∈ d.cards, x ≠ none) ∧ (∀ x ∈ d.discardPile, x ≠ none)))

/-- A match whose draw pile is used up and whose discard pile holds a single card; the first
seat holds the turn and has not drawn. -/
def exhaustedGame : Game :=
  { Game.new "ROOM" with
    players := [seat 1 "ann" [some ⟨Suit.hearts, Rank.n5⟩],
                seat 2 "bob" [some ⟨Suit.hearts, Rank.n9⟩]]
    deck := { cards := [], discardPile := [some ⟨Suit.spades, Rank.n7⟩] }
    phase := Phase.playing
    lastDiscard := some ⟨Suit.spades, Rank.n7⟩ }

/-- What a viewer with identity `v` may learn of a player record: identity, name, connection,
total, hand size and known indices of everyone, and of the viewer's own record the cards at
the known slots and the indices at which the hand array has a hole (none in a hand that holds
cards). -/
def SamePlayer (v : Nat) (p1 p2 : Player) : Prop :=
  p1.id = p2.id ∧ p1.name = p2.name ∧ p1.connected = p2.connected ∧
    p1.totalScore = p2.totalScore ∧ p1.hand.length = p2.hand.length ∧
    p1.knownCards = p2.knownCards ∧
    (p1.id = v → p1.handHoles = p2.handHoles ∧
      ∀ i ∈ p1.knownCards, p1.hand[i.toNat]? = p2.hand[i.toNat]?)

/-- Two match states of the same shape for the viewer `v`: they agree on everything except
the cards of the draw pile, the cards below the top of the discard pile, the hands of other
players, the viewer's own unknown slots and, unless the viewer holds the turn, the drawn card
and the pending-power record.  The shape of the viewer's own hand array includes the indices
of its holes, so a slot without an element is not taken for a slot with an unknown card. -/
def SameShape (v : Nat) (g1 g2 : Game) : Prop :=
  g1.roomCode = g2.roomCode ∧ g1.phase = g2.phase ∧ g1.roundNumber = g2.roundNumber ∧
    g1.currentPlayerIndex = g2.currentPlayerIndex ∧ g1.cobraCaller = g2.cobraCaller ∧
    g1.lastDiscard = g2.lastDiscard ∧ g1.snapWindow = g2.snapWindow ∧
    g1.deck.cards.length = g2.deck.cards.length ∧
    g1.deck.discardPile.length = g2.deck.discardPile.length ∧
    g1.deck.getTopDiscard = g2.deck.getTopDiscard ∧
    g1.players.length = g2.players.length ∧
    (∀ pq ∈ g1.players.zip g2.players, SamePlayer v pq.1 pq.2) ∧
    (g1.holdsTurn v = true → g1.drawnCard = g2.drawnCard ∧ g1.pendingPower = g2.pendingPower)

instance (v : Nat) (p1 p2 : Player) : Decidable (SamePlayer v p1 p2) :=
  inferInstanceAs (Decidable (p1.id = p2.id ∧ p1.name = p2.name ∧ p1.connected = p2.connected ∧
    p1.totalScore = p2.totalScore ∧ p1.hand.length = p2.hand.length ∧
    p1.knownCards = p2.knownCards ∧
    (p1.id = v → p1.handHoles = p2.handHoles ∧
      ∀ i ∈ p1.knownCards, p1.hand[i.toNat]? = p2.hand[i.toNat]?)))

instance (v : Nat) (g1 g2 : Game) : Decidable (SameShape v g1 g2) :=
  inferInstanceAs (Decidable (g1.roomCode = g2.roomCode ∧ g1.phase = g2.phase ∧
    g1.roundNumber = g2.roundNumber ∧
    g1.currentPlayerIndex = g2.currentPlayerIndex ∧ g1.cobraCaller = g2.cobraCaller ∧
    g1.lastDiscard = g2.lastDiscard ∧ g1.snapWindow = g2.snapWindow ∧
    g1.deck.cards.length = g2.deck.cards.length ∧
    g1.deck.discardPile.length = g2.deck.discardPile.length ∧
    g1.deck.getTopDiscard = g2.deck.getTopDiscard ∧
    g1.players.length = g2.players.length ∧
    (∀ pq ∈ g1.players.zip g2.players, SamePlayer v pq.1 pq.2) ∧
    (g1.holdsTurn v = true → g1.drawnCard = g2.drawnCard ∧ g1.pendingPower = g2.pendingPower)))

/-- A match in which the second seat holds the turn and has drawn the king of hearts; the
first seat knows only its slot 0. -/
def viewA : Game :=
  { Game.new "ROOM" with
    players := [{ seat 1 "ann" [some ⟨Suit.hearts, Rank.n5⟩, some ⟨Suit.clubs, Rank.n7⟩] with
                  knownCards := [0] },
                seat 2 "bob" [some ⟨Suit.hearts, Rank.n9⟩]]
    deck := { cards := [some ⟨Suit.spades, Rank.A⟩, some ⟨Suit.spades, Rank.n2⟩],
              discardPile := [some ⟨Suit.spades, Rank.n3⟩, some ⟨Suit.spades, Rank.n7⟩] }
    phase := Phase.playing
    currentPlayerIndex := 1
    drawnCard := some ⟨Suit.hearts, Rank.K⟩
    lastDiscard := some ⟨Suit.spades, Rank.n7⟩ }

/-- The match `viewA` with other cards in the draw pile, below the top discard, in the second
seat's hand, in the unknown slot 1 of the first seat and in the drawn slot. -/
def viewB : Game :=
  { Game.new "ROOM" with
    players := [{ seat 1 "ann" [some ⟨Suit.hearts, Rank.n5⟩, some ⟨Suit.diamonds, Rank.Q⟩] with
                  knownCards := [0] },
                seat 2 "bob" [some ⟨Suit.clubs, Rank.n4⟩]]
    deck := { cards := [some ⟨Suit.spades, Rank.n2⟩, some ⟨Suit.diamonds, Rank.K⟩],
              discardPile := [some ⟨Suit.spades, Rank.n6⟩, some ⟨Suit.spades, Rank.n7⟩] }
    phase := Phase.playing
    currentPlayerIndex := 1
    drawnCard := some ⟨Suit.spades, Rank.J⟩
    lastDiscard := some ⟨Suit.spades, Rank.n7⟩ }

/-- The card `c` is somewhere in the match: in the draw pile, the discard pile, a hand, the
drawn slot or the pending-power record. -/
def Game.holdsCard (g : Game) (c : Card) : Prop :=
  some c ∈ g.deck.cards ∨ some c ∈ g.deck.discardPile ∨ (∃ p ∈ g.players, some c ∈ p.hand) ∨
    g.drawnCard = some c ∨ g.pendingPower.map (fun pp => pp.card) = some c

instance (g : Game) (c : Card) : Decidable (g.holdsCard c) :=
  inferInstanceAs (Decidable (some c ∈ g.deck.cards ∨ some c ∈ g.deck.discardPile ∨
    (∃ p ∈ g.players, some c ∈ p.hand) ∨
    g.drawnCard = some c ∨ g.pendingPower.map (fun pp => pp.card) = some c))

/-- The identity shuffle: every random choice `j` equals the loop index `i`. -/
def rndId : Rnd := fun i => i

/-- Two players join, the cards are dealt with the identity shuffle, play starts and the
first seat draws (the 4 of spades). -/
def drawnOps : List Op :=
  [Op.addPlayer 1 "ann" 101, Op.addPlayer 2 "bob" 102, Op.startGame rndId, Op.startPlaying,
   Op.drawCard 1 rndId]

/-- The sum of all hand sizes. -/
def Game.handTotal (g : Game) : Nat := (g.players.map (fun p => p.hand.length)).sum

/-- The number of card places in use: draw pile, discard pile, hands and the drawn slot. -/
def Game.cardTotal (g : Game) : Nat :=
  g.deck.cards.length + g.deck.discardPile.length + g.handTotal +
    (if g.drawnCard.isSome then 1 else 0)

/-- The sum of the conservation claim: `cardTotal` plus 1 when a power is pending. -/
def Game.conservationSum (g : Game) : Nat :=
  g.cardTotal + (if g.pendingPower.isSome then 1 else 0)

/-- No slot of the hand is missing. -/
def Player.handDefined (p : Player) : Prop := ∀ x ∈ p.hand, x ≠ none

/-- Both piles and all hands hold cards only. -/
def Game.allSlots (g : Game) : Prop := g.deck.allCards ∧ ∀ p ∈ g.players, p.handDefined

/-- The power card of the pending record (if any) is the card in the drawn slot, as it is
between `usePower` and the resolution. -/
def Game.powerCardDrawn (g : Game) : Prop :=
  match g.pendingPower with
  | none => True
  | some pp => g.drawnCard = some pp.card

/-- The index `i` lies inside the hand of the player found (if any). -/
def indexInHand (found : Option Player) (i : Int) : Prop :=
  match found with
  | none => True
  | some p => 0 ≤ i ∧ i < p.hand.length

/-- The engine calls of an orderly round: the turn advances only with an empty drawn slot, a
power is resolved only while its card is still in the drawn slot, and the black-jack swap
gets indices inside the two hands. -/
def Admissible (g : Game) : Op → Prop
  | Op.nextTurn => g.drawnCard = none
  | Op.removePlayer socketId =>
    g.drawnCard = none ∨
      ¬ (g.phase = Phase.playing ∧
          g.getCurrentPlayer.map (fun p => p.socketId) = some socketId)
  | Op.resolvePeekOwn _ _ => g.powerCardDrawn
  | Op.resolvePeekOther _ _ _ => g.powerCardDrawn
  | Op.resolveQueenSwap _ _ _ _ _ => g.powerCardDrawn
  | Op.resolveBlackJackSkip _ => g.powerCardDrawn
  | Op.resolveBlackJackSwap playerId myCardIndex targetPlayerId targetCardIndex =>
    g.powerCardDrawn ∧ indexInHand (g.getPlayerById playerId) myCardIndex ∧
      indexInHand (g.getPlayerById targetPlayerId) targetCardIndex
  | Op.addPlayer _ _ _ => True
  | Op.reconnectPlayer _ _ => True
  | Op.startGame _ => True
  | Op.initialPeek _ _ => True
  | Op.startPlaying => True
  | Op.drawCard _ _ => True
  | Op.swapWithHand _ _ => True
  | Op.discardDrawnCard _ => True
  | Op.usePower _ => True
  | Op.doubleDrop _ _ _ _ => True
  | Op.resolveBlackJackPeek _ _ => True
  | Op.snapCard _ _ _ => True
  | Op.stealCard _ _ _ _ _ => True
  | Op.callCobra _ => True

instance (g : Game) : Decidable g.powerCardDrawn :=
  match h : g.pendingPower with
  | none => isTrue (by unfold Game.powerCardDrawn; rw [h]; trivial)
  | some pp =>
    if hd : g.drawnCard = some pp.card then isTrue (by unfold Game.powerCardDrawn; rw [h]; exact hd)
    else isFalse (by unfold Game.powerCardDrawn; rw [h]; exact hd)

instance (found : Option Player) (i : Int) : Decidable (indexInHand found i) :=
  match found with
  | none => isTrue trivial
  | some p => inferInstanceAs (Decidable (0 ≤ i ∧ i < p.hand.length))

instance (g : Game) (op : Op) : Decidable (Admissible g op) :=
  match op with
  | Op.nextTurn => inferInstanceAs (Decidable (g.drawnCard = none))
  | Op.removePlayer socketId =>
    inferInstanceAs (Decidable (g.drawnCard = none ∨
      ¬ (g.phase = Phase.playing ∧
          g.getCurrentPlayer.map (fun p => p.socketId) = some socketId)))
  | Op.resolvePeekOwn _ _ => inferInstanceAs (Decidable g.powerCardDrawn)
  | Op.resolvePeekOther _ _ _ => inferInstanceAs (Decidable g.powerCardDrawn)
  | Op.resolveQueenSwap _ _ _ _ _ => inferInstanceAs (Decidable g.powerCardDrawn)
  | Op.resolveBlackJackSkip _ => inferInstanceAs (Decidable g.powerCardDrawn)
  | Op.resolveBlackJackSwap playerId myCardIndex targetPlayerId targetCardIndex =>
    inferInstanceAs (Decidable (g.powerCardDrawn ∧
      indexInHand (g.getPlayerById playerId) myCardIndex ∧
      indexInHand (g.getPlayerById targetPlayerId) targetCardIndex))
  | Op.addPlayer _ _ _ => isTrue trivial
  | Op.reconnectPlayer _ _ => isTrue trivial
  | Op.startGame _ => isTrue trivial
  | Op.initialPeek _ _ => isTrue trivial
  | Op.startPlaying => isTrue trivial
  | Op.drawCard _ _ => isTrue trivial
  | Op.swapWithHand _ _ => isTrue trivial
  | Op.discardDrawnCard _ => isTrue trivial
  | Op.usePower _ => isTrue trivial
  | Op.doubleDrop _ _ _ _ => isTrue trivial
  | Op.resolveBlackJackPeek _ _ => isTrue trivial
  | Op.snapCard _ _ _ => isTrue trivial
  | Op.stealCard _ _ _ _ _ => isTrue trivial
  | Op.callCobra _ => isTrue trivial

/-- The states reachable from a successful `startGame` by any engine calls. -/
inductive PlayReachable : Game → Prop where
  | start (g : Game) (rnd : Rnd) :
      (g.startGame rnd).1 = Outcome.success → PlayReachable (g.startGame rnd).2
  | step (g : Game) (op : Op) : PlayReachable g → PlayReachable (step g op).2

/-- The states reachable from a successful `startGame` by admissible engine calls. -/
inductive OrderlyReachable : Game → Prop where
  | start (g : Game) (rnd : Rnd) :
      (g.startGame rnd).1 = Outcome.success → OrderlyReachable (g.startGame rnd).2
  | step (g : Game) (op : Op) :
      OrderlyReachable g → Admissible g op → OrderlyReachable (step g op).2

/-- The invariant of an orderly round: 52 card places are in use and none holds a missing
card. -/
def CardInv (g : Game) : Prop := g.cardTotal = 52 ∧ g.allSlots

/-- A shuffle oracle that leaves the deck in order except for bringing the 7 of spades to
the place of the tenth card from the back, which the first seat of two draws first. -/
def rndSeven : Rnd := fun i => if i = 45 then 42 else i

/-- A shuffle oracle that brings the jack of spades to the first seat's first draw. -/
def rndJack : Rnd := fun i => if i = 49 then 42 else i

/-- Two players join and the cards are dealt with the oracle `rnd`. -/
def dealtGame (rnd : Rnd) : Game :=
  ((run (Game.new "ROOM") [Op.addPlayer 1 "ann" 101, Op.addPlayer 2 "bob" 102]).startGame rnd).2

/-- Play starts, the first seat draws the 7 of spades and activates its power. -/
def powerOps : List Op := [Op.startPlaying, Op.drawCard 1 rndSeven, Op.usePower 1]

/-- Play starts and the first seat draws. -/
def drawOps : List Op := [Op.startPlaying, Op.drawCard 1 rndId]

/-- The first seat draws the jack of spades, activates it, peeks and then swaps its slot 0
with the slot 7 of the second seat, which holds four cards. -/
def jackOps : List Op :=
  [Op.startPlaying, Op.drawCard 1 rndJack, Op.usePower 1, Op.resolveBlackJackPeek 1 [0, 1],
   Op.resolveBlackJackSwap 1 0 2 7]

/-- An orderly turn: the first seat draws the 7 of spades, activates and resolves its power
and the turn passes on. -/
def orderlyOps : List Op :=
  [Op.startPlaying, Op.drawCard 1 rndSeven, Op.usePower 1, Op.resolvePeekOwn 1 0, Op.nextTurn]

/-- A deck whose draw pile is used up while four cards lie on the discard pile. -/
def reclaimDeck : Deck :=
  { cards := []
    discardPile := [some ⟨Suit.spades, Rank.A⟩, some ⟨Suit.hearts, Rank.n2⟩,
                    some ⟨Suit.clubs, Rank.n3⟩, some ⟨Suit.spades, Rank.n7⟩] }

/-- A shuffle oracle that always chooses position 0. -/
def rndZero : Rnd := fun _ => 0

/-- A deck with three cards to draw and one discard. -/
def stockDeck : Deck :=
  { cards := [some ⟨Suit.spades, Rank.A⟩, some ⟨Suit.hearts, Rank.n2⟩, some ⟨Suit.clubs, Rank.n3⟩]
    discardPile := [some ⟨Suit.spades, Rank.n7⟩] }

/-- Three seats of which only the third is connected; the first holds the turn and has
drawn a card. -/
def skipGame : Game :=
  { Game.new "ROOM" with
    players := [{ seat 1 "ann" [some ⟨Suit.hearts, Rank.n5⟩] with connected := false },
                { seat 2 "bob" [some ⟨Suit.hearts, Rank.n9⟩] with connected := false },
                seat 3 "cyd" [some ⟨Suit.clubs, Rank.n4⟩]]
    phase := Phase.playing
    drawnCard := some ⟨Suit.hearts, Rank.K⟩
    snapWindow := true }

/-- An action of a player within a turn: a peek request, a draw, a swap, a discard, a power
use or resolution, a double drop, a snap, a steal or a cobra call.  The player-management
operations, `startGame`, `startPlaying` and `nextTurn` are no such actions. -/
def Op.inTurn : Op → Bool
  | Op.addPlayer _ _ _ => false
  | Op.removePlayer _ => false
  | Op.reconnectPlayer _ _ => false
  | Op.startGame _ => false
  | Op.startPlaying => false
  | Op.nextTurn => false
  | _ => true

/-- Whether the operation is `nextTurn`. -/
def Op.isNextTurn : Op → Bool
  | Op.nextTurn => true
  | _ => false

/-- What the rotation of the turn depends on: the phase, the turn index, the caller's seat and
the connection flags of the seats. -/
def Game.seating (g : Game) : Phase × Nat × Option Nat × List Bool :=
  (g.phase, g.currentPlayerIndex, g.cobraCallerIndex, g.players.map (fun p => p.connected))

/-- Three connected seats with hand scores 1, 3, 7 in play; the second seat holds the turn. -/
def lapGame : Game :=
  { Game.new "ROOM" with
    players := [seat 1 "ann" [some ⟨Suit.hearts, Rank.A⟩],
                seat 2 "bob" [some ⟨Suit.hearts, Rank.n3⟩],
                seat 3 "cyd" [some ⟨Suit.clubs, Rank.n7⟩]]
    deck := { cards := [some ⟨Suit.spades, Rank.A⟩, some ⟨Suit.spades, Rank.n2⟩],
              discardPile := [some ⟨Suit.spades, Rank.n3⟩] }
    phase := Phase.playing
    currentPlayerIndex := 1 }

/-- The turn passes to the third seat, which draws and discards, and then to the first
seat. -/
def lapOps : List Op :=
  [Op.nextTurn, Op.drawCard 3 rndId, Op.discardDrawnCard 3, Op.nextTurn]

/-- The joining of `n` players, with the identities 1 to `n`. -/
def crowdOps (n : Nat) : List Op :=
  (List.range n).map (fun i => Op.addPlayer (i + 1) "p" (101 + i))

/-- A new match that `n` players have joined. -/
def crowd (n : Nat) : Game := run (Game.new "ROOM") (crowdOps n)

/-- What `startGame` leaves of a player record apart from the hand, the knowledge and the
round score. -/
def Player.identity (p : Player) : Nat × String × Nat × Bool × Int :=
  (p.id, p.name, p.socketId, p.connected, p.totalScore)

/-- The first seat of `viewA`: it holds the 5 of hearts and the 7 of clubs and knows its
slot 0. -/
def annSeat : Player :=
  { seat 1 "ann" [some ⟨Suit.hearts, Rank.n5⟩, some ⟨Suit.clubs, Rank.n7⟩] with
    knownCards := [0] }

/-- The match `viewA` with the turn given to the first seat, which has drawn the king of
hearts. -/
def kingGame : Game := { viewA with currentPlayerIndex := 0 }

/-- The match `kingGame` with the 5 of spades in the drawn slot. -/
def fiveGame : Game := { kingGame with drawnCard := some ⟨Suit.spades, Rank.n5⟩ }

/-- The match `kingGame` with the 8 of diamonds in the drawn slot. -/
def eightGame : Game := { kingGame with drawnCard := some ⟨Suit.diamonds, Rank.n8⟩ }

/-- The match `kingGame` with the queen of hearts in the drawn slot; two seats are connected. -/
def queenGame : Game := { kingGame with drawnCard := some ⟨Suit.hearts, Rank.Q⟩ }

/-- The actions that take the card out of the drawn slot: the swap into the hand, the
discard, the double drop and the resolutions that complete a power. -/
def Op.resolvesDrawn : Op → Bool
  | Op.swapWithHand _ _ => true
  | Op.discardDrawnCard _ => true
  | Op.doubleDrop _ _ _ _ => true
  | Op.resolvePeekOwn _ _ => true
  | Op.resolvePeekOther _ _ _ => true
  | Op.resolveQueenSwap _ _ _ _ _ => true
  | Op.resolveBlackJackSwap _ _ _ _ => true
  | Op.resolveBlackJackSkip _ => true
  | _ => false

/-- The actions on the drawn card: the swap into the hand, the discard, the double drop and
the use of the power. -/
def Op.needsDrawn : Op → Bool
  | Op.swapWithHand _ _ => true
  | Op.discardDrawnCard _ => true
  | Op.doubleDrop _ _ _ _ => true
  | Op.usePower _ => true
  | _ => false

/-- Whether the call was carried out: it returned neither a structured error nor threw. -/
def Outcome.accepted : Outcome → Bool
  | Outcome.error _ => false
  | Outcome.threw => false
  | _ => true

/-- The state after the first seat has drawn the 7 of spades and activated its power. -/
def powerGame : Game := run (dealtGame rndSeven) powerOps

/-- The state after the first seat has drawn the 4 of spades and discarded it. -/
def discardedGame : Game := run (dealtGame rndId) (drawOps ++ [Op.discardDrawnCard 1])

/-- The exchange of slot `i1` of the seat `k1` with slot `i2` of the seat `k2`: the two cards
have changed places, neither slot is known to its owner afterwards, every other slot and
every other known index of the two players is as before, and so is every other seat. -/
def SwapEffect (before after : List Player) (k1 : Nat) (i1 : Int) (k2 : Nat) (i2 : Int) :
    Prop :=
  ∃ p1 p2 q1 q2, before[k1]? = some p1 ∧ before[k2]? = some p2 ∧
    after[k1]? = some q1 ∧ after[k2]? = some q2 ∧ k1 ≠ k2 ∧
    after.length = before.length ∧
    i1 ∉ q1.knownCards ∧ i2 ∉ q2.knownCards ∧
    q1.hand = p1.hand.set i1.toNat (p2.hand[i2.toNat]?).join ∧
    q2.hand = p2.hand.set i2.toNat (p1.hand[i1.toNat]?).join ∧
    (∀ j, j ≠ i1 → (j ∈ q1.knownCards ↔ j ∈ p1.knownCards)) ∧
    (∀ j, j ≠ i2 → (j ∈ q2.knownCards ↔ j ∈ p2.knownCards)) ∧
    q1.identity = p1.identity ∧ q2.identity = p2.identity ∧
    (∀ k, k ≠ k1 → k ≠ k2 → after[k]? = before[k]?)

/-- The largest length of a JavaScript array. -/
def maxArrayLength : Nat := 4294967295

/-- Three connected seats of two cards each, all slots known to their owners; the first seat
holds the turn, has drawn the queen of hearts and activated it. -/
def queenPending : Game :=
  { Game.new "ROOM" with
    players := [{ seat 1 "ann" [some ⟨Suit.hearts, Rank.n5⟩, some ⟨Suit.clubs, Rank.n7⟩] with
                  knownCards := [0, 1] },
                { seat 2 "bob" [some ⟨Suit.hearts, Rank.n9⟩, some ⟨Suit.clubs, Rank.n2⟩] with
                  knownCards := [0, 1] },
                { seat 3 "cyd" [some ⟨Suit.clubs, Rank.n4⟩, some ⟨Suit.clubs, Rank.n6⟩] with
                  knownCards := [0, 1] }]
    deck := { cards := [some ⟨Suit.spades, Rank.A⟩, some ⟨Suit.spades, Rank.n2⟩],
              discardPile := [some ⟨Suit.spades, Rank.n3⟩] }
    phase := Phase.playing
    drawnCard := some ⟨Suit.hearts, Rank.Q⟩
    pendingPower := some { type := Power.queenSwap, card := ⟨Suit.hearts, Rank.Q⟩, playerId := 1,
                           swapPhase := false, peekedIndices := none } }

/-- The match `queenPending` with the jack of spades drawn and activated instead, after the
first seat has peeked at its slots 0 and 1. -/
def jackPending : Game :=
  { queenPending with
    drawnCard := some ⟨Suit.spades, Rank.J⟩
    pendingPower := some { type := Power.blackJack, card := ⟨Suit.spades, Rank.J⟩, playerId := 1,
                           swapPhase := true, peekedIndices := some [0, 1] } }

/-- The state after the first seat has drawn the jack of spades, activated it and peeked at
its slots 0 and 1: the black-jack power is pending in its swap phase. -/
def jackPeeked : Game :=
  run (dealtGame rndJack)
    [Op.startPlaying, Op.drawCard 1 rndJack, Op.usePower 1, Op.resolveBlackJackPeek 1 [0, 1]]

/-- A pending power of the kind `kind`, in its swap phase if `needSwap`. -/
def Game.pendingKind (g : Game) (kind : Power) (needSwap : Bool) : Prop :=
  ∃ pp, g.pendingPower = some pp ∧ pp.type = kind ∧ (needSwap = true → pp.swapPhase = true)

instance (g : Game) (kind : Power) (needSwap : Bool) : Decidable (g.pendingKind kind needSwap) :=
  match h : g.pendingPower with
  | none => isFalse (by rintro ⟨pp, hpp, _⟩; rw [h] at hpp; cases hpp)
  | some pp =>
    if hc : pp.type = kind ∧ (needSwap = true → pp.swapPhase = true) then
      isTrue ⟨pp, h, hc.1, hc.2⟩
    else
      isFalse (by
        rintro ⟨pp2, hpp, h1, h2⟩
        rw [h] at hpp
        cases hpp
        exact hc ⟨h1, h2⟩)

/-- The kind of pending power that a resolution asks for, and whether it asks for the swap
phase; `none` for every other operation. -/
def Op.resolves : Op → Option (Power × Bool)
  | Op.resolvePeekOwn _ _ => some (Power.peekOwn, false)
  | Op.resolvePeekOther _ _ _ => some (Power.peekOther, false)
  | Op.resolveQueenSwap _ _ _ _ _ => some (Power.queenSwap, false)
  | Op.resolveBlackJackPeek _ _ => some (Power.blackJack, false)
  | Op.resolveBlackJackSwap _ _ _ _ => some (Power.blackJack, true)
  | Op.resolveBlackJackSkip _ => some (Power.blackJack, true)
  | _ => none

/-- A match of two seats with the reaction window closed; the second seat holds the 7 of
hearts at its slot 1, and the last discard is the 7 of spades. -/
def stealGame : Game :=
  { snapGame with
    players := [snapBefore,
                seat 2 "bob" [some ⟨Suit.hearts, Rank.n9⟩, some ⟨Suit.hearts, Rank.n7⟩]]
    snapWindow := false }

/-- An oracle that puts the 9 of hearts on top of the shuffled draw pile. -/
def rndNine : Rnd := fun i => if i = 42 then 8 else i

/-- The state after the first seat has drawn the 9 of hearts and discarded it and the turn
has moved on: the reaction window is closed and the last discard is the 9 of hearts. -/
def closedGame : Game :=
  run (dealtGame rndNine) [Op.startPlaying, Op.drawCard 1 rndNine, Op.discardDrawnCard 1,
    Op.nextTurn]

/-- Whether the operation is `startGame`. -/
def Op.isStartGame : Op → Bool
  | Op.startGame _ => true
  | _ => false

/-- Whether the operation is `callCobra`. -/
def Op.isCallCobra : Op → Bool
  | Op.callCobra _ => true
  | _ => false

/-- The number of `callCobra` calls that succeed when the operations are run from `g`. -/
def cobraCalls (g : Game) : List Op → Nat
  | [] => 0
  | op :: ops =>
    (match op, (step g op).1 with
      | Op.callCobra _, Outcome.success => 1
      | _, _ => 0) + cobraCalls (step g op).2 ops

/-- The state after the first seat has called cobra and ended its turn and has then
disconnected: the caller's seat 0 is disconnected and the second seat holds the turn. -/
def stuckGame : Game :=
  run (dealtGame rndId) [Op.startPlaying, Op.callCobra 1, Op.nextTurn, Op.removePlayer 101]

/-- How a call may move the last discard and the top of the discard pile: both stay as they
are, or the new top of the pile is the new last discard, or no last discard is recorded. -/
def Tracks (g h : Game) : Prop :=
  (h.lastDiscard = g.lastDiscard ∧ h.deck.getTopDiscard = g.deck.getTopDiscard) ∨
  h.deck.getTopDiscard = h.lastDiscard ∨ h.lastDiscard = none

/-- A match from its creation to the first discard: two players join, the cards are dealt,
play starts, the first seat draws and discards. -/
def firstDiscardOps : List Op :=
  [Op.addPlayer 1 "ann" 101, Op.addPlayer 2 "bob" 102, Op.startGame rndId, Op.startPlaying,
   Op.drawCard 1 rndId, Op.discardDrawnCard 1]

/-- An oracle that puts the 10 of hearts on top of the shuffled draw pile. -/
def rndTen : Rnd := fun i => if i = 42 then 9 else i

/-- The number of places of the draw pile, the discard pile and the hands that hold the card
`c`. -/
def Game.occurrences (g : Game) (c : Card) : Nat :=
  ((g.deck.cards ++ g.deck.discardPile ++ (g.players.map (fun p => p.hand)).flatten).filter
    (fun x => decide (x = some c))).length

/-! ## Verified properties -/

/-! ### Positions and searches -/

theorem firstIdx_some {α : Type} (f : α → Bool) (l : List α) (k : Nat)
    (h : firstIdx f l = some k) :
    ∃ x, l[k]? = some x ∧ f x = true ∧ l.find? f = some x ∧
      ∀ j y, j < k → l[j]? = some y → f y = false := by
  induction l generalizing k with
  | nil => simp [firstIdx] at h
  | cons a l ih =>
    unfold firstIdx at h
    by_cases hf : f a = true
    · rw [if_pos hf] at h
      simp only [Option.some.injEq] at h
      subst h
      exact ⟨a, by simp, hf, by simp [List.find?, hf], by intro j y hj; omega⟩
    · rw [if_neg hf] at h
      cases hr : firstIdx f l with
      | none => simp [hr] at h
      | some k0 =>
        simp only [hr, Option.map_some', Option.some.injEq] at h
        subst h
        obtain ⟨x, hx, hfx, hfind, hlt⟩ := ih k0 hr
        have hfa : f a = false := by simpa using hf
        refine ⟨x, by simpa using hx, hfx, by simp [List.find?, hfa, hfind], ?_⟩
        intro j y hj hy
        cases j with
        | zero => simp at hy; subst hy; exact hfa
        | succ j => exact hlt j y (by omega) (by simpa using hy)

theorem firstIdx_none {α : Type} (f : α → Bool) (l : List α) (h : firstIdx f l = none) :
    ∀ x ∈ l, f x = false := by
  induction l with
  | nil => simp
  | cons a l ih =>
    unfold firstIdx at h
    by_cases hf : f a = true
    · simp [hf] at h
    · rw [if_neg hf] at h
      have hfa : f a = false := by simpa using hf
      cases hr : firstIdx f l with
      | none =>
        intro x hx
        rcases List.mem_cons.1 hx with rfl | hx
        · exact hfa
        · exact ih hr x hx
      | some k0 => simp [hr] at h

theorem firstIdx_isSome_of_mem {α : Type} (f : α → Bool) (l : List α) (x : α) (hx : x ∈ l)
    (hf : f x = true) : ∃ k, firstIdx f l = some k := by
  cases h : firstIdx f l with
  | none => have := firstIdx_none f l h x hx; simp [hf] at this
  | some k => exact ⟨k, rfl⟩

/-! ### modifyAt -/

theorem length_modifyAt {α : Type} (f : α → α) (k : Nat) (l : List α) :
    (modifyAt f k l).length = l.length := by
  unfold modifyAt; split <;> simp

theorem getElem?_modifyAt {α : Type} (f : α → α) (k j : Nat) (l : List α) :
    (modifyAt f k l)[j]? = if j = k then (l[j]?).map f else l[j]? := by
  unfold modifyAt
  split
  · rename_i x hx
    by_cases hjk : j = k
    · subst hjk
      have hlt : j < l.length := by
        by_contra hc
        rw [List.getElem?_eq_none (by omega)] at hx
        cases hx
      simp [hx, List.getElem?_set_self hlt]
    · simp [hjk, List.getElem?_set_ne (Ne.symm hjk)]
  · rename_i hx
    by_cases hjk : j = k
    · subst hjk; simp [hx]
    · simp [hjk]

theorem map_modifyAt {α β : Type} (f : α → α) (π : α → β) (hπ : ∀ x, π (f x) = π x) (k : Nat)
    (l : List α) : (modifyAt f k l).map π = l.map π := by
  apply List.ext_getElem?
  intro j
  simp only [List.getElem?_map, getElem?_modifyAt]
  by_cases hjk : j = k
  · simp only [hjk, if_true]
    cases l[k]? <;> simp [hπ]
  · simp [hjk]

/-! ### The stable sort -/

theorem insertByScore_perm (r : RoundEntry) (l : List RoundEntry) :
    (insertByScore r l).Perm (r :: l) := by
  induction l with
  | nil => simp [insertByScore]
  | cons x xs ih =>
    unfold insertByScore
    split
    · exact List.Perm.refl _
    · exact (List.Perm.cons x ih).trans (List.Perm.swap r x xs)

theorem sortByScore_perm (l : List RoundEntry) : (sortByScore l).Perm l := by
  induction l with
  | nil => simp [sortByScore]
  | cons x xs ih =>
    unfold sortByScore
    exact (insertByScore_perm x _).trans (List.Perm.cons x ih)

theorem insertByScore_sorted (r : RoundEntry) (l : List RoundEntry)
    (h : l.Pairwise (fun a b => a.score ≤ b.score)) :
    (insertByScore r l).Pairwise (fun a b => a.score ≤ b.score) := by
  induction l with
  | nil => simp [insertByScore]
  | cons x xs ih =>
    unfold insertByScore
    rw [List.pairwise_cons] at h
    split
    · rename_i hle
      rw [List.pairwise_cons]
      refine ⟨?_, List.pairwise_cons.2 h⟩
      intro a ha
      rcases List.mem_cons.1 ha with rfl | ha
      · exact hle
      · exact le_trans hle (h.1 a ha)
    · rename_i hnle
      rw [List.pairwise_cons]
      refine ⟨?_, ih h.2⟩
      intro a ha
      rcases List.mem_cons.1 ((insertByScore_perm r xs).mem_iff.1 ha) with rfl | ha
      · omega
      · exact h.1 a ha

theorem sortByScore_sorted (l : List RoundEntry) :
    (sortByScore l).Pairwise (fun a b => a.score ≤ b.score) := by
  induction l with
  | nil => simp [sortByScore]
  | cons x xs ih => unfold sortByScore; exact insertByScore_sorted x _ ih

theorem insertByScore_filter (P : RoundEntry → Bool) (s : Int)
    (hP : ∀ x, P x = true → x.score = s) (r : RoundEntry) (l : List RoundEntry) :
    (insertByScore r l).filter P = (r :: l).filter P := by
  induction l with
  | nil => simp [insertByScore]
  | cons x xs ih =>
    unfold insertByScore
    split
    · rfl
    · rename_i hnle
      by_cases hr : P r = true
      · have hx : P x = false := by
          cases hpx : P x with
          | false => rfl
          | true =>
            have h1 := hP x hpx
            have h2 := hP r hr
            omega
        rw [List.filter_cons_of_neg (by simp [hx]), ih]
        simp [List.filter_cons, hr, hx]
      · have hr2 : P r = false := by simpa using hr
        rw [List.filter_cons, ih]
        simp [List.filter_cons, hr2]

theorem sortByScore_filter (P : RoundEntry → Bool) (s : Int)
    (hP : ∀ x, P x = true → x.score = s) (l : List RoundEntry) :
    (sortByScore l).filter P = l.filter P := by
  induction l with
  | nil => simp [sortByScore]
  | cons x xs ih =>
    unfold sortByScore
    rw [insertByScore_filter P s hP, List.filter_cons, ih, List.filter_cons]

theorem sortByScore_find (P : RoundEntry → Bool) (s : Int)
    (hP : ∀ x, P x = true → x.score = s) (l : List RoundEntry) :
    (sortByScore l).find? P = l.find? P := by
  rw [← List.filter_head?, ← List.filter_head?, sortByScore_filter P s hP]

theorem sortByScore_head_le (l : List RoundEntry) (r0 : RoundEntry)
    (h0 : (sortByScore l)[0]? = some r0) : ∀ x ∈ l, r0.score ≤ x.score := by
  intro x hx
  have hs := sortByScore_sorted l
  have hx2 := (sortByScore_perm l).mem_iff.2 hx
  cases hl : sortByScore l with
  | nil => rw [hl] at hx2; cases hx2
  | cons a as =>
    rw [hl] at h0 hs hx2
    simp at h0
    subst h0
    rcases List.mem_cons.1 hx2 with rfl | hx3
    · exact le_refl _
    · exact (List.pairwise_cons.1 hs).1 x hx3

/-! ### Looking players up -/

theorem lt_of_getElem?_some {α : Type} {l : List α} {k : Nat} {x : α} (h : l[k]? = some x) :
    k < l.length := by
  by_contra hc
  rw [List.getElem?_eq_none (by omega)] at h
  cases h

theorem playerIdx_some (g : Game) (id k : Nat) (h : g.playerIdx id = some k) :
    ∃ p, g.players[k]? = some p ∧ p.id = id := by
  obtain ⟨x, hx, hf, _, _⟩ := firstIdx_some _ _ _ h
  exact ⟨x, hx, by simpa using hf⟩

theorem playerIdx_none (g : Game) (id : Nat) (h : g.playerIdx id = none) :
    ∀ p ∈ g.players, p.id ≠ id := by
  intro p hp
  have := firstIdx_none _ _ h p hp
  simpa using this

theorem nodup_ids_pos (ps : List Player) (hid : (ps.map (fun p => p.id)).Nodup) (i j : Nat)
    (p q : Player) (hp : ps[i]? = some p) (hq : ps[j]? = some q) (hpq : p.id = q.id) :
    i = j := by
  induction ps generalizing i j with
  | nil => simp at hp
  | cons a ps ih =>
    simp only [List.map_cons, List.nodup_cons, List.mem_map, not_exists, not_and] at hid
    cases i with
    | zero =>
      cases j with
      | zero => rfl
      | succ j =>
        simp at hp hq
        subst hp
        exact absurd hpq.symm (hid.1 q (List.getElem?_mem hq))
    | succ i =>
      cases j with
      | zero =>
        simp at hp hq
        subst hq
        exact absurd hpq (hid.1 p (List.getElem?_mem hp))
      | succ j =>
        simp at hp hq
        rw [ih hid.2 i j hp hq]

theorem playerIdx_of_nodup (g : Game) (hid : (g.players.map (fun p => p.id)).Nodup) (k : Nat)
    (p : Player) (hp : g.players[k]? = some p) : g.playerIdx p.id = some k := by
  have hmem : p ∈ g.players := List.getElem?_mem hp
  obtain ⟨k0, hk0⟩ := firstIdx_isSome_of_mem (fun q => decide (q.id = p.id)) g.players p hmem
    (by simp)
  obtain ⟨q, hq, hqid⟩ := playerIdx_some g p.id k0 hk0
  have := nodup_ids_pos g.players hid k0 k q p hq hp hqid
  subst this
  exact hk0

/-! ### The total-score loop -/

theorem bonus_nil (id : Nat) : bonus [] id = 0 := by simp [bonus]

theorem bonus_cons (r : RoundEntry) (rs : List RoundEntry) (id : Nat) :
    bonus (r :: rs) id =
      (if r.id = id then r.score + (if r.penalty then 10 else 0) else 0) + bonus rs id := by
  unfold bonus
  by_cases h : r.id = id
  · simp [List.filter_cons, h]
  · simp [List.filter_cons, h]

theorem applyTotals_frame (rs : List RoundEntry) (g : Game) :
    applyTotals rs g = { g with players := (applyTotals rs g).players } := by
  induction rs generalizing g with
  | nil => simp [applyTotals]
  | cons r rs ih =>
    unfold applyTotals
    split
    · exact ih g
    · split
      · exact ih g
      · rw [ih]; simp [Game.setPlayer]

theorem applyTotals_map {β : Type} (π : Player → β)
    (hπ : ∀ (p : Player) (t : Int), π { p with totalScore := t } = π p)
    (rs : List RoundEntry) (g : Game) :
    (applyTotals rs g).players.map π = g.players.map π := by
  induction rs generalizing g with
  | nil => simp [applyTotals]
  | cons r rs ih =>
    unfold applyTotals
    cases hk : g.playerIdx r.id with
    | none => exact ih g
    | some k =>
      obtain ⟨player, hplayer, _⟩ := playerIdx_some g r.id k hk
      simp only [hplayer]
      have hlt : k < g.players.length := lt_of_getElem?_some hplayer
      rw [ih]
      simp only [Game.setPlayer]
      apply List.ext_getElem?
      intro j
      simp only [List.getElem?_map, List.getElem?_set]
      by_cases hjk : k = j
      · subst hjk
        simp only [hlt, if_true, hplayer, Option.map_some']
        split <;> simp [hπ]
      · simp [hjk]

theorem applyTotals_players (rs : List RoundEntry) (g : Game)
    (hid : (g.players.map (fun p => p.id)).Nodup) :
    (applyTotals rs g).players =
      g.players.map (fun p => { p with totalScore := p.totalScore + bonus rs p.id }) := by
  induction rs generalizing g with
  | nil => simp [applyTotals, bonus_nil]
  | cons r rs ih =>
    unfold applyTotals
    split
    · rename_i hnone
      rw [ih g hid]
      apply List.map_congr_left
      intro p hp
      have hne := playerIdx_none g r.id hnone p hp
      rw [bonus_cons, if_neg (Ne.symm hne)]
      simp
    · rename_i k hk
      obtain ⟨player, hplayer, hplid⟩ := playerIdx_some g r.id k hk
      simp only [hplayer]
      have hlt : k < g.players.length := lt_of_getElem?_some hplayer
      have hids : ∀ (p2 : Player), p2.id = player.id →
          ((g.setPlayer k p2).players.map (fun p => p.id)) = g.players.map (fun p => p.id) := by
        intro p2 hp2
        simp only [Game.setPlayer]
        apply List.ext_getElem?
        intro j
        simp only [List.getElem?_map, List.getElem?_set]
        by_cases hjk : k = j
        · subst hjk; simp [hlt, hplayer, hp2]
        · simp [hjk]
      rw [ih]
      · simp only [Game.setPlayer]
        apply List.ext_getElem?
        intro j
        simp only [List.getElem?_map, List.getElem?_set]
        by_cases hjk : k = j
        · subst hjk
          simp only [hlt, if_true, hplayer, Option.map_some', Option.some.injEq]
          rw [bonus_cons, if_pos hplid.symm]
          split <;> simp <;> omega
        · simp only [hjk, if_false]
          cases hq : g.players[j]? with
          | none => simp
          | some q =>
            have hqid : q.id ≠ r.id := by
              intro hc
              exact hjk (nodup_ids_pos g.players hid k j player q hplayer hq (by omega))
            simp only [Option.map_some', Option.some.injEq]
            rw [bonus_cons, if_neg (Ne.symm hqid)]
            simp
      · rw [hids]
        · exact hid
        · split <;> rfl

/-! ### The sorted results of a round -/

theorem roundResults_eq (g : Game) :
    g.roundResults = sortByScore (g.players.map g.entryOf) := rfl

theorem roundResults_phase (g : Game) (ph : Phase) :
    ({ g with phase := ph } : Game).roundResults = g.roundResults := rfl

theorem firstIdx_eq_none {α : Type} (f : α → Bool) (l : List α) (h : ∀ x ∈ l, f x = false) :
    firstIdx f l = none := by
  cases hk : firstIdx f l with
  | none => rfl
  | some k =>
    obtain ⟨x, hx, hfx, _, _⟩ := firstIdx_some f l k hk
    have := h x (List.getElem?_mem hx)
    simp [hfx] at this

theorem mem_roundResults (g : Game) (r : RoundEntry) :
    r ∈ g.roundResults ↔ ∃ p ∈ g.players, r = g.entryOf p := by
  rw [roundResults_eq, (sortByScore_perm _).mem_iff, List.mem_map]
  constructor
  · rintro ⟨p, hp, rfl⟩; exact ⟨p, hp, rfl⟩
  · rintro ⟨p, hp, rfl⟩; exact ⟨p, hp, rfl⟩

theorem roundResults_ids (g : Game) :
    (g.roundResults.map (fun r => r.id)).Perm (g.players.map (fun p => p.id)) := by
  rw [roundResults_eq]
  have h := (sortByScore_perm (g.players.map g.entryOf)).map (fun r => r.id)
  simpa [List.map_map, Function.comp_def, Game.entryOf] using h

theorem roundResults_length (g : Game) : g.roundResults.length = g.players.length := by
  rw [roundResults_eq, (sortByScore_perm _).length_eq, List.length_map]

theorem player_eq_of_id (ps : List Player) (hid : (ps.map (fun p => p.id)).Nodup)
    (p q : Player) (hp : p ∈ ps) (hq : q ∈ ps) (h : p.id = q.id) : p = q :=
  List.inj_on_of_nodup_map hid hp hq h

theorem roundResults_entry (g : Game) (hid : (g.players.map (fun p => p.id)).Nodup)
    (p : Player) (hp : p ∈ g.players) (r : RoundEntry) (hr : r ∈ g.roundResults)
    (h : r.id = p.id) : r = g.entryOf p := by
  obtain ⟨q, hq, rfl⟩ := (mem_roundResults g r).1 hr
  rw [player_eq_of_id g.players hid q p hq hp h]

theorem roundResults_pos (g : Game) (hid : (g.players.map (fun p => p.id)).Nodup)
    (i j : Nat) (a b : RoundEntry) (ha : g.roundResults[i]? = some a)
    (hb : g.roundResults[j]? = some b) (h : a.id = b.id) : i = j := by
  have hnd : (g.roundResults.map (fun r => r.id)).Nodup :=
    (roundResults_ids g).nodup_iff.2 hid
  have h1 : (g.roundResults.map (fun r => r.id))[i]? = some a.id := by simp [ha]
  have h2 : (g.roundResults.map (fun r => r.id))[j]? = some a.id := by simp [hb, h]
  have hi := lt_of_getElem?_some h1
  have hj := lt_of_getElem?_some h2
  have e1 := (List.getElem?_eq_some.1 h1).2
  have e2 := (List.getElem?_eq_some.1 h2).2
  exact (@List.Nodup.getElem_inj_iff _ _ hnd i hi j hj).1 (e1.trans e2.symm)

/-- The caller's result is found, and it is the result of the caller. -/
theorem callerPos_spec (g : Game) (hid : (g.players.map (fun p => p.id)).Nodup)
    (pc : Player) (hpc : pc ∈ g.players) (hc : g.cobraCaller = some pc.id) :
    ∃ c, callerPos g.roundResults = some c ∧ g.roundResults[c]? = some (g.entryOf pc) ∧
      callerScoreOf g.roundResults = some pc.getScore := by
  have hmem : g.entryOf pc ∈ g.roundResults := (mem_roundResults g _).2 ⟨pc, hpc, rfl⟩
  obtain ⟨c, hcpos⟩ := firstIdx_isSome_of_mem (fun r => r.isCaller) g.roundResults _ hmem
    (by simp [Game.entryOf, hc])
  obtain ⟨x, hx, hfx, _, _⟩ := firstIdx_some _ _ _ hcpos
  obtain ⟨q, hq, rfl⟩ := (mem_roundResults g x).1 (List.getElem?_mem hx)
  have hqid : q.id = pc.id := by
    simp only [Game.entryOf, decide_eq_true_eq, hc, Option.some.injEq] at hfx
    exact hfx
  have hqp := player_eq_of_id g.players hid q pc hq hpc hqid
  subst hqp
  refine ⟨c, hcpos, hx, ?_⟩
  unfold callerScoreOf
  unfold callerPos at hcpos ⊢
  rw [hcpos]
  simp [hx, Game.entryOf]

theorem callerPos_none (g : Game) (h : ∀ p ∈ g.players, some p.id ≠ g.cobraCaller) :
    callerPos g.roundResults = none := by
  apply firstIdx_eq_none
  intro r hr
  obtain ⟨p, hp, rfl⟩ := (mem_roundResults g r).1 hr
  simpa [Game.entryOf] using h p hp

theorem roundResults_flags (g : Game) (r : RoundEntry) (hr : r ∈ g.roundResults) :
    r.penalty = false ∧ r.isWinner = false := by
  obtain ⟨p, _, rfl⟩ := (mem_roundResults g r).1 hr
  exact ⟨rfl, rfl⟩

theorem finalResults_phase (g : Game) (ph : Phase) :
    ({ g with phase := ph } : Game).finalResults = g.finalResults := rfl

/-- Position by position, `finalResults` is `roundResults` with the two flags set. -/
theorem getElem?_finalResults (g : Game) (j : Nat) :
    g.finalResults[j]? = (g.roundResults[j]?).map (fun r =>
      { r with
        penalty := decide (callerPos g.roundResults = some j ∧
          (arbitrate g.roundResults).2 = true)
        isWinner := decide (j = (arbitrate g.roundResults).1) }) := by
  unfold Game.finalResults
  simp only [getElem?_modifyAt]
  cases hj : g.roundResults[j]? with
  | none =>
    cases hcp : callerPos g.roundResults with
    | none => simp [hj]
    | some c =>
      by_cases ha : (arbitrate g.roundResults).2 = true
      · simp [ha, getElem?_modifyAt, hj]
      · simp [ha, hj]
  | some r =>
    obtain ⟨h1, h2⟩ := roundResults_flags g r (List.getElem?_mem hj)
    obtain ⟨rid, rname, rhand, rscore, rcaller, rpen, rwin⟩ := r
    simp only at h1 h2
    subst h1 h2
    cases hcp : callerPos g.roundResults with
    | none =>
      by_cases hw : j = (arbitrate g.roundResults).1
      · simp [hj, hw.symm]
      · simp [hj, hw]
    | some c =>
      by_cases ha : (arbitrate g.roundResults).2 = true
      · simp only [ha, if_true, getElem?_modifyAt, hj]
        by_cases hw : j = (arbitrate g.roundResults).1
        · by_cases hjc : j = c
          · subst hjc; simp [← hw]
          · have : ¬ c = j := fun h => hjc h.symm
            simp [← hw, hjc, this]
        · by_cases hjc : j = c
          · subst hjc; simp [hw]
          · have : ¬ c = j := fun h => hjc h.symm
            simp [hw, hjc, this]
      · have ha2 : (arbitrate g.roundResults).2 = false := by simpa using ha
        by_cases hw : j = (arbitrate g.roundResults).1
        · simp [ha2, hj, ← hw]
        · simp [ha2, hj, hw]

theorem finalResults_ids (g : Game) :
    g.finalResults.map (fun r => r.id) = g.roundResults.map (fun r => r.id) := by
  apply List.ext_getElem?
  intro j
  simp only [List.getElem?_map, getElem?_finalResults]
  cases g.roundResults[j]? <;> simp

theorem bonus_eq_zero (rs : List RoundEntry) (id : Nat) (h : ∀ r ∈ rs, r.id ≠ id) :
    bonus rs id = 0 := by
  induction rs with
  | nil => exact bonus_nil id
  | cons r rs ih =>
    rw [bonus_cons, if_neg (h r (List.mem_cons_self _ _)),
      ih (fun x hx => h x (List.mem_cons_of_mem _ hx))]
    simp

theorem bonus_unique (rs : List RoundEntry) (hnd : (rs.map (fun r => r.id)).Nodup)
    (r0 : RoundEntry) (h0 : r0 ∈ rs) :
    bonus rs r0.id = r0.score + (if r0.penalty then 10 else 0) := by
  induction rs with
  | nil => cases h0
  | cons r rs ih =>
    simp only [List.map_cons, List.nodup_cons, List.mem_map, not_exists, not_and] at hnd
    rw [bonus_cons]
    rcases List.mem_cons.1 h0 with rfl | hmem
    · rw [if_pos rfl, bonus_eq_zero rs r0.id (fun x hx hc => hnd.1 x hx hc)]
      simp
    · have hne : r.id ≠ r0.id := fun hc => hnd.1 r0 hmem hc.symm
      rw [if_neg hne, ih hnd.2 hmem]
      simp

/-- What `endRound` adds to the total of the player seated at position `k`. -/
theorem endRound_total_at (g : Game) (hid : (g.players.map (fun p => p.id)).Nodup)
    (k : Nat) (p : Player) (hp : g.players[k]? = some p) :
    (applyTotals g.finalResults { g with phase := Phase.roundOver }).players[k]? =
      some { p with
        totalScore := p.totalScore + (p.getScore +
          (if some p.id = g.cobraCaller ∧ (arbitrate g.roundResults).2 = true
           then 10 else 0)) } := by
  rw [applyTotals_players _ _ (by exact hid)]
  simp only [List.getElem?_map, hp, Option.map_some', Option.some.injEq]
  have hpm : p ∈ g.players := List.getElem?_mem hp
  have hmem : g.entryOf p ∈ g.roundResults := (mem_roundResults g _).2 ⟨p, hpm, rfl⟩
  obtain ⟨j, hj⟩ := List.mem_iff_getElem?.1 hmem
  have hfj := getElem?_finalResults g j
  rw [hj] at hfj
  simp only [Option.map_some'] at hfj
  have hnd : (g.finalResults.map (fun r => r.id)).Nodup := by
    rw [finalResults_ids]; exact (roundResults_ids g).nodup_iff.2 hid
  have hb := bonus_unique g.finalResults hnd _ (List.getElem?_mem hfj)
  simp only [Game.entryOf] at hb
  have hpen : (callerPos g.roundResults = some j ∧ (arbitrate g.roundResults).2 = true) ↔
      (some p.id = g.cobraCaller ∧ (arbitrate g.roundResults).2 = true) := by
    constructor
    · rintro ⟨h1, h2⟩
      refine ⟨?_, h2⟩
      obtain ⟨x, hx, hfx, _, _⟩ := firstIdx_some _ _ _ h1
      rw [hj] at hx
      cases hx
      simpa [Game.entryOf] using hfx
    · rintro ⟨h1, h2⟩
      refine ⟨?_, h2⟩
      obtain ⟨c, hc1, hc2, _⟩ := callerPos_spec g hid p hpm h1.symm
      rw [hc1, roundResults_pos g hid c j _ _ hc2 hj rfl]
  have hb2 : bonus g.finalResults p.id = p.getScore +
      (if some p.id = g.cobraCaller ∧ (arbitrate g.roundResults).2 = true then 10 else 0) := by
    rw [hb]
    by_cases hc : some p.id = g.cobraCaller ∧ (arbitrate g.roundResults).2 = true
    · simp [hpen.2 hc, hc]
    · have : ¬ (callerPos g.roundResults = some j ∧ (arbitrate g.roundResults).2 = true) :=
        fun h => hc (hpen.1 h)
      rw [if_neg hc]
      simp only [decide_eq_true_eq]
      rw [if_neg this]
  rw [hb2]

theorem firstIdx_of_find {α : Type} (f : α → Bool) (l : List α) (x : α)
    (h : l.find? f = some x) : ∃ k, firstIdx f l = some k ∧ l[k]? = some x := by
  cases hk : firstIdx f l with
  | none =>
    have hall := firstIdx_none f l hk
    have hx := List.find?_some h
    have hm := List.mem_of_find?_eq_some h
    rw [hall x hm] at hx
    cases hx
  | some k =>
    obtain ⟨y, hy, _, hfind, _⟩ := firstIdx_some f l k hk
    rw [h] at hfind
    cases hfind
    exact ⟨k, rfl, hy⟩

theorem arbitrate_lt (rs : List RoundEntry) (h : 0 < rs.length) :
    (arbitrate rs).1 < rs.length := by
  unfold arbitrate
  cases ht : tiedPos rs with
  | some t =>
    obtain ⟨x, hx, _⟩ := firstIdx_some _ _ _ ht
    exact lt_of_getElem?_some hx
  | none =>
    cases hc : callerPos rs with
    | none => exact h
    | some c =>
      obtain ⟨x, hx, _⟩ := firstIdx_some _ _ _ hc
      simp only
      split
      · exact lt_of_getElem?_some hx
      · exact h

/-- With at least one seated player `endRound` returns the round result. -/
theorem endRound_eq (g : Game) (x : RoundEntry)
    (hx : g.roundResults[(arbitrate g.roundResults).1]? = some x) :
    g.endRound =
      (Outcome.roundOver g.finalResults { id := x.id, name := x.name, score := x.score },
       applyTotals g.finalResults { g with phase := Phase.roundOver }) := by
  have h := getElem?_finalResults g (arbitrate g.roundResults).1
  rw [hx] at h
  unfold Game.endRound
  simp only [finalResults_phase, roundResults_phase, h, Option.map_some']

theorem endRound_winner_exists (g : Game) (h : 0 < g.players.length) :
    ∃ x, g.roundResults[(arbitrate g.roundResults).1]? = some x := by
  have hl := arbitrate_lt g.roundResults (by rw [roundResults_length]; exact h)
  exact ⟨g.roundResults[(arbitrate g.roundResults).1], List.getElem?_eq_getElem hl⟩

theorem callerPenalized_iff (g : Game) :
    g.callerPenalized = true ↔
      (callerPos g.roundResults).isSome = true ∧ (arbitrate g.roundResults).2 = true := by
  unfold Game.callerPenalized
  rw [List.any_eq_true]
  constructor
  · rintro ⟨r, hr, hflags⟩
    obtain ⟨j, hj⟩ := List.mem_iff_getElem?.1 hr
    rw [getElem?_finalResults] at hj
    cases hs : g.roundResults[j]? with
    | none => rw [hs] at hj; cases hj
    | some y =>
      rw [hs] at hj
      simp only [Option.map_some', Option.some.injEq] at hj
      subst hj
      simp only [Bool.and_eq_true, decide_eq_true_eq] at hflags
      exact ⟨by rw [hflags.2.1]; rfl, hflags.2.2⟩
  · rintro ⟨h1, h2⟩
    cases hc : callerPos g.roundResults with
    | none => rw [hc] at h1; cases h1
    | some c =>
      obtain ⟨y, hy, hfy, _, _⟩ := firstIdx_some _ _ _ hc
      have hf := getElem?_finalResults g c
      rw [hy] at hf
      simp only [Option.map_some'] at hf
      refine ⟨_, List.getElem?_mem hf, ?_⟩
      simp [hfy, hc, h2]

/-- The tie test of `endRound` read on the seated players. -/
theorem tied_find (g : Game) (pc : Player) (hc : g.cobraCaller = some pc.id)
    (hs : callerScoreOf g.roundResults = some pc.getScore) :
    g.roundResults.find?
        (fun r => !r.isCaller && decide (some r.score = callerScoreOf g.roundResults)) =
      (g.players.find? (fun q => decide (q.id ≠ pc.id) && decide (q.getScore = pc.getScore))).map
        g.entryOf := by
  rw [hs, roundResults_eq]
  rw [sortByScore_find _ pc.getScore (by
    intro x hx
    simp only [Bool.and_eq_true, decide_eq_true_eq, Option.some.injEq] at hx
    exact hx.2)]
  rw [List.find?_map]
  congr 2
  funext q
  simp [Game.entryOf, hc, Function.comp, eq_comm]

/-! ### Round-end arbitration -/

/-- The arbitration when some non-caller's hand score equals the caller's: the tie search
finds the result of the earliest seated non-caller with the caller's score. -/
theorem tie_arbitrate (g : Game) (pc : Player)
    (hid : (g.players.map (fun p => p.id)).Nodup) (hpc : pc ∈ g.players)
    (hc : g.cobraCaller = some pc.id)
    (htie : ∃ q ∈ g.players, q.id ≠ pc.id ∧ q.getScore = pc.getScore) :
    ∃ w t, g.players.find? (fun q => decide (q.id ≠ pc.id) && decide (q.getScore = pc.getScore))
          = some w ∧
      g.roundResults[t]? = some (g.entryOf w) ∧ arbitrate g.roundResults = (t, true) := by
  obtain ⟨c, hcpos, hcget, hcs⟩ := callerPos_spec g hid pc hpc hc
  obtain ⟨q, hq, hqid, hqs⟩ := htie
  cases hfind : g.players.find?
      (fun q => decide (q.id ≠ pc.id) && decide (q.getScore = pc.getScore)) with
  | none =>
    have := List.find?_eq_none.1 hfind q hq
    simp [hqid, hqs] at this
  | some w =>
    have hS := tied_find g pc hc hcs
    rw [hfind] at hS
    obtain ⟨t, ht, htget⟩ := firstIdx_of_find _ _ _ hS
    refine ⟨w, t, rfl, htget, ?_⟩
    unfold arbitrate tiedPos
    rw [ht]

/-- C7. Tie case of the arbitration: when some non-caller's hand score equals the caller's,
the winner returned by `endRound` is the earliest seated non-caller with that score, the
caller's result carries the penalty, and the caller's total rises by the hand score plus 10
(whatever the other scores are). -/
theorem endRound_tie_case (g : Game) (pc : Player)
    (hid : (g.players.map (fun p => p.id)).Nodup) (hpc : pc ∈ g.players)
    (hc : g.cobraCaller = some pc.id)
    (htie : ∃ q ∈ g.players, q.id ≠ pc.id ∧ q.getScore = pc.getScore) :
    ∃ w, g.players.find? (fun q => decide (q.id ≠ pc.id) && decide (q.getScore = pc.getScore))
          = some w ∧
      g.endRound.1 =
        Outcome.roundOver g.finalResults { id := w.id, name := w.name, score := w.getScore } ∧
      (∀ r ∈ g.finalResults, r.isWinner = true ↔ r.id = w.id) ∧
      g.callerPenalized = true ∧
      (∀ r ∈ g.finalResults, r.id = pc.id → r.penalty = true) ∧
      ∀ k : Nat, g.players[k]? = some pc →
        (g.endRound.2.players[k]?).map (fun p : Player => p.totalScore) =
          some (pc.totalScore + pc.getScore + 10) := by
  obtain ⟨c, hcpos, hcget, hcs⟩ := callerPos_spec g hid pc hpc hc
  obtain ⟨w, t, hfind, htget, harb⟩ := tie_arbitrate g pc hid hpc hc htie
  have hend := endRound_eq g (g.entryOf w) (by rw [harb]; exact htget)
  have hpen : g.callerPenalized = true :=
    (callerPenalized_iff g).2 ⟨by rw [hcpos]; rfl, by rw [harb]⟩
  refine ⟨w, hfind, by rw [hend]; rfl, ?_, hpen, ?_, ?_⟩
  · intro r hr
    obtain ⟨j, hj⟩ := List.mem_iff_getElem?.1 hr
    rw [getElem?_finalResults] at hj
    cases hs : g.roundResults[j]? with
    | none => rw [hs] at hj; cases hj
    | some y =>
      rw [hs] at hj
      simp only [Option.map_some', Option.some.injEq] at hj
      subst hj
      simp only [harb, decide_eq_true_eq]
      constructor
      · intro hjt
        subst hjt
        rw [htget] at hs
        cases hs
        rfl
      · intro hyw
        exact roundResults_pos g hid j t y _ hs htget hyw
  · intro r hr hrid
    obtain ⟨j, hj⟩ := List.mem_iff_getElem?.1 hr
    rw [getElem?_finalResults] at hj
    cases hs : g.roundResults[j]? with
    | none => rw [hs] at hj; cases hj
    | some y =>
      rw [hs] at hj
      simp only [Option.map_some', Option.some.injEq] at hj
      subst hj
      simp only at hrid
      have hjc : j = c := roundResults_pos g hid j c y _ hs hcget hrid
      subst hjc
      simp [hcpos, harb]
  · intro k hk
    rw [hend]
    simp only
    rw [endRound_total_at g hid k pc hk]
    simp [hc, harb]
    omega

/-- C7, instance of the specification: scores 2, 5, 5 with the first 5-scorer as caller. -/
theorem endRound_tie_case_witness :
    ((tieGame.players.map (fun p => p.id)).Nodup ∧
      seat 2 "bob" [some ⟨Suit.hearts, Rank.n5⟩] ∈ tieGame.players ∧
      tieGame.cobraCaller = some 2 ∧
      (seat 3 "cyd" [some ⟨Suit.clubs, Rank.n5⟩]).getScore =
        (seat 2 "bob" [some ⟨Suit.hearts, Rank.n5⟩]).getScore) ∧
    (∃ w, tieGame.players.find? (fun q => decide (q.id ≠ 2) &&
            decide (q.getScore = (seat 2 "bob" [some ⟨Suit.hearts, Rank.n5⟩]).getScore))
          = some w ∧
      tieGame.endRound.1 =
        Outcome.roundOver tieGame.finalResults
          { id := w.id, name := w.name, score := w.getScore } ∧
      (∀ r ∈ tieGame.finalResults, r.isWinner = true ↔ r.id = w.id) ∧
      tieGame.callerPenalized = true ∧
      (∀ r ∈ tieGame.finalResults, r.id = 2 → r.penalty = true) ∧
      ∀ k : Nat, tieGame.players[k]? = some (seat 2 "bob" [some ⟨Suit.hearts, Rank.n5⟩]) →
        (tieGame.endRound.2.players[k]?).map (fun p : Player => p.totalScore) =
          some ((seat 2 "bob" [some ⟨Suit.hearts, Rank.n5⟩]).totalScore +
            (seat 2 "bob" [some ⟨Suit.hearts, Rank.n5⟩]).getScore + 10)) ∧
    tieGame.endRound.1 =
      Outcome.roundOver tieGame.finalResults { id := 3, name := "cyd", score := 5 } ∧
    tieGame.endRound.2.players.map (fun p => p.totalScore) = [2, 15, 5] :=
  ⟨⟨by decide, by decide, by decide, by decide⟩,
   endRound_tie_case tieGame (seat 2 "bob" [some ⟨Suit.hearts, Rank.n5⟩]) (by decide)
     (by decide) (by decide)
     ⟨seat 3 "cyd" [some ⟨Suit.clubs, Rank.n5⟩], by decide, by decide, by decide⟩,
   by decide, by decide⟩

/-- C8. Unique-minimum case of the arbitration: when the caller's hand score is strictly
below every other player's, `endRound` returns the caller as winner, no result carries the
penalty, and every total rises by exactly the hand score. -/
theorem endRound_unique_min (g : Game) (pc : Player)
    (hid : (g.players.map (fun p => p.id)).Nodup) (hpc : pc ∈ g.players)
    (hc : g.cobraCaller = some pc.id)
    (hmin : ∀ q ∈ g.players, q.id ≠ pc.id → pc.getScore < q.getScore) :
    g.endRound.1 =
        Outcome.roundOver g.finalResults { id := pc.id, name := pc.name, score := pc.getScore } ∧
      (∀ r ∈ g.finalResults, r.isWinner = true ↔ r.id = pc.id) ∧
      g.callerPenalized = false ∧
      (∀ r ∈ g.finalResults, r.penalty = false) ∧
      ∀ (k : Nat) (p : Player), g.players[k]? = some p →
        (g.endRound.2.players[k]?).map (fun q : Player => q.totalScore) =
          some (p.totalScore + p.getScore) := by
  obtain ⟨c, hcpos, hcget, hcs⟩ := callerPos_spec g hid pc hpc hc
  have htied : tiedPos g.roundResults = none := by
    apply firstIdx_eq_none
    intro r hr
    obtain ⟨q, hq, rfl⟩ := (mem_roundResults g r).1 hr
    rw [hcs]
    by_cases hqid : q.id = pc.id
    · simp [Game.entryOf, hc, hqid]
    · have := hmin q hq hqid
      have hne : ¬ q.getScore = pc.getScore := by omega
      simp [Game.entryOf, hne]
  have hlen : 0 < g.roundResults.length := lt_of_le_of_lt (Nat.zero_le c) (lt_of_getElem?_some hcget)
  have h0 : g.roundResults[0]? = some (g.roundResults[0]) := List.getElem?_eq_getElem hlen
  obtain ⟨q0, hq0, hq0e⟩ := (mem_roundResults g _).1 (List.getElem?_mem h0)
  have hle := sortByScore_head_le (g.players.map g.entryOf) _ h0 (g.entryOf pc)
    (List.mem_map.2 ⟨pc, hpc, rfl⟩)
  have hq0pc : q0 = pc := by
    by_contra hne
    have hidne : q0.id ≠ pc.id := fun h => hne (player_eq_of_id g.players hid q0 pc hq0 hpc h)
    have := hmin q0 hq0 hidne
    rw [hq0e] at hle
    simp only [Game.entryOf] at hle
    omega
  subst hq0pc
  have harb : arbitrate g.roundResults = (c, false) := by
    unfold arbitrate
    rw [htied, hcpos]
    simp only [hcget, h0, hq0e, if_true]
  have hend := endRound_eq g (g.entryOf q0) (by rw [harb]; exact hcget)
  have hpen : g.callerPenalized = false := by
    cases hp : g.callerPenalized with
    | false => rfl
    | true =>
      have := ((callerPenalized_iff g).1 hp).2
      rw [harb] at this
      cases this
  refine ⟨by rw [hend]; rfl, ?_, hpen, ?_, ?_⟩
  · intro r hr
    obtain ⟨j, hj⟩ := List.mem_iff_getElem?.1 hr
    rw [getElem?_finalResults] at hj
    cases hs : g.roundResults[j]? with
    | none => rw [hs] at hj; cases hj
    | some y =>
      rw [hs] at hj
      simp only [Option.map_some', Option.some.injEq] at hj
      subst hj
      simp only [harb, decide_eq_true_eq]
      constructor
      · intro hjt
        subst hjt
        rw [hcget] at hs
        cases hs
        rfl
      · intro hyw
        exact roundResults_pos g hid j c y _ hs hcget hyw
  · intro r hr
    obtain ⟨j, hj⟩ := List.mem_iff_getElem?.1 hr
    rw [getElem?_finalResults] at hj
    cases hs : g.roundResults[j]? with
    | none => rw [hs] at hj; cases hj
    | some y =>
      rw [hs] at hj
      simp only [Option.map_some', Option.some.injEq] at hj
      subst hj
      simp [harb]
  · intro k p hk
    rw [hend]
    simp only
    rw [endRound_total_at g hid k p hk]
    simp [harb]

/-- C8, instance of the specification: scores 1, 3, 7 with the 1-scorer as caller. -/
theorem endRound_unique_min_witness :
    ((uniqueMinGame.players.map (fun p => p.id)).Nodup ∧
      seat 1 "ann" [some ⟨Suit.hearts, Rank.A⟩] ∈ uniqueMinGame.players ∧
      uniqueMinGame.cobraCaller = some 1 ∧
      ∀ q ∈ uniqueMinGame.players, q.id ≠ 1 →
        (seat 1 "ann" [some ⟨Suit.hearts, Rank.A⟩]).getScore < q.getScore) ∧
    (uniqueMinGame.endRound.1 =
        Outcome.roundOver uniqueMinGame.finalResults { id := 1, name := "ann", score := 1 } ∧
      (∀ r ∈ uniqueMinGame.finalResults, r.isWinner = true ↔ r.id = 1) ∧
      uniqueMinGame.callerPenalized = false ∧
      (∀ r ∈ uniqueMinGame.finalResults, r.penalty = false) ∧
      ∀ (k : Nat) (p : Player), uniqueMinGame.players[k]? = some p →
        (uniqueMinGame.endRound.2.players[k]?).map (fun q : Player => q.totalScore) =
          some (p.totalScore + p.getScore)) :=
  ⟨⟨by decide, by decide, by decide, by decide⟩,
   endRound_unique_min uniqueMinGame (seat 1 "ann" [some ⟨Suit.hearts, Rank.A⟩]) (by decide)
     (by decide) (by decide) (by decide)⟩


/-- The arbitration when no non-caller ties with the caller: the first sorted result belongs
to a player of minimal score, and the caller wins exactly when that score is the caller's. -/
theorem arbitrate_no_tie (g : Game) (pc : Player)
    (hid : (g.players.map (fun p => p.id)).Nodup) (hpc : pc ∈ g.players)
    (hc : g.cobraCaller = some pc.id)
    (hnt : ∀ q ∈ g.players, q.id ≠ pc.id → q.getScore ≠ pc.getScore) :
    ∃ c q0, callerPos g.roundResults = some c ∧ g.roundResults[c]? = some (g.entryOf pc) ∧
      q0 ∈ g.players ∧ g.roundResults[0]? = some (g.entryOf q0) ∧
      (∀ q ∈ g.players, q0.getScore ≤ q.getScore) ∧
      arbitrate g.roundResults = if pc.getScore = q0.getScore then (c, false) else (0, true) := by
  obtain ⟨c, hcpos, hcget, hcs⟩ := callerPos_spec g hid pc hpc hc
  have htied : tiedPos g.roundResults = none := by
    apply firstIdx_eq_none
    intro r hr
    obtain ⟨q, hq, rfl⟩ := (mem_roundResults g r).1 hr
    rw [hcs]
    by_cases hqid : q.id = pc.id
    · simp [Game.entryOf, hc, hqid]
    · have hne := hnt q hq hqid
      simp [Game.entryOf, hne]
  have hlen : 0 < g.roundResults.length :=
    lt_of_le_of_lt (Nat.zero_le c) (lt_of_getElem?_some hcget)
  have h0 : g.roundResults[0]? = some (g.roundResults[0]) := List.getElem?_eq_getElem hlen
  obtain ⟨q0, hq0, hq0e⟩ := (mem_roundResults g _).1 (List.getElem?_mem h0)
  rw [hq0e] at h0
  refine ⟨c, q0, hcpos, hcget, hq0, h0, ?_, ?_⟩
  · intro q hq
    exact sortByScore_head_le (g.players.map g.entryOf) _ h0 (g.entryOf q)
      (List.mem_map.2 ⟨q, hq, rfl⟩)
  · unfold arbitrate
    rw [htied, hcpos]
    simp only [hcget, h0, Option.map_some', Option.some.injEq, Game.entryOf]

/-- C9. Characterisation of the penalty: with a recorded, seated caller the caller's result
carries the penalty exactly when some non-caller's hand score is at most the caller's; and
when no non-caller ties and some non-caller is strictly lower, the returned winner is a player
whose hand score is minimal among all players. -/
theorem endRound_penalty_iff (g : Game) (pc : Player)
    (hid : (g.players.map (fun p => p.id)).Nodup) (hpc : pc ∈ g.players)
    (hc : g.cobraCaller = some pc.id) :
    (g.callerPenalized = true ↔
        ∃ q ∈ g.players, q.id ≠ pc.id ∧ q.getScore ≤ pc.getScore) ∧
      ((∀ q ∈ g.players, q.id ≠ pc.id → q.getScore ≠ pc.getScore) →
        (∃ q ∈ g.players, q.id ≠ pc.id ∧ q.getScore < pc.getScore) →
        ∃ w ∈ g.players,
          g.endRound.1 =
            Outcome.roundOver g.finalResults
              { id := w.id, name := w.name, score := w.getScore } ∧
          ∀ q ∈ g.players, w.getScore ≤ q.getScore) := by
  have hpos : (callerPos g.roundResults).isSome = true := by
    obtain ⟨c, hcpos, _, _⟩ := callerPos_spec g hid pc hpc hc
    rw [hcpos]; rfl
  constructor
  · rw [callerPenalized_iff]
    by_cases htie : ∃ q ∈ g.players, q.id ≠ pc.id ∧ q.getScore = pc.getScore
    · obtain ⟨w, t, _, _, harb⟩ := tie_arbitrate g pc hid hpc hc htie
      obtain ⟨q, hq, hqid, hqs⟩ := htie
      constructor
      · intro _; exact ⟨q, hq, hqid, le_of_eq hqs⟩
      · intro _; exact ⟨hpos, by rw [harb]⟩
    · have hnt : ∀ q ∈ g.players, q.id ≠ pc.id → q.getScore ≠ pc.getScore :=
        fun q hq hqid hqs => htie ⟨q, hq, hqid, hqs⟩
      obtain ⟨c, q0, _, _, hq0, _, hq0min, harb⟩ := arbitrate_no_tie g pc hid hpc hc hnt
      constructor
      · rintro ⟨_, h2⟩
        rw [harb] at h2
        by_cases hs : pc.getScore = q0.getScore
        · rw [if_pos hs] at h2; cases h2
        · have hq0id : q0.id ≠ pc.id := by
            intro h
            rw [player_eq_of_id g.players hid q0 pc hq0 hpc h] at hs
            exact hs rfl
          exact ⟨q0, hq0, hq0id, hq0min pc hpc⟩
      · rintro ⟨q, hq, hqid, hqs⟩
        refine ⟨hpos, ?_⟩
        have h1 := hnt q hq hqid
        have h2 := hq0min q hq
        rw [harb, if_neg (by omega)]
  · intro hnt hlow
    obtain ⟨q, hq, hqid, hqs⟩ := hlow
    obtain ⟨c, q0, _, _, hq0, h0, hq0min, harb⟩ := arbitrate_no_tie g pc hid hpc hc hnt
    have h2 := hq0min q hq
    rw [if_neg (by omega)] at harb
    have hend := endRound_eq g (g.entryOf q0) (by rw [harb]; exact h0)
    exact ⟨q0, hq0, by rw [hend]; rfl, hq0min⟩

/-- C9, instance: scores 4, 6, 9 with the 6-scorer as caller; the 4-scorer wins and the
caller is penalized. -/
theorem endRound_penalty_iff_witness :
    ((lowerGame.players.map (fun p => p.id)).Nodup ∧
      seat 2 "bob" [some ⟨Suit.hearts, Rank.n6⟩] ∈ lowerGame.players ∧
      lowerGame.cobraCaller = some 2) ∧
    ((lowerGame.callerPenalized = true ↔
        ∃ q ∈ lowerGame.players, q.id ≠ 2 ∧
          q.getScore ≤ (seat 2 "bob" [some ⟨Suit.hearts, Rank.n6⟩]).getScore) ∧
      ((∀ q ∈ lowerGame.players, q.id ≠ 2 →
          q.getScore ≠ (seat 2 "bob" [some ⟨Suit.hearts, Rank.n6⟩]).getScore) →
        (∃ q ∈ lowerGame.players, q.id ≠ 2 ∧
          q.getScore < (seat 2 "bob" [some ⟨Suit.hearts, Rank.n6⟩]).getScore) →
        ∃ w ∈ lowerGame.players,
          lowerGame.endRound.1 =
            Outcome.roundOver lowerGame.finalResults
              { id := w.id, name := w.name, score := w.getScore } ∧
          ∀ q ∈ lowerGame.players, w.getScore ≤ q.getScore)) ∧
    lowerGame.callerPenalized = true ∧
    lowerGame.endRound.1 =
      Outcome.roundOver lowerGame.finalResults { id := 1, name := "ann", score := 4 } :=
  ⟨⟨by decide, by decide, by decide⟩,
   endRound_penalty_iff lowerGame (seat 2 "bob" [some ⟨Suit.hearts, Rank.n6⟩]) (by decide)
     (by decide) (by decide),
   by decide, by decide⟩

theorem foldl_add_values (l : List Slot) (a : Int) :
    l.foldl (fun sum card => sum + getCardValue card) a = a + (l.map getCardValue).sum := by
  induction l generalizing a with
  | nil => simp
  | cons x xs ih => simp only [List.foldl_cons, List.map_cons, List.sum_cons, ih]; omega

theorem getScore_eq_sum (p : Player) : p.getScore = (p.hand.map getCardValue).sum := by
  unfold Player.getScore
  rw [foldl_add_values]
  simp

/-- C10. Totals of the arbitration: `endRound` changes nothing of a seated player but the
total score, to which it adds the hand score (the sum of `getCardValue` over the hand) and 10
more exactly when that player is the caller and the caller is penalized; in particular no hand
changes and no non-caller receives the extra 10. -/
theorem endRound_totals (g : Game) (hid : (g.players.map (fun p => p.id)).Nodup)
    (k : Nat) (p : Player) (hk : g.players[k]? = some p) :
    g.endRound.2.players[k]? =
        some { p with
          totalScore := p.totalScore + (p.hand.map getCardValue).sum +
            (if some p.id = g.cobraCaller ∧ g.callerPenalized = true then 10 else 0) } ∧
      g.endRound.2.players.map (fun q => q.hand) = g.players.map (fun q => q.hand) := by
  obtain ⟨x, hx⟩ := endRound_winner_exists g (lt_of_le_of_lt (Nat.zero_le k) (lt_of_getElem?_some hk))
  have hend := endRound_eq g x hx
  rw [hend]
  simp only
  constructor
  · rw [endRound_total_at g hid k p hk, getScore_eq_sum]
    have hiff : (some p.id = g.cobraCaller ∧ (arbitrate g.roundResults).2 = true) ↔
        (some p.id = g.cobraCaller ∧ g.callerPenalized = true) := by
      constructor
      · rintro ⟨h1, h2⟩
        obtain ⟨c, hcpos, _, _⟩ := callerPos_spec g hid p (List.getElem?_mem hk) h1.symm
        exact ⟨h1, (callerPenalized_iff g).2 ⟨by rw [hcpos]; rfl, h2⟩⟩
      · rintro ⟨h1, h2⟩
        exact ⟨h1, ((callerPenalized_iff g).1 h2).2⟩
    by_cases hcond : some p.id = g.cobraCaller ∧ g.callerPenalized = true
    · rw [if_pos hcond, if_pos (hiff.2 hcond)]
      simp only [Option.some.injEq, Player.mk.injEq, true_and]
      omega
    · rw [if_neg hcond, if_neg (fun h => hcond (hiff.1 h))]
      simp only [Option.some.injEq, Player.mk.injEq, true_and]
      omega
  · exact applyTotals_map (fun q => q.hand) (fun _ _ => rfl) _ _

/-- C10, instance: in the 2, 5, 5 round the penalized caller at seat 1 goes from 0 to 15. -/
theorem endRound_totals_witness :
    ((tieGame.players.map (fun p => p.id)).Nodup ∧
      tieGame.players[1]? = some (seat 2 "bob" [some ⟨Suit.hearts, Rank.n5⟩])) ∧
    (tieGame.endRound.2.players[1]? =
        some { seat 2 "bob" [some ⟨Suit.hearts, Rank.n5⟩] with
          totalScore := (seat 2 "bob" [some ⟨Suit.hearts, Rank.n5⟩]).totalScore +
            ((seat 2 "bob" [some ⟨Suit.hearts, Rank.n5⟩]).hand.map getCardValue).sum +
            (if some (seat 2 "bob" [some ⟨Suit.hearts, Rank.n5⟩]).id = tieGame.cobraCaller ∧
                tieGame.callerPenalized = true then 10 else 0) } ∧
      tieGame.endRound.2.players.map (fun q => q.hand) = tieGame.players.map (fun q => q.hand)) ∧
    tieGame.endRound.2.players.map (fun q => q.totalScore) = [2, 15, 5] :=
  ⟨⟨by decide, by decide⟩,
   endRound_totals tieGame (by decide) 1 (seat 2 "bob" [some ⟨Suit.hearts, Rank.n5⟩])
     (by decide),
   by decide⟩

/-! ### Knowledge of a single player -/

theorem Keeps.mono {N M : Int → Prop} {p q : Player} (h : Keeps N p q)
    (hNM : ∀ i, N i → M i) : Keeps M p q :=
  ⟨h.1, fun i hi => (h.2 i hi).imp (hNM i) id⟩

/-- A change that keeps the known indices and the hand they refer to. -/
theorem Keeps.of_same (N : Int → Prop) (p q : Player) (hp : p.knownValid)
    (hk : q.knownCards = p.knownCards) (hh : q.hand = p.hand) : Keeps N p q := by
  constructor
  · intro i hi; rw [hk] at hi; rw [hh]; exact hp i hi
  · intro i hi
    rw [hk] at hi
    exact Or.inr ⟨i, hi, Or.inl rfl, by rw [hh]⟩

/-- A change that forgets some known indices and leaves the remaining known slots alone,
never shortening the hand. -/
theorem Keeps.of_sub (N : Int → Prop) (p q : Player) (hp : p.knownValid)
    (hk : ∀ i ∈ q.knownCards, i ∈ p.knownCards ∧ q.hand[i.toNat]? = p.hand[i.toNat]?)
    (hl : p.hand.length ≤ q.hand.length) : Keeps N p q := by
  constructor
  · intro i hi
    have := hp i (hk i hi).1
    omega
  · intro i hi
    exact Or.inr ⟨i, (hk i hi).1, Or.inl rfl, (hk i hi).2⟩

theorem Keeps.trans_same {N : Int → Prop} {p q r : Player} (h : Keeps N p q)
    (hk : r.knownCards = q.knownCards) (hh : r.hand = q.hand) : Keeps N p r := by
  constructor
  · intro i hi; rw [hk] at hi; rw [hh]; exact h.1 i hi
  · intro i hi
    rw [hk] at hi
    rw [hh]
    exact h.2 i hi

theorem markKnown_keeps (p : Player) (hp : p.knownValid) (idx : Int) :
    Keeps (fun i => i = idx ∧ i ∉ p.knownCards) p (p.markKnown idx) := by
  unfold Player.markKnown
  split
  · rename_i hc
    constructor
    · intro i hi
      simp only [List.mem_append, List.mem_singleton] at hi
      rcases hi with hi | rfl
      · exact hp i hi
      · exact ⟨by omega, hc.2.1⟩
    · intro i hi
      simp only [List.mem_append, List.mem_singleton] at hi
      rcases hi with hi | rfl
      · exact Or.inr ⟨i, hi, Or.inl rfl, rfl⟩
      · refine Or.inl ⟨rfl, ?_⟩
        have := hc.2.2
        simpa using this
  · exact Keeps.of_same _ p p hp rfl rfl

theorem markKnown_hand (p : Player) (idx : Int) : (p.markKnown idx).hand = p.hand := by
  unfold Player.markKnown; split <;> rfl

theorem markKnown_sub (p : Player) (idx : Int) :
    ∀ i ∈ p.knownCards, i ∈ (p.markKnown idx).knownCards := by
  intro i hi
  unfold Player.markKnown
  split
  · simp [hi]
  · exact hi

theorem markAll_hand (p : Player) (idxs : List Int) : (markAll p idxs).hand = p.hand := by
  unfold markAll
  induction idxs generalizing p with
  | nil => rfl
  | cons a as ih => simp only [List.foldl_cons]; rw [ih, markKnown_hand]

theorem markAll_keeps (p : Player) (hp : p.knownValid) (idxs : List Int) :
    Keeps (fun i => i ∈ idxs ∧ i ∉ p.knownCards) p (markAll p idxs) := by
  unfold markAll
  induction idxs generalizing p with
  | nil => exact Keeps.of_same _ p p hp rfl rfl
  | cons a as ih =>
    simp only [List.foldl_cons]
    have h1 := markKnown_keeps p hp a
    have h2 := ih (p.markKnown a) h1.1
    constructor
    · exact h2.1
    · intro i hi
      rcases h2.2 i hi with ⟨hin, hnot⟩ | ⟨j, hj, hji, hget⟩
      · by_cases hik : i ∈ p.knownCards
        · refine Or.inr ⟨i, hik, Or.inl rfl, ?_⟩
          have e1 : (List.foldl (fun q i => q.markKnown i) (p.markKnown a) as).hand = p.hand := by
            have := markAll_hand (p.markKnown a) as
            unfold markAll at this
            rw [this, markKnown_hand]
          rw [e1]
        · exact Or.inl ⟨List.mem_cons_of_mem _ hin, hik⟩
      · have e1 : (List.foldl (fun q i => q.markKnown i) (p.markKnown a) as).hand = p.hand := by
          have := markAll_hand (p.markKnown a) as
          unfold markAll at this
          rw [this, markKnown_hand]
        have hlen : (List.foldl (fun q i => q.markKnown i) (p.markKnown a) as).hand.length
            = (p.markKnown a).hand.length := by rw [e1, markKnown_hand]
        have hji2 : j = i := by
          rcases hji with h | ⟨_, h⟩
          · exact h
          · omega
        subst hji2
        rcases h1.2 j hj with ⟨hja, hnot⟩ | ⟨j2, hj2, hj2i, hget2⟩
        · exact Or.inl ⟨by rw [hja]; exact List.mem_cons_self _ _, hnot⟩
        · have hj2e : j2 = j := by
            rcases hj2i with h | ⟨_, h⟩
            · exact h
            · rw [markKnown_hand] at h; omega
          subst hj2e
          exact Or.inr ⟨j2, hj2, Or.inl rfl, by rw [e1]⟩

theorem removeCard_keeps (p : Player) (hp : p.knownValid) (idx : Int) :
    Keeps (fun _ => False) p (p.removeCard idx).2 := by
  unfold Player.removeCard
  split
  · exact Keeps.of_same _ p p hp rfl rfl
  · rename_i hc
    have hidx : 0 ≤ idx ∧ idx < p.hand.length := by omega
    have hlen : (p.hand.eraseIdx idx.toNat).length = p.hand.length - 1 := by
      rw [List.length_eraseIdx]
      have : idx.toNat < p.hand.length := by omega
      simp [this]
    have key : ∀ i ∈ (p.knownCards.filter (fun i => decide (i ≠ idx))).map
        (fun i => if i > idx then i - 1 else i),
        ∃ j ∈ p.knownCards, j ≠ idx ∧ ((j < idx ∧ i = j) ∨ (j > idx ∧ i = j - 1)) := by
      intro i hi
      simp only [List.mem_map, List.mem_filter, decide_eq_true_eq] at hi
      obtain ⟨j, ⟨hj, hne⟩, hji⟩ := hi
      refine ⟨j, hj, hne, ?_⟩
      by_cases hgt : j > idx
      · rw [if_pos hgt] at hji; exact Or.inr ⟨hgt, hji.symm⟩
      · rw [if_neg hgt] at hji; exact Or.inl ⟨by omega, hji.symm⟩
    constructor
    · intro i hi
      obtain ⟨j, hj, hne, hcase⟩ := key i hi
      have hjv := hp j hj
      simp only [hlen]
      omega
    · intro i hi
      obtain ⟨j, hj, hne, hcase⟩ := key i hi
      have hjv := hp j hj
      refine Or.inr ⟨j, hj, ?_, ?_⟩
      · rcases hcase with ⟨_, h⟩ | ⟨_, h⟩
        · exact Or.inl h.symm
        · refine Or.inr ⟨by omega, ?_⟩
          simp only [hlen]
          omega
      · simp only
        rcases hcase with ⟨hlt, h⟩ | ⟨hgt, h⟩
        · subst h
          rw [List.getElem?_eraseIdx_of_lt _ _ _ (by omega)]
        · subst h
          rw [List.getElem?_eraseIdx_of_ge _ _ _ (by omega)]
          congr 1
          omega

theorem addCard_keeps (p : Player) (hp : p.knownValid) (c : Slot) :
    Keeps (fun _ => False) p (p.addCard c) := by
  apply Keeps.of_sub _ _ _ hp
  · intro i hi
    refine ⟨hi, ?_⟩
    have := hp i hi
    simp only [Player.addCard]
    rw [List.getElem?_append_left (by omega)]
  · simp [Player.addCard]

/-- Overwriting the slot `t` and forgetting the index `t`. -/
theorem setForget_keeps (p : Player) (hp : p.knownValid) (t : Int) (ht : 0 ≤ t) (v : Slot)
    (q : Player) (hh : q.hand = p.hand.set t.toNat v)
    (hk : q.knownCards = p.knownCards.filter (fun i => decide (i ≠ t))) :
    Keeps (fun _ => False) p q := by
  apply Keeps.of_sub _ _ _ hp
  · intro i hi
    rw [hk] at hi
    simp only [List.mem_filter, decide_eq_true_eq] at hi
    refine ⟨hi.1, ?_⟩
    have := hp i hi.1
    rw [hh, List.getElem?_set_ne]
    omega
  · rw [hh]; simp

theorem swapMark_keeps (p : Player) (hp : p.knownValid) (idx : Int) (c : Slot) :
    Keeps (fun i => i = idx) p ((p.swapCard idx c).2.markKnown idx) := by
  have h1 : Keeps (fun _ => False) p (p.swapCard idx c).2 := by
    unfold Player.swapCard
    split
    · exact Keeps.of_same _ p p hp rfl rfl
    · exact setForget_keeps p hp idx (by omega) c _ rfl rfl
  have h2 := markKnown_keeps _ h1.1 idx
  constructor
  · exact h2.1
  · intro i hi
    rcases h2.2 i hi with ⟨h, _⟩ | ⟨j, hj, hji, hget⟩
    · exact Or.inl h
    · have hji2 : j = i := by
        rcases hji with h | ⟨_, h⟩
        · exact h
        · rw [markKnown_hand] at h; omega
      subst hji2
      rcases h1.2 j hj with h | ⟨j2, hj2, hj2i, hget2⟩
      · exact absurd h id
      · refine Or.inr ⟨j2, hj2, ?_, ?_⟩
        · rcases hj2i with h | ⟨h, hl⟩
          · exact Or.inl h
          · exact Or.inr ⟨h, by rw [markKnown_hand]; exact hl⟩
        · rw [hget, hget2]

theorem eraseIdx_set_self {α : Type} (l : List α) (i : Nat) (v : α) :
    (l.set i v).eraseIdx i = l.eraseIdx i := by
  induction l generalizing i with
  | nil => rfl
  | cons a as ih =>
    cases i with
    | zero => rfl
    | succ i => simp [List.set, List.eraseIdx, ih]

theorem removeCard_after_set (p : Player) (idx : Int) (hidx : 0 ≤ idx)
    (hlt : idx < p.hand.length) (v : Slot) :
    (({ p with
        hand := p.hand.set idx.toNat v
        handHoles := p.handHoles.filter (fun h => h ≠ idx.toNat) } : Player).removeCard idx).2 =
      (p.removeCard idx).2 := by
  have hnot : ¬ (idx < 0 ∨ idx ≥ p.hand.length) := by omega
  unfold Player.removeCard
  simp only [List.length_set]
  rw [if_neg hnot, if_neg hnot]
  simp [eraseIdx_set_self, List.filter_filter]

theorem handSetForget_keeps (p : Player) (hp : p.knownValid) (t : Int) (v : Slot) :
    Keeps (fun _ => False) p
      { p.handSet t v with
        knownCards := (p.handSet t v).knownCards.filter (fun i => decide (i ≠ t)) } := by
  unfold Player.handSet
  by_cases ha : isArrayIndex t = true
  · have ht : 0 ≤ t := by
      unfold isArrayIndex at ha
      simp only [Bool.and_eq_true, decide_eq_true_eq] at ha
      exact ha.1
    rw [if_pos ha]
    by_cases hl : t.toNat < p.hand.length
    · rw [if_pos hl]
      exact setForget_keeps p hp t ht v _ rfl rfl
    · rw [if_neg hl]
      apply Keeps.of_sub _ _ _ hp
      · intro i hi
        simp only [List.mem_filter, decide_eq_true_eq] at hi
        refine ⟨hi.1, ?_⟩
        have := hp i hi.1
        simp only
        rw [List.append_assoc, List.getElem?_append_left (by omega)]
      · simp only [List.length_append]
        omega
  · rw [if_neg ha]
    apply Keeps.of_sub _ _ _ hp
    · intro i hi
      simp only [List.mem_filter, decide_eq_true_eq] at hi
      exact ⟨hi.1, rfl⟩
    · exact le_refl _

theorem penaltyDraws_spec (rnds : Nat → Rnd) (n : Nat) (p : Player) (d : Deck) (cnt : Nat) :
    ∃ extra, (penaltyDraws rnds n p d cnt).1 = { p with hand := p.hand ++ extra } := by
  induction n generalizing p d cnt with
  | zero => exact ⟨[], by simp [penaltyDraws]⟩
  | succ n ih =>
    unfold penaltyDraws
    simp only
    split
    · rename_i c _
      obtain ⟨extra, he⟩ := ih (p.addCard (some c)) (d.draw (rnds n)).2 (cnt + 1)
      exact ⟨some c :: extra, by rw [he]; simp [Player.addCard]⟩
    · exact ih p _ cnt

theorem appendHand_keeps (p : Player) (hp : p.knownValid) (extra : List Slot) :
    Keeps (fun _ => False) p { p with hand := p.hand ++ extra } := by
  apply Keeps.of_sub _ _ _ hp
  · intro i hi
    refine ⟨hi, ?_⟩
    have := hp i hi
    simp only
    rw [List.getElem?_append_left (by omega)]
  · simp

theorem dealCards_known (rnd : Rnd) (n : Nat) (p : Player) (d : Deck) :
    (dealCards rnd n p d).1.knownCards = p.knownCards := by
  induction n generalizing p d with
  | zero => rfl
  | succ n ih =>
    unfold dealCards
    simp only
    rw [ih]
    split <;> rfl

theorem dealAll_known (rnd : Rnd) (ps : List Player) (d : Deck) :
    ∀ q ∈ (dealAll rnd ps d).1, q.knownCards = [] := by
  induction ps generalizing d with
  | nil => intro q hq; simp [dealAll] at hq
  | cons p ps ih =>
    intro q hq
    unfold dealAll at hq
    simp only [List.mem_cons] at hq
    rcases hq with rfl | hq
    · rw [dealCards_known]; rfl
    · exact ih _ q hq

/-! ### Knowledge of all seats -/

theorem knownValid_of_nil (q : Player) (h : q.knownCards = []) : q.knownValid := by
  intro i hi; rw [h] at hi; cases hi

theorem keeps_of_nil (N : Int → Prop) (p q : Player) (h : q.knownCards = []) : Keeps N p q :=
  ⟨knownValid_of_nil q h, by intro i hi; rw [h] at hi; cases hi⟩

theorem StepOK.refl (N : Player → Int → Prop) (ps : List Player)
    (hkv : ∀ p ∈ ps, p.knownValid) : StepOK N ps ps := by
  intro k q hq
  refine ⟨?_, fun h => by rw [h] at hq; cases hq⟩
  intro p hp
  rw [hq] at hp
  cases hp
  exact Keeps.of_same _ _ _ (hkv q (List.getElem?_mem hq)) rfl rfl

theorem StepOK.of_nil (N : Player → Int → Prop) (ps ps2 : List Player)
    (h : ∀ q ∈ ps2, q.knownCards = []) : StepOK N ps ps2 := by
  intro k q hq
  have := h q (List.getElem?_mem hq)
  exact ⟨fun p _ => keeps_of_nil _ p q this, fun _ => this⟩

theorem StepOK.set (N : Player → Int → Prop) (ps : List Player)
    (hkv : ∀ p ∈ ps, p.knownValid) (a : Nat) (pa qa : Player) (ha : ps[a]? = some pa)
    (hK : Keeps (N pa) pa qa) : StepOK N ps (ps.set a qa) := by
  intro k q hq
  rw [List.getElem?_set] at hq
  by_cases hak : a = k
  · subst hak
    rw [if_pos rfl, if_pos (lt_of_getElem?_some ha)] at hq
    cases hq
    refine ⟨?_, fun h => by rw [h] at ha; cases ha⟩
    intro p hp
    rw [ha] at hp
    cases hp
    exact hK
  · rw [if_neg hak] at hq
    exact StepOK.refl N ps hkv k q hq

theorem StepOK.set2 (N : Player → Int → Prop) (ps : List Player)
    (hkv : ∀ p ∈ ps, p.knownValid) (a b : Nat) (pa qa pb qb : Player)
    (ha : ps[a]? = some pa) (hb : ps[b]? = some pb)
    (hKa : Keeps (N pa) pa qa) (hKb : Keeps (N pb) pb qb) :
    StepOK N ps ((ps.set a qa).set b qb) := by
  intro k q hq
  rw [List.getElem?_set] at hq
  by_cases hbk : b = k
  · subst hbk
    rw [if_pos rfl, if_pos (by rw [List.length_set]; exact lt_of_getElem?_some hb)] at hq
    cases hq
    refine ⟨?_, fun h => by rw [h] at hb; cases hb⟩
    intro p hp
    rw [hb] at hp
    cases hp
    exact hKb
  · rw [if_neg hbk] at hq
    exact StepOK.set N ps hkv a pa qa ha hKa k q hq

theorem StepOK.of_map (N : Player → Int → Prop) (ps ps2 : List Player)
    (hkv : ∀ p ∈ ps, p.knownValid)
    (h : ps2.map (fun p => (p.hand, p.knownCards)) = ps.map (fun p => (p.hand, p.knownCards))) :
    StepOK N ps ps2 := by
  intro k q hq
  have hk : (ps2.map (fun p => (p.hand, p.knownCards)))[k]? = some (q.hand, q.knownCards) := by
    simp [hq]
  rw [h] at hk
  simp only [List.getElem?_map] at hk
  cases hp : ps[k]? with
  | none => rw [hp] at hk; cases hk
  | some p =>
    rw [hp] at hk
    simp only [Option.map_some', Option.some.injEq, Prod.mk.injEq] at hk
    refine ⟨?_, fun h => by cases h⟩
    intro p2 hp2
    cases hp2
    exact Keeps.of_same _ _ _ (hkv p (List.getElem?_mem hp)) hk.2.symm hk.1.symm

theorem StepOK.append_new (N : Player → Int → Prop) (ps : List Player)
    (hkv : ∀ p ∈ ps, p.knownValid) (q0 : Player) (h0 : q0.knownCards = []) :
    StepOK N ps (ps ++ [q0]) := by
  intro k q hq
  by_cases hk : k < ps.length
  · rw [List.getElem?_append_left hk] at hq
    exact StepOK.refl N ps hkv k q hq
  · rw [List.getElem?_append_right (by omega)] at hq
    have hq0 : q = q0 := by
      cases hkk : k - ps.length with
      | zero => rw [hkk] at hq; simpa using hq.symm
      | succ m => rw [hkk] at hq; simp at hq
    subst hq0
    exact ⟨fun p _ => keeps_of_nil _ p q h0, fun _ => h0⟩

/-! ### Knowledge across one engine call -/

theorem addPlayer_stepOK (g : Game) (id : Nat) (name : String) (socketId : Nat)
    (hkv : g.knownValid) :
    StepOK (Op.addPlayer id name socketId).news g.players
      (g.addPlayer id name socketId).2.players :=
  StepOK.append_new _ _ hkv _ rfl

theorem nextTurn_map {β : Type} (π : Player → β)
    (hπ : ∀ (p : Player) (t : Int), π { p with totalScore := t } = π p) (g : Game) :
    g.nextTurn.2.players.map π = g.players.map π := by
  unfold Game.nextTurn
  simp only
  split
  · rfl
  · split
    · split
      · unfold Game.endRound
        simp only
        split
        · rfl
        · rw [applyTotals_map π hπ]
      · rfl
    · rfl

theorem nextTurn_stepOK (g : Game) (hkv : g.knownValid) :
    StepOK Op.nextTurn.news g.players g.nextTurn.2.players :=
  StepOK.of_map _ _ _ hkv (nextTurn_map (fun p => (p.hand, p.knownCards)) (fun _ _ => rfl) g)

theorem map_set_same {β : Type} (π : Player → β) (ps : List Player) (k : Nat) (p q : Player)
    (hp : ps[k]? = some p) (hq : π q = π p) : (ps.set k q).map π = ps.map π := by
  apply List.ext_getElem?
  intro j
  simp only [List.getElem?_map, List.getElem?_set]
  by_cases hjk : k = j
  · subst hjk
    simp [lt_of_getElem?_some hp, hp, hq]
  · simp [hjk]

theorem removePlayer_map {β : Type} (π : Player → β)
    (hπ : ∀ (p : Player) (t : Int), π { p with totalScore := t } = π p)
    (hc : ∀ (p : Player) (c : Bool), π { p with connected := c } = π p)
    (g : Game) (socketId : Nat) :
    (g.removePlayer socketId).2.players.map π = g.players.map π := by
  unfold Game.removePlayer
  split
  · rfl
  · split
    · rfl
    · rename_i k _ player hplayer
      simp only
      split
      · rw [nextTurn_map π hπ]
        exact map_set_same π _ _ _ _ hplayer (hc _ _)
      · exact map_set_same π _ _ _ _ hplayer (hc _ _)

theorem removePlayer_stepOK (g : Game) (socketId : Nat) (hkv : g.knownValid) :
    StepOK (Op.removePlayer socketId).news g.players (g.removePlayer socketId).2.players :=
  StepOK.of_map _ _ _ hkv
    (removePlayer_map (fun p => (p.hand, p.knownCards)) (fun _ _ => rfl) (fun _ _ => rfl) g
      socketId)

theorem reconnectPlayer_stepOK (g : Game) (socketId playerId : Nat) (hkv : g.knownValid) :
    StepOK (Op.reconnectPlayer socketId playerId).news g.players
      (g.reconnectPlayer socketId playerId).2.players := by
  unfold Game.reconnectPlayer
  split
  · exact StepOK.refl _ _ hkv
  · split
    · exact StepOK.refl _ _ hkv
    · rename_i k _ player hplayer
      exact StepOK.set _ _ hkv _ _ _ hplayer
        (Keeps.of_same _ _ _ (hkv _ (List.getElem?_mem hplayer)) rfl rfl)

theorem startGame_stepOK (g : Game) (rnd : Rnd) (hkv : g.knownValid) :
    StepOK (Op.startGame rnd).news g.players (g.startGame rnd).2.players := by
  unfold Game.startGame
  split
  · exact StepOK.refl _ _ hkv
  · exact StepOK.of_nil _ _ _ (dealAll_known rnd g.players _)


theorem initialPeek_stepOK (g : Game) (playerId : Nat) (indices : List Int)
    (hkv : g.knownValid) :
    StepOK (Op.initialPeek playerId indices).news g.players
      (g.initialPeek playerId indices).2.players := by
  unfold Game.initialPeek
  split
  · exact StepOK.refl _ _ hkv
  · cases hk : g.playerIdx playerId with
    | none => exact StepOK.refl _ _ hkv
    | some k =>
      obtain ⟨player, hplayer, hpid⟩ := playerIdx_some g playerId k hk
      simp only [hplayer]
      split
      · exact StepOK.refl _ _ hkv
      · split
        · exact StepOK.refl _ _ hkv
        · refine StepOK.set _ _ hkv _ _ _ hplayer
            ((markAll_keeps player (hkv _ (List.getElem?_mem hplayer)) indices).mono ?_)
          intro i hi
          exact Or.inl ⟨⟨hpid, hi.1⟩, hi.2⟩

theorem startPlaying_stepOK (g : Game) (hkv : g.knownValid) :
    StepOK Op.startPlaying.news g.players g.startPlaying.2.players :=
  StepOK.refl _ _ hkv

theorem drawCard_players (g : Game) (playerId : Nat) (rnd : Rnd) :
    (g.drawCard playerId rnd).2.players = g.players := by
  unfold Game.drawCard
  repeat' split
  all_goals first | rfl | (simp only []; split <;> rfl)

theorem drawCard_stepOK (g : Game) (playerId : Nat) (rnd : Rnd) (hkv : g.knownValid) :
    StepOK (Op.drawCard playerId rnd).news g.players (g.drawCard playerId rnd).2.players := by
  rw [drawCard_players]
  exact StepOK.refl _ _ hkv

theorem swapWithHand_stepOK (g : Game) (playerId : Nat) (handIndex : Int)
    (hkv : g.knownValid) :
    StepOK (Op.swapWithHand playerId handIndex).news g.players
      (g.swapWithHand playerId handIndex).2.players := by
  unfold Game.swapWithHand
  cases hcur : g.getCurrentPlayer with
  | none => exact StepOK.refl _ _ hkv
  | some player =>
    simp only
    split
    · exact StepOK.refl _ _ hkv
    · rename_i hid
      split
      · exact StepOK.refl _ _ hkv
      · split
        · exact StepOK.refl _ _ hkv
        · refine StepOK.set _ _ hkv _ _ _ hcur
            ((swapMark_keeps player (hkv _ (List.getElem?_mem hcur)) handIndex _).mono ?_)
          intro i hi
          exact Or.inr ⟨by simpa using hid, hi⟩

theorem discardDrawnCard_players (g : Game) (playerId : Nat) :
    (g.discardDrawnCard playerId).2.players = g.players := by
  unfold Game.discardDrawnCard
  repeat' split
  all_goals rfl

theorem discardDrawnCard_stepOK (g : Game) (playerId : Nat) (hkv : g.knownValid) :
    StepOK (Op.discardDrawnCard playerId).news g.players
      (g.discardDrawnCard playerId).2.players := by
  rw [discardDrawnCard_players]
  exact StepOK.refl _ _ hkv

theorem usePower_players (g : Game) (playerId : Nat) :
    (g.usePower playerId).2.players = g.players := by
  unfold Game.usePower
  repeat' split
  all_goals rfl

theorem usePower_stepOK (g : Game) (playerId : Nat) (hkv : g.knownValid) :
    StepOK (Op.usePower playerId).news g.players (g.usePower playerId).2.players := by
  rw [usePower_players]
  exact StepOK.refl _ _ hkv

theorem doubleDrop_stepOK (g : Game) (playerId : Nat) (handIndex : Int) (usePowerToo : Bool)
    (rnds : Nat → Rnd) (hkv : g.knownValid) :
    StepOK (Op.doubleDrop playerId handIndex usePowerToo rnds).news g.players
      (g.doubleDrop playerId handIndex usePowerToo rnds).2.players := by
  unfold Game.doubleDrop
  cases hcur : g.getCurrentPlayer with
  | none => exact StepOK.refl _ _ hkv
  | some player =>
    have hpv := hkv _ (List.getElem?_mem hcur)
    simp only
    split
    · exact StepOK.refl _ _ hkv
    · split
      · exact StepOK.refl _ _ hkv
      · split
        · exact StepOK.refl _ _ hkv
        · split
          · exact StepOK.refl _ _ hkv
          · split
            · obtain ⟨extra, he⟩ := penaltyDraws_spec rnds 2 player g.deck 0
              simp only [he]
              exact StepOK.set _ _ hkv _ _ _ hcur
                ((appendHand_keeps player hpv extra).mono (fun _ h => absurd h id))
            · have hrm := StepOK.set (Op.doubleDrop playerId handIndex usePowerToo rnds).news
                _ hkv _ _ _ hcur
                ((removeCard_keeps player hpv handIndex).mono (fun _ h => absurd h id))
              split
              · split
                · exact hrm
                · exact hrm
              · exact hrm

theorem callCobra_players (g : Game) (playerId : Nat) :
    (g.callCobra playerId).2.players = g.players := by
  unfold Game.callCobra
  repeat' split
  all_goals rfl

theorem callCobra_stepOK (g : Game) (playerId : Nat) (hkv : g.knownValid) :
    StepOK (Op.callCobra playerId).news g.players (g.callCobra playerId).2.players := by
  rw [callCobra_players]
  exact StepOK.refl _ _ hkv


theorem resolvePeekOwn_stepOK (g : Game) (playerId : Nat) (cardIndex : Int)
    (hkv : g.knownValid) :
    StepOK (Op.resolvePeekOwn playerId cardIndex).news g.players
      (g.resolvePeekOwn playerId cardIndex).2.players := by
  unfold Game.resolvePeekOwn
  split
  · exact StepOK.refl _ _ hkv
  · split
    · exact StepOK.refl _ _ hkv
    · cases hk : g.playerIdx playerId with
      | none => exact StepOK.refl _ _ hkv
      | some k =>
        obtain ⟨player, hplayer, hpid⟩ := playerIdx_some g playerId k hk
        simp only [hplayer]
        split
        · exact StepOK.refl _ _ hkv
        · refine StepOK.set _ _ hkv _ _ _ hplayer
            ((markKnown_keeps player (hkv _ (List.getElem?_mem hplayer)) cardIndex).mono ?_)
          intro i hi
          exact Or.inl ⟨⟨hpid, hi.1⟩, hi.2⟩

theorem resolvePeekOther_players (g : Game) (playerId targetPlayerId : Nat) (cardIndex : Int) :
    (g.resolvePeekOther playerId targetPlayerId cardIndex).2.players = g.players := by
  unfold Game.resolvePeekOther
  repeat' split
  all_goals rfl

theorem resolvePeekOther_stepOK (g : Game) (playerId targetPlayerId : Nat) (cardIndex : Int)
    (hkv : g.knownValid) :
    StepOK (Op.resolvePeekOther playerId targetPlayerId cardIndex).news g.players
      (g.resolvePeekOther playerId targetPlayerId cardIndex).2.players := by
  rw [resolvePeekOther_players]
  exact StepOK.refl _ _ hkv

theorem resolveQueenSwap_stepOK (g : Game) (playerId player1Id : Nat) (card1Index : Int)
    (player2Id : Nat) (card2Index : Int) (hkv : g.knownValid) :
    StepOK (Op.resolveQueenSwap playerId player1Id card1Index player2Id card2Index).news
      g.players
      (g.resolveQueenSwap playerId player1Id card1Index player2Id card2Index).2.players := by
  unfold Game.resolveQueenSwap
  split
  · exact StepOK.refl _ _ hkv
  · split
    · exact StepOK.refl _ _ hkv
    · cases hk1 : g.playerIdx player1Id with
      | none => exact StepOK.refl _ _ hkv
      | some k1 =>
        cases hk2 : g.playerIdx player2Id with
        | none => exact StepOK.refl _ _ hkv
        | some k2 =>
          obtain ⟨p1, hp1, _⟩ := playerIdx_some g player1Id k1 hk1
          obtain ⟨p2, hp2, _⟩ := playerIdx_some g player2Id k2 hk2
          simp only [hp1, hp2]
          split
          · exact StepOK.refl _ _ hkv
          · split
            · exact StepOK.refl _ _ hkv
            · split
              · exact StepOK.refl _ _ hkv
              · rename_i h1 h2
                exact StepOK.set2 _ _ hkv _ _ _ _ _ _ hp1 hp2
                  ((setForget_keeps p1 (hkv _ (List.getElem?_mem hp1)) card1Index (by omega) _ _
                    rfl rfl).mono (fun _ h => absurd h id))
                  ((setForget_keeps p2 (hkv _ (List.getElem?_mem hp2)) card2Index (by omega) _ _
                    rfl rfl).mono (fun _ h => absurd h id))

theorem resolveBlackJackPeek_stepOK (g : Game) (playerId : Nat) (indices : List Int)
    (hkv : g.knownValid) :
    StepOK (Op.resolveBlackJackPeek playerId indices).news g.players
      (g.resolveBlackJackPeek playerId indices).2.players := by
  unfold Game.resolveBlackJackPeek
  split
  · exact StepOK.refl _ _ hkv
  · split
    · exact StepOK.refl _ _ hkv
    · cases hk : g.playerIdx playerId with
      | none => exact StepOK.refl _ _ hkv
      | some k =>
        obtain ⟨player, hplayer, hpid⟩ := playerIdx_some g playerId k hk
        simp only [hplayer]
        split
        · exact StepOK.refl _ _ hkv
        · refine StepOK.set _ _ hkv _ _ _ hplayer
            ((markAll_keeps player (hkv _ (List.getElem?_mem hplayer)) indices).mono ?_)
          intro i hi
          exact Or.inl ⟨⟨hpid, hi.1⟩, hi.2⟩

theorem resolveBlackJackSwap_stepOK (g : Game) (playerId : Nat) (myCardIndex : Int)
    (targetPlayerId : Nat) (targetCardIndex : Int) (hkv : g.knownValid) :
    StepOK (Op.resolveBlackJackSwap playerId myCardIndex targetPlayerId targetCardIndex).news
      g.players
      (g.resolveBlackJackSwap playerId myCardIndex targetPlayerId targetCardIndex).2.players := by
  unfold Game.resolveBlackJackSwap
  split
  · exact StepOK.refl _ _ hkv
  · split
    · exact StepOK.refl _ _ hkv
    · cases hk1 : g.playerIdx playerId with
      | none => exact StepOK.refl _ _ hkv
      | some k1 =>
        cases hk2 : g.playerIdx targetPlayerId with
        | none => exact StepOK.refl _ _ hkv
        | some k2 =>
          obtain ⟨p1, hp1, _⟩ := playerIdx_some g playerId k1 hk1
          obtain ⟨p2, hp2, _⟩ := playerIdx_some g targetPlayerId k2 hk2
          simp only [hp1, hp2]
          split
          · exact StepOK.refl _ _ hkv
          · exact StepOK.set2 _ _ hkv _ _ _ _ _ _ hp1 hp2
              ((handSetForget_keeps p1 (hkv _ (List.getElem?_mem hp1)) myCardIndex _).mono
                (fun _ h => absurd h id))
              ((handSetForget_keeps p2 (hkv _ (List.getElem?_mem hp2)) targetCardIndex _).mono
                (fun _ h => absurd h id))

theorem resolveBlackJackSkip_players (g : Game) (playerId : Nat) :
    (g.resolveBlackJackSkip playerId).2.players = g.players := by
  unfold Game.resolveBlackJackSkip
  repeat' split
  all_goals rfl

theorem resolveBlackJackSkip_stepOK (g : Game) (playerId : Nat) (hkv : g.knownValid) :
    StepOK (Op.resolveBlackJackSkip playerId).news g.players
      (g.resolveBlackJackSkip playerId).2.players := by
  rw [resolveBlackJackSkip_players]
  exact StepOK.refl _ _ hkv

theorem penaltyCard_stepOK (N : Player → Int → Prop) (g : Game) (k : Nat) (player : Player)
    (rnd : Rnd) (hkv : g.knownValid) (hplayer : g.players[k]? = some player) :
    StepOK N g.players (g.penaltyCard k player rnd).2.players := by
  unfold Game.penaltyCard
  simp only
  split
  · exact StepOK.set _ _ hkv _ _ _ hplayer
      ((addCard_keeps player (hkv _ (List.getElem?_mem hplayer)) _).mono
        (fun _ h => absurd h id))
  · exact StepOK.refl _ _ hkv

theorem snapCard_stepOK (g : Game) (playerId : Nat) (cardIndex : Int) (rnd : Rnd)
    (hkv : g.knownValid) :
    StepOK (Op.snapCard playerId cardIndex rnd).news g.players
      (g.snapCard playerId cardIndex rnd).2.players := by
  unfold Game.snapCard
  split
  · exact StepOK.refl _ _ hkv
  · split
    · exact StepOK.refl _ _ hkv
    · cases hk : g.playerIdx playerId with
      | none => exact StepOK.refl _ _ hkv
      | some k =>
        obtain ⟨player, hplayer, hpid⟩ := playerIdx_some g playerId k hk
        simp only [hplayer]
        split
        · exact StepOK.refl _ _ hkv
        · split
          · exact StepOK.refl _ _ hkv
          · split
            · exact StepOK.set _ _ hkv _ _ _ hplayer
                ((removeCard_keeps player (hkv _ (List.getElem?_mem hplayer)) cardIndex).mono
                  (fun _ h => absurd h id))
            · exact penaltyCard_stepOK _ g k player rnd hkv hplayer

theorem stealCard_stepOK (g : Game) (thiefId targetId : Nat)
    (targetCardIndex thiefCardIndex : Int) (rnd : Rnd) (hkv : g.knownValid) :
    StepOK (Op.stealCard thiefId targetId targetCardIndex thiefCardIndex rnd).news g.players
      (g.stealCard thiefId targetId targetCardIndex thiefCardIndex rnd).2.players := by
  unfold Game.stealCard
  split
  · exact StepOK.refl _ _ hkv
  · cases hk1 : g.playerIdx thiefId with
    | none => exact StepOK.refl _ _ hkv
    | some k1 =>
      cases hk2 : g.playerIdx targetId with
      | none => exact StepOK.refl _ _ hkv
      | some k2 =>
        obtain ⟨thief, hthief, _⟩ := playerIdx_some g thiefId k1 hk1
        obtain ⟨target, htarget, _⟩ := playerIdx_some g targetId k2 hk2
        simp only [hthief, htarget]
        split
        · exact StepOK.refl _ _ hkv
        · split
          · exact StepOK.refl _ _ hkv
          · split
            · exact StepOK.refl _ _ hkv
            · rename_i ht hth
              split
              · exact StepOK.refl _ _ hkv
              · split
                · refine StepOK.set2 _ _ hkv _ _ _ _ _ _ hthief htarget ?_ ?_
                  · rw [removeCard_after_set thief thiefCardIndex (by omega) (by omega)]
                    exact (removeCard_keeps thief (hkv _ (List.getElem?_mem hthief))
                      thiefCardIndex).mono (fun _ h => absurd h id)
                  · exact (setForget_keeps target (hkv _ (List.getElem?_mem htarget))
                      targetCardIndex (by omega) _ _ rfl rfl).mono (fun _ h => absurd h id)
                · exact penaltyCard_stepOK _ g k1 thief rnd hkv hthief

/-- Knowledge across any engine call: every seat present before is related by `Keeps`, and a
new seat knows nothing. -/
theorem step_stepOK (g : Game) (op : Op) (hkv : g.knownValid) :
    StepOK op.news g.players (step g op).2.players := by
  cases op with
  | addPlayer id name socketId => exact addPlayer_stepOK g id name socketId hkv
  | removePlayer socketId => exact removePlayer_stepOK g socketId hkv
  | reconnectPlayer socketId playerId => exact reconnectPlayer_stepOK g socketId playerId hkv
  | startGame rnd => exact startGame_stepOK g rnd hkv
  | initialPeek playerId indices => exact initialPeek_stepOK g playerId indices hkv
  | startPlaying => exact startPlaying_stepOK g hkv
  | drawCard playerId rnd => exact drawCard_stepOK g playerId rnd hkv
  | swapWithHand playerId handIndex => exact swapWithHand_stepOK g playerId handIndex hkv
  | discardDrawnCard playerId => exact discardDrawnCard_stepOK g playerId hkv
  | usePower playerId => exact usePower_stepOK g playerId hkv
  | doubleDrop playerId handIndex usePowerToo rnds =>
    exact doubleDrop_stepOK g playerId handIndex usePowerToo rnds hkv
  | resolvePeekOwn playerId cardIndex => exact resolvePeekOwn_stepOK g playerId cardIndex hkv
  | resolvePeekOther playerId targetPlayerId cardIndex =>
    exact resolvePeekOther_stepOK g playerId targetPlayerId cardIndex hkv
  | resolveQueenSwap playerId player1Id card1Index player2Id card2Index =>
    exact resolveQueenSwap_stepOK g playerId player1Id card1Index player2Id card2Index hkv
  | resolveBlackJackPeek playerId indices =>
    exact resolveBlackJackPeek_stepOK g playerId indices hkv
  | resolveBlackJackSwap playerId myCardIndex targetPlayerId targetCardIndex =>
    exact resolveBlackJackSwap_stepOK g playerId myCardIndex targetPlayerId targetCardIndex hkv
  | resolveBlackJackSkip playerId => exact resolveBlackJackSkip_stepOK g playerId hkv
  | snapCard playerId cardIndex rnd => exact snapCard_stepOK g playerId cardIndex rnd hkv
  | stealCard thiefId targetId targetCardIndex thiefCardIndex rnd =>
    exact stealCard_stepOK g thiefId targetId targetCardIndex thiefCardIndex rnd hkv
  | callCobra playerId => exact callCobra_stepOK g playerId hkv
  | nextTurn => exact nextTurn_stepOK g hkv

theorem step_knownValid (g : Game) (op : Op) (hkv : g.knownValid) :
    (step g op).2.knownValid := by
  intro q hq
  obtain ⟨k, hk⟩ := List.mem_iff_getElem?.1 hq
  have h := step_stepOK g op hkv k q hk
  cases hp : g.players[k]? with
  | none => exact knownValid_of_nil q (h.2 hp)
  | some p => exact (h.1 p hp).1

theorem reachable_knownValid (g : Game) (h : Reachable g) : g.knownValid := by
  induction h with
  | init roomCode => intro p hp; simp [Game.new] at hp
  | step g op _ ih => exact step_knownValid g op ih

theorem reachable_run (g : Game) (ops : List Op) (h : Reachable g) : Reachable (run g ops) := by
  induction ops generalizing g with
  | nil => exact h
  | cons op ops ih => exact ih _ (Reachable.step g op h)

/-- C5. In every state reachable from a new match by engine operations, every known index of
every player is a valid index of that player's hand. -/
theorem knownCards_valid (g : Game) (h : Reachable g) :
    ∀ p ∈ g.players, ∀ i ∈ p.knownCards, 0 ≤ i ∧ i < (p.hand.length : Int) := by
  induction h with
  | init roomCode =>
    intro p hp
    simp [Game.new] at hp
  | step g op _ ih =>
    intro q hq
    obtain ⟨k, hk⟩ := List.mem_iff_getElem?.1 hq
    have hstep := step_stepOK g op ih k q hk
    cases hp : g.players[k]? with
    | none => exact knownValid_of_nil q (hstep.2 hp)
    | some p => exact (hstep.1 p hp).1

set_option maxRecDepth 100000 in
/-- C5, instance: after the opening of a match the first player knows the slots 0 and 1 of a
hand of four cards. -/
theorem knownCards_valid_witness :
    Reachable (run (Game.new "ROOM") openingOps) ∧
    (∀ p ∈ (run (Game.new "ROOM") openingOps).players, ∀ i ∈ p.knownCards,
      0 ≤ i ∧ i < (p.hand.length : Int)) ∧
    (run (Game.new "ROOM") openingOps).players.map (fun p => (p.knownCards, p.hand.length)) =
      [([0, 1], 4), ([], 4)] :=
  ⟨reachable_run _ _ (Reachable.init "ROOM"),
   knownCards_valid _ (reachable_run _ _ (Reachable.init "ROOM")),
   by decide⟩

/-- C4. Knowledge soundness across one engine call: an index that a player knows afterwards
is either newly marked by the call (a peeked index not known before), or the slot the player
fills in `swapWithHand`, or it refers to the very card the player knew before, at the same
slot or, after a removal from that hand, one slot higher. -/
theorem knowledge_sound (g : Game) (op : Op) (hkv : g.knownValid) (k : Nat) (p q : Player)
    (hp : g.players[k]? = some p) (hq : (step g op).2.players[k]? = some q)
    (i : Int) (hi : i ∈ q.knownCards) :
    (op.peeks p.id i ∧ i ∉ p.knownCards) ∨ op.places p.id i ∨
      ∃ j ∈ p.knownCards, (j = i ∨ (j = i + 1 ∧ q.hand.length + 1 = p.hand.length)) ∧
        q.hand[i.toNat]? = p.hand[j.toNat]? := by
  have h := ((step_stepOK g op hkv k q hq).1 p hp).2 i hi
  rcases h with (h | h) | h
  · exact Or.inl h
  · exact Or.inr (Or.inl h)
  · exact Or.inr (Or.inr h)


/-- C4, instance: the first seat holds 5, 7, 7 and knows the slots 0 and 2; after snapping the
7 at slot 1 the known index 1 refers to the card formerly known at slot 2. -/
theorem knowledge_sound_witness :
    (snapGame.knownValid ∧ snapGame.players[0]? = some snapBefore ∧
      (step snapGame (Op.snapCard 1 1 (fun i => i))).2.players[0]? = some snapAfter ∧
      (1 : Int) ∈ snapAfter.knownCards) ∧
    ((Op.snapCard 1 1 (fun i => i)).peeks snapBefore.id 1 ∧ (1 : Int) ∉ snapBefore.knownCards ∨
      (Op.snapCard 1 1 (fun i => i)).places snapBefore.id 1 ∨
      ∃ j ∈ snapBefore.knownCards,
        (j = 1 ∨ (j = 1 + 1 ∧ snapAfter.hand.length + 1 = snapBefore.hand.length)) ∧
        snapAfter.hand[(1 : Int).toNat]? = snapBefore.hand[j.toNat]?) :=
  ⟨⟨by decide, by decide, by decide, by decide⟩,
   knowledge_sound snapGame (Op.snapCard 1 1 (fun i => i)) (by decide) 0 snapBefore snapAfter
     (by decide) (by decide) 1 (by decide)⟩

/-! ### The shuffle and the draw -/

theorem swapAt_length (l : List Slot) (i j : Nat) : (swapAt l i j).length = l.length := by
  unfold swapAt
  split <;> simp

theorem swapAt_mem (l : List Slot) (i j : Nat) : ∀ x ∈ swapAt l i j, x ∈ l := by
  unfold swapAt
  split
  · rename_i a b ha hb
    intro x hx
    rcases List.mem_or_eq_of_mem_set hx with hx | rfl
    · rcases List.mem_or_eq_of_mem_set hx with hx | rfl
      · exact hx
      · exact List.getElem?_mem hb
    · exact List.getElem?_mem ha
  · intro x hx; exact hx

theorem shuffleLoop_length (rnd : Rnd) (n : Nat) (cs : List Slot) :
    (shuffleLoop rnd n cs).length = cs.length := by
  induction n generalizing cs with
  | zero => rfl
  | succ n ih => unfold shuffleLoop; rw [ih, swapAt_length]

theorem shuffleLoop_mem (rnd : Rnd) (n : Nat) (cs : List Slot) :
    ∀ x ∈ shuffleLoop rnd n cs, x ∈ cs := by
  induction n generalizing cs with
  | zero => intro x hx; exact hx
  | succ n ih =>
    intro x hx
    unfold shuffleLoop at hx
    exact swapAt_mem _ _ _ x (ih _ x hx)

theorem shuffle_length (rnd : Rnd) (cs : List Slot) : (shuffle rnd cs).length = cs.length :=
  shuffleLoop_length rnd _ cs

theorem shuffle_mem (rnd : Rnd) (cs : List Slot) : ∀ x ∈ shuffle rnd cs, x ∈ cs :=
  shuffleLoop_mem rnd _ cs

theorem popVal_mem (l : List Slot) (hl : l ≠ []) : popVal l ∈ l := by
  unfold popVal
  rw [List.getLast?_eq_getLast l hl]
  exact List.getLast_mem hl

theorem popVal_some (l : List Slot) (hl : l ≠ []) (hall : ∀ x ∈ l, x ≠ none) :
    ∃ c, popVal l = some c := by
  have := hall _ (popVal_mem l hl)
  cases h : popVal l with
  | none => exact absurd h this
  | some c => exact ⟨c, rfl⟩

/-- On a deck of cards, `draw` either returns no card and changes nothing, or returns a card
and removes exactly one entry from the two piles, which still hold cards only. -/
theorem draw_spec (d : Deck) (rnd : Rnd) (hd : d.allCards) :
    ((d.draw rnd).1 = none ∧ (d.draw rnd).2 = d) ∨
    (∃ c, (d.draw rnd).1 = some c ∧
      (d.draw rnd).2.cards.length + (d.draw rnd).2.discardPile.length + 1 =
        d.cards.length + d.discardPile.length ∧ (d.draw rnd).2.allCards) := by
  unfold Deck.draw
  by_cases hc : d.cards.length = 0
  · rw [if_pos hc]
    by_cases hdl : d.discardPile.length ≤ 1
    · rw [if_pos hdl]; exact Or.inl ⟨rfl, rfl⟩
    · rw [if_neg hdl]
      right
      have hne : shuffle rnd d.discardPile.dropLast ≠ [] := by
        intro h
        have := shuffle_length rnd d.discardPile.dropLast
        rw [h] at this
        simp at this
        omega
      have hmem : ∀ x ∈ shuffle rnd d.discardPile.dropLast, x ≠ none := fun x hx =>
        hd.2 x (List.dropLast_subset _ (shuffle_mem rnd _ x hx))
      obtain ⟨c, hcs⟩ := popVal_some _ hne hmem
      refine ⟨c, hcs, ?_, ?_, ?_⟩
      · simp only [List.length_dropLast, shuffle_length, List.length_singleton]
        omega
      · intro x hx
        exact hmem x (List.dropLast_subset _ hx)
      · intro x hx
        simp only [List.mem_singleton] at hx
        subst hx
        exact hd.2 _ (popVal_mem _ (by intro h; rw [h] at hdl; simp at hdl))
  · rw [if_neg hc]
    right
    have hne : d.cards ≠ [] := by intro h; rw [h] at hc; simp at hc
    obtain ⟨c, hcs⟩ := popVal_some _ hne hd.1
    refine ⟨c, hcs, ?_, ?_, hd.2⟩
    · simp only [List.length_dropLast]
      omega
    · intro x hx
      exact hd.1 x (List.dropLast_subset _ hx)


/-! ### Error atomicity -/

theorem ErrAtomic.of_error (g : Game) (msg : String) : ErrAtomic g (Outcome.error msg, g) :=
  fun _ _ => rfl

theorem drawCard_errAtomic (g : Game) (playerId : Nat) (rnd : Rnd) (hd : g.deck.allCards) :
    ErrAtomic g (g.drawCard playerId rnd) := by
  unfold Game.drawCard
  split
  · exact ErrAtomic.of_error _ _
  · split
    · exact ErrAtomic.of_error _ _
    · split
      · exact ErrAtomic.of_error _ _
      · split
        · exact ErrAtomic.of_error _ _
        · simp only []
          rcases draw_spec g.deck rnd hd with ⟨h1, h2⟩ | ⟨c, h1, _, _⟩
          · rw [h1, h2]
            intro _ _
            rfl
          · rw [h1]
            intro msg h
            cases h

theorem startGame_errAtomic (g : Game) (rnd : Rnd) : ErrAtomic g (g.startGame rnd) := by
  unfold Game.startGame
  split
  · exact ErrAtomic.of_error _ _
  · intro msg h; cases h

theorem initialPeek_errAtomic (g : Game) (playerId : Nat) (indices : List Int) :
    ErrAtomic g (g.initialPeek playerId indices) := by
  unfold Game.initialPeek
  repeat' split
  all_goals first | exact ErrAtomic.of_error _ _ | (intro msg h; cases h)

theorem swapWithHand_errAtomic (g : Game) (playerId : Nat) (handIndex : Int) :
    ErrAtomic g (g.swapWithHand playerId handIndex) := by
  unfold Game.swapWithHand
  repeat' split
  all_goals first | exact ErrAtomic.of_error _ _ | (intro msg h; cases h)

theorem discardDrawnCard_errAtomic (g : Game) (playerId : Nat) :
    ErrAtomic g (g.discardDrawnCard playerId) := by
  unfold Game.discardDrawnCard
  repeat' split
  all_goals first | exact ErrAtomic.of_error _ _ | (intro msg h; cases h)

theorem usePower_errAtomic (g : Game) (playerId : Nat) : ErrAtomic g (g.usePower playerId) := by
  unfold Game.usePower
  repeat' split
  all_goals first | exact ErrAtomic.of_error _ _ | (intro msg h; cases h)

theorem doubleDrop_errAtomic (g : Game) (playerId : Nat) (handIndex : Int) (usePowerToo : Bool)
    (rnds : Nat → Rnd) : ErrAtomic g (g.doubleDrop playerId handIndex usePowerToo rnds) := by
  unfold Game.doubleDrop
  repeat' split
  all_goals first
    | exact ErrAtomic.of_error _ _
    | (intro msg h; cases h)
    | (simp only []
       repeat' split
       all_goals (intro msg h; cases h))

theorem resolvePeekOwn_errAtomic (g : Game) (playerId : Nat) (cardIndex : Int) :
    ErrAtomic g (g.resolvePeekOwn playerId cardIndex) := by
  unfold Game.resolvePeekOwn
  repeat' split
  all_goals first | exact ErrAtomic.of_error _ _ | (intro msg h; cases h)

theorem resolvePeekOther_errAtomic (g : Game) (playerId targetPlayerId : Nat)
    (cardIndex : Int) : ErrAtomic g (g.resolvePeekOther playerId targetPlayerId cardIndex) := by
  unfold Game.resolvePeekOther
  repeat' split
  all_goals first | exact ErrAtomic.of_error _ _ | (intro msg h; cases h)

theorem resolveQueenSwap_errAtomic (g : Game) (playerId player1Id : Nat) (card1Index : Int)
    (player2Id : Nat) (card2Index : Int) :
    ErrAtomic g (g.resolveQueenSwap playerId player1Id card1Index player2Id card2Index) := by
  unfold Game.resolveQueenSwap
  repeat' split
  all_goals first | exact ErrAtomic.of_error _ _ | (intro msg h; cases h)

theorem resolveBlackJackPeek_errAtomic (g : Game) (playerId : Nat) (indices : List Int) :
    ErrAtomic g (g.resolveBlackJackPeek playerId indices) := by
  unfold Game.resolveBlackJackPeek
  repeat' split
  all_goals first | exact ErrAtomic.of_error _ _ | (intro msg h; cases h)

theorem resolveBlackJackSwap_errAtomic (g : Game) (playerId : Nat) (myCardIndex : Int)
    (targetPlayerId : Nat) (targetCardIndex : Int) :
    ErrAtomic g
      (g.resolveBlackJackSwap playerId myCardIndex targetPlayerId targetCardIndex) := by
  unfold Game.resolveBlackJackSwap
  repeat' split
  all_goals first | exact ErrAtomic.of_error _ _ | (intro msg h; cases h)

theorem resolveBlackJackSkip_errAtomic (g : Game) (playerId : Nat) :
    ErrAtomic g (g.resolveBlackJackSkip playerId) := by
  unfold Game.resolveBlackJackSkip
  repeat' split
  all_goals first | exact ErrAtomic.of_error _ _ | (intro msg h; cases h)

theorem snapCard_errAtomic (g : Game) (playerId : Nat) (cardIndex : Int) (rnd : Rnd) :
    ErrAtomic g (g.snapCard playerId cardIndex rnd) := by
  unfold Game.snapCard
  repeat' split
  all_goals first | exact ErrAtomic.of_error _ _ | (intro msg h; cases h)

theorem stealCard_errAtomic (g : Game) (thiefId targetId : Nat)
    (targetCardIndex thiefCardIndex : Int) (rnd : Rnd) :
    ErrAtomic g (g.stealCard thiefId targetId targetCardIndex thiefCardIndex rnd) := by
  unfold Game.stealCard
  repeat' split
  all_goals first | exact ErrAtomic.of_error _ _ | (intro msg h; cases h)

theorem callCobra_errAtomic (g : Game) (playerId : Nat) :
    ErrAtomic g (g.callCobra playerId) := by
  unfold Game.callCobra
  repeat' split
  all_goals first | exact ErrAtomic.of_error _ _ | (intro msg h; cases h)

theorem endRound_errAtomic (g g0 : Game) : ErrAtomic g0 g.endRound := by
  unfold Game.endRound
  simp only
  split <;> (intro msg h; cases h)

theorem nextTurn_errAtomic (g : Game) : ErrAtomic g g.nextTurn := by
  unfold Game.nextTurn
  simp only
  repeat' split
  all_goals first | exact endRound_errAtomic _ _ | (intro msg h; cases h)

theorem removePlayer_errAtomic (g : Game) (socketId : Nat) :
    ErrAtomic g (g.removePlayer socketId) := by
  unfold Game.removePlayer
  repeat' split
  all_goals first
    | (intro msg h; cases h)
    | (simp only []
       repeat' split
       all_goals (intro msg h; cases h))

theorem reconnectPlayer_errAtomic (g : Game) (socketId playerId : Nat) :
    ErrAtomic g (g.reconnectPlayer socketId playerId) := by
  unfold Game.reconnectPlayer
  repeat' split
  all_goals (intro msg h; cases h)

/-- C6. Error atomicity: on a state whose deck holds cards only, an engine operation that
returns a structured error leaves the match state exactly as it was. -/
theorem error_atomic (g : Game) (op : Op) (hd : g.deck.allCards) (msg : String)
    (h : (step g op).1 = Outcome.error msg) : (step g op).2 = g := by
  cases op with
  | addPlayer id name socketId => cases h
  | removePlayer socketId => exact removePlayer_errAtomic g socketId msg h
  | reconnectPlayer socketId playerId => exact reconnectPlayer_errAtomic g socketId playerId msg h
  | startGame rnd => exact startGame_errAtomic g rnd msg h
  | initialPeek playerId indices => exact initialPeek_errAtomic g playerId indices msg h
  | startPlaying => cases h
  | drawCard playerId rnd => exact drawCard_errAtomic g playerId rnd hd msg h
  | swapWithHand playerId handIndex => exact swapWithHand_errAtomic g playerId handIndex msg h
  | discardDrawnCard playerId => exact discardDrawnCard_errAtomic g playerId msg h
  | usePower playerId => exact usePower_errAtomic g playerId msg h
  | doubleDrop playerId handIndex usePowerToo rnds =>
    exact doubleDrop_errAtomic g playerId handIndex usePowerToo rnds msg h
  | resolvePeekOwn playerId cardIndex => exact resolvePeekOwn_errAtomic g playerId cardIndex msg h
  | resolvePeekOther playerId targetPlayerId cardIndex =>
    exact resolvePeekOther_errAtomic g playerId targetPlayerId cardIndex msg h
  | resolveQueenSwap playerId player1Id card1Index player2Id card2Index =>
    exact resolveQueenSwap_errAtomic g playerId player1Id card1Index player2Id card2Index msg h
  | resolveBlackJackPeek playerId indices =>
    exact resolveBlackJackPeek_errAtomic g playerId indices msg h
  | resolveBlackJackSwap playerId myCardIndex targetPlayerId targetCardIndex =>
    exact resolveBlackJackSwap_errAtomic g playerId myCardIndex targetPlayerId targetCardIndex
      msg h
  | resolveBlackJackSkip playerId => exact resolveBlackJackSkip_errAtomic g playerId msg h
  | snapCard playerId cardIndex rnd => exact snapCard_errAtomic g playerId cardIndex rnd msg h
  | stealCard thiefId targetId targetCardIndex thiefCardIndex rnd =>
    exact stealCard_errAtomic g thiefId targetId targetCardIndex thiefCardIndex rnd msg h
  | callCobra playerId => exact callCobra_errAtomic g playerId msg h
  | nextTurn => exact nextTurn_errAtomic g msg h

/-- C6, instance: drawing from the exhausted deck is rejected with "Deck is empty" and the
state is untouched. -/
theorem error_atomic_witness :
    (exhaustedGame.deck.allCards ∧
      (step exhaustedGame (Op.drawCard 1 (fun i => i))).1 = Outcome.error "Deck is empty") ∧
    (step exhaustedGame (Op.drawCard 1 (fun i => i))).2 = exhaustedGame :=
  ⟨⟨by decide, by decide⟩,
   error_atomic exhaustedGame (Op.drawCard 1 (fun i => i)) (by decide) "Deck is empty"
     (by decide)⟩

/-! ### The per-viewer projection -/

theorem samePlayer_at (v : Nat) (l1 l2 : List Player)
    (h : ∀ pq ∈ l1.zip l2, SamePlayer v pq.1 pq.2) (k : Nat) (a b : Player)
    (h1 : l1[k]? = some a) (h2 : l2[k]? = some b) : SamePlayer v a b :=
  h (a, b) (List.getElem?_mem (List.getElem?_zip_eq_some.2 ⟨h1, h2⟩))

theorem getElem?_none_of_length {α : Type} (l1 l2 : List α) (hl : l1.length = l2.length)
    (k : Nat) (h : l1[k]? = none) : l2[k]? = none := by
  rw [List.getElem?_eq_none_iff] at h ⊢
  omega

theorem getElem?_some_of_length {α : Type} (l1 l2 : List α) (hl : l1.length = l2.length)
    (k : Nat) (a : α) (h : l1[k]? = some a) : ∃ b, l2[k]? = some b := by
  have hk : k < l2.length := by
    have := lt_of_getElem?_some h
    omega
  exact ⟨l2[k], List.getElem?_eq_getElem hk⟩

theorem firstIdx_same (v : Nat) (l1 l2 : List Player) (hl : l1.length = l2.length)
    (h : ∀ pq ∈ l1.zip l2, SamePlayer v pq.1 pq.2) :
    firstIdx (fun p => decide (p.id = v)) l1 = firstIdx (fun p => decide (p.id = v)) l2 := by
  induction l1 generalizing l2 with
  | nil =>
    cases l2 with
    | nil => rfl
    | cons b l2 => simp at hl
  | cons a l1 ih =>
    cases l2 with
    | nil => simp at hl
    | cons b l2 =>
      have hab : SamePlayer v a b := h (a, b) (by simp)
      have hrest := ih l2 (by simpa using hl) (fun pq hpq => h pq (by
        simp only [List.zip_cons_cons, List.mem_cons]
        exact Or.inr hpq))
      unfold firstIdx
      rw [hrest, hab.1]

theorem ownHandView_same (v : Nat) (p1 p2 : Player) (h : SamePlayer v p1 p2) (hv : p1.id = v) :
    p1.getOwnHandView = p2.getOwnHandView := by
  obtain ⟨_, _, _, _, hlen, hk, hown⟩ := h
  obtain ⟨hholes, hcards⟩ := hown hv
  unfold Player.getOwnHandView
  apply List.ext_getElem?
  intro n
  simp only [List.getElem?_map, List.getElem?_enum, Option.map_map]
  cases h1 : p1.hand[n]? with
  | none => rw [getElem?_none_of_length _ _ hlen n h1]; rfl
  | some a =>
    obtain ⟨b, h2⟩ := getElem?_some_of_length _ _ hlen n a h1
    rw [h2]
    simp only [Option.map_some', Function.comp, Option.some.injEq]
    rw [← hk, ← hholes]
    by_cases hh : p1.handHoles.contains n = true
    · rw [if_pos hh, if_pos hh]
    · rw [if_neg hh, if_neg hh]
      simp only [Option.some.injEq, OwnSlotView.mk.injEq, true_and]
      by_cases hn : p1.knownCards.contains (n : Int) = true
      · rw [if_pos hn, if_pos hn]
        have hmem : (n : Int) ∈ p1.knownCards := by simpa using hn
        have := hcards _ hmem
        simp only [Int.toNat_ofNat, h1, h2, Option.some.injEq] at this
        exact this
      · rw [if_neg hn, if_neg hn]

/-- C3. Knowledge masking as noninterference: two match states of the same shape for the
viewer `v`, which may differ in the cards of the draw pile, of other players' hands, of the
viewer's own unknown slots and (when the viewer does not hold the turn) in the drawn card and
the pending power, have the same projection `getStateForPlayer v`.  The viewer's hand has its
holes, if any, at the same indices in both states; a hand that holds cards has none. -/
theorem projection_noninterference (v : Nat) (g1 g2 : Game) (h : SameShape v g1 g2) :
    g1.getStateForPlayer v = g2.getStateForPlayer v := by
  obtain ⟨hroom, hphase, hround, hcur, hcaller, hlast, hsnap, hdeck, _, htop, hlen, hpl,
    hturn⟩ := h
  have hcurrent : ∀ (f : Player → Nat × String) (f2 : Player → Bool),
      (∀ a b, SamePlayer v a b → f a = f b) → (∀ a b, SamePlayer v a b → f2 a = f2 b) →
      g1.getCurrentPlayer.map f = g2.getCurrentPlayer.map f ∧
      g1.getCurrentPlayer.map f2 = g2.getCurrentPlayer.map f2 := by
    intro f f2 hf hf2
    unfold Game.getCurrentPlayer
    rw [← hcur]
    cases h1 : g1.players[g1.currentPlayerIndex]? with
    | none => rw [getElem?_none_of_length _ _ hlen _ h1]; exact ⟨rfl, rfl⟩
    | some a =>
      obtain ⟨b, h2⟩ := getElem?_some_of_length _ _ hlen _ a h1
      rw [h2]
      have hs := samePlayer_at v _ _ hpl _ a b h1 h2
      simp [hf a b hs, hf2 a b hs]
  have hholds : g1.holdsTurn v = g2.holdsTurn v := by
    have := (hcurrent (fun p => (p.id, p.name)) (fun p => decide (p.id = v))
      (fun a b hs => by simp [hs.1, hs.2.1]) (fun a b hs => by simp [hs.1])).2
    unfold Game.holdsTurn
    cases h1 : g1.getCurrentPlayer with
    | none =>
      rw [h1] at this
      cases h2 : g2.getCurrentPlayer with
      | none => rfl
      | some b => rw [h2] at this; cases this
    | some a =>
      rw [h1] at this
      cases h2 : g2.getCurrentPlayer with
      | none => rw [h2] at this; cases this
      | some b =>
        rw [h2] at this
        simpa using this
  have hyour : (match g1.getPlayerById v with
      | some p => p.getOwnHandView
      | none => []) = (match g2.getPlayerById v with
      | some p => p.getOwnHandView
      | none => []) := by
    unfold Game.getPlayerById Game.playerIdx
    rw [← firstIdx_same v _ _ hlen hpl]
    cases hk : firstIdx (fun p => decide (p.id = v)) g1.players with
    | none => rfl
    | some k =>
      obtain ⟨a, h1, hfa, _, _⟩ := firstIdx_some _ _ _ hk
      obtain ⟨b, h2⟩ := getElem?_some_of_length _ _ hlen _ a h1
      simp only [h1, h2]
      exact ownHandView_same v a b (samePlayer_at v _ _ hpl _ a b h1 h2) (by simpa using hfa)
  have hviews : ∀ (c1 c2 : Option Player),
      (∀ id, c1.map (fun c => decide (c.id = id)) = c2.map (fun c => decide (c.id = id))) →
      g1.players.map (fun p => ({ id := p.getPublicHandView.id
                                  name := p.getPublicHandView.name
                                  cardCount := p.getPublicHandView.cardCount
                                  connected := p.getPublicHandView.connected
                                  isCurrentTurn := c1.map (fun c => decide (c.id = p.id))
                                  isYou := decide (p.id = v)
                                  totalScore := p.totalScore } : PlayerView)) =
      g2.players.map (fun p => ({ id := p.getPublicHandView.id
                                  name := p.getPublicHandView.name
                                  cardCount := p.getPublicHandView.cardCount
                                  connected := p.getPublicHandView.connected
                                  isCurrentTurn := c2.map (fun c => decide (c.id = p.id))
                                  isYou := decide (p.id = v)
                                  totalScore := p.totalScore } : PlayerView)) := by
    intro c1 c2 hc
    apply List.ext_getElem?
    intro n
    simp only [List.getElem?_map]
    cases h1 : g1.players[n]? with
    | none => rw [getElem?_none_of_length _ _ hlen n h1]; rfl
    | some a =>
      obtain ⟨b, h2⟩ := getElem?_some_of_length _ _ hlen n a h1
      rw [h2]
      obtain ⟨e1, e2, e3, e4, e5, _, _⟩ := samePlayer_at v _ _ hpl n a b h1 h2
      simp only [Option.map_some', Player.getPublicHandView, e1, e2, e3, e4, e5, hc b.id]
  have hcur2 := hcurrent (fun p => (p.id, p.name)) (fun p => decide (p.id = v))
    (fun a b hs => by simp [hs.1, hs.2.1]) (fun a b hs => by simp [hs.1])
  have hcid : ∀ id, g1.getCurrentPlayer.map (fun c => decide (c.id = id)) =
      g2.getCurrentPlayer.map (fun c => decide (c.id = id)) := fun id =>
    (hcurrent (fun p => (p.id, p.name)) (fun p => decide (p.id = id))
      (fun a b hs => by simp [hs.1, hs.2.1]) (fun a b hs => by simp [hs.1])).2
  have hdp : (if g1.holdsTurn v = true then g1.drawnCard else none) =
        (if g2.holdsTurn v = true then g2.drawnCard else none) ∧
      (if g1.holdsTurn v = true then g1.pendingPower else none) =
        (if g2.holdsTurn v = true then g2.pendingPower else none) := by
    rw [← hholds]
    by_cases ht : g1.holdsTurn v = true
    · rw [if_pos ht, if_pos ht, if_pos ht, if_pos ht]
      exact hturn ht
    · rw [if_neg ht, if_neg ht, if_neg ht, if_neg ht]
      exact ⟨rfl, rfl⟩
  unfold Game.getStateForPlayer
  simp only [StateView.mk.injEq]
  refine ⟨hroom, hphase, hround, hcur2.1, hcur2.2, hyour, trivial, hviews _ _ hcid, ?_, htop,
    hlast, hcaller, hdp.1, hdp.2, hsnap⟩
  simp only [Deck.remaining, hdeck]

/-- C3, instance: two states that differ in the draw pile, the other hand, the viewer's
unknown slot and the drawn card of the other seat give the first seat the same projection. -/
theorem projection_noninterference_witness :
    (SameShape 1 viewA viewB ∧ viewA ≠ viewB) ∧
    viewA.getStateForPlayer 1 = viewB.getStateForPlayer 1 :=
  ⟨⟨by decide, by decide⟩, projection_noninterference 1 viewA viewB (by decide)⟩

set_option maxRecDepth 1000000 in
/-- The own-hand view of a sparse hand.  After the black-jack swap with the target index 7 the
hand array of the second seat has the length 8 and holes at the indices 4, 5 and 6: its view
has entries at the indices 0 to 3 and 7 and holes in between.  Slot 0 of the first seat holds
a stored missing card, which is an element of the array: its view has an entry there. -/
theorem ownHandView_sparse :
    (run (dealtGame rndJack) jackOps).players.map (fun p => (p.hand.length, p.handHoles)) =
      [(4, []), (8, [4, 5, 6])] ∧
    ((run (dealtGame rndJack) jackOps).getStateForPlayer 2).yourHand =
      [some { index := 0, known := false, card := none },
       some { index := 1, known := false, card := none },
       some { index := 2, known := false, card := none },
       some { index := 3, known := false, card := none },
       none, none, none,
       some { index := 7, known := false, card := none }] ∧
    (run (dealtGame rndJack) jackOps).players.map (fun p => p.hand[0]?) =
      [some none, some (some ⟨Suit.spades, Rank.n9⟩)] ∧
    ((run (dealtGame rndJack) jackOps).getStateForPlayer 1).yourHand =
      [some { index := 0, known := false, card := none },
       some { index := 1, known := true, card := some ⟨Suit.spades, Rank.Q⟩ },
       some { index := 2, known := false, card := none },
       some { index := 3, known := false, card := none }] :=
  ⟨by decide, by decide, by decide, by decide⟩

/-! ### Turn advance -/

theorem endRound_deck (g : Game) : g.endRound.2.deck = g.deck := by
  unfold Game.endRound
  simp only
  split
  · rfl
  · rw [applyTotals_frame]

theorem endRound_slots (g : Game) :
    g.endRound.2.drawnCard = g.drawnCard ∧ g.endRound.2.pendingPower = g.pendingPower := by
  unfold Game.endRound
  simp only
  split
  · exact ⟨rfl, rfl⟩
  · rw [applyTotals_frame]
    exact ⟨rfl, rfl⟩

theorem nextTurn_deck (g : Game) : g.nextTurn.2.deck = g.deck := by
  unfold Game.nextTurn
  simp only
  split
  · rfl
  · split
    · split
      · rw [endRound_deck]
      · rfl
    · rfl

theorem nextTurn_slots (g : Game) :
    g.nextTurn.2.drawnCard = none ∧ g.nextTurn.2.pendingPower = none := by
  unfold Game.nextTurn
  simp only
  split
  · exact ⟨rfl, rfl⟩
  · split
    · split
      · exact endRound_slots _
      · exact ⟨rfl, rfl⟩
    · exact ⟨rfl, rfl⟩

theorem removePlayer_deck (g : Game) (socketId : Nat) :
    (g.removePlayer socketId).2.deck = g.deck := by
  unfold Game.removePlayer
  split
  · rfl
  · split
    · rfl
    · simp only
      split
      · rw [nextTurn_deck]; rfl
      · rfl

set_option maxRecDepth 100000 in
/-- C2, refuted as stated: the first seat draws the 4 of spades; a turn advance (by `nextTurn`,
or by `removePlayer` of the turn holder) leaves that card in no pile, no hand and no slot. -/
theorem turn_advance_drops_drawn_card :
    (run (Game.new "ROOM") drawnOps).holdsCard ⟨Suit.spades, Rank.n4⟩ ∧
    ¬ (run (Game.new "ROOM") drawnOps).nextTurn.2.holdsCard ⟨Suit.spades, Rank.n4⟩ ∧
    ¬ ((run (Game.new "ROOM") drawnOps).removePlayer 101).2.holdsCard ⟨Suit.spades, Rank.n4⟩ := by
  decide

/-- C2, amended. `nextTurn` and `removePlayer` leave the draw pile, the discard pile and every
hand as they are, so every card in a pile or in a hand stays where it is; `nextTurn` empties
the drawn slot and the pending-power record. -/
theorem turn_advance_keeps_piles_and_hands (g : Game) (socketId : Nat) :
    (g.nextTurn.2.deck = g.deck ∧
      g.nextTurn.2.players.map (fun p => p.hand) = g.players.map (fun p => p.hand) ∧
      g.nextTurn.2.drawnCard = none ∧ g.nextTurn.2.pendingPower = none) ∧
    ((g.removePlayer socketId).2.deck = g.deck ∧
      (g.removePlayer socketId).2.players.map (fun p => p.hand) =
        g.players.map (fun p => p.hand)) :=
  ⟨⟨nextTurn_deck g, nextTurn_map (fun p => p.hand) (fun _ _ => rfl) g, (nextTurn_slots g).1,
      (nextTurn_slots g).2⟩,
   removePlayer_deck g socketId,
   removePlayer_map (fun p => p.hand) (fun _ _ => rfl) (fun _ _ => rfl) g socketId⟩

/-! ### Counting cards -/

theorem sum_set_len (ps : List Player) (k : Nat) (p q : Player) (hp : ps[k]? = some p) :
    ((ps.set k q).map (fun p => p.hand.length)).sum + p.hand.length =
      (ps.map (fun p => p.hand.length)).sum + q.hand.length := by
  induction ps generalizing k with
  | nil => simp at hp
  | cons a ps ih =>
    cases k with
    | zero =>
      simp at hp
      subst hp
      simp only [List.set_cons_zero, List.map_cons, List.sum_cons]
      omega
    | succ k =>
      simp at hp
      have := ih k hp
      simp only [List.set_cons_succ, List.map_cons, List.sum_cons]
      omega

theorem handTotal_of_map (g1 g2 : Game)
    (h : g1.players.map (fun p => p.hand) = g2.players.map (fun p => p.hand)) :
    g1.handTotal = g2.handTotal := by
  unfold Game.handTotal
  have := congrArg (List.map List.length) h
  simpa [List.map_map, Function.comp_def] using congrArg List.sum this

theorem handDefined_of_map (ps1 ps2 : List Player)
    (h : ps1.map (fun p => p.hand) = ps2.map (fun p => p.hand))
    (hd : ∀ p ∈ ps2, p.handDefined) : ∀ p ∈ ps1, p.handDefined := by
  intro p hp
  have hm : p.hand ∈ ps1.map (fun p => p.hand) := List.mem_map.2 ⟨p, hp, rfl⟩
  rw [h] at hm
  obtain ⟨q, hq, hqe⟩ := List.mem_map.1 hm
  intro x hx
  rw [← hqe] at hx
  exact hd q hq x hx

theorem handDefined_set (ps : List Player) (k : Nat) (q : Player)
    (hd : ∀ p ∈ ps, p.handDefined) (hq : q.handDefined) : ∀ p ∈ ps.set k q, p.handDefined := by
  intro p hp
  rcases List.mem_or_eq_of_mem_set hp with h | rfl
  · exact hd p h
  · exact hq

theorem hand_le_total (ps : List Player) (p : Player) (hp : p ∈ ps) :
    p.hand.length ≤ (ps.map (fun p => p.hand.length)).sum := by
  induction ps with
  | nil => cases hp
  | cons a ps ih =>
    simp only [List.map_cons, List.sum_cons]
    rcases List.mem_cons.1 hp with rfl | h
    · omega
    · have := ih h; omega

theorem getElem?_join_some (l : List Slot) (i : Nat) (hi : i < l.length)
    (hl : ∀ x ∈ l, x ≠ none) : ∃ c, (l[i]?).join = some c := by
  have hget : l[i]? = some l[i] := List.getElem?_eq_getElem hi
  have hne := hl _ (List.getElem?_mem hget)
  rw [hget]
  cases hx : l[i] with
  | none => exact absurd hx hne
  | some c => exact ⟨c, rfl⟩

theorem mem_set_defined (l : List Slot) (i : Nat) (c : Card) (hl : ∀ x ∈ l, x ≠ none) :
    ∀ x ∈ l.set i (some c), x ≠ none := by
  intro x hx
  rcases List.mem_or_eq_of_mem_set hx with h | rfl
  · exact hl x h
  · simp

theorem mem_eraseIdx_defined (l : List Slot) (i : Nat) (hl : ∀ x ∈ l, x ≠ none) :
    ∀ x ∈ l.eraseIdx i, x ≠ none :=
  fun x hx => hl x (List.mem_of_mem_eraseIdx hx)

theorem discard_allCards (d : Deck) (c : Card) (hd : d.allCards) :
    (d.discard (some c)).allCards := by
  refine ⟨hd.1, ?_⟩
  intro x hx
  simp only [Deck.discard, List.mem_append, List.mem_singleton] at hx
  rcases hx with h | rfl
  · exact hd.2 x h
  · simp

theorem markKnown_handDefined (p : Player) (idx : Int) (h : p.handDefined) :
    (p.markKnown idx).handDefined := by
  intro x hx; rw [markKnown_hand] at hx; exact h x hx

theorem markAll_handDefined (p : Player) (idxs : List Int) (h : p.handDefined) :
    (markAll p idxs).handDefined := by
  intro x hx; rw [markAll_hand] at hx; exact h x hx

/-- The draws of `dealCards` move cards from the deck to the hand. -/
theorem dealCards_count (rnd : Rnd) (n : Nat) (p : Player) (d : Deck) (hd : d.allCards)
    (hp : p.handDefined) :
    (dealCards rnd n p d).1.hand.length + (dealCards rnd n p d).2.cards.length +
        (dealCards rnd n p d).2.discardPile.length =
      p.hand.length + d.cards.length + d.discardPile.length ∧
    (dealCards rnd n p d).2.allCards ∧ (dealCards rnd n p d).1.handDefined := by
  induction n generalizing p d with
  | zero => exact ⟨rfl, hd, hp⟩
  | succ n ih =>
    unfold dealCards
    simp only
    rcases draw_spec d rnd hd with ⟨h1, h2⟩ | ⟨c, h1, hcount, hall⟩
    · rw [h1, h2]
      exact ih p d hd hp
    · rw [h1]
      have hp2 : (p.addCard (some c)).handDefined := by
        intro x hx
        simp only [Player.addCard, List.mem_append, List.mem_singleton] at hx
        rcases hx with h | rfl
        · exact hp x h
        · simp
      obtain ⟨e1, e2, e3⟩ := ih (p.addCard (some c)) (d.draw rnd).2 hall hp2
      refine ⟨?_, e2, e3⟩
      rw [e1]
      simp only [Player.addCard, List.length_append, List.length_singleton]
      omega

theorem dealAll_count (rnd : Rnd) (ps : List Player) (d : Deck) (hd : d.allCards) :
    (((dealAll rnd ps d).1.map (fun p => p.hand.length)).sum +
        (dealAll rnd ps d).2.cards.length + (dealAll rnd ps d).2.discardPile.length =
      d.cards.length + d.discardPile.length) ∧
    (dealAll rnd ps d).2.allCards ∧ ∀ p ∈ (dealAll rnd ps d).1, p.handDefined := by
  induction ps generalizing d with
  | nil => exact ⟨by simp [dealAll], hd, by intro p hp; simp [dealAll] at hp⟩
  | cons a ps ih =>
    unfold dealAll
    simp only
    obtain ⟨e1, e2, e3⟩ := dealCards_count rnd 4 a.reset d hd (by intro x hx; cases hx)
    obtain ⟨f1, f2, f3⟩ := ih (dealCards rnd 4 a.reset d).2 e2
    refine ⟨?_, f2, ?_⟩
    · simp only [List.map_cons, List.sum_cons]
      have : a.reset.hand.length = 0 := rfl
      omega
    · intro p hp
      rcases List.mem_cons.1 hp with rfl | h
      · exact e3
      · exact f3 p h

theorem penaltyDraws_count (rnds : Nat → Rnd) (n : Nat) (p : Player) (d : Deck) (cnt : Nat)
    (hd : d.allCards) (hp : p.handDefined) :
    (penaltyDraws rnds n p d cnt).1.hand.length + (penaltyDraws rnds n p d cnt).2.1.cards.length +
        (penaltyDraws rnds n p d cnt).2.1.discardPile.length =
      p.hand.length + d.cards.length + d.discardPile.length ∧
    (penaltyDraws rnds n p d cnt).2.1.allCards ∧ (penaltyDraws rnds n p d cnt).1.handDefined := by
  induction n generalizing p d cnt with
  | zero => exact ⟨rfl, hd, hp⟩
  | succ n ih =>
    unfold penaltyDraws
    simp only
    rcases draw_spec d (rnds n) hd with ⟨h1, h2⟩ | ⟨c, h1, hcount, hall⟩
    · rw [h1, h2]
      exact ih p d cnt hd hp
    · rw [h1]
      have hp2 : (p.addCard (some c)).handDefined := by
        intro x hx
        simp only [Player.addCard, List.mem_append, List.mem_singleton] at hx
        rcases hx with h | rfl
        · exact hp x h
        · simp
      obtain ⟨e1, e2, e3⟩ := ih (p.addCard (some c)) (d.draw (rnds n)).2 (cnt + 1) hall hp2
      refine ⟨?_, e2, e3⟩
      rw [e1]
      simp only [Player.addCard, List.length_append, List.length_singleton]
      omega

/-! ### Conservation across one engine call -/

theorem CardInv.of_frame (g g2 : Game) (h : CardInv g) (hdeck : g2.deck = g.deck)
    (hhands : g2.players.map (fun p => p.hand) = g.players.map (fun p => p.hand))
    (hdrawn : g2.drawnCard = g.drawnCard) : CardInv g2 := by
  refine ⟨?_, ?_, ?_⟩
  · rw [← h.1]
    unfold Game.cardTotal
    rw [hdeck, hdrawn, handTotal_of_map g2 g hhands]
  · rw [hdeck]; exact h.2.1
  · exact handDefined_of_map _ _ hhands h.2.2

theorem init_cards_defined : ∀ x ∈ Deck.init.cards, x ≠ none := by decide

theorem init_cards_length : Deck.init.cards.length = 52 := by decide

theorem init_discard : Deck.init.discardPile = [] := rfl

theorem shuffled_allCards (rnd : Rnd) (cs ds : List Slot) (h : ∀ x ∈ cs, x ≠ none)
    (hds : ds = []) : ({ cards := shuffle rnd cs, discardPile := ds } : Deck).allCards := by
  constructor
  · intro x hx
    exact h x (shuffle_mem rnd cs x hx)
  · intro x hx
    subst hds
    cases hx

/-- Dealing from a deck of cards and flipping the first discard keeps all cards. -/
theorem deal_count (rnd : Rnd) (ps : List Player) (d0 : Deck) (hd0 : d0.allCards) :
    (((dealAll rnd ps d0).1.map (fun p => p.hand.length)).sum +
        ((dealAll rnd ps d0).2.flipFirst rnd).cards.length +
        ((dealAll rnd ps d0).2.flipFirst rnd).discardPile.length =
      d0.cards.length + d0.discardPile.length) ∧
    ((dealAll rnd ps d0).2.flipFirst rnd).allCards ∧
    ∀ p ∈ (dealAll rnd ps d0).1, p.handDefined := by
  obtain ⟨e1, e2, e3⟩ := dealAll_count rnd ps d0 hd0
  unfold Deck.flipFirst
  rcases draw_spec (dealAll rnd ps d0).2 rnd e2 with ⟨h1, h2⟩ | ⟨c, h1, hcount, hall⟩
  · rw [h1, h2]
    exact ⟨e1, e2, e3⟩
  · rw [h1]
    refine ⟨?_, discard_allCards _ c hall, e3⟩
    simp only [Deck.discard, List.length_append, List.length_singleton]
    omega

theorem startDeck_spec (rnd : Rnd) :
    ∃ d0 : Deck, d0 = { Deck.init with cards := shuffle rnd Deck.init.cards } ∧ d0.allCards ∧
      d0.cards.length + d0.discardPile.length = 52 := by
  refine ⟨_, rfl, shuffled_allCards rnd Deck.init.cards Deck.init.discardPile init_cards_defined
    init_discard, ?_⟩
  simp only [shuffle_length, init_cards_length, init_discard, List.length_nil]

theorem startGame_cardInv (g : Game) (rnd : Rnd) (h : (g.startGame rnd).1 = Outcome.success) :
    CardInv (g.startGame rnd).2 := by
  unfold Game.startGame at h ⊢
  obtain ⟨d0, hd0e, hd0, hsum⟩ := startDeck_spec rnd
  rw [← hd0e] at h ⊢
  split
  · rename_i hlt
    rw [if_pos hlt] at h
    cases h
  · obtain ⟨e1, e2, e3⟩ := deal_count rnd g.players d0 hd0
    refine ⟨?_, e2, e3⟩
    simp only [Game.cardTotal, Game.handTotal, Option.isSome_none, Bool.false_eq_true, if_false]
    omega

theorem CardInv.step_deck (g g2 : Game) (h : CardInv g) (hp : g2.players = g.players)
    (hd : g2.deck.allCards)
    (hcount : g2.deck.cards.length + g2.deck.discardPile.length +
        (if g2.drawnCard.isSome then 1 else 0) =
      g.deck.cards.length + g.deck.discardPile.length +
        (if g.drawnCard.isSome then 1 else 0)) : CardInv g2 := by
  refine ⟨?_, hd, ?_⟩
  · have := h.1
    unfold Game.cardTotal Game.handTotal at this ⊢
    rw [hp]
    omega
  · rw [hp]; exact h.2.2

theorem CardInv.step_set (g g2 : Game) (h : CardInv g) (k : Nat) (p q : Player)
    (hpk : g.players[k]? = some p) (hp : g2.players = g.players.set k q)
    (hq : q.handDefined) (hd : g2.deck.allCards)
    (hcount : g2.deck.cards.length + g2.deck.discardPile.length + q.hand.length +
        (if g2.drawnCard.isSome then 1 else 0) =
      g.deck.cards.length + g.deck.discardPile.length + p.hand.length +
        (if g.drawnCard.isSome then 1 else 0)) : CardInv g2 := by
  refine ⟨?_, hd, ?_⟩
  · have := h.1
    have hs := sum_set_len g.players k p q hpk
    unfold Game.cardTotal Game.handTotal at this ⊢
    rw [hp]
    omega
  · rw [hp]; exact handDefined_set _ _ _ h.2.2 hq

theorem CardInv.step_set2 (g g2 : Game) (h : CardInv g) (k1 k2 : Nat) (hne : k1 ≠ k2)
    (p1 q1 p2 q2 : Player) (hp1 : g.players[k1]? = some p1) (hp2 : g.players[k2]? = some p2)
    (hp : g2.players = (g.players.set k1 q1).set k2 q2)
    (hq1 : q1.handDefined) (hq2 : q2.handDefined) (hd : g2.deck.allCards)
    (hcount : g2.deck.cards.length + g2.deck.discardPile.length + q1.hand.length +
        q2.hand.length + (if g2.drawnCard.isSome then 1 else 0) =
      g.deck.cards.length + g.deck.discardPile.length + p1.hand.length + p2.hand.length +
        (if g.drawnCard.isSome then 1 else 0)) : CardInv g2 := by
  refine ⟨?_, hd, ?_⟩
  · have := h.1
    have hs1 := sum_set_len g.players k1 p1 q1 hp1
    have hs2 := sum_set_len (g.players.set k1 q1) k2 p2 q2
      (by rw [List.getElem?_set_ne hne]; exact hp2)
    unfold Game.cardTotal Game.handTotal at this ⊢
    rw [hp]
    omega
  · rw [hp]
    exact handDefined_set _ _ _ (handDefined_set _ _ _ h.2.2 hq1) hq2

theorem playerIdx_ne (g : Game) (id1 id2 k1 k2 : Nat) (hne : id1 ≠ id2)
    (h1 : g.playerIdx id1 = some k1) (h2 : g.playerIdx id2 = some k2) : k1 ≠ k2 := by
  intro hk
  subst hk
  obtain ⟨p, hp, hpid⟩ := playerIdx_some g id1 k1 h1
  obtain ⟨q, hq, hqid⟩ := playerIdx_some g id2 k1 h2
  rw [hp] at hq
  cases hq
  exact hne (hpid.symm.trans hqid)

theorem addPlayer_cardInv (g : Game) (id : Nat) (name : String) (socketId : Nat)
    (h : CardInv g) : CardInv (g.addPlayer id name socketId).2 := by
  refine ⟨?_, h.2.1, ?_⟩
  · have := h.1
    unfold Game.cardTotal Game.handTotal at this ⊢
    simp only [Game.addPlayer, List.map_append, List.sum_append, List.map_cons, List.map_nil,
      List.sum_cons, List.sum_nil, Player.new, List.length_nil]
    omega
  · intro p hp
    simp only [Game.addPlayer, List.mem_append, List.mem_singleton] at hp
    rcases hp with hp | rfl
    · exact h.2.2 p hp
    · intro x hx; cases hx

theorem reconnectPlayer_cardInv (g : Game) (socketId playerId : Nat) (h : CardInv g) :
    CardInv (g.reconnectPlayer socketId playerId).2 := by
  unfold Game.reconnectPlayer
  split
  · exact h
  · split
    · exact h
    · rename_i k _ player hplayer
      exact CardInv.of_frame g _ h rfl (map_set_same _ _ _ _ _ hplayer rfl) rfl

theorem nextTurn_cardInv (g : Game) (h : CardInv g) (hdr : g.drawnCard = none) :
    CardInv g.nextTurn.2 :=
  CardInv.of_frame g _ h (nextTurn_deck g) (nextTurn_map (fun p => p.hand) (fun _ _ => rfl) g)
    (by rw [(nextTurn_slots g).1, hdr])

theorem getCurrent_set_socket (g : Game) (k : Nat) (player : Player)
    (hplayer : g.players[k]? = some player) (c : Bool) :
    (g.setPlayer k { player with connected := c }).getCurrentPlayer.map (fun p => p.socketId) =
      g.getCurrentPlayer.map (fun p => p.socketId) := by
  unfold Game.getCurrentPlayer Game.setPlayer
  simp only [List.getElem?_set]
  by_cases hk : k = g.currentPlayerIndex
  · subst hk
    simp [lt_of_getElem?_some hplayer, hplayer]
  · simp [hk]

theorem removePlayer_cardInv (g : Game) (socketId : Nat) (h : CardInv g)
    (ha : Admissible g (Op.removePlayer socketId)) : CardInv (g.removePlayer socketId).2 := by
  have hdrawn : (g.removePlayer socketId).2.drawnCard = g.drawnCard := by
    unfold Game.removePlayer
    split
    · rfl
    · split
      · rfl
      · rename_i k hk _ player hplayer
        simp only
        split
        · rename_i hc
          rw [(nextTurn_slots _).1]
          rw [getCurrent_set_socket g k player hplayer false] at hc
          rcases ha with ha | ha
          · exact ha.symm
          · exact absurd hc ha
        · rfl
  exact CardInv.of_frame g _ h (removePlayer_deck g socketId)
    (removePlayer_map (fun p => p.hand) (fun _ _ => rfl) (fun _ _ => rfl) g socketId) hdrawn

theorem initialPeek_cardInv (g : Game) (playerId : Nat) (indices : List Int) (h : CardInv g) :
    CardInv (g.initialPeek playerId indices).2 := by
  unfold Game.initialPeek
  split
  · exact h
  · cases hk : g.playerIdx playerId with
    | none => exact h
    | some k =>
      obtain ⟨player, hplayer, _⟩ := playerIdx_some g playerId k hk
      simp only [hplayer]
      split
      · exact h
      · split
        · exact h
        · exact CardInv.of_frame g _ h rfl
            (map_set_same _ _ _ _ _ hplayer (markAll_hand player indices)) rfl

theorem drawCard_cardInv (g : Game) (playerId : Nat) (rnd : Rnd) (h : CardInv g) :
    CardInv (g.drawCard playerId rnd).2 := by
  unfold Game.drawCard
  split
  · exact h
  · split
    · exact h
    · split
      · exact h
      · split
        · exact h
        · rename_i hdr
          have hnone : g.drawnCard = none := by
            cases hd : g.drawnCard with
            | none => rfl
            | some c => rw [hd] at hdr; simp at hdr
          simp only []
          rcases draw_spec g.deck rnd h.2.1 with ⟨h1, h2⟩ | ⟨c, h1, hcount, hall⟩
          · rw [h1, h2]
            exact h
          · rw [h1]
            refine CardInv.step_deck g _ h rfl hall ?_
            simp only [hnone, Option.isSome_some, Option.isSome_none, if_true]
            simp only [Bool.false_eq_true, if_false]
            omega


theorem swapCard_spec (p : Player) (idx : Int) (c : Card) (hi : ¬ (idx < 0 ∨ idx ≥ p.hand.length))
    (hp : p.handDefined) :
    (∃ old, (p.swapCard idx (some c)).1 = some old) ∧
      ((p.swapCard idx (some c)).2.markKnown idx).hand.length = p.hand.length ∧
      ((p.swapCard idx (some c)).2.markKnown idx).handDefined := by
  unfold Player.swapCard
  rw [if_neg hi]
  refine ⟨getElem?_join_some _ _ (by omega) hp, ?_, ?_⟩
  · rw [markKnown_hand]; simp
  · apply markKnown_handDefined
    exact mem_set_defined _ _ _ hp

theorem swapWithHand_cardInv (g : Game) (playerId : Nat) (handIndex : Int) (h : CardInv g) :
    CardInv (g.swapWithHand playerId handIndex).2 := by
  unfold Game.swapWithHand
  cases hcur : g.getCurrentPlayer with
  | none => exact h
  | some player =>
    simp only
    split
    · exact h
    · cases hdr : g.drawnCard with
      | none => exact h
      | some drawn =>
        simp only
        split
        · exact h
        · rename_i hi
          obtain ⟨⟨old, hold⟩, hlen, hdef⟩ :=
            swapCard_spec player handIndex drawn hi (h.2.2 _ (List.getElem?_mem hcur))
          refine CardInv.step_set g _ h g.currentPlayerIndex player _ hcur rfl hdef ?_ ?_
          · simp only [hold]
            exact discard_allCards _ old h.2.1
          · simp only [hlen, hdr, hold, Deck.discard, List.length_append, List.length_singleton,
              Option.isSome_some, Option.isSome_none, if_true]
            simp only [Bool.false_eq_true, if_false]
            omega

theorem discardDrawnCard_cardInv (g : Game) (playerId : Nat) (h : CardInv g) :
    CardInv (g.discardDrawnCard playerId).2 := by
  unfold Game.discardDrawnCard
  split
  · exact h
  · split
    · exact h
    · cases hdr : g.drawnCard with
      | none => exact h
      | some card =>
        simp only
        refine CardInv.step_deck g _ h rfl (discard_allCards _ card h.2.1) ?_
        simp only [hdr, Deck.discard, List.length_append, List.length_singleton,
          Option.isSome_some, Option.isSome_none, if_true]
        simp only [Bool.false_eq_true, if_false]
        omega

theorem usePower_cardInv (g : Game) (playerId : Nat) (h : CardInv g) :
    CardInv (g.usePower playerId).2 := by
  unfold Game.usePower
  repeat' split
  all_goals exact h

theorem callCobra_cardInv (g : Game) (playerId : Nat) (h : CardInv g) :
    CardInv (g.callCobra playerId).2 := by
  unfold Game.callCobra
  repeat' split
  all_goals exact h

theorem startPlaying_cardInv (g : Game) (h : CardInv g) : CardInv g.startPlaying.2 :=
  CardInv.of_frame g _ h rfl rfl rfl

theorem startGame_step_cardInv (g : Game) (rnd : Rnd) (h : CardInv g) :
    CardInv (g.startGame rnd).2 := by
  by_cases hs : (g.startGame rnd).1 = Outcome.success
  · exact startGame_cardInv g rnd hs
  · unfold Game.startGame at hs ⊢
    split
    · exact h
    · rename_i hlt
      rw [if_neg hlt] at hs
      exact absurd rfl hs

theorem removeCard_spec (p : Player) (idx : Int) (hi : ¬ (idx < 0 ∨ idx ≥ p.hand.length))
    (hp : p.handDefined) :
    (∃ old, (p.removeCard idx).1 = some old) ∧
      (p.removeCard idx).2.hand.length + 1 = p.hand.length ∧
      (p.removeCard idx).2.handDefined := by
  unfold Player.removeCard
  rw [if_neg hi]
  refine ⟨getElem?_join_some _ _ (by omega) hp, ?_, ?_⟩
  · simp only [List.length_eraseIdx]
    have : idx.toNat < p.hand.length := by omega
    simp only [this, if_true]
    omega
  · exact mem_eraseIdx_defined _ _ hp

theorem doubleDrop_cardInv (g : Game) (playerId : Nat) (handIndex : Int) (usePowerToo : Bool)
    (rnds : Nat → Rnd) (h : CardInv g) :
    CardInv (g.doubleDrop playerId handIndex usePowerToo rnds).2 := by
  unfold Game.doubleDrop
  cases hcur : g.getCurrentPlayer with
  | none => exact h
  | some player =>
    have hpd := h.2.2 _ (List.getElem?_mem hcur)
    simp only
    split
    · exact h
    · cases hdr : g.drawnCard with
      | none => exact h
      | some drawn =>
        simp only
        split
        · exact h
        · rename_i hi
          split
          · exact h
          · split
            · obtain ⟨e1, e2, e3⟩ := penaltyDraws_count rnds 2 player g.deck 0 h.2.1 hpd
              refine CardInv.step_set g _ h g.currentPlayerIndex player _ hcur rfl e3
                (discard_allCards _ drawn e2) ?_
              simp only [hdr, Deck.discard, List.length_append, List.length_singleton,
                Option.isSome_some, Option.isSome_none, if_true]
              simp only [Bool.false_eq_true, if_false]
              omega
            · obtain ⟨⟨old, hold⟩, hlen, hdef⟩ := removeCard_spec player handIndex hi hpd
              have key : CardInv
                  { g with
                    players := g.players.set g.currentPlayerIndex (player.removeCard handIndex).2
                    deck := (g.deck.discard (player.removeCard handIndex).1).discard (some drawn)
                    lastDiscard := some drawn
                    drawnCard := none
                    snapWindow := true } := by
                refine CardInv.step_set g _ h g.currentPlayerIndex player _ hcur rfl hdef ?_ ?_
                · simp only [hold]
                  exact discard_allCards _ drawn (discard_allCards _ old h.2.1)
                · simp only [hdr, Deck.discard, List.length_append, List.length_singleton,
                    Option.isSome_some, Option.isSome_none, if_true]
                  simp only [Bool.false_eq_true, if_false]
                  omega
              split
              · split
                · exact CardInv.of_frame _ _ key rfl rfl rfl
                · exact key
              · exact key


theorem drawn_of_pending (g : Game) (pp : PendingPower) (ha : g.powerCardDrawn)
    (hpp : g.pendingPower = some pp) : (if g.drawnCard.isSome then 1 else 0) = 1 := by
  unfold Game.powerCardDrawn at ha
  rw [hpp] at ha
  simp only at ha
  rw [ha]; rfl

theorem resolvePeekOwn_cardInv (g : Game) (playerId : Nat) (cardIndex : Int) (h : CardInv g)
    (ha : g.powerCardDrawn) : CardInv (g.resolvePeekOwn playerId cardIndex).2 := by
  unfold Game.resolvePeekOwn
  cases hpp : g.pendingPower with
  | none => exact h
  | some pp =>
    simp only
    split
    · exact h
    · cases hk : g.playerIdx playerId with
      | none => exact h
      | some k =>
        obtain ⟨player, hplayer, _⟩ := playerIdx_some g playerId k hk
        simp only [hplayer]
        split
        · exact h
        · have hdr := drawn_of_pending g pp ha hpp
          refine CardInv.step_set g _ h k player _ hplayer rfl
            (markKnown_handDefined _ _ (h.2.2 _ (List.getElem?_mem hplayer)))
            (discard_allCards _ pp.card h.2.1) ?_
          simp only [Game.finishPower, Game.setPlayer, Deck.discard, List.length_append,
            List.length_singleton, markKnown_hand, Option.isSome_none]
          simp only [Bool.false_eq_true, if_false]
          omega

theorem finishPower_cardInv (g : Game) (pp : PendingPower) (h : CardInv g)
    (ha : g.powerCardDrawn) (hpp : g.pendingPower = some pp) : CardInv (g.finishPower pp) := by
  have hdr := drawn_of_pending g pp ha hpp
  refine CardInv.step_deck g _ h rfl (discard_allCards _ pp.card h.2.1) ?_
  simp only [Game.finishPower, Deck.discard, List.length_append, List.length_singleton,
    Option.isSome_none]
  simp only [Bool.false_eq_true, if_false]
  omega

theorem resolvePeekOther_cardInv (g : Game) (playerId targetPlayerId : Nat) (cardIndex : Int)
    (h : CardInv g) (ha : g.powerCardDrawn) :
    CardInv (g.resolvePeekOther playerId targetPlayerId cardIndex).2 := by
  unfold Game.resolvePeekOther
  cases hpp : g.pendingPower with
  | none => exact h
  | some pp =>
    simp only
    repeat' split
    all_goals first | exact h | exact finishPower_cardInv g pp h ha hpp

theorem resolveBlackJackSkip_cardInv (g : Game) (playerId : Nat) (h : CardInv g)
    (ha : g.powerCardDrawn) : CardInv (g.resolveBlackJackSkip playerId).2 := by
  unfold Game.resolveBlackJackSkip
  cases hpp : g.pendingPower with
  | none => exact h
  | some pp =>
    simp only
    repeat' split
    all_goals first | exact h | exact finishPower_cardInv g pp h ha hpp

theorem resolveBlackJackPeek_cardInv (g : Game) (playerId : Nat) (indices : List Int)
    (h : CardInv g) : CardInv (g.resolveBlackJackPeek playerId indices).2 := by
  unfold Game.resolveBlackJackPeek
  split
  · exact h
  · split
    · exact h
    · cases hk : g.playerIdx playerId with
      | none => exact h
      | some k =>
        obtain ⟨player, hplayer, _⟩ := playerIdx_some g playerId k hk
        simp only [hplayer]
        split
        · exact h
        · exact CardInv.of_frame g _ h rfl
            (map_set_same _ _ _ _ _ hplayer (markAll_hand player indices)) rfl

/-- The exchange of two validated slots of two distinct seats, followed by the discard of the
power card. -/
theorem swapSlots_cardInv (g : Game) (pp : PendingPower) (h : CardInv g)
    (ha : g.powerCardDrawn) (hpp : g.pendingPower = some pp) (k1 k2 : Nat) (hne : k1 ≠ k2)
    (p1 p2 : Player) (hp1 : g.players[k1]? = some p1) (hp2 : g.players[k2]? = some p2)
    (i1 i2 : Int) (hi1 : ¬ (i1 < 0 ∨ i1 ≥ p1.hand.length))
    (hi2 : ¬ (i2 < 0 ∨ i2 ≥ p2.hand.length)) (q1 q2 : Player)
    (hq1 : q1.hand = p1.hand.set i1.toNat (p2.hand[i2.toNat]?).join)
    (hq2 : q2.hand = p2.hand.set i2.toNat (p1.hand[i1.toNat]?).join) :
    CardInv (((g.setPlayer k1 q1).setPlayer k2 q2).finishPower pp) := by
  have hdr := drawn_of_pending g pp ha hpp
  have hd1 := h.2.2 _ (List.getElem?_mem hp1)
  have hd2 := h.2.2 _ (List.getElem?_mem hp2)
  obtain ⟨c1, hc1⟩ := getElem?_join_some p1.hand i1.toNat (by omega) hd1
  obtain ⟨c2, hc2⟩ := getElem?_join_some p2.hand i2.toNat (by omega) hd2
  rw [hc2] at hq1
  rw [hc1] at hq2
  refine CardInv.step_set2 g _ h k1 k2 hne p1 q1 p2 q2 hp1 hp2 rfl ?_ ?_
    (discard_allCards _ pp.card h.2.1) ?_
  · intro x hx; rw [hq1] at hx; exact mem_set_defined _ _ _ hd1 x hx
  · intro x hx; rw [hq2] at hx; exact mem_set_defined _ _ _ hd2 x hx
  · simp only [Game.finishPower, Game.setPlayer, Deck.discard, List.length_append,
      List.length_singleton, hq1, hq2, List.length_set, Option.isSome_none]
    simp only [Bool.false_eq_true, if_false]
    omega

theorem resolveQueenSwap_cardInv (g : Game) (playerId player1Id : Nat) (card1Index : Int)
    (player2Id : Nat) (card2Index : Int) (h : CardInv g) (ha : g.powerCardDrawn) :
    CardInv (g.resolveQueenSwap playerId player1Id card1Index player2Id card2Index).2 := by
  unfold Game.resolveQueenSwap
  cases hpp : g.pendingPower with
  | none => exact h
  | some pp =>
    simp only
    split
    · exact h
    · cases hk1 : g.playerIdx player1Id with
      | none => exact h
      | some k1 =>
        cases hk2 : g.playerIdx player2Id with
        | none => exact h
        | some k2 =>
          obtain ⟨p1, hp1, _⟩ := playerIdx_some g player1Id k1 hk1
          obtain ⟨p2, hp2, _⟩ := playerIdx_some g player2Id k2 hk2
          simp only [hp1, hp2]
          split
          · exact h
          · rename_i hids
            split
            · exact h
            · split
              · exact h
              · rename_i h1 h2
                exact swapSlots_cardInv g pp h ha hpp k1 k2
                  (playerIdx_ne g _ _ k1 k2 hids hk1 hk2) p1 p2 hp1 hp2 card1Index card2Index
                  h1 h2 _ _ rfl rfl

theorem handGet_valid (p : Player) (i : Int) (h0 : 0 ≤ i) (hl : i < p.hand.length)
    (hsmall : p.hand.length ≤ 52) : p.handGet i = (p.hand[i.toNat]?).join := by
  unfold Player.handGet
  have : isArrayIndex i = true := by
    unfold isArrayIndex
    simp only [Bool.and_eq_true, decide_eq_true_eq]
    omega
  rw [if_pos this]

theorem handSet_valid (p : Player) (i : Int) (v : Slot) (h0 : 0 ≤ i) (hl : i < p.hand.length)
    (hsmall : p.hand.length ≤ 52) :
    p.handSet i v =
      { p with
        hand := p.hand.set i.toNat v
        handHoles := p.handHoles.filter (fun h => h ≠ i.toNat) } := by
  unfold Player.handSet
  have : isArrayIndex i = true := by
    unfold isArrayIndex
    simp only [Bool.and_eq_true, decide_eq_true_eq]
    omega
  rw [if_pos this, if_pos (by omega)]

theorem hand_le_52 (g : Game) (h : CardInv g) (p : Player) (hp : p ∈ g.players) :
    p.hand.length ≤ 52 := by
  have h1 := hand_le_total g.players p hp
  have h2 := h.1
  unfold Game.cardTotal Game.handTotal at h2
  omega

theorem resolveBlackJackSwap_cardInv (g : Game) (playerId : Nat) (myCardIndex : Int)
    (targetPlayerId : Nat) (targetCardIndex : Int) (h : CardInv g)
    (ha : Admissible g
      (Op.resolveBlackJackSwap playerId myCardIndex targetPlayerId targetCardIndex)) :
    CardInv (g.resolveBlackJackSwap playerId myCardIndex targetPlayerId targetCardIndex).2 := by
  obtain ⟨hpow, hmy, htg⟩ := ha
  unfold Game.resolveBlackJackSwap
  cases hpp : g.pendingPower with
  | none => exact h
  | some pp =>
    simp only
    split
    · exact h
    · cases hk1 : g.playerIdx playerId with
      | none => exact h
      | some k1 =>
        cases hk2 : g.playerIdx targetPlayerId with
        | none => exact h
        | some k2 =>
          obtain ⟨p1, hp1, _⟩ := playerIdx_some g playerId k1 hk1
          obtain ⟨p2, hp2, _⟩ := playerIdx_some g targetPlayerId k2 hk2
          simp only [hp1, hp2]
          split
          · exact h
          · rename_i hids
            have hg1 : g.getPlayerById playerId = some p1 := by
              unfold Game.getPlayerById; rw [hk1]; exact hp1
            have hg2 : g.getPlayerById targetPlayerId = some p2 := by
              unfold Game.getPlayerById; rw [hk2]; exact hp2
            rw [hg1] at hmy
            rw [hg2] at htg
            have hv1 : 0 ≤ myCardIndex ∧ myCardIndex < p1.hand.length := hmy
            have hv2 : 0 ≤ targetCardIndex ∧ targetCardIndex < p2.hand.length := htg
            have hs1 := hand_le_52 g h p1 (List.getElem?_mem hp1)
            have hs2 := hand_le_52 g h p2 (List.getElem?_mem hp2)
            exact swapSlots_cardInv g pp h hpow hpp k1 k2
              (playerIdx_ne g _ _ k1 k2 hids hk1 hk2) p1 p2 hp1 hp2 myCardIndex targetCardIndex
              (by omega) (by omega) _ _
              (by rw [handSet_valid p1 _ _ hv1.1 hv1.2 hs1, handGet_valid p2 _ hv2.1 hv2.2 hs2])
              (by rw [handSet_valid p2 _ _ hv2.1 hv2.2 hs2, handGet_valid p1 _ hv1.1 hv1.2 hs1])


theorem penaltyCard_cardInv (g : Game) (k : Nat) (player : Player) (rnd : Rnd) (h : CardInv g)
    (hplayer : g.players[k]? = some player) : CardInv (g.penaltyCard k player rnd).2 := by
  unfold Game.penaltyCard
  simp only
  rcases draw_spec g.deck rnd h.2.1 with ⟨h1, h2⟩ | ⟨c, h1, hcount, hall⟩
  · rw [h1, h2]
    exact h
  · rw [h1]
    refine CardInv.step_set g _ h k player _ hplayer rfl ?_ hall ?_
    · intro x hx
      simp only [Player.addCard, List.mem_append, List.mem_singleton] at hx
      rcases hx with hx | rfl
      · exact h.2.2 _ (List.getElem?_mem hplayer) x hx
      · simp
    · simp only [Player.addCard, List.length_append, List.length_singleton]
      omega

theorem snapCard_cardInv (g : Game) (playerId : Nat) (cardIndex : Int) (rnd : Rnd)
    (h : CardInv g) : CardInv (g.snapCard playerId cardIndex rnd).2 := by
  unfold Game.snapCard
  split
  · exact h
  · split
    · exact h
    · cases hk : g.playerIdx playerId with
      | none => exact h
      | some k =>
        obtain ⟨player, hplayer, _⟩ := playerIdx_some g playerId k hk
        simp only [hplayer]
        split
        · exact h
        · rename_i hi
          split
          · exact h
          · rename_i snapped hsn
            split
            · obtain ⟨_, hlen, hdef⟩ := removeCard_spec player cardIndex hi
                (h.2.2 _ (List.getElem?_mem hplayer))
              refine CardInv.step_set g _ h k player _ hplayer rfl hdef
                (discard_allCards _ snapped h.2.1) ?_
              simp only [Deck.discard, List.length_append, List.length_singleton]
              omega
            · exact penaltyCard_cardInv g k player rnd h hplayer

theorem stealCard_cardInv (g : Game) (thiefId targetId : Nat)
    (targetCardIndex thiefCardIndex : Int) (rnd : Rnd) (h : CardInv g) :
    CardInv (g.stealCard thiefId targetId targetCardIndex thiefCardIndex rnd).2 := by
  unfold Game.stealCard
  split
  · exact h
  · cases hk1 : g.playerIdx thiefId with
    | none => exact h
    | some k1 =>
      cases hk2 : g.playerIdx targetId with
      | none => exact h
      | some k2 =>
        obtain ⟨thief, hthief, _⟩ := playerIdx_some g thiefId k1 hk1
        obtain ⟨target, htarget, _⟩ := playerIdx_some g targetId k2 hk2
        simp only [hthief, htarget]
        split
        · exact h
        · rename_i hids
          split
          · exact h
          · split
            · exact h
            · rename_i ht hth
              split
              · exact h
              · rename_i targetCard htc
                split
                · have hdth := h.2.2 _ (List.getElem?_mem hthief)
                  have hdta := h.2.2 _ (List.getElem?_mem htarget)
                  obtain ⟨tc, htcs⟩ := getElem?_join_some thief.hand thiefCardIndex.toNat
                    (by omega) hdth
                  obtain ⟨_, hlen, hdef⟩ := removeCard_spec thief thiefCardIndex hth hdth
                  refine CardInv.step_set2 g _ h k1 k2
                    (playerIdx_ne g _ _ k1 k2 hids hk1 hk2) thief _ target _ hthief htarget rfl
                    ?_ ?_ (discard_allCards _ targetCard h.2.1) ?_
                  · rw [removeCard_after_set thief thiefCardIndex (by omega) (by omega)]
                    exact hdef
                  · intro x hx
                    simp only [htcs] at hx
                    exact mem_set_defined _ _ _ hdta x hx
                  · rw [removeCard_after_set thief thiefCardIndex (by omega) (by omega)]
                    simp only [Deck.discard, List.length_append, List.length_singleton,
                      List.length_set]
                    omega
                · exact penaltyCard_cardInv g k1 thief rnd h hthief

/-- Conservation across one admissible engine call. -/
theorem step_cardInv (g : Game) (op : Op) (h : CardInv g) (ha : Admissible g op) :
    CardInv (step g op).2 := by
  cases op with
  | addPlayer id name socketId => exact addPlayer_cardInv g id name socketId h
  | removePlayer socketId => exact removePlayer_cardInv g socketId h ha
  | reconnectPlayer socketId playerId => exact reconnectPlayer_cardInv g socketId playerId h
  | startGame rnd => exact startGame_step_cardInv g rnd h
  | initialPeek playerId indices => exact initialPeek_cardInv g playerId indices h
  | startPlaying => exact startPlaying_cardInv g h
  | drawCard playerId rnd => exact drawCard_cardInv g playerId rnd h
  | swapWithHand playerId handIndex => exact swapWithHand_cardInv g playerId handIndex h
  | discardDrawnCard playerId => exact discardDrawnCard_cardInv g playerId h
  | usePower playerId => exact usePower_cardInv g playerId h
  | doubleDrop playerId handIndex usePowerToo rnds =>
    exact doubleDrop_cardInv g playerId handIndex usePowerToo rnds h
  | resolvePeekOwn playerId cardIndex => exact resolvePeekOwn_cardInv g playerId cardIndex h ha
  | resolvePeekOther playerId targetPlayerId cardIndex =>
    exact resolvePeekOther_cardInv g playerId targetPlayerId cardIndex h ha
  | resolveQueenSwap playerId player1Id card1Index player2Id card2Index =>
    exact resolveQueenSwap_cardInv g playerId player1Id card1Index player2Id card2Index h ha
  | resolveBlackJackPeek playerId indices =>
    exact resolveBlackJackPeek_cardInv g playerId indices h
  | resolveBlackJackSwap playerId myCardIndex targetPlayerId targetCardIndex =>
    exact resolveBlackJackSwap_cardInv g playerId myCardIndex targetPlayerId targetCardIndex h ha
  | resolveBlackJackSkip playerId => exact resolveBlackJackSkip_cardInv g playerId h ha
  | snapCard playerId cardIndex rnd => exact snapCard_cardInv g playerId cardIndex rnd h
  | stealCard thiefId targetId targetCardIndex thiefCardIndex rnd =>
    exact stealCard_cardInv g thiefId targetId targetCardIndex thiefCardIndex rnd h
  | callCobra playerId => exact callCobra_cardInv g playerId h
  | nextTurn => exact nextTurn_cardInv g h ha

theorem playReachable_run (g : Game) (ops : List Op) (h : PlayReachable g) :
    PlayReachable (run g ops) := by
  induction ops generalizing g with
  | nil => exact h
  | cons op ops ih => exact ih _ (PlayReachable.step g op h)

set_option maxRecDepth 1000000 in
theorem dealtGame_success (rnd : Rnd) :
    ((run (Game.new "ROOM") [Op.addPlayer 1 "ann" 101, Op.addPlayer 2 "bob" 102]).startGame
      rnd).1 = Outcome.success := by
  unfold Game.startGame
  rw [if_neg (by decide)]

theorem dealtGame_reachable (rnd : Rnd) (ops : List Op) :
    PlayReachable (run (dealtGame rnd) ops) :=
  playReachable_run _ ops (PlayReachable.start _ rnd (dealtGame_success rnd))

set_option maxRecDepth 1000000 in
/-- C1, refuted as stated. From a successful `startGame`: after `drawCard` and `usePower` the
sum of the claim is 53 (the power card sits in the drawn slot and in the pending record);
after `drawCard` and `nextTurn` it is 51 (the drawn card is gone); after `usePower`,
`discardDrawnCard` and `resolvePeekOwn` it is 53 with nothing pending (the power card lies
twice on the discard pile); after a black-jack swap with a target index beyond the hand it is
56 (the target's hand has grown to eight slots); after `drawCard` and `removePlayer` of the
turn holder it is 51. -/
theorem conservation_sum_fails :
    (PlayReachable (run (dealtGame rndSeven) powerOps) ∧
      (run (dealtGame rndSeven) powerOps).conservationSum = 53) ∧
    (PlayReachable (run (dealtGame rndId) (drawOps ++ [Op.nextTurn])) ∧
      (run (dealtGame rndId) (drawOps ++ [Op.nextTurn])).conservationSum = 51) ∧
    (PlayReachable
        (run (dealtGame rndSeven) (powerOps ++ [Op.discardDrawnCard 1, Op.resolvePeekOwn 1 0])) ∧
      (run (dealtGame rndSeven)
        (powerOps ++ [Op.discardDrawnCard 1, Op.resolvePeekOwn 1 0])).conservationSum = 53) ∧
    (PlayReachable (run (dealtGame rndJack) jackOps) ∧
      (run (dealtGame rndJack) jackOps).conservationSum = 56) ∧
    (PlayReachable (run (dealtGame rndId) (drawOps ++ [Op.removePlayer 101])) ∧
      (run (dealtGame rndId) (drawOps ++ [Op.removePlayer 101])).conservationSum = 51) :=
  ⟨⟨dealtGame_reachable _ _, by decide⟩, ⟨dealtGame_reachable _ _, by decide⟩,
   ⟨dealtGame_reachable _ _, by decide⟩, ⟨dealtGame_reachable _ _, by decide⟩,
   ⟨dealtGame_reachable _ _, by decide⟩⟩

/-- C1, amended. In every state reachable from a successful `startGame` by engine calls of an
orderly round (the turn advances only with an empty drawn slot, a power is resolved only
while its card is still in the drawn slot, the black-jack swap gets indices inside the hands)
draw-pile size + discard-pile size + the sum of all hand sizes + (1 if `drawnCard` is set)
equals 52, and no pile or hand holds a missing card. -/
theorem conservation_orderly (g : Game) (h : OrderlyReachable g) :
    g.deck.cards.length + g.deck.discardPile.length + g.handTotal +
        (if g.drawnCard.isSome then 1 else 0) = 52 ∧ g.allSlots := by
  induction h with
  | start g rnd hs => exact startGame_cardInv g rnd hs
  | step g op _ ha ih => exact step_cardInv g op ih ha

theorem orderly_run (g : Game) (ops : List Op) (h : OrderlyReachable g)
    (hall : ∀ n, n < ops.length →
      Admissible (run g (ops.take n)) (ops.getD n Op.nextTurn)) :
    OrderlyReachable (run g ops) := by
  induction ops generalizing g with
  | nil => exact h
  | cons op ops ih =>
    have h0 := hall 0 (by simp)
    simp only [List.take_zero, run, List.getD_cons_zero] at h0
    apply ih _ (OrderlyReachable.step g op h h0)
    intro n hn
    have := hall (n + 1) (by simpa using hn)
    simpa [run] using this

set_option maxRecDepth 1000000 in
/-- C1, instance: after an orderly turn with a resolved power the 52 cards are the draw pile
of 42, the discard pile of 2 and the two hands of 4. -/
theorem conservation_orderly_witness :
    OrderlyReachable (run (dealtGame rndSeven) orderlyOps) ∧
    ((run (dealtGame rndSeven) orderlyOps).deck.cards.length +
        (run (dealtGame rndSeven) orderlyOps).deck.discardPile.length +
        (run (dealtGame rndSeven) orderlyOps).handTotal +
        (if (run (dealtGame rndSeven) orderlyOps).drawnCard.isSome then 1 else 0) = 52 ∧
      (run (dealtGame rndSeven) orderlyOps).allSlots) ∧
    ((run (dealtGame rndSeven) orderlyOps).deck.cards.length = 42 ∧
      (run (dealtGame rndSeven) orderlyOps).deck.discardPile.length = 2 ∧
      (run (dealtGame rndSeven) orderlyOps).players.map (fun p => p.hand.length) = [4, 4]) :=
  ⟨orderly_run _ _ (OrderlyReachable.start _ rndSeven (dealtGame_success rndSeven))
      (by decide),
   conservation_orderly _
     (orderly_run _ _ (OrderlyReachable.start _ rndSeven (dealtGame_success rndSeven))
       (by decide)),
   by decide⟩

/-! ### The deck -/

theorem cons_set_perm (x b : Slot) (xs : List Slot) (j : Nat) (h : xs[j]? = some b) :
    List.Perm (b :: xs.set j x) (x :: xs) := by
  induction xs generalizing j with
  | nil => simp at h
  | cons y ys ih =>
    cases j with
    | zero =>
      simp only [List.getElem?_cons_zero, Option.some.injEq] at h
      subst h
      exact List.Perm.swap _ _ _
    | succ k =>
      simp only [List.getElem?_cons_succ] at h
      simp only [List.set_cons_succ]
      exact ((List.Perm.swap y b _).trans ((ih k h).cons y)).trans (List.Perm.swap x y _)

theorem set_set_perm (l : List Slot) (i j : Nat) (a b : Slot) (hi : l[i]? = some a)
    (hj : l[j]? = some b) : List.Perm ((l.set i b).set j a) l := by
  induction l generalizing i j with
  | nil => simp at hi
  | cons x xs ih =>
    cases i with
    | zero =>
      simp only [List.getElem?_cons_zero, Option.some.injEq] at hi
      subst hi
      cases j with
      | zero =>
        simp only [List.getElem?_cons_zero, Option.some.injEq] at hj
        subst hj
        simp
      | succ k =>
        simp only [List.getElem?_cons_succ] at hj
        simp only [List.set_cons_zero, List.set_cons_succ]
        exact cons_set_perm x b xs k hj
    | succ m =>
      simp only [List.getElem?_cons_succ] at hi
      cases j with
      | zero =>
        simp only [List.getElem?_cons_zero, Option.some.injEq] at hj
        subst hj
        simp only [List.set_cons_zero, List.set_cons_succ]
        exact cons_set_perm x a xs m hi
      | succ k =>
        simp only [List.getElem?_cons_succ] at hj
        simp only [List.set_cons_succ]
        exact (ih m k hi hj).cons x

theorem swapAt_perm (l : List Slot) (i j : Nat) : List.Perm (swapAt l i j) l := by
  unfold swapAt
  split
  · rename_i a b ha hb
    exact set_set_perm l i j a b ha hb
  · exact List.Perm.refl _

theorem shuffleLoop_perm (rnd : Rnd) (n : Nat) (cs : List Slot) :
    List.Perm (shuffleLoop rnd n cs) cs := by
  induction n generalizing cs with
  | zero => exact List.Perm.refl _
  | succ i ih => exact (ih _).trans (swapAt_perm _ _ _)

theorem shuffle_perm (rnd : Rnd) (cs : List Slot) : List.Perm (shuffle rnd cs) cs :=
  shuffleLoop_perm rnd _ cs

theorem dropLast_append_popVal (l : List Slot) (h : l ≠ []) :
    l.dropLast ++ [popVal l] = l := by
  unfold popVal
  rw [List.getLast?_eq_getLast _ h]
  simp only [Option.join]
  exact List.dropLast_append_getLast h

/-- C18. `shuffle` is a permutation: whatever the random choices (the oracle yields every
sequence of choices `0 ≤ j ≤ i`), the draw pile afterwards has the same length and the same
multiset of cards as before, and the discard pile is unchanged. -/
theorem shuffle_permutation (d : Deck) (rnd : Rnd) :
    (d.shuffle rnd).cards.length = d.cards.length ∧
    List.Perm (d.shuffle rnd).cards d.cards ∧
    (d.shuffle rnd).discardPile = d.discardPile :=
  ⟨shuffle_length rnd d.cards, shuffle_perm rnd d.cards, rfl⟩

/-- C13. Deck reclamation: with an empty draw pile and `m > 1` cards on the discard pile,
`draw` returns a card for every outcome of the shuffle; afterwards the discard pile is exactly
the former top discard, the draw pile holds `m - 2` cards, and the new draw pile together with
the returned card is a permutation of the `m - 1` former discards below the top. -/
theorem draw_reclaims (d : Deck) (rnd : Rnd) (hc : d.cards = [])
    (hm : 1 < d.discardPile.length) (hd : ∀ x ∈ d.discardPile, x ≠ none) :
    ∃ c top, (d.draw rnd).1 = some c ∧
      d.discardPile.getLast? = some (some top) ∧
      (d.draw rnd).2.discardPile = [some top] ∧
      (d.draw rnd).2.cards.length = d.discardPile.length - 2 ∧
      List.Perm ((d.draw rnd).2.cards ++ [some c]) d.discardPile.dropLast := by
  have hne : d.discardPile ≠ [] := by intro h; rw [h] at hm; simp at hm
  have hlen := shuffle_length rnd d.discardPile.dropLast
  have hsne : shuffle rnd d.discardPile.dropLast ≠ [] := by
    intro h
    rw [h] at hlen
    simp only [List.length_nil, List.length_dropLast] at hlen
    omega
  have hmem : ∀ x ∈ shuffle rnd d.discardPile.dropLast, x ≠ none := fun x hx =>
    hd x (List.dropLast_subset _ (shuffle_mem rnd _ x hx))
  obtain ⟨c, hcs⟩ := popVal_some _ hsne hmem
  obtain ⟨top, htop⟩ := popVal_some _ hne hd
  have hdraw : d.draw rnd = (popVal (shuffle rnd d.discardPile.dropLast),
      { cards := (shuffle rnd d.discardPile.dropLast).dropLast,
        discardPile := [popVal d.discardPile] }) := by
    unfold Deck.draw
    rw [if_pos (by rw [hc]; rfl), if_neg (by omega)]
  refine ⟨c, top, ?_, ?_, ?_, ?_, ?_⟩
  · rw [hdraw]; exact hcs
  · have h1 := dropLast_append_popVal _ hne
    rw [htop] at h1
    rw [← h1]
    simp
  · rw [hdraw, htop]
  · rw [hdraw]
    simp only [List.length_dropLast, hlen]
    omega
  · rw [hdraw]
    have h1 := dropLast_append_popVal _ hsne
    rw [hcs] at h1
    simp only
    rw [h1]
    exact shuffle_perm rnd _

/-- C13, instance: four discards and an empty draw pile; the draw returns a card, the 7 of
spades stays as the only discard and two cards form the new draw pile. -/
theorem draw_reclaims_witness :
    (reclaimDeck.cards = [] ∧ 1 < reclaimDeck.discardPile.length ∧
      ∀ x ∈ reclaimDeck.discardPile, x ≠ none) ∧
    ∃ c top, (reclaimDeck.draw rndZero).1 = some c ∧
      reclaimDeck.discardPile.getLast? = some (some top) ∧
      (reclaimDeck.draw rndZero).2.discardPile = [some top] ∧
      (reclaimDeck.draw rndZero).2.cards.length = reclaimDeck.discardPile.length - 2 ∧
      List.Perm ((reclaimDeck.draw rndZero).2.cards ++ [some c])
        reclaimDeck.discardPile.dropLast :=
  ⟨⟨rfl, by decide, by decide⟩, draw_reclaims reclaimDeck rndZero rfl (by decide) (by decide)⟩

/-- C14. Deck exhaustion: with an empty draw pile and at most one discard, `draw` returns no
card and leaves both piles as they were; with a non-empty draw pile it returns the back entry,
the draw pile loses exactly that entry and the discard pile is unchanged. -/
theorem draw_exhaustion (d : Deck) (rnd : Rnd) :
    (d.cards = [] → d.discardPile.length ≤ 1 → d.draw rnd = (none, d)) ∧
    (d.cards ≠ [] → ∃ front back, d.cards = front ++ [back] ∧
      d.draw rnd = (back, { cards := front, discardPile := d.discardPile })) := by
  constructor
  · intro hc hl
    unfold Deck.draw
    rw [if_pos (by rw [hc]; rfl), if_pos hl]
  · intro hne
    refine ⟨d.cards.dropLast, popVal d.cards, (dropLast_append_popVal _ hne).symm, ?_⟩
    unfold Deck.draw
    rw [if_neg (by intro h; exact hne (List.length_eq_zero.mp h))]

/-- C14, instance: the exhausted deck of one discard yields no card; the deck of three cards
yields its back card, the 3 of clubs. -/
theorem draw_exhaustion_witness :
    (exhaustedGame.deck.cards = [] ∧ exhaustedGame.deck.discardPile.length ≤ 1 ∧
      exhaustedGame.deck.draw rndZero = (none, exhaustedGame.deck)) ∧
    (stockDeck.cards ≠ [] ∧ ∃ front back, stockDeck.cards = front ++ [back] ∧
      stockDeck.draw rndZero = (back, { cards := front, discardPile := stockDeck.discardPile })) :=
  ⟨⟨rfl, by decide, (draw_exhaustion exhaustedGame.deck rndZero).1 rfl (by decide)⟩,
   ⟨by decide, (draw_exhaustion stockDeck rndZero).2 (by decide)⟩⟩

/-- C15. The card value table: 1 for an ace, the face number for the ranks 2 to 10, -1 for the
king of hearts or diamonds, 10 for the king of clubs or spades and for every queen and jack,
0 for a missing card; hence every value lies between -1 and 10. -/
theorem getCardValue_table :
    (∀ s : Suit, getCardValue (some ⟨s, Rank.A⟩) = 1 ∧
      getCardValue (some ⟨s, Rank.n2⟩) = 2 ∧ getCardValue (some ⟨s, Rank.n3⟩) = 3 ∧
      getCardValue (some ⟨s, Rank.n4⟩) = 4 ∧ getCardValue (some ⟨s, Rank.n5⟩) = 5 ∧
      getCardValue (some ⟨s, Rank.n6⟩) = 6 ∧ getCardValue (some ⟨s, Rank.n7⟩) = 7 ∧
      getCardValue (some ⟨s, Rank.n8⟩) = 8 ∧ getCardValue (some ⟨s, Rank.n9⟩) = 9 ∧
      getCardValue (some ⟨s, Rank.n10⟩) = 10 ∧
      getCardValue (some ⟨s, Rank.Q⟩) = 10 ∧ getCardValue (some ⟨s, Rank.J⟩) = 10) ∧
    getCardValue (some ⟨Suit.hearts, Rank.K⟩) = -1 ∧
    getCardValue (some ⟨Suit.diamonds, Rank.K⟩) = -1 ∧
    getCardValue (some ⟨Suit.clubs, Rank.K⟩) = 10 ∧
    getCardValue (some ⟨Suit.spades, Rank.K⟩) = 10 ∧
    getCardValue none = 0 ∧
    ∀ x : Slot, -1 ≤ getCardValue x ∧ getCardValue x ≤ 10 := by
  refine ⟨?_, by decide, by decide, by decide, by decide, by decide, ?_⟩
  · intro s
    cases s <;> decide
  · intro x
    rcases x with _ | ⟨s, r⟩
    · decide
    · cases s <;> cases r <;> decide

/-- C16. The power classification: `hasPower` is peekOwn exactly for the ranks 7 and 8,
peekOther exactly for 9 and 10, queenSwap exactly for a queen of any suit, blackJack exactly
for the jack of clubs or spades, and no power exactly for every other card. -/
theorem hasPower_classification (c : Card) :
    (hasPower (some c) = some Power.peekOwn ↔ c.rank = Rank.n7 ∨ c.rank = Rank.n8) ∧
    (hasPower (some c) = some Power.peekOther ↔ c.rank = Rank.n9 ∨ c.rank = Rank.n10) ∧
    (hasPower (some c) = some Power.queenSwap ↔ c.rank = Rank.Q) ∧
    (hasPower (some c) = some Power.blackJack ↔
      c.rank = Rank.J ∧ (c.suit = Suit.clubs ∨ c.suit = Suit.spades)) ∧
    (hasPower (some c) = none ↔
      c.rank ≠ Rank.n7 ∧ c.rank ≠ Rank.n8 ∧ c.rank ≠ Rank.n9 ∧ c.rank ≠ Rank.n10 ∧
        c.rank ≠ Rank.Q ∧ ¬ (c.rank = Rank.J ∧ (c.suit = Suit.clubs ∨ c.suit = Suit.spades))) := by
  rcases c with ⟨s, r⟩
  cases s <;> cases r <;> decide

set_option maxRecDepth 100000 in
/-- C17. A newly initialised deck: the draw pile holds exactly 52 entries, pairwise distinct,
each of them a card, every rank of every suit exactly once, and the discard pile is empty. -/
theorem init_deck_complete :
    Deck.init.cards.length = 52 ∧ Deck.init.cards.Nodup ∧
    (∀ x ∈ Deck.init.cards, x ≠ none) ∧
    (∀ c : Card, (Deck.init.cards.filter (fun x => decide (x = some c))).length = 1) ∧
    Deck.init.discardPile = [] := by
  refine ⟨by decide, by decide, by decide, ?_, rfl⟩
  intro c
  rcases c with ⟨s, r⟩
  cases s <;> cases r <;> decide

/-! ### Removal from a hand -/

theorem getElem?_eraseIdx_shift (l : List Slot) (k j : Nat) (hjk : j ≠ k) :
    (l.eraseIdx k)[if j < k then j else j - 1]? = l[j]? := by
  rw [List.getElem?_eraseIdx]
  by_cases h : j < k
  · simp only [h, if_true]
  · have h2 : ¬ (j - 1 < k) := by omega
    simp only [h, if_false, h2]
    congr 1
    omega

/-- C19. `removeCard` keeps knowledge aligned with the compacted hand.  For a valid index `k`
it returns the card at `k`, the new hand is the old one with position `k` deleted, the card
formerly at any other position `j` now lies at `j` (if `j < k`) or `j - 1` (if `j > k`), and
that new position is known afterwards if and only if `j` was known before.  For an index
outside the hand it returns null and changes nothing. -/
theorem removeCard_aligned (p : Player) (k : Int) :
    (0 ≤ k ∧ k < p.hand.length →
      p.hand[k.toNat]? = some (p.removeCard k).1 ∧
      (p.removeCard k).2.hand = p.hand.eraseIdx k.toNat ∧
      (∀ j : Int, 0 ≤ j → j < p.hand.length → j ≠ k →
        (p.removeCard k).2.hand[(if j < k then j else j - 1).toNat]? = p.hand[j.toNat]?) ∧
      (∀ j : Int, j ≠ k →
        ((if j < k then j else j - 1) ∈ (p.removeCard k).2.knownCards ↔ j ∈ p.knownCards))) ∧
    (k < 0 ∨ (p.hand.length : Int) ≤ k → p.removeCard k = (none, p)) := by
  constructor
  · intro hk
    have hnot : ¬ (k < 0 ∨ k ≥ p.hand.length) := by omega
    have hlt : k.toNat < p.hand.length := by omega
    unfold Player.removeCard
    rw [if_neg hnot]
    refine ⟨?_, rfl, ?_, ?_⟩
    · simp [List.getElem?_eq_getElem hlt, Option.join]
    · intro j hj0 hjl hjk
      have hne : j.toNat ≠ k.toNat := by omega
      have := getElem?_eraseIdx_shift p.hand k.toNat j.toNat hne
      simp only
      rw [← this]
      congr 1
      by_cases h : j < k
      · have h2 : j.toNat < k.toNat := by omega
        simp only [h, h2, if_true]
      · have h2 : ¬ j.toNat < k.toNat := by omega
        simp only [h, h2, if_false]
        omega
    · intro j hjk
      simp only [List.mem_map, List.mem_filter, decide_eq_true_eq]
      constructor
      · rintro ⟨i, ⟨hi, hik⟩, hij⟩
        have : i = j := by
          by_cases h1 : i > k <;> by_cases h2 : j < k <;>
            simp only [h1, h2, if_true, if_false] at hij <;> omega
        rw [← this]
        exact hi
      · intro hj
        refine ⟨j, ⟨hj, hjk⟩, ?_⟩
        by_cases h1 : j > k <;> by_cases h2 : j < k <;>
          simp only [h1, h2, if_true, if_false] <;> omega
  · intro hk
    unfold Player.removeCard
    rw [if_pos (by omega)]

/-- C19, instance: the player holding 5, 7, 7 and knowing the slots 0 and 2 gives up slot 1;
the 7 formerly at slot 2 is then known at slot 1. -/
theorem removeCard_aligned_witness :
    ((0 : Int) ≤ 1 ∧ (1 : Int) < snapBefore.hand.length) ∧
    (snapBefore.hand[(1 : Int).toNat]? = some (snapBefore.removeCard 1).1 ∧
      (snapBefore.removeCard 1).2.hand = snapBefore.hand.eraseIdx (1 : Int).toNat ∧
      (∀ j : Int, 0 ≤ j → j < snapBefore.hand.length → j ≠ 1 →
        (snapBefore.removeCard 1).2.hand[(if j < 1 then j else j - 1).toNat]? =
          snapBefore.hand[j.toNat]?) ∧
      (∀ j : Int, j ≠ 1 →
        ((if j < 1 then j else j - 1) ∈ (snapBefore.removeCard 1).2.knownCards ↔
          j ∈ snapBefore.knownCards))) ∧
    ((-1 : Int) < 0 ∨ (snapBefore.hand.length : Int) ≤ -1) ∧
    snapBefore.removeCard (-1) = (none, snapBefore) :=
  ⟨by decide, (removeCard_aligned snapBefore 1).1 (by decide), by decide,
   (removeCard_aligned snapBefore (-1)).2 (by decide)⟩

/-! ### Turn rotation -/

theorem add_mod_succ (i d n : Nat) : ((i + 1) % n + d) % n = (i + (d + 1)) % n := by
  rw [Nat.add_mod, Nat.mod_mod, ← Nat.add_mod]
  congr 1
  omega

/-- The loop of `nextTurn` entered after `a < n` attempts stops after `d` further steps, at the
first connected seat or when the attempts reach `n`; any fuel of at least `n - a` is enough
for that. -/
theorem nextIndexLoop_spec (ps : List Player) (fuel i a : Nat) (ha : a < ps.length)
    (hf : ps.length - a ≤ fuel) :
    ∃ d, 1 ≤ d ∧ a + d ≤ ps.length ∧
      nextIndexLoop ps fuel i a = (i + d) % ps.length ∧
      (∀ e, 1 ≤ e → e < d → connectedAt ps ((i + e) % ps.length) = false) ∧
      (connectedAt ps ((i + d) % ps.length) = true ∨ a + d = ps.length) := by
  induction fuel generalizing i a with
  | zero => omega
  | succ fuel ih =>
    unfold nextIndexLoop
    simp only
    by_cases hc : (!connectedAt ps ((i + 1) % ps.length) && decide (a + 1 < ps.length)) = true
    · rw [if_pos hc]
      simp only [Bool.and_eq_true, Bool.not_eq_true', decide_eq_true_eq] at hc
      obtain ⟨d, hd1, hd2, hd3, hd4, hd5⟩ := ih ((i + 1) % ps.length) (a + 1) hc.2 (by omega)
      refine ⟨d + 1, by omega, by omega, ?_, ?_, ?_⟩
      · rw [hd3, add_mod_succ]
      · intro e he1 he2
        by_cases he : e = 1
        · subst he; exact hc.1
        · have := hd4 (e - 1) (by omega) (by omega)
          rw [add_mod_succ] at this
          have he3 : e - 1 + 1 = e := by omega
          rw [he3] at this
          exact this
      · rw [add_mod_succ] at hd5
        rcases hd5 with h | h
        · exact Or.inl h
        · exact Or.inr (by omega)
    · rw [if_neg hc]
      refine ⟨1, le_refl _, by omega, rfl, ?_, ?_⟩
      · intro e he1 he2; omega
      · simp only [Bool.and_eq_true, Bool.not_eq_true', decide_eq_true_eq, not_and] at hc
        by_cases h : connectedAt ps ((i + 1) % ps.length) = true
        · exact Or.inl h
        · right
          have := hc (by simpa using h)
          omega

/-- The fuel that `nextTurn` passes to its loop never runs out: any larger fuel gives the
same seat. -/
theorem nextIndexLoop_fuel (ps : List Player) (fuel i a : Nat) (ha : a < ps.length)
    (hf : ps.length - a ≤ fuel) :
    nextIndexLoop ps fuel i a = nextIndexLoop ps (ps.length - a) i a := by
  induction fuel generalizing i a with
  | zero => omega
  | succ fuel ih =>
    have hs : ps.length - a = (ps.length - (a + 1)) + 1 := by omega
    rw [hs]
    unfold nextIndexLoop
    simp only
    by_cases hc : (!connectedAt ps ((i + 1) % ps.length) && decide (a + 1 < ps.length)) = true
    · rw [if_pos hc, if_pos hc]
      simp only [Bool.and_eq_true, Bool.not_eq_true', decide_eq_true_eq] at hc
      exact ih _ _ hc.2 (by omega)
    · rw [if_neg hc, if_neg hc]

theorem exists_offset (n c s : Nat) (hs : s < n) : ∃ d, 1 ≤ d ∧ d ≤ n ∧ (c + d) % n = s := by
  have hn : 0 < n := by omega
  have hc := Nat.mod_lt c hn
  by_cases h : c % n < s
  · refine ⟨s - c % n, by omega, by omega, ?_⟩
    rw [← Nat.mod_add_mod c n (s - c % n)]
    have h1 : c % n + (s - c % n) = s := by omega
    rw [h1, Nat.mod_eq_of_lt hs]
  · refine ⟨n + s - c % n, by omega, by omega, ?_⟩
    rw [← Nat.mod_add_mod c n (n + s - c % n)]
    have h1 : c % n + (n + s - c % n) = s + n := by omega
    rw [h1, Nat.add_mod_right, Nat.mod_eq_of_lt hs]

theorem connectedAt_lt (ps : List Player) (i : Nat) (h : connectedAt ps i = true) :
    i < ps.length := by
  unfold connectedAt at h
  split at h
  · rename_i p hp; exact lt_of_getElem?_some hp
  · cases h

/-- With a connected seat present, the seat chosen by the loop of `nextTurn` is the first
connected one in cyclic order after the turn holder. -/
theorem nextIndex_first_connected (ps : List Player) (c : Nat)
    (hconn : ∃ p ∈ ps, p.connected = true) :
    ∃ d, 1 ≤ d ∧ d ≤ ps.length ∧
      nextIndexLoop ps ps.length c 0 = (c + d) % ps.length ∧
      connectedAt ps ((c + d) % ps.length) = true ∧
      (∀ e, 1 ≤ e → e < d → connectedAt ps ((c + e) % ps.length) = false) := by
  obtain ⟨p, hp, hpc⟩ := hconn
  obtain ⟨s, hs, hps⟩ := List.getElem_of_mem hp
  have hsc : connectedAt ps s = true := by
    unfold connectedAt
    rw [List.getElem?_eq_getElem hs, hps]
    exact hpc
  obtain ⟨d, hd1, hd2, hd3, hd4, hd5⟩ := nextIndexLoop_spec ps ps.length c 0 (by omega) (by omega)
  refine ⟨d, hd1, by omega, hd3, ?_, hd4⟩
  rcases hd5 with h | h
  · exact h
  · obtain ⟨d0, h01, h02, h03⟩ := exists_offset ps.length c s hs
    by_cases hlt : d0 < d
    · have := hd4 d0 h01 hlt
      rw [h03, hsc] at this
      cases this
    · have : d0 = d := by omega
      rw [← this, h03]
      exact hsc

theorem offset_full (n c d : Nat) (h1 : 1 ≤ d) (h2 : d ≤ n) (h : (c + d) % n = c) : d = n := by
  have hdiv := Nat.mod_add_div (c + d) n
  rw [h] at hdiv
  have hd : d = n * ((c + d) / n) := by omega
  rcases Nat.eq_zero_or_pos ((c + d) / n) with hq | hq
  · rw [hq] at hd; omega
  · have := Nat.le_mul_of_pos_right n hq
    omega

/-- C12. Turn rotation: when at least one seat is connected and `nextTurn` does not end the
round (it returns its plain success result), the new turn index is the first connected seat
in cyclic order after the old one: it lies `d` steps ahead with `1 ≤ d ≤ n`, it is connected,
every seat passed on the way is disconnected, and it is the old seat itself only if no other
seat is connected.  The drawn card, the pending power and the reaction window are cleared and
the seats are untouched. -/
theorem nextTurn_rotation (g : Game) (hconn : ∃ p ∈ g.players, p.connected = true)
    (hs : g.nextTurn.1 = Outcome.success) :
    ∃ d, 1 ≤ d ∧ d ≤ g.players.length ∧
      g.nextTurn.2.currentPlayerIndex = (g.currentPlayerIndex + d) % g.players.length ∧
      connectedAt g.players g.nextTurn.2.currentPlayerIndex = true ∧
      (∀ e, 1 ≤ e → e < d →
        connectedAt g.players ((g.currentPlayerIndex + e) % g.players.length) = false) ∧
      (g.nextTurn.2.currentPlayerIndex = g.currentPlayerIndex →
        ∀ i, i < g.players.length → i ≠ g.currentPlayerIndex →
          connectedAt g.players i = false) ∧
      g.nextTurn.2.drawnCard = none ∧ g.nextTurn.2.pendingPower = none ∧
      g.nextTurn.2.snapWindow = false ∧ g.nextTurn.2.players = g.players := by
  obtain ⟨d, hd1, hd2, hd3, hd4, hd5⟩ :=
    nextIndex_first_connected g.players g.currentPlayerIndex hconn
  have hn : g.players.length ≠ 0 := by
    obtain ⟨p, hp, _⟩ := hconn
    intro h
    rw [List.length_eq_zero.mp h] at hp
    cases hp
  have hstate : g.nextTurn.2.currentPlayerIndex =
        nextIndexLoop g.players g.players.length g.currentPlayerIndex 0 ∧
      g.nextTurn.2.drawnCard = none ∧ g.nextTurn.2.pendingPower = none ∧
      g.nextTurn.2.snapWindow = false ∧ g.nextTurn.2.players = g.players := by
    unfold Game.nextTurn at hs ⊢
    simp only at hs ⊢
    rw [if_neg hn] at hs ⊢
    split at hs
    · rename_i hph
      rw [if_pos hph]
      split at hs
      · rename_i hcall
        exfalso
        unfold Game.endRound at hs
        simp only at hs
        split at hs <;> cases hs
      · rename_i hcall
        rw [if_neg hcall]
        exact ⟨rfl, rfl, rfl, rfl, rfl⟩
    · rename_i hph
      rw [if_neg hph]
      exact ⟨rfl, rfl, rfl, rfl, rfl⟩
  obtain ⟨hidx, hdr, hpp, hsw, hpl⟩ := hstate
  refine ⟨d, hd1, hd2, by rw [hidx, hd3], by rw [hidx, hd3]; exact hd4, hd5, ?_,
    hdr, hpp, hsw, hpl⟩
  intro hsame i hi hne
  rw [hidx, hd3] at hsame
  have hdn := offset_full _ _ _ hd1 hd2 hsame
  obtain ⟨e, he1, he2, he3⟩ := exists_offset g.players.length g.currentPlayerIndex i hi
  by_cases hlt : e < d
  · rw [← he3]
    exact hd5 e he1 hlt
  · have hed : e = d := by omega
    rw [hed, hsame] at he3
    exact absurd he3.symm hne

/-- C12, instance: the first seat holds the turn and the next seat is disconnected; the turn
passes to the third seat, two steps ahead, and the drawn card and the window are cleared. -/
theorem nextTurn_rotation_witness :
    ((∃ p ∈ skipGame.players, p.connected = true) ∧
      skipGame.nextTurn.1 = Outcome.success) ∧
    skipGame.nextTurn.2.currentPlayerIndex = 2 ∧
    ∃ d, 1 ≤ d ∧ d ≤ skipGame.players.length ∧
      skipGame.nextTurn.2.currentPlayerIndex =
        (skipGame.currentPlayerIndex + d) % skipGame.players.length ∧
      connectedAt skipGame.players skipGame.nextTurn.2.currentPlayerIndex = true ∧
      (∀ e, 1 ≤ e → e < d →
        connectedAt skipGame.players
          ((skipGame.currentPlayerIndex + e) % skipGame.players.length) = false) ∧
      (skipGame.nextTurn.2.currentPlayerIndex = skipGame.currentPlayerIndex →
        ∀ i, i < skipGame.players.length → i ≠ skipGame.currentPlayerIndex →
          connectedAt skipGame.players i = false) ∧
      skipGame.nextTurn.2.drawnCard = none ∧ skipGame.nextTurn.2.pendingPower = none ∧
      skipGame.nextTurn.2.snapWindow = false ∧ skipGame.nextTurn.2.players = skipGame.players :=
  ⟨⟨by decide, by decide⟩, by decide, nextTurn_rotation skipGame (by decide) (by decide)⟩

/-! ### The cobra lap -/

theorem seating_eq (g h : Game) (h1 : h.phase = g.phase)
    (h2 : h.currentPlayerIndex = g.currentPlayerIndex)
    (h3 : h.cobraCallerIndex = g.cobraCallerIndex)
    (h4 : h.players.map (fun p => p.connected) = g.players.map (fun p => p.connected)) :
    h.seating = g.seating := by
  unfold Game.seating
  rw [h1, h2, h3, h4]

theorem connected_set (ps : List Player) (k : Nat) (q : Player)
    (h : ∀ p, ps[k]? = some p → q.connected = p.connected) :
    (ps.set k q).map (fun p => p.connected) = ps.map (fun p => p.connected) := by
  cases hk : ps[k]? with
  | none =>
    rw [List.set_eq_of_length_le]
    exact (List.getElem?_eq_none_iff.mp hk)
  | some p => exact map_set_same _ ps k p q hk (h p hk)

theorem connected_set2 (ps : List Player) (k1 k2 : Nat) (q1 q2 : Player)
    (h1 : ∀ p, ps[k1]? = some p → q1.connected = p.connected)
    (h2 : ∀ p, ps[k2]? = some p → q2.connected = p.connected) :
    ((ps.set k1 q1).set k2 q2).map (fun p => p.connected) = ps.map (fun p => p.connected) := by
  rw [connected_set (ps.set k1 q1) k2 q2, connected_set ps k1 q1 h1]
  intro p hp
  rw [List.getElem?_set] at hp
  split at hp
  · rename_i hk
    subst hk
    split at hp
    · cases hp
      cases hk2 : ps[k1]? with
      | none =>
        have := List.getElem?_eq_none_iff.mp hk2
        omega
      | some p0 => rw [h1 p0 hk2, h2 p0 hk2]
    · cases hp
  · exact h2 p hp

theorem markKnown_connected (p : Player) (i : Int) : (p.markKnown i).connected = p.connected := by
  unfold Player.markKnown; split <;> rfl

theorem markAll_connected (p : Player) (idxs : List Int) :
    (markAll p idxs).connected = p.connected := by
  unfold markAll
  induction idxs generalizing p with
  | nil => rfl
  | cons a as ih => simp only [List.foldl_cons]; rw [ih, markKnown_connected]

theorem removeCard_connected (p : Player) (i : Int) :
    (p.removeCard i).2.connected = p.connected := by
  unfold Player.removeCard; split <;> rfl

theorem swapCard_connected (p : Player) (i : Int) (c : Slot) :
    (p.swapCard i c).2.connected = p.connected := by
  unfold Player.swapCard; split <;> rfl

theorem handSet_connected (p : Player) (i : Int) (c : Slot) :
    (p.handSet i c).connected = p.connected := by
  unfold Player.handSet; repeat' split
  all_goals rfl

theorem penaltyDraws_connected (rnds : Nat → Rnd) (n : Nat) (p : Player) (d : Deck) (cnt : Nat) :
    (penaltyDraws rnds n p d cnt).1.connected = p.connected := by
  obtain ⟨extra, he⟩ := penaltyDraws_spec rnds n p d cnt
  rw [he]

theorem initialPeek_seating (g : Game) (playerId : Nat) (indices : List Int) :
    (g.initialPeek playerId indices).2.seating = g.seating := by
  unfold Game.initialPeek
  repeat' split
  all_goals first
    | rfl
    | (rename_i k _ player hplayer _ _
       exact seating_eq _ _ rfl rfl rfl (connected_set _ _ _ (fun p hp => by
         rw [hplayer] at hp; cases hp; exact markAll_connected _ _)))

theorem drawCard_seating (g : Game) (playerId : Nat) (rnd : Rnd) :
    (g.drawCard playerId rnd).2.seating = g.seating := by
  unfold Game.drawCard
  simp only []
  repeat' split
  all_goals rfl

theorem swapWithHand_seating (g : Game) (playerId : Nat) (handIndex : Int) :
    (g.swapWithHand playerId handIndex).2.seating = g.seating := by
  unfold Game.swapWithHand
  cases hcur : g.getCurrentPlayer with
  | none => rfl
  | some player =>
    unfold Game.getCurrentPlayer at hcur
    simp only []
    repeat' split
    all_goals first
      | rfl
      | exact seating_eq _ _ rfl rfl rfl (connected_set _ _ _ (fun p hp => by
          rw [hcur] at hp; cases hp
          rw [markKnown_connected, swapCard_connected]))

theorem discardDrawnCard_seating (g : Game) (playerId : Nat) :
    (g.discardDrawnCard playerId).2.seating = g.seating := by
  unfold Game.discardDrawnCard
  repeat' split
  all_goals rfl

theorem usePower_seating (g : Game) (playerId : Nat) :
    (g.usePower playerId).2.seating = g.seating := by
  unfold Game.usePower
  repeat' split
  all_goals rfl

theorem doubleDrop_seating (g : Game) (playerId : Nat) (handIndex : Int) (usePowerToo : Bool)
    (rnds : Nat → Rnd) :
    (g.doubleDrop playerId handIndex usePowerToo rnds).2.seating = g.seating := by
  unfold Game.doubleDrop
  cases hcur : g.getCurrentPlayer with
  | none => rfl
  | some player =>
    unfold Game.getCurrentPlayer at hcur
    simp only []
    repeat' split
    all_goals first
      | rfl
      | exact seating_eq _ _ rfl rfl rfl (connected_set _ _ _ (fun p hp => by
          rw [hcur] at hp; cases hp; exact penaltyDraws_connected _ _ _ _ _))
      | exact seating_eq _ _ rfl rfl rfl (connected_set _ _ _ (fun p hp => by
          rw [hcur] at hp; cases hp; exact removeCard_connected _ _))

theorem finishPower_seating (g : Game) (pp : PendingPower) :
    (g.finishPower pp).seating = g.seating := rfl

theorem setPlayer_seating (g : Game) (k : Nat) (player q : Player)
    (hplayer : g.players[k]? = some player) (hq : q.connected = player.connected) :
    (g.setPlayer k q).seating = g.seating :=
  seating_eq _ _ rfl rfl rfl (connected_set _ _ _ (fun p hp => by
    rw [hplayer] at hp; cases hp; exact hq))

theorem resolvePeekOwn_seating (g : Game) (playerId : Nat) (cardIndex : Int) :
    (g.resolvePeekOwn playerId cardIndex).2.seating = g.seating := by
  unfold Game.resolvePeekOwn
  cases hpp : g.pendingPower with
  | none => rfl
  | some pp =>
    simp only []
    split
    · rfl
    · cases hk : g.playerIdx playerId with
      | none => rfl
      | some k =>
        simp only []
        cases hplayer : g.players[k]? with
        | none => rfl
        | some player =>
          simp only []
          split
          · rfl
          · rw [finishPower_seating]
            exact setPlayer_seating g k player _ hplayer (markKnown_connected _ _)

theorem resolvePeekOther_seating (g : Game) (playerId targetPlayerId : Nat) (cardIndex : Int) :
    (g.resolvePeekOther playerId targetPlayerId cardIndex).2.seating = g.seating := by
  unfold Game.resolvePeekOther
  repeat' split
  all_goals rfl

theorem resolveBlackJackSkip_seating (g : Game) (playerId : Nat) :
    (g.resolveBlackJackSkip playerId).2.seating = g.seating := by
  unfold Game.resolveBlackJackSkip
  repeat' split
  all_goals rfl

theorem resolveBlackJackPeek_seating (g : Game) (playerId : Nat) (indices : List Int) :
    (g.resolveBlackJackPeek playerId indices).2.seating = g.seating := by
  unfold Game.resolveBlackJackPeek
  cases hpp : g.pendingPower with
  | none => rfl
  | some pp =>
    simp only []
    split
    · rfl
    · cases hk : g.playerIdx playerId with
      | none => rfl
      | some k =>
        simp only []
        cases hplayer : g.players[k]? with
        | none => rfl
        | some player =>
          simp only []
          split
          · rfl
          · exact seating_eq _ _ rfl rfl rfl (connected_set _ _ _ (fun p hp => by
              rw [hplayer] at hp; cases hp; exact markAll_connected _ _))

theorem set2_seating (g h : Game) (k1 k2 : Nat) (p1 p2 q1 q2 : Player)
    (h1 : g.players[k1]? = some p1) (h2 : g.players[k2]? = some p2)
    (hpl : h.players = (g.players.set k1 q1).set k2 q2)
    (hq1 : q1.connected = p1.connected) (hq2 : q2.connected = p2.connected)
    (hph : h.phase = g.phase) (hidx : h.currentPlayerIndex = g.currentPlayerIndex)
    (hcc : h.cobraCallerIndex = g.cobraCallerIndex) : h.seating = g.seating :=
  seating_eq _ _ hph hidx hcc (by
    rw [hpl]
    exact connected_set2 _ _ _ _ _
      (fun p hp => by rw [h1] at hp; cases hp; exact hq1)
      (fun p hp => by rw [h2] at hp; cases hp; exact hq2))

theorem resolveQueenSwap_seating (g : Game) (playerId player1Id : Nat) (card1Index : Int)
    (player2Id : Nat) (card2Index : Int) :
    (g.resolveQueenSwap playerId player1Id card1Index player2Id card2Index).2.seating =
      g.seating := by
  unfold Game.resolveQueenSwap
  cases hpp : g.pendingPower with
  | none => rfl
  | some pp =>
    simp only []
    split
    · rfl
    · cases hk1 : g.playerIdx player1Id with
      | none => rfl
      | some k1 =>
        cases hk2 : g.playerIdx player2Id with
        | none => rfl
        | some k2 =>
          simp only []
          cases hp1 : g.players[k1]? with
          | none => rfl
          | some p1 =>
            cases hp2 : g.players[k2]? with
            | none => rfl
            | some p2 =>
              simp only []
              repeat' split
              all_goals first
                | rfl
                | exact set2_seating g _ k1 k2 p1 p2 _ _ hp1 hp2 rfl rfl rfl rfl rfl rfl

theorem resolveBlackJackSwap_seating (g : Game) (playerId : Nat) (myCardIndex : Int)
    (targetPlayerId : Nat) (targetCardIndex : Int) :
    (g.resolveBlackJackSwap playerId myCardIndex targetPlayerId targetCardIndex).2.seating =
      g.seating := by
  unfold Game.resolveBlackJackSwap
  cases hpp : g.pendingPower with
  | none => rfl
  | some pp =>
    simp only []
    split
    · rfl
    · cases hk1 : g.playerIdx playerId with
      | none => rfl
      | some k1 =>
        cases hk2 : g.playerIdx targetPlayerId with
        | none => rfl
        | some k2 =>
          simp only []
          cases hp1 : g.players[k1]? with
          | none => rfl
          | some p1 =>
            cases hp2 : g.players[k2]? with
            | none => rfl
            | some p2 =>
              simp only []
              repeat' split
              all_goals first
                | rfl
                | exact set2_seating g _ k1 k2 p1 p2 _ _ hp1 hp2 rfl
                    (handSet_connected _ _ _) (handSet_connected _ _ _) rfl rfl rfl

theorem penaltyCard_seating (g : Game) (k : Nat) (player : Player) (rnd : Rnd)
    (hplayer : g.players[k]? = some player) :
    (g.penaltyCard k player rnd).2.seating = g.seating := by
  unfold Game.penaltyCard
  simp only []
  split
  · exact seating_eq _ _ rfl rfl rfl (connected_set _ _ _ (fun p hp => by
      rw [hplayer] at hp; cases hp; rfl))
  · rfl

theorem snapCard_seating (g : Game) (playerId : Nat) (cardIndex : Int) (rnd : Rnd) :
    (g.snapCard playerId cardIndex rnd).2.seating = g.seating := by
  unfold Game.snapCard
  cases hlast : g.lastDiscard with
  | none => rfl
  | some last =>
    simp only []
    split
    · rfl
    · cases hk : g.playerIdx playerId with
      | none => rfl
      | some k =>
        simp only []
        cases hplayer : g.players[k]? with
        | none => rfl
        | some player =>
          simp only []
          repeat' split
          all_goals first
            | rfl
            | exact penaltyCard_seating g k player rnd hplayer
            | exact seating_eq _ _ rfl rfl rfl (connected_set _ _ _ (fun p hp => by
                rw [hplayer] at hp; cases hp; exact removeCard_connected _ _))

theorem stealCard_seating (g : Game) (thiefId targetId : Nat)
    (targetCardIndex thiefCardIndex : Int) (rnd : Rnd) :
    (g.stealCard thiefId targetId targetCardIndex thiefCardIndex rnd).2.seating = g.seating := by
  unfold Game.stealCard
  cases hlast : g.lastDiscard with
  | none => rfl
  | some last =>
    simp only []
    cases hk1 : g.playerIdx thiefId with
    | none => rfl
    | some k1 =>
      cases hk2 : g.playerIdx targetId with
      | none => rfl
      | some k2 =>
        simp only []
        cases hp1 : g.players[k1]? with
        | none => rfl
        | some p1 =>
          cases hp2 : g.players[k2]? with
          | none => rfl
          | some p2 =>
            simp only []
            repeat' split
            all_goals first
              | rfl
              | exact penaltyCard_seating g k1 p1 rnd hp1
              | exact set2_seating g _ k1 k2 p1 p2 _ _ hp1 hp2 rfl
                  (removeCard_connected _ _) rfl rfl rfl rfl

theorem callCobra_seating (g : Game) (playerId : Nat) (hph : g.phase ≠ Phase.playing) :
    (g.callCobra playerId).2.seating = g.seating := by
  unfold Game.callCobra
  rw [if_pos hph]

/-- An action within a turn leaves the phase (once cobra is called), the turn index, the
caller's seat and the connection flags as they are. -/
theorem inTurn_seating (g : Game) (op : Op) (hop : op.inTurn = true)
    (hph : g.phase = Phase.cobraCalled) : (step g op).2.seating = g.seating := by
  cases op with
  | addPlayer id name socketId => cases hop
  | removePlayer socketId => cases hop
  | reconnectPlayer socketId playerId => cases hop
  | startGame rnd => cases hop
  | startPlaying => cases hop
  | nextTurn => cases hop
  | initialPeek playerId indices => exact initialPeek_seating g playerId indices
  | drawCard playerId rnd => exact drawCard_seating g playerId rnd
  | swapWithHand playerId handIndex => exact swapWithHand_seating g playerId handIndex
  | discardDrawnCard playerId => exact discardDrawnCard_seating g playerId
  | usePower playerId => exact usePower_seating g playerId
  | doubleDrop playerId handIndex usePowerToo rnds =>
    exact doubleDrop_seating g playerId handIndex usePowerToo rnds
  | resolvePeekOwn playerId cardIndex => exact resolvePeekOwn_seating g playerId cardIndex
  | resolvePeekOther playerId targetPlayerId cardIndex =>
    exact resolvePeekOther_seating g playerId targetPlayerId cardIndex
  | resolveQueenSwap playerId player1Id card1Index player2Id card2Index =>
    exact resolveQueenSwap_seating g playerId player1Id card1Index player2Id card2Index
  | resolveBlackJackPeek playerId indices =>
    exact resolveBlackJackPeek_seating g playerId indices
  | resolveBlackJackSwap playerId myCardIndex targetPlayerId targetCardIndex =>
    exact resolveBlackJackSwap_seating g playerId myCardIndex targetPlayerId targetCardIndex
  | resolveBlackJackSkip playerId => exact resolveBlackJackSkip_seating g playerId
  | snapCard playerId cardIndex rnd => exact snapCard_seating g playerId cardIndex rnd
  | stealCard thiefId targetId targetCardIndex thiefCardIndex rnd =>
    exact stealCard_seating g thiefId targetId targetCardIndex thiefCardIndex rnd
  | callCobra playerId =>
    exact callCobra_seating g playerId (by rw [hph]; intro h; cases h)

theorem connectedAt_of_flags (ps : List Player) (n i : Nat)
    (h : ps.map (fun p => p.connected) = List.replicate n true) (hi : i < n) :
    connectedAt ps i = true := by
  have hlen : ps.length = n := by
    have := congrArg List.length h
    simpa using this
  have hget := congrArg (fun l => l[i]?) h
  simp only [List.getElem?_map] at hget
  unfold connectedAt
  cases hp : ps[i]? with
  | none =>
    have := List.getElem?_eq_none_iff.mp hp
    omega
  | some p =>
    rw [hp] at hget
    simp only [Option.map_some'] at hget
    rw [List.getElem?_replicate] at hget
    simp only [hi, if_true, Option.some.injEq] at hget
    exact hget

theorem flags_of_all (ps : List Player) (h : ∀ p ∈ ps, p.connected = true) :
    ps.map (fun p => p.connected) = List.replicate ps.length true := by
  rw [List.eq_replicate_iff]
  refine ⟨List.length_map _ _, ?_⟩
  intro b hb
  obtain ⟨p, hp, rfl⟩ := List.mem_map.mp hb
  exact h p hp

/-- With every seat connected the loop of `nextTurn` stops at the very next seat. -/
theorem nextIndex_all_connected (ps : List Player) (n c : Nat) (hn : 0 < n)
    (h : ps.map (fun p => p.connected) = List.replicate n true) :
    nextIndexLoop ps ps.length c 0 = (c + 1) % n := by
  have hlen : ps.length = n := by
    have := congrArg List.length h
    simpa using this
  have hconn : ∃ p ∈ ps, p.connected = true := by
    have h0 : 0 < ps.length := by omega
    refine ⟨ps[0], List.getElem_mem _, ?_⟩
    have := connectedAt_of_flags ps n 0 h hn
    unfold connectedAt at this
    rw [List.getElem?_eq_getElem h0] at this
    exact this
  obtain ⟨d, hd1, hd2, hd3, _, hd5⟩ := nextIndex_first_connected ps c hconn
  by_cases hd : d = 1
  · rw [hd3, hd, hlen]
  · have := hd5 1 (le_refl _) (by omega)
    rw [connectedAt_of_flags ps n _ h (by rw [hlen]; exact Nat.mod_lt _ hn)] at this
    cases this

theorem endRound_phase (g : Game) : g.endRound.2.phase = Phase.roundOver := by
  unfold Game.endRound
  simp only
  split
  · rfl
  · rw [applyTotals_frame]

/-- One `nextTurn` of the lap after the cobra call: `j` calls were made before; the call
either moves the turn one seat on, or, when it is the `n`-th, ends the round. -/
theorem nextTurn_lap (h : Game) (k n j : Nat) (hk : k < n) (hj : j < n)
    (hseat : h.seating = (Phase.cobraCalled, (k + j) % n, some k, List.replicate n true)) :
    (j + 1 < n → h.nextTurn.1 = Outcome.success ∧
      h.nextTurn.2.seating =
        (Phase.cobraCalled, (k + (j + 1)) % n, some k, List.replicate n true)) ∧
    (j + 1 = n → h.nextTurn.2.phase = Phase.roundOver ∧
      ∃ results winner, h.nextTurn.1 = Outcome.roundOver results winner) := by
  unfold Game.seating at hseat
  simp only [Prod.mk.injEq] at hseat
  obtain ⟨hph, hidx, hcc, hfl⟩ := hseat
  have hlen : h.players.length = n := by
    have := congrArg List.length hfl
    simpa using this
  have hnext := nextIndex_all_connected h.players n h.currentPlayerIndex (by omega) hfl
  have hval : (h.currentPlayerIndex + 1) % n = (k + j + 1) % n := by
    rw [hidx, Nat.mod_add_mod]
  rw [hval] at hnext
  have hn0 : ¬ h.players.length = 0 := by omega
  have hiff : (k + j + 1) % n = k ↔ j + 1 = n := by
    constructor
    · intro he
      exact offset_full n k (j + 1) (by omega) (by omega) he
    · intro he
      have : k + j + 1 = k + n := by omega
      rw [this, Nat.add_mod_right, Nat.mod_eq_of_lt hk]
  constructor
  · intro hlt
    have hne : ¬ some ((k + j + 1) % n) = h.cobraCallerIndex := by
      rw [hcc]
      intro he
      simp only [Option.some.injEq] at he
      have := hiff.mp he
      omega
    unfold Game.nextTurn
    simp only
    rw [if_neg hn0, if_pos hph, hnext, if_neg hne]
    refine ⟨rfl, ?_⟩
    unfold Game.seating
    simp only [Prod.mk.injEq]
    exact ⟨hph, rfl, hcc, hfl⟩
  · intro heq
    have he : some ((k + j + 1) % n) = h.cobraCallerIndex := by
      rw [hcc, hiff.mpr heq]
    unfold Game.nextTurn
    simp only
    rw [if_neg hn0, if_pos hph, hnext, if_pos he]
    refine ⟨endRound_phase _, ?_⟩
    obtain ⟨x, hx⟩ := endRound_winner_exists
      ({ h with snapWindow := false, drawnCard := none, pendingPower := none,
                turnsSinceCobra := h.turnsSinceCobra + 1 } : Game) (by show 0 < h.players.length; omega)
    exact ⟨_, _, congrArg Prod.fst (endRound_eq _ x hx)⟩

/-- After the cobra call, a run of turn actions and `j` calls of `nextTurn`, fewer than the
number of seats, leaves the phase as it is and the turn `j` seats behind the caller's. -/
theorem lap_run (ops : List Op) (h : Game) (k n j : Nat) (hk : k < n)
    (hseat : h.seating = (Phase.cobraCalled, (k + j) % n, some k, List.replicate n true))
    (hops : ∀ op ∈ ops, op.isNextTurn = true ∨ op.inTurn = true)
    (hcnt : j + (ops.filter Op.isNextTurn).length < n) :
    (run h ops).seating =
      (Phase.cobraCalled, (k + (j + (ops.filter Op.isNextTurn).length)) % n, some k,
        List.replicate n true) := by
  induction ops generalizing h j with
  | nil => simpa [run] using hseat
  | cons op ops ih =>
    have hrest : ∀ o ∈ ops, o.isNextTurn = true ∨ o.inTurn = true := fun o ho =>
      hops o (List.mem_cons_of_mem _ ho)
    by_cases hnt : op.isNextTurn = true
    · have hop : op = Op.nextTurn := by
        cases op <;> first | rfl | cases hnt
      subst hop
      simp only [List.filter_cons, hnt, if_true, List.length_cons] at hcnt ⊢
      have hstep := (nextTurn_lap h k n j hk (by omega) hseat).1 (by omega)
      have := ih (step h Op.nextTurn).2 (j + 1) hstep.2 hrest (by omega)
      simp only [run]
      rw [this]
      congr 3
      omega
    · have hin : op.inTurn = true := by
        rcases hops op (List.mem_cons_self _ _) with h1 | h1
        · exact absurd h1 hnt
        · exact h1
      simp only [List.filter_cons, hnt, if_false] at hcnt ⊢
      have hph : h.phase = Phase.cobraCalled := by
        unfold Game.seating at hseat
        simp only [Prod.mk.injEq] at hseat
        exact hseat.1
      have hs := inTurn_seating h op hin hph
      simp only [run]
      exact ih (step h op).2 j (hs.trans hseat) hrest hcnt

/-- C11. Cobra lap closure.  In a match of `n` seats, all connected (for any `n`, so for
`n ≥ 2`), the player at the seat holding the turn calls cobra successfully.  Whatever turn
actions follow, each of the first `n - 1` calls of `nextTurn` succeeds and leaves the phase
COBRA_CALLED, and the `n`-th call sets the phase to ROUND_OVER and returns the round result.
Here `ops` is what happens between the cobra call and the `nextTurn` call considered, so that
call is the one numbered by the `nextTurn` calls in `ops` plus one. -/
theorem cobra_lap_closure (g : Game) (playerId : Nat) (ops : List Op)
    (hall : ∀ p ∈ g.players, p.connected = true)
    (hturn : g.playerIdx playerId = some g.currentPlayerIndex)
    (hcall : (g.callCobra playerId).1 = Outcome.success)
    (hops : ∀ op ∈ ops, op.isNextTurn = true ∨ op.inTurn = true) :
    ((ops.filter Op.isNextTurn).length + 1 < g.players.length →
      (run (g.callCobra playerId).2 ops).nextTurn.1 = Outcome.success ∧
      (run (g.callCobra playerId).2 ops).nextTurn.2.phase = Phase.cobraCalled) ∧
    ((ops.filter Op.isNextTurn).length + 1 = g.players.length →
      (run (g.callCobra playerId).2 ops).nextTurn.2.phase = Phase.roundOver ∧
      ∃ results winner,
        (run (g.callCobra playerId).2 ops).nextTurn.1 = Outcome.roundOver results winner) := by
  obtain ⟨p, hp, _⟩ := playerIdx_some g playerId g.currentPlayerIndex hturn
  have hk : g.currentPlayerIndex < g.players.length := lt_of_getElem?_some hp
  have hstart : (g.callCobra playerId).2.seating =
      (Phase.cobraCalled, (g.currentPlayerIndex + 0) % g.players.length,
        some g.currentPlayerIndex, List.replicate g.players.length true) := by
    unfold Game.callCobra at hcall ⊢
    split at hcall
    · cases hcall
    · rename_i hph
      rw [if_neg hph]
      split at hcall
      · cases hcall
      · rename_i hcc
        rw [if_neg hcc, hturn]
        unfold Game.seating
        simp only [Prod.mk.injEq, true_and, Nat.add_zero]
        exact ⟨(Nat.mod_eq_of_lt hk).symm, flags_of_all _ hall⟩
  constructor
  · intro hlt
    have hrun := lap_run ops _ g.currentPlayerIndex g.players.length 0 hk hstart hops (by omega)
    have hstep := (nextTurn_lap _ g.currentPlayerIndex g.players.length _ hk (by omega) hrun).1
      (by omega)
    refine ⟨hstep.1, ?_⟩
    have := hstep.2
    unfold Game.seating at this
    simp only [Prod.mk.injEq] at this
    exact this.1
  · intro heq
    have hrun := lap_run ops _ g.currentPlayerIndex g.players.length 0 hk hstart hops (by omega)
    exact (nextTurn_lap _ g.currentPlayerIndex g.players.length _ hk (by omega) hrun).2
      (by omega)

/-- C11, instance: three seats, the second calls cobra on its turn.  The second `nextTurn`
after the call leaves the phase COBRA_CALLED; the third, after a draw and a discard of the
third seat in between, ends the round. -/
theorem cobra_lap_closure_witness :
    (2 ≤ lapGame.players.length ∧ (∀ p ∈ lapGame.players, p.connected = true) ∧
      lapGame.playerIdx 2 = some lapGame.currentPlayerIndex ∧
      (lapGame.callCobra 2).1 = Outcome.success ∧
      (∀ op ∈ lapOps, op.isNextTurn = true ∨ op.inTurn = true) ∧
      ([Op.nextTurn].filter Op.isNextTurn).length + 1 < lapGame.players.length ∧
      (lapOps.filter Op.isNextTurn).length + 1 = lapGame.players.length) ∧
    ((run (lapGame.callCobra 2).2 [Op.nextTurn]).nextTurn.1 = Outcome.success ∧
      (run (lapGame.callCobra 2).2 [Op.nextTurn]).nextTurn.2.phase = Phase.cobraCalled) ∧
    ((run (lapGame.callCobra 2).2 lapOps).nextTurn.2.phase = Phase.roundOver ∧
      ∃ results winner,
        (run (lapGame.callCobra 2).2 lapOps).nextTurn.1 = Outcome.roundOver results winner) :=
  ⟨⟨by decide, by decide, by decide, by decide, by decide, by decide, by decide⟩,
   (cobra_lap_closure lapGame 2 [Op.nextTurn] (by decide) (by decide) (by decide)
     (by decide)).1 (by decide),
   (cobra_lap_closure lapGame 2 lapOps (by decide) (by decide) (by decide)
     (by decide)).2 (by decide)⟩

/-! ### The deal -/

theorem draw_stock (d : Deck) (rnd : Rnd) (hne : d.cards ≠ [])
    (hall : ∀ x ∈ d.cards, x ≠ none) :
    ∃ c, (d.draw rnd).1 = some c ∧ (d.draw rnd).2.cards.length + 1 = d.cards.length ∧
      (d.draw rnd).2.discardPile = d.discardPile ∧ ∀ x ∈ (d.draw rnd).2.cards, x ≠ none := by
  obtain ⟨c, hc⟩ := popVal_some _ hne hall
  have hlen : d.cards.length ≠ 0 := fun h => hne (List.length_eq_zero.mp h)
  unfold Deck.draw
  rw [if_neg hlen]
  refine ⟨c, hc, ?_, rfl, ?_⟩
  · simp only [List.length_dropLast]
    omega
  · intro x hx
    exact hall x (List.dropLast_subset _ hx)

/-- Dealing `m` cards from a draw pile of at least `m` cards adds exactly `m` cards to the
hand and takes them from the draw pile. -/
theorem dealCards_exact (rnd : Rnd) (m : Nat) (p : Player) (d : Deck)
    (hm : m ≤ d.cards.length) (hall : ∀ x ∈ d.cards, x ≠ none) (hp : ∀ x ∈ p.hand, x ≠ none) :
    (dealCards rnd m p d).1.hand.length = p.hand.length + m ∧
    (∀ x ∈ (dealCards rnd m p d).1.hand, x ≠ none) ∧
    (dealCards rnd m p d).1.knownCards = p.knownCards ∧
    (dealCards rnd m p d).1.identity = p.identity ∧
    (dealCards rnd m p d).2.cards.length + m = d.cards.length ∧
    (dealCards rnd m p d).2.discardPile = d.discardPile ∧
    (∀ x ∈ (dealCards rnd m p d).2.cards, x ≠ none) := by
  induction m generalizing p d with
  | zero => exact ⟨rfl, hp, rfl, rfl, rfl, rfl, hall⟩
  | succ m ih =>
    have hne : d.cards ≠ [] := by
      intro h; rw [h] at hm; simp at hm
    obtain ⟨c, h1, h2, h3, h4⟩ := draw_stock d rnd hne hall
    unfold dealCards
    simp only
    rw [h1]
    simp only
    have hp2 : ∀ x ∈ (p.addCard (some c)).hand, x ≠ none := by
      intro x hx
      simp only [Player.addCard, List.mem_append, List.mem_singleton] at hx
      rcases hx with h | rfl
      · exact hp x h
      · simp
    obtain ⟨e1, e2, e3, e4, e5, e6, e7⟩ := ih (p.addCard (some c)) (d.draw rnd).2 (by omega) h4 hp2
    refine ⟨?_, e2, e3, e4, by omega, by rw [e6, h3], e7⟩
    rw [e1]
    simp only [Player.addCard, List.length_append, List.length_singleton]
    omega

/-- Dealing to all seats from a draw pile of at least four cards per seat. -/
theorem dealAll_exact (rnd : Rnd) (ps : List Player) (d : Deck)
    (hm : 4 * ps.length ≤ d.cards.length) (hall : ∀ x ∈ d.cards, x ≠ none) :
    (∀ q ∈ (dealAll rnd ps d).1,
      q.hand.length = 4 ∧ (∀ x ∈ q.hand, x ≠ none) ∧ q.knownCards = []) ∧
    (dealAll rnd ps d).1.map Player.identity = ps.map Player.identity ∧
    (dealAll rnd ps d).2.cards.length + 4 * ps.length = d.cards.length ∧
    (dealAll rnd ps d).2.discardPile = d.discardPile ∧
    (∀ x ∈ (dealAll rnd ps d).2.cards, x ≠ none) := by
  induction ps generalizing d with
  | nil => exact ⟨by intro q hq; simp [dealAll] at hq, rfl, rfl, rfl, hall⟩
  | cons a ps ih =>
    simp only [List.length_cons] at hm
    obtain ⟨e1, e2, e3, e4, e5, e6, e7⟩ :=
      dealCards_exact rnd 4 a.reset d (by omega) hall (by intro x hx; cases hx)
    obtain ⟨f1, f2, f3, f4, f5⟩ := ih (dealCards rnd 4 a.reset d).2 (by omega) e7
    unfold dealAll
    simp only
    refine ⟨?_, ?_, ?_, by rw [f4, e6], f5⟩
    · intro q hq
      rcases List.mem_cons.1 hq with rfl | h
      · exact ⟨by rw [e1]; rfl, e2, by rw [e3]; rfl⟩
      · exact f1 q h
    · simp only [List.map_cons]
      rw [f2, e4]
      rfl
    · simp only [List.length_cons]
      omega

theorem flipFirst_stock (d : Deck) (rnd : Rnd) (hne : d.cards ≠ [])
    (hall : ∀ x ∈ d.cards, x ≠ none) (hd : d.discardPile = []) :
    (d.flipFirst rnd).cards.length + 1 = d.cards.length ∧
    (∃ c, (d.flipFirst rnd).discardPile = [some c]) := by
  obtain ⟨c, h1, h2, h3, _⟩ := draw_stock d rnd hne hall
  unfold Deck.flipFirst
  rw [h1]
  simp only [Deck.discard]
  exact ⟨h2, c, by rw [h3, hd]; rfl⟩

theorem shuffled_exact (rnd : Rnd) (cs ds : List Slot) (h : ∀ x ∈ cs, x ≠ none)
    (hl : cs.length = 52) (hds : ds = []) :
    (∀ x ∈ ({ cards := shuffle rnd cs, discardPile := ds } : Deck).cards, x ≠ none) ∧
    ({ cards := shuffle rnd cs, discardPile := ds } : Deck).cards.length = 52 ∧
    ({ cards := shuffle rnd cs, discardPile := ds } : Deck).discardPile = [] :=
  ⟨fun x hx => h x (shuffle_mem rnd cs x hx), by rw [← hl]; exact shuffle_length rnd cs, hds⟩

theorem startDeck_exact (rnd : Rnd) :
    ∃ d0 : Deck, d0 = { Deck.init with cards := shuffle rnd Deck.init.cards } ∧
      (∀ x ∈ d0.cards, x ≠ none) ∧ d0.cards.length = 52 ∧ d0.discardPile = [] :=
  ⟨_, rfl, shuffled_exact rnd Deck.init.cards Deck.init.discardPile init_cards_defined
    init_cards_length init_discard⟩

/-- C20, amended.  For every match of `n` seated players with `2 ≤ n ≤ 12`, in any phase,
`startGame` succeeds; afterwards the phase is INITIAL_PEEK, every player holds exactly 4 cards
and knows none, the discard pile holds exactly 1 card, the draw pile holds `52 - 4n - 1`
cards, the turn index is the first seat, the round counter is one higher, the drawn card, the
pending power, the caller, `lastDiscard` and the reaction window are cleared, and the
identity, name, session, connection and total score of every player are unchanged. -/
theorem startGame_deal (g : Game) (rnd : Rnd) (h2 : 2 ≤ g.players.length)
    (h12 : g.players.length ≤ 12) :
    (g.startGame rnd).1 = Outcome.success ∧
    (g.startGame rnd).2.phase = Phase.initialPeek ∧
    (∀ q ∈ (g.startGame rnd).2.players,
      q.hand.length = 4 ∧ (∀ x ∈ q.hand, x ≠ none) ∧ q.knownCards = []) ∧
    (∃ c, (g.startGame rnd).2.deck.discardPile = [some c]) ∧
    (g.startGame rnd).2.deck.cards.length + 4 * g.players.length + 1 = 52 ∧
    (g.startGame rnd).2.currentPlayerIndex = 0 ∧
    (g.startGame rnd).2.roundNumber = g.roundNumber + 1 ∧
    (g.startGame rnd).2.drawnCard = none ∧ (g.startGame rnd).2.pendingPower = none ∧
    (g.startGame rnd).2.cobraCaller = none ∧ (g.startGame rnd).2.cobraCallerIndex = none ∧
    (g.startGame rnd).2.lastDiscard = none ∧ (g.startGame rnd).2.snapWindow = false ∧
    (g.startGame rnd).2.players.map Player.identity = g.players.map Player.identity := by
  unfold Game.startGame
  obtain ⟨d0, hd0e, hd0, hlen, hdis⟩ := startDeck_exact rnd
  rw [← hd0e]
  rw [if_neg (by omega)]
  obtain ⟨e1, e2, e3, e4, e5⟩ := dealAll_exact rnd g.players d0 (by omega) hd0
  have hne : (dealAll rnd g.players d0).2.cards ≠ [] := by
    intro h
    rw [h] at e3
    simp only [List.length_nil] at e3
    omega
  obtain ⟨f1, f2⟩ := flipFirst_stock (dealAll rnd g.players d0).2 rnd hne e5 (by rw [e4, hdis])
  refine ⟨rfl, rfl, e1, f2, ?_, rfl, rfl, rfl, rfl, rfl, rfl, rfl, rfl, e2⟩
  simp only
  omega

/-- C20, instance of the amended statement: two players join and the cards are dealt with
the identity shuffle. -/
theorem startGame_deal_witness :
    (2 ≤ (crowd 2).players.length ∧ (crowd 2).players.length ≤ 12) ∧
    ((crowd 2).startGame rndId).1 = Outcome.success ∧
    ((crowd 2).startGame rndId).2.phase = Phase.initialPeek ∧
    (∀ q ∈ ((crowd 2).startGame rndId).2.players,
      q.hand.length = 4 ∧ (∀ x ∈ q.hand, x ≠ none) ∧ q.knownCards = []) ∧
    (∃ c, ((crowd 2).startGame rndId).2.deck.discardPile = [some c]) ∧
    ((crowd 2).startGame rndId).2.deck.cards.length + 4 * (crowd 2).players.length + 1 = 52 ∧
    ((crowd 2).startGame rndId).2.currentPlayerIndex = 0 ∧
    ((crowd 2).startGame rndId).2.roundNumber = (crowd 2).roundNumber + 1 ∧
    ((crowd 2).startGame rndId).2.drawnCard = none ∧
    ((crowd 2).startGame rndId).2.pendingPower = none ∧
    ((crowd 2).startGame rndId).2.cobraCaller = none ∧
    ((crowd 2).startGame rndId).2.cobraCallerIndex = none ∧
    ((crowd 2).startGame rndId).2.lastDiscard = none ∧
    ((crowd 2).startGame rndId).2.snapWindow = false ∧
    ((crowd 2).startGame rndId).2.players.map Player.identity =
      (crowd 2).players.map Player.identity :=
  ⟨by decide, startGame_deal (crowd 2) rndId (by decide) (by decide)⟩

set_option maxRecDepth 1000000 in
/-- C20, refuted as stated.  Thirteen players join a new match and `startGame` deals with the
identity shuffle: all 52 cards go to the hands, so the discard pile and the draw pile are both
empty.  With fourteen players the last seat is dealt no card at all. -/
theorem startGame_deal_runs_out :
    (Reachable (crowd 13) ∧ 2 ≤ (crowd 13).players.length ∧
      ((crowd 13).startGame rndId).1 = Outcome.success ∧
      ((crowd 13).startGame rndId).2.deck.discardPile = [] ∧
      ((crowd 13).startGame rndId).2.deck.cards = []) ∧
    (Reachable (crowd 14) ∧ 2 ≤ (crowd 14).players.length ∧
      ((crowd 14).startGame rndId).1 = Outcome.success ∧
      ((crowd 14).startGame rndId).2.players.map (fun p => p.hand.length) =
        [4, 4, 4, 4, 4, 4, 4, 4, 4, 4, 4, 4, 4, 0]) :=
  ⟨⟨reachable_run _ (crowdOps 13) (Reachable.init "ROOM"), by decide, by decide, by decide,
    by decide⟩,
   ⟨reachable_run _ (crowdOps 14) (Reachable.init "ROOM"), by decide, by decide, by decide⟩⟩

/-! ### The actions on a drawn card -/

theorem draw_reshuffle (d : Deck) (rnd : Rnd) (hc : d.cards = [])
    (hm : 1 < d.discardPile.length) (hd : ∀ x ∈ d.discardPile, x ≠ none) :
    ∃ c, (d.draw rnd).1 = some c := by
  have hlen := shuffle_length rnd d.discardPile.dropLast
  have hsne : shuffle rnd d.discardPile.dropLast ≠ [] := by
    intro h
    rw [h] at hlen
    simp only [List.length_nil, List.length_dropLast] at hlen
    omega
  have hmem : ∀ x ∈ shuffle rnd d.discardPile.dropLast, x ≠ none := fun x hx =>
    hd x (List.dropLast_subset _ (shuffle_mem rnd _ x hx))
  obtain ⟨c, hcs⟩ := popVal_some _ hsne hmem
  refine ⟨c, ?_⟩
  unfold Deck.draw
  rw [if_pos (by rw [hc]; rfl), if_neg (by omega)]
  exact hcs

theorem draw_isSome_iff (d : Deck) (rnd : Rnd) (hd : d.allCards) :
    (∃ c, (d.draw rnd).1 = some c) ↔ (d.cards ≠ [] ∨ 1 < d.discardPile.length) := by
  constructor
  · rintro ⟨c, hc⟩
    by_contra hcon
    have h1 : d.cards = [] := by
      by_contra h; exact hcon (Or.inl h)
    have h2 : d.discardPile.length ≤ 1 := by
      by_contra h; exact hcon (Or.inr (by omega))
    unfold Deck.draw at hc
    rw [if_pos (by rw [h1]; rfl), if_pos h2] at hc
    cases hc
  · intro h
    by_cases hc : d.cards = []
    · rcases h with h | h
      · exact absurd hc h
      · exact draw_reshuffle d rnd hc h hd.2
    · obtain ⟨c, h1, _⟩ := draw_stock d rnd hc hd.1
      exact ⟨c, h1⟩

theorem popVal_some_ne (l : List Slot) (c : Card) (h : popVal l = some c) : l ≠ [] := by
  intro hl
  rw [hl] at h
  cases h

/-- The card returned by `draw` together with the two piles afterwards is a rearrangement of
the two piles before. -/
theorem draw_perm (d : Deck) (rnd : Rnd) (c : Card) (h : (d.draw rnd).1 = some c) :
    List.Perm (some c :: ((d.draw rnd).2.cards ++ (d.draw rnd).2.discardPile))
      (d.cards ++ d.discardPile) := by
  unfold Deck.draw at h ⊢
  by_cases hc : d.cards.length = 0
  · rw [if_pos hc] at h ⊢
    by_cases hl : d.discardPile.length ≤ 1
    · rw [if_pos hl] at h; cases h
    · rw [if_neg hl] at h ⊢
      simp only at h ⊢
      have hne : d.discardPile ≠ [] := by
        intro h0; rw [h0] at hl; simp at hl
      have hsne := popVal_some_ne _ c h
      have h1 := dropLast_append_popVal _ hsne
      rw [h] at h1
      have h2 := dropLast_append_popVal _ hne
      rw [List.length_eq_zero.mp hc, List.nil_append]
      have hp : List.Perm (some c :: (shuffle rnd d.discardPile.dropLast).dropLast)
          d.discardPile.dropLast := by
        have : List.Perm ((shuffle rnd d.discardPile.dropLast).dropLast ++ [some c])
            d.discardPile.dropLast := by
          rw [h1]; exact shuffle_perm rnd _
        exact (List.perm_append_singleton _ _).symm.trans this
      have hfin : List.Perm
          (some c :: ((shuffle rnd d.discardPile.dropLast).dropLast ++ [popVal d.discardPile]))
          (d.discardPile.dropLast ++ [popVal d.discardPile]) := by
        rw [← List.cons_append]
        exact hp.append_right _
      rw [h2] at hfin
      exact hfin
  · rw [if_neg hc] at h ⊢
    simp only at h ⊢
    have hne := popVal_some_ne _ c h
    have h1 := dropLast_append_popVal _ hne
    rw [h] at h1
    have : List.Perm (some c :: d.cards.dropLast) d.cards := by
      have h3 := (List.perm_append_singleton (some c) d.cards.dropLast).symm
      rw [h1] at h3
      exact h3
    rw [← List.cons_append]
    exact this.append_right _

theorem draw_front_back (d : Deck) (rnd : Rnd) (hne : d.cards ≠ []) :
    ∃ front back, d.cards = front ++ [back] ∧
      d.draw rnd = (back, { cards := front, discardPile := d.discardPile }) := by
  refine ⟨d.cards.dropLast, popVal d.cards, (dropLast_append_popVal _ hne).symm, ?_⟩
  unfold Deck.draw
  rw [if_neg (by intro h; exact hne (List.length_eq_zero.mp h))]

theorem holdsTurn_iff (g : Game) (playerId : Nat) :
    g.holdsTurn playerId = true ↔ ∃ p, g.getCurrentPlayer = some p ∧ p.id = playerId := by
  unfold Game.holdsTurn
  cases g.getCurrentPlayer with
  | none => simp
  | some p => simp

/-- C21. `drawCard` succeeds if and only if the requesting player holds the turn, the phase
is PLAYING or COBRA_CALLED, no drawn card is outstanding and the deck can supply a card (the
draw pile is non-empty or the discard pile holds more than one card).  On success the drawn
slot holds the card taken from the deck (that card and the two piles afterwards are a
rearrangement of the two piles before; with a non-empty draw pile it is its back card), the
reported power is that of the card, the reaction window is closed and no player record
changes.  Otherwise an error is returned.  The piles are assumed to hold cards only. -/
theorem drawCard_guard (g : Game) (playerId : Nat) (rnd : Rnd) (hd : g.deck.allCards) :
    ((∃ c pw, (g.drawCard playerId rnd).1 = Outcome.drew c pw) ↔
      (g.holdsTurn playerId = true ∧ (g.phase = Phase.playing ∨ g.phase = Phase.cobraCalled) ∧
        g.drawnCard = none ∧ (g.deck.cards ≠ [] ∨ 1 < g.deck.discardPile.length))) ∧
    (∀ c pw, (g.drawCard playerId rnd).1 = Outcome.drew c pw →
      (g.drawCard playerId rnd).2.drawnCard = some c ∧ pw = hasPower (some c) ∧
      List.Perm (some c :: ((g.drawCard playerId rnd).2.deck.cards ++
          (g.drawCard playerId rnd).2.deck.discardPile))
        (g.deck.cards ++ g.deck.discardPile) ∧
      (g.deck.cards ≠ [] →
        g.deck.cards = (g.drawCard playerId rnd).2.deck.cards ++ [some c] ∧
        (g.drawCard playerId rnd).2.deck.discardPile = g.deck.discardPile) ∧
      (g.drawCard playerId rnd).2.snapWindow = false ∧
      (g.drawCard playerId rnd).2.players = g.players) ∧
    ((¬ ∃ c pw, (g.drawCard playerId rnd).1 = Outcome.drew c pw) →
      ∃ msg, (g.drawCard playerId rnd).1 = Outcome.error msg) := by
  have hsupply := draw_isSome_iff g.deck rnd hd
  rw [holdsTurn_iff]
  unfold Game.drawCard
  cases hcur : g.getCurrentPlayer with
  | none =>
    refine ⟨⟨?_, ?_⟩, ?_, ?_⟩
    · rintro ⟨c, pw, h⟩; cases h
    · rintro ⟨⟨p, hp, _⟩, _⟩; cases hp
    · intro c pw h; cases h
    · intro _; exact ⟨_, rfl⟩
  | some player =>
    simp only []
    by_cases hid : player.id ≠ playerId
    · rw [if_pos hid]
      refine ⟨⟨?_, ?_⟩, ?_, ?_⟩
      · rintro ⟨c, pw, h⟩; cases h
      · rintro ⟨⟨p, hp, hpid⟩, _⟩
        cases hp
        exact absurd hpid hid
      · intro c pw h; cases h
      · intro _; exact ⟨_, rfl⟩
    · rw [if_neg hid]
      by_cases hph : g.phase ≠ Phase.playing ∧ g.phase ≠ Phase.cobraCalled
      · rw [if_pos hph]
        refine ⟨⟨?_, ?_⟩, ?_, ?_⟩
        · rintro ⟨c, pw, h⟩; cases h
        · rintro ⟨_, h2, _⟩
          rcases h2 with h2 | h2
          · exact absurd h2 hph.1
          · exact absurd h2 hph.2
        · intro c pw h; cases h
        · intro _; exact ⟨_, rfl⟩
      · rw [if_neg hph]
        by_cases hdr : g.drawnCard.isSome = true
        · rw [if_pos hdr]
          refine ⟨⟨?_, ?_⟩, ?_, ?_⟩
          · rintro ⟨c, pw, h⟩; cases h
          · rintro ⟨_, _, h3, _⟩
            rw [h3] at hdr; cases hdr
          · intro c pw h; cases h
          · intro _; exact ⟨_, rfl⟩
        · rw [if_neg hdr]
          have hphase : g.phase = Phase.playing ∨ g.phase = Phase.cobraCalled := by
            by_contra hcon
            exact hph ⟨fun h => hcon (Or.inl h), fun h => hcon (Or.inr h)⟩
          have hnone : g.drawnCard = none := by
            cases hdc : g.drawnCard with
            | none => rfl
            | some c => rw [hdc] at hdr; exact absurd rfl hdr
          cases hdraw : (g.deck.draw rnd).1 with
          | none =>
            simp only []
            refine ⟨⟨?_, ?_⟩, ?_, ?_⟩
            · rintro ⟨c, pw, h⟩; cases h
            · rintro ⟨_, _, _, h4⟩
              obtain ⟨c, hc⟩ := hsupply.mpr h4
              rw [hdraw] at hc; cases hc
            · intro c pw h; cases h
            · intro _; exact ⟨_, rfl⟩
          | some card =>
            simp only []
            refine ⟨⟨?_, ?_⟩, ?_, ?_⟩
            · intro _
              exact ⟨⟨player, rfl, by simpa using hid⟩, hphase, hnone,
                hsupply.mp ⟨card, hdraw⟩⟩
            · intro _; exact ⟨card, _, rfl⟩
            · intro c pw h
              simp only [Outcome.drew.injEq] at h
              obtain ⟨h1, h2⟩ := h
              subst h1
              refine ⟨rfl, h2.symm, draw_perm g.deck rnd card hdraw, ?_, trivial, trivial⟩
              intro hne
              obtain ⟨front, back, hfb, hdr2⟩ := draw_front_back g.deck rnd hne
              rw [hdr2] at hdraw
              simp only at hdraw
              subst hdraw
              rw [hdr2]
              exact ⟨hfb, rfl⟩
            · intro hcon
              exact absurd ⟨card, _, rfl⟩ hcon

/-- C21, instance: the second seat holds the turn and draws the back card of the draw pile,
the 2 of spades. -/
theorem drawCard_guard_witness :
    lapGame.deck.allCards ∧
    ((∃ c pw, (lapGame.drawCard 2 rndId).1 = Outcome.drew c pw) ↔
      (lapGame.holdsTurn 2 = true ∧
        (lapGame.phase = Phase.playing ∨ lapGame.phase = Phase.cobraCalled) ∧
        lapGame.drawnCard = none ∧
        (lapGame.deck.cards ≠ [] ∨ 1 < lapGame.deck.discardPile.length))) ∧
    (lapGame.drawCard 2 rndId).1 = Outcome.drew ⟨Suit.spades, Rank.n2⟩ none ∧
    (lapGame.drawCard 1 rndId).1 = Outcome.error "Not your turn" :=
  ⟨by decide, (drawCard_guard lapGame 2 rndId (by decide)).1, by decide, by decide⟩

theorem draw_snoc (d : Deck) (rnd : Rnd) (front : List Slot) (c : Card)
    (h : d.cards = front ++ [some c]) :
    d.draw rnd = (some c, { cards := front, discardPile := d.discardPile }) := by
  unfold Deck.draw
  rw [h]
  simp [popVal]

theorem mem_filter_append_self (l : List Int) (i j : Int) :
    j ∈ l.filter (fun x => decide (x ≠ i)) ++ [i] ↔ (j = i ∨ j ∈ l) := by
  simp only [List.mem_append, List.mem_filter, decide_eq_true_eq, List.mem_singleton]
  constructor
  · rintro (⟨h, _⟩ | h)
    · exact Or.inr h
    · exact Or.inl h
  · rintro (h | h)
    · exact Or.inr h
    · by_cases hji : j = i
      · exact Or.inr hji
      · exact Or.inl ⟨h, hji⟩

/-- C22. `swapWithHand` by the turn holder with a drawn card and a valid hand index `i`: the
card formerly at slot `i` becomes the top of the discard pile and `lastDiscard`; slot `i`
holds the formerly drawn card and every other slot is unchanged, so the hand keeps its size;
`i` is known to the acting player and every other index is known exactly if it was before;
the drawn slot is cleared, the reaction window is open, and the draw pile and the other
players are untouched. -/
theorem swapWithHand_effect (g : Game) (playerId : Nat) (i : Int) (player : Player)
    (drawn : Card) (hcur : g.getCurrentPlayer = some player) (hid : player.id = playerId)
    (hdr : g.drawnCard = some drawn) (hi : 0 ≤ i ∧ i < player.hand.length) :
    (g.swapWithHand playerId i).1 = Outcome.success ∧
    (∃ q, (g.swapWithHand playerId i).2.players = g.players.set g.currentPlayerIndex q ∧
      q.hand = player.hand.set i.toNat (some drawn) ∧
      q.hand.length = player.hand.length ∧
      i ∈ q.knownCards ∧
      (∀ j, j ≠ i → (j ∈ q.knownCards ↔ j ∈ player.knownCards)) ∧
      q.identity = player.identity) ∧
    (g.swapWithHand playerId i).2.deck.discardPile =
      g.deck.discardPile ++ [(player.hand[i.toNat]?).join] ∧
    (g.swapWithHand playerId i).2.deck.getTopDiscard = (player.hand[i.toNat]?).join ∧
    (g.swapWithHand playerId i).2.lastDiscard = (player.hand[i.toNat]?).join ∧
    (g.swapWithHand playerId i).2.deck.cards = g.deck.cards ∧
    (g.swapWithHand playerId i).2.drawnCard = none ∧
    (g.swapWithHand playerId i).2.snapWindow = true := by
  have hnot : ¬ (i < 0 ∨ i ≥ player.hand.length) := by omega
  have hsw : player.swapCard i (some drawn) =
      ((player.hand[i.toNat]?).join,
       { player with
         hand := player.hand.set i.toNat (some drawn)
         handHoles := player.handHoles.filter (fun h => h ≠ i.toNat)
         knownCards := player.knownCards.filter (fun x => x ≠ i) }) := by
    unfold Player.swapCard
    rw [if_neg hnot]
  have hmk : (player.swapCard i (some drawn)).2.markKnown i =
      { player with
        hand := player.hand.set i.toNat (some drawn)
        handHoles := player.handHoles.filter (fun h => h ≠ i.toNat)
        knownCards := player.knownCards.filter (fun x => x ≠ i) ++ [i] } := by
    rw [hsw]
    unfold Player.markKnown
    simp only [List.length_set]
    rw [if_pos]
    refine ⟨by omega, by omega, ?_⟩
    simp
  unfold Game.swapWithHand
  rw [hcur]
  simp only []
  rw [if_neg (by rw [hid]; simp), hdr]
  simp only []
  rw [if_neg hnot, hmk, hsw]
  refine ⟨rfl, ⟨_, rfl, rfl, by simp, ?_, ?_, rfl⟩, rfl, ?_, rfl, rfl, rfl, rfl⟩
  · simp
  · intro j hj
    simp only
    rw [mem_filter_append_self]
    constructor
    · rintro (h | h)
      · exact absurd h hj
      · exact h
    · intro h; exact Or.inr h
  · simp [Deck.getTopDiscard, Deck.discard, popVal]

/-- C22, instance: the first seat holds the turn with the king of hearts drawn and swaps it
into its slot 1; the 7 of clubs formerly there becomes `lastDiscard`. -/
theorem swapWithHand_effect_witness :
    (kingGame.getCurrentPlayer = some annSeat ∧ annSeat.id = 1 ∧
      kingGame.drawnCard = some ⟨Suit.hearts, Rank.K⟩ ∧
      ((0 : Int) ≤ 1 ∧ (1 : Int) < annSeat.hand.length)) ∧
    (kingGame.swapWithHand 1 1).1 = Outcome.success ∧
    (kingGame.swapWithHand 1 1).2.lastDiscard = (annSeat.hand[(1 : Int).toNat]?).join ∧
    (kingGame.swapWithHand 1 1).2.lastDiscard = some ⟨Suit.clubs, Rank.n7⟩ :=
  have h := swapWithHand_effect kingGame 1 1 annSeat ⟨Suit.hearts, Rank.K⟩ (by decide)
    (by decide) (by decide) (by decide)
  ⟨⟨by decide, by decide, by decide, by decide⟩, h.1, h.2.2.2.2.1, by decide⟩

theorem connected_ge_of_queen (g : Game) (pw : Power)
    (h : ¬ (pw = Power.queenSwap ∧ g.getConnectedPlayers.length < 3)) :
    pw = Power.queenSwap → 3 ≤ g.getConnectedPlayers.length := by
  intro hq
  by_contra hc
  exact h ⟨hq, by omega⟩

/-- C23. `usePower` by the turn holder with a drawn card succeeds if and only if the drawn
card carries a power and, when that power is the queen swap, at least 3 players are
connected.  On success the pending-power record holds the power of the drawn card, that card
and the acting player, and nothing else changes; on rejection an error is returned and
nothing changes. -/
theorem usePower_guard (g : Game) (playerId : Nat) (player : Player) (drawn : Card)
    (hcur : g.getCurrentPlayer = some player) (hid : player.id = playerId)
    (hdr : g.drawnCard = some drawn) :
    ((g.usePower playerId).1 = Outcome.success ↔
      ∃ pw, hasPower (some drawn) = some pw ∧
        (pw = Power.queenSwap → 3 ≤ g.getConnectedPlayers.length)) ∧
    ((g.usePower playerId).1 = Outcome.success →
      ∃ pw, hasPower (some drawn) = some pw ∧
        (g.usePower playerId).2 =
          { g with pendingPower := some { type := pw, card := drawn, playerId := playerId,
                                          swapPhase := false, peekedIndices := none } }) ∧
    ((g.usePower playerId).1 ≠ Outcome.success →
      (∃ msg, (g.usePower playerId).1 = Outcome.error msg) ∧ (g.usePower playerId).2 = g) := by
  unfold Game.usePower
  rw [hcur]
  simp only []
  rw [if_neg (by rw [hid]; simp), hdr]
  simp only []
  cases hpw : hasPower (some drawn) with
  | none =>
    simp only []
    refine ⟨⟨?_, ?_⟩, ?_, ?_⟩
    · intro h; cases h
    · rintro ⟨pw, h, _⟩; cases h
    · intro h; cases h
    · intro _; exact ⟨⟨_, rfl⟩, trivial⟩
  | some pw =>
    simp only []
    by_cases hq : pw = Power.queenSwap ∧ g.getConnectedPlayers.length < 3
    · rw [if_pos hq]
      refine ⟨⟨?_, ?_⟩, ?_, ?_⟩
      · intro h; cases h
      · rintro ⟨pw2, h, h3⟩
        cases h
        have := h3 hq.1
        omega
      · intro h; cases h
      · intro _; exact ⟨⟨_, rfl⟩, rfl⟩
    · rw [if_neg hq]
      refine ⟨⟨?_, ?_⟩, ?_, ?_⟩
      · intro _; exact ⟨pw, rfl, connected_ge_of_queen g pw hq⟩
      · intro _; rfl
      · intro _; exact ⟨pw, rfl, rfl⟩
      · intro h; exact absurd rfl h

/-- C23, instance: with the 8 of diamonds drawn the power is accepted; with the queen of
hearts drawn and only two connected players, and with the king of hearts drawn, it is
rejected. -/
theorem usePower_guard_witness :
    (eightGame.getCurrentPlayer = some annSeat ∧ annSeat.id = 1 ∧
      eightGame.drawnCard = some ⟨Suit.diamonds, Rank.n8⟩) ∧
    ((eightGame.usePower 1).1 = Outcome.success ↔
      ∃ pw, hasPower (some ⟨Suit.diamonds, Rank.n8⟩) = some pw ∧
        (pw = Power.queenSwap → 3 ≤ eightGame.getConnectedPlayers.length)) ∧
    (eightGame.usePower 1).1 = Outcome.success ∧
    (queenGame.usePower 1).1 ≠ Outcome.success ∧
    (kingGame.usePower 1).1 = Outcome.error "This card has no power" :=
  ⟨⟨by decide, by decide, by decide⟩,
   (usePower_guard eightGame 1 annSeat ⟨Suit.diamonds, Rank.n8⟩ (by decide) (by decide)
     (by decide)).1,
   by decide, by decide, by decide⟩

/-- C26. Double-drop mismatch: the turn holder has a drawn card and claims a valid hand slot
whose card has another rank, and the two back entries of the draw pile are cards.  Then
`doubleDrop` reports the failure with penalty count 2; the claimant's hand is the old hand
followed by the two cards taken from the back of the draw pile, so the claimed card stays in
the hand; the drawn card becomes the top of the discard pile and `lastDiscard`; the drawn
slot is cleared, the window is open and the claimant's known indices are unchanged. -/
theorem doubleDrop_mismatch (g : Game) (playerId : Nat) (i : Int) (usePowerToo : Bool)
    (rnds : Nat → Rnd) (player : Player) (drawn handCard c1 c2 : Card) (rest : List Slot)
    (hcur : g.getCurrentPlayer = some player) (hid : player.id = playerId)
    (hdr : g.drawnCard = some drawn) (hi : 0 ≤ i ∧ i < player.hand.length)
    (hcard : player.hand[i.toNat]? = some (some handCard))
    (hrank : handCard.rank ≠ drawn.rank)
    (hdeck : g.deck.cards = rest ++ [some c2, some c1]) :
    (g.doubleDrop playerId i usePowerToo rnds).1 = Outcome.dropPenalty 2 ∧
    (∃ q, (g.doubleDrop playerId i usePowerToo rnds).2.players =
        g.players.set g.currentPlayerIndex q ∧
      q.hand = player.hand ++ [some c1, some c2] ∧
      q.hand[i.toNat]? = some (some handCard) ∧
      q.knownCards = player.knownCards ∧ q.identity = player.identity) ∧
    (g.doubleDrop playerId i usePowerToo rnds).2.deck.cards = rest ∧
    (g.doubleDrop playerId i usePowerToo rnds).2.deck.discardPile =
      g.deck.discardPile ++ [some drawn] ∧
    (g.doubleDrop playerId i usePowerToo rnds).2.deck.getTopDiscard = some drawn ∧
    (g.doubleDrop playerId i usePowerToo rnds).2.lastDiscard = some drawn ∧
    (g.doubleDrop playerId i usePowerToo rnds).2.drawnCard = none ∧
    (g.doubleDrop playerId i usePowerToo rnds).2.snapWindow = true := by
  have hnot : ¬ (i < 0 ∨ i ≥ player.hand.length) := by omega
  have hd1 : g.deck.draw (rnds 1) =
      (some c1, { cards := rest ++ [some c2], discardPile := g.deck.discardPile }) := by
    apply draw_snoc
    rw [hdeck]
    simp
  have hpen : penaltyDraws rnds 2 player g.deck 0 =
      ({ player with hand := player.hand ++ [some c1, some c2] },
       { cards := rest, discardPile := g.deck.discardPile }, 2) := by
    unfold penaltyDraws
    simp only [hd1]
    unfold penaltyDraws
    rw [draw_snoc _ (rnds 0) rest c2 rfl]
    simp only
    unfold penaltyDraws
    simp [Player.addCard]
  unfold Game.doubleDrop
  rw [hcur]
  simp only []
  rw [if_neg (by rw [hid]; simp), hdr]
  simp only []
  have hj : (player.hand[i.toNat]?).join = some handCard := by rw [hcard]; rfl
  rw [if_neg hnot, hj]
  simp only []
  rw [if_pos hrank, hpen]
  refine ⟨rfl, ⟨_, rfl, rfl, ?_, rfl, rfl⟩, rfl, rfl, ?_, rfl, rfl, rfl⟩
  · simp only
    rw [List.getElem?_append_left (by omega)]
    exact hcard
  · simp [Deck.getTopDiscard, Deck.discard, popVal]

/-- C26, instance: the 5 of spades is drawn and claimed against the 7 of clubs at slot 1. -/
theorem doubleDrop_mismatch_witness :
    (fiveGame.getCurrentPlayer = some annSeat ∧ annSeat.id = 1 ∧
      fiveGame.drawnCard = some ⟨Suit.spades, Rank.n5⟩ ∧
      ((0 : Int) ≤ 1 ∧ (1 : Int) < annSeat.hand.length) ∧
      annSeat.hand[(1 : Int).toNat]? = some (some ⟨Suit.clubs, Rank.n7⟩) ∧
      (⟨Suit.clubs, Rank.n7⟩ : Card).rank ≠ (⟨Suit.spades, Rank.n5⟩ : Card).rank ∧
      fiveGame.deck.cards = [] ++ [some ⟨Suit.spades, Rank.A⟩, some ⟨Suit.spades, Rank.n2⟩]) ∧
    (fiveGame.doubleDrop 1 1 false (fun _ => rndId)).1 = Outcome.dropPenalty 2 ∧
    (fiveGame.doubleDrop 1 1 false (fun _ => rndId)).2.lastDiscard =
      some ⟨Suit.spades, Rank.n5⟩ ∧
    (fiveGame.doubleDrop 1 1 false (fun _ => rndId)).2.players.map (fun p => p.hand.length) =
      [4, 1] :=
  have h := doubleDrop_mismatch fiveGame 1 1 false (fun _ => rndId) annSeat
    ⟨Suit.spades, Rank.n5⟩ ⟨Suit.clubs, Rank.n7⟩ ⟨Suit.spades, Rank.n2⟩ ⟨Suit.spades, Rank.A⟩ []
    (by decide) (by decide) (by decide) (by decide) (by decide) (by decide) (by decide)
  ⟨⟨by decide, by decide, by decide, by decide, by decide, by decide, by decide⟩,
   h.1, h.2.2.2.2.2.1, by decide⟩

/-! ### One action per drawn card -/

theorem swapWithHand_clears (g : Game) (playerId : Nat) (i : Int) :
    (g.swapWithHand playerId i).1.accepted = true →
      (g.swapWithHand playerId i).2.drawnCard = none := by
  unfold Game.swapWithHand
  repeat' split
  all_goals first | (intro h; cases h; done) | (intro _; rfl)

theorem discardDrawnCard_clears (g : Game) (playerId : Nat) :
    (g.discardDrawnCard playerId).1.accepted = true →
      (g.discardDrawnCard playerId).2.drawnCard = none := by
  unfold Game.discardDrawnCard
  repeat' split
  all_goals first | (intro h; cases h; done) | (intro _; rfl)

theorem doubleDrop_clears (g : Game) (playerId : Nat) (i : Int) (usePowerToo : Bool)
    (rnds : Nat → Rnd) :
    (g.doubleDrop playerId i usePowerToo rnds).1.accepted = true →
      (g.doubleDrop playerId i usePowerToo rnds).2.drawnCard = none := by
  unfold Game.doubleDrop
  repeat' split
  all_goals first
    | (intro h; cases h; done)
    | (intro _; rfl)
    | (simp only []
       repeat' split
       all_goals (intro _; rfl))

theorem resolvePeekOwn_clears (g : Game) (playerId : Nat) (i : Int) :
    (g.resolvePeekOwn playerId i).1.accepted = true →
      (g.resolvePeekOwn playerId i).2.drawnCard = none := by
  unfold Game.resolvePeekOwn
  repeat' split
  all_goals first | (intro h; cases h; done) | (intro _; rfl)

theorem resolvePeekOther_clears (g : Game) (playerId targetPlayerId : Nat) (i : Int) :
    (g.resolvePeekOther playerId targetPlayerId i).1.accepted = true →
      (g.resolvePeekOther playerId targetPlayerId i).2.drawnCard = none := by
  unfold Game.resolvePeekOther
  repeat' split
  all_goals first | (intro h; cases h; done) | (intro _; rfl)

theorem resolveQueenSwap_clears (g : Game) (playerId player1Id : Nat) (card1Index : Int)
    (player2Id : Nat) (card2Index : Int) :
    (g.resolveQueenSwap playerId player1Id card1Index player2Id card2Index).1.accepted = true →
      (g.resolveQueenSwap playerId player1Id card1Index player2Id card2Index).2.drawnCard =
        none := by
  unfold Game.resolveQueenSwap
  repeat' split
  all_goals first | (intro h; cases h; done) | (intro _; rfl)

theorem resolveBlackJackSwap_clears (g : Game) (playerId : Nat) (myCardIndex : Int)
    (targetPlayerId : Nat) (targetCardIndex : Int) :
    (g.resolveBlackJackSwap playerId myCardIndex targetPlayerId targetCardIndex).1.accepted =
        true →
      (g.resolveBlackJackSwap playerId myCardIndex targetPlayerId targetCardIndex).2.drawnCard =
        none := by
  unfold Game.resolveBlackJackSwap
  repeat' split
  all_goals first | (intro h; cases h; done) | (intro _; rfl)

theorem resolveBlackJackSkip_clears (g : Game) (playerId : Nat) :
    (g.resolveBlackJackSkip playerId).1.accepted = true →
      (g.resolveBlackJackSkip playerId).2.drawnCard = none := by
  unfold Game.resolveBlackJackSkip
  repeat' split
  all_goals first | (intro h; cases h; done) | (intro _; rfl)

theorem swapWithHand_needs (g : Game) (playerId : Nat) (i : Int) (h : g.drawnCard = none) :
    ∃ msg, g.swapWithHand playerId i = (Outcome.error msg, g) := by
  unfold Game.swapWithHand
  repeat' split
  all_goals first | exact ⟨_, rfl⟩ | (exfalso; simp_all)

theorem discardDrawnCard_needs (g : Game) (playerId : Nat) (h : g.drawnCard = none) :
    ∃ msg, g.discardDrawnCard playerId = (Outcome.error msg, g) := by
  unfold Game.discardDrawnCard
  repeat' split
  all_goals first | exact ⟨_, rfl⟩ | (exfalso; simp_all)

theorem usePower_needs (g : Game) (playerId : Nat) (h : g.drawnCard = none) :
    ∃ msg, g.usePower playerId = (Outcome.error msg, g) := by
  unfold Game.usePower
  repeat' split
  all_goals first | exact ⟨_, rfl⟩ | (exfalso; simp_all)

theorem doubleDrop_needs (g : Game) (playerId : Nat) (i : Int) (usePowerToo : Bool)
    (rnds : Nat → Rnd) (h : g.drawnCard = none) :
    ∃ msg, g.doubleDrop playerId i usePowerToo rnds = (Outcome.error msg, g) := by
  unfold Game.doubleDrop
  repeat' split
  all_goals first | exact ⟨_, rfl⟩ | (exfalso; simp_all)

/-- C24, amended.  A drawn card leaves the drawn slot by one action: every `swapWithHand`,
`discardDrawnCard`, `doubleDrop` (match or mismatch) and completing power resolution that is
carried out leaves the drawn slot empty, and while the drawn slot is empty every
`swapWithHand`, `discardDrawnCard`, `doubleDrop` and `usePower` is rejected with an error and
changes nothing. -/
theorem drawn_card_single_use (g : Game) (op : Op) :
    (op.resolvesDrawn = true → (step g op).1.accepted = true →
      (step g op).2.drawnCard = none) ∧
    (op.needsDrawn = true → g.drawnCard = none →
      ∃ msg, (step g op).1 = Outcome.error msg ∧ (step g op).2 = g) := by
  constructor
  · intro hop
    cases op with
    | swapWithHand playerId i => exact swapWithHand_clears g playerId i
    | discardDrawnCard playerId => exact discardDrawnCard_clears g playerId
    | doubleDrop playerId i u rnds => exact doubleDrop_clears g playerId i u rnds
    | resolvePeekOwn playerId i => exact resolvePeekOwn_clears g playerId i
    | resolvePeekOther playerId t i => exact resolvePeekOther_clears g playerId t i
    | resolveQueenSwap playerId p1 i1 p2 i2 => exact resolveQueenSwap_clears g playerId p1 i1 p2 i2
    | resolveBlackJackSwap playerId i1 t i2 => exact resolveBlackJackSwap_clears g playerId i1 t i2
    | resolveBlackJackSkip playerId => exact resolveBlackJackSkip_clears g playerId
    | _ => cases hop
  · intro hop hd
    cases op with
    | swapWithHand playerId i =>
      obtain ⟨msg, h⟩ := swapWithHand_needs g playerId i hd
      exact ⟨msg, congrArg Prod.fst h, congrArg Prod.snd h⟩
    | discardDrawnCard playerId =>
      obtain ⟨msg, h⟩ := discardDrawnCard_needs g playerId hd
      exact ⟨msg, congrArg Prod.fst h, congrArg Prod.snd h⟩
    | doubleDrop playerId i u rnds =>
      obtain ⟨msg, h⟩ := doubleDrop_needs g playerId i u rnds hd
      exact ⟨msg, congrArg Prod.fst h, congrArg Prod.snd h⟩
    | usePower playerId =>
      obtain ⟨msg, h⟩ := usePower_needs g playerId hd
      exact ⟨msg, congrArg Prod.fst h, congrArg Prod.snd h⟩
    | _ => cases hop

set_option maxRecDepth 1000000 in
/-- C24, instance of the amended statement: the first seat discards the drawn 4 of spades,
which empties the drawn slot; a swap into the hand is then rejected. -/
theorem drawn_card_single_use_witness :
    ((Op.discardDrawnCard 1).resolvesDrawn = true ∧
      (step (run (dealtGame rndId) drawOps) (Op.discardDrawnCard 1)).1.accepted = true ∧
      (Op.swapWithHand 1 0).needsDrawn = true ∧ discardedGame.drawnCard = none) ∧
    (step (run (dealtGame rndId) drawOps) (Op.discardDrawnCard 1)).2.drawnCard = none ∧
    ∃ msg, (step discardedGame (Op.swapWithHand 1 0)).1 = Outcome.error msg ∧
      (step discardedGame (Op.swapWithHand 1 0)).2 = discardedGame :=
  ⟨⟨by decide, by decide, by decide, by decide⟩,
   (drawn_card_single_use (run (dealtGame rndId) drawOps) (Op.discardDrawnCard 1)).1
     (by decide) (by decide),
   (drawn_card_single_use discardedGame (Op.swapWithHand 1 0)).2 (by decide) (by decide)⟩

set_option maxRecDepth 1000000 in
/-- C24, refuted as stated.  The first seat draws the 7 of spades and `usePower` succeeds.
With the power still pending, `swapWithHand`, `discardDrawnCard` and a second `usePower` by
the same player succeed and `doubleDrop` is carried out (with its penalty); after the swap
the power is resolved as well, so the 7 of spades has been used for its power and lies in the
hand. -/
theorem pending_power_does_not_block :
    PlayReachable powerGame ∧
    (step (run (dealtGame rndSeven) [Op.startPlaying, Op.drawCard 1 rndSeven])
      (Op.usePower 1)).1 = Outcome.success ∧
    powerGame.drawnCard = some ⟨Suit.spades, Rank.n7⟩ ∧
    powerGame.pendingPower.map (fun pp => (pp.type, pp.card, pp.playerId)) =
      some (Power.peekOwn, ⟨Suit.spades, Rank.n7⟩, 1) ∧
    (step powerGame (Op.swapWithHand 1 0)).1 = Outcome.success ∧
    (step powerGame (Op.discardDrawnCard 1)).1 = Outcome.success ∧
    (step powerGame (Op.usePower 1)).1 = Outcome.success ∧
    (step powerGame (Op.doubleDrop 1 0 false (fun _ => rndId))).1 = Outcome.dropPenalty 2 ∧
    (step (step powerGame (Op.swapWithHand 1 0)).2 (Op.resolvePeekOwn 1 0)).1 =
      Outcome.peeked [some ⟨Suit.spades, Rank.n7⟩] ∧
    ((step (step powerGame (Op.swapWithHand 1 0)).2 (Op.resolvePeekOwn 1 0)).2.players.map
      (fun p => p.hand[0]?)) =
        [some (some ⟨Suit.spades, Rank.n7⟩), some (some ⟨Suit.spades, Rank.n9⟩)] :=
  ⟨dealtGame_reachable _ _, by decide, by decide, by decide, by decide, by decide, by decide,
   by decide, by decide, by decide⟩

/-! ### Draws within a turn -/

/-- C25, amended.  One outstanding draw: while a drawn card is outstanding every `drawCard`
is rejected with an error and changes nothing, and a `drawCard` that succeeds finds the drawn
slot empty and fills it with the card it returns. -/
theorem drawCard_one_outstanding (g : Game) (playerId : Nat) (rnd : Rnd) :
    (g.drawnCard.isSome = true →
      ∃ msg, (g.drawCard playerId rnd).1 = Outcome.error msg ∧
        (g.drawCard playerId rnd).2 = g) ∧
    (∀ c pw, (g.drawCard playerId rnd).1 = Outcome.drew c pw →
      g.drawnCard = none ∧ (g.drawCard playerId rnd).2.drawnCard = some c) := by
  unfold Game.drawCard
  cases hcur : g.getCurrentPlayer with
  | none => exact ⟨fun _ => ⟨_, rfl, rfl⟩, fun c pw h => by cases h⟩
  | some player =>
    simp only []
    by_cases hid : player.id ≠ playerId
    · rw [if_pos hid]
      exact ⟨fun _ => ⟨_, rfl, rfl⟩, fun c pw h => by cases h⟩
    · rw [if_neg hid]
      by_cases hph : g.phase ≠ Phase.playing ∧ g.phase ≠ Phase.cobraCalled
      · rw [if_pos hph]
        exact ⟨fun _ => ⟨_, rfl, rfl⟩, fun c pw h => by cases h⟩
      · rw [if_neg hph]
        by_cases hdr : g.drawnCard.isSome = true
        · rw [if_pos hdr]
          exact ⟨fun _ => ⟨_, rfl, rfl⟩, fun c pw h => by cases h⟩
        · rw [if_neg hdr]
          have hnone : g.drawnCard = none := by
            cases hdc : g.drawnCard with
            | none => rfl
            | some x => rw [hdc] at hdr; exact absurd rfl hdr
          refine ⟨fun h => absurd h hdr, ?_⟩
          intro c pw
          cases hdraw : (g.deck.draw rnd).1 with
          | none => intro h; cases h
          | some card =>
            intro h
            simp only [Outcome.drew.injEq] at h
            obtain ⟨h1, _⟩ := h
            subst h1
            exact ⟨hnone, rfl⟩

set_option maxRecDepth 1000000 in
/-- C25, instance of the amended statement: with the 4 of spades drawn a further draw of the
turn holder is rejected; the first draw had found the drawn slot empty. -/
theorem drawCard_one_outstanding_witness :
    ((run (dealtGame rndId) drawOps).drawnCard.isSome = true ∧
      (step (run (dealtGame rndId) [Op.startPlaying]) (Op.drawCard 1 rndId)).1 =
        Outcome.drew ⟨Suit.spades, Rank.n4⟩ none) ∧
    (∃ msg, ((run (dealtGame rndId) drawOps).drawCard 1 rndId).1 = Outcome.error msg ∧
      ((run (dealtGame rndId) drawOps).drawCard 1 rndId).2 = run (dealtGame rndId) drawOps) ∧
    ((run (dealtGame rndId) [Op.startPlaying]).drawnCard = none ∧
      ((run (dealtGame rndId) [Op.startPlaying]).drawCard 1 rndId).2.drawnCard =
        some ⟨Suit.spades, Rank.n4⟩) :=
  ⟨⟨by decide, by decide⟩,
   (drawCard_one_outstanding (run (dealtGame rndId) drawOps) 1 rndId).1 (by decide),
   (drawCard_one_outstanding (run (dealtGame rndId) [Op.startPlaying]) 1 rndId).2
     ⟨Suit.spades, Rank.n4⟩ none (by decide)⟩

set_option maxRecDepth 1000000 in
/-- C25, refuted as stated.  The first seat draws the 4 of spades and discards it; without
any turn advance in between (the turn index is still the first seat) the same player draws
again and gets the 3 of spades: two draws succeed within one turn. -/
theorem second_draw_in_turn :
    PlayReachable discardedGame ∧
    (step (run (dealtGame rndId) [Op.startPlaying]) (Op.drawCard 1 rndId)).1 =
      Outcome.drew ⟨Suit.spades, Rank.n4⟩ none ∧
    (step (run (dealtGame rndId) drawOps) (Op.discardDrawnCard 1)).1 = Outcome.success ∧
    discardedGame.currentPlayerIndex = 0 ∧
    (step discardedGame (Op.drawCard 1 rndId)).1 = Outcome.drew ⟨Suit.spades, Rank.n3⟩ none ∧
    (step discardedGame (Op.drawCard 1 rndId)).2.currentPlayerIndex = 0 :=
  ⟨dealtGame_reachable _ _, by decide, by decide, by decide, by decide, by decide⟩

/-! ### The swaps of the queen and the black jack -/

theorem handGet_inHand (p : Player) (i : Int) (h0 : 0 ≤ i) (hl : i < p.hand.length)
    (hsmall : p.hand.length ≤ maxArrayLength) : p.handGet i = (p.hand[i.toNat]?).join := by
  unfold Player.handGet
  have : isArrayIndex i = true := by
    unfold isArrayIndex
    unfold maxArrayLength at hsmall
    simp only [Bool.and_eq_true, decide_eq_true_eq]
    omega
  rw [if_pos this]

theorem handSet_inHand (p : Player) (i : Int) (v : Slot) (h0 : 0 ≤ i) (hl : i < p.hand.length)
    (hsmall : p.hand.length ≤ maxArrayLength) :
    p.handSet i v =
      { p with
        hand := p.hand.set i.toNat v
        handHoles := p.handHoles.filter (fun h => h ≠ i.toNat) } := by
  unfold Player.handSet
  have : isArrayIndex i = true := by
    unfold isArrayIndex
    unfold maxArrayLength at hsmall
    simp only [Bool.and_eq_true, decide_eq_true_eq]
    omega
  rw [if_pos this, if_pos (by omega)]

theorem mem_filter_ne (l : List Int) (i j : Int) (hj : j ≠ i) :
    j ∈ l.filter (fun x => decide (x ≠ i)) ↔ j ∈ l := by
  simp only [List.mem_filter, decide_eq_true_eq]
  exact ⟨fun h => h.1, fun h => ⟨h, hj⟩⟩

theorem not_mem_filter_self (l : List Int) (i : Int) :
    i ∉ l.filter (fun x => decide (x ≠ i)) := by
  simp [List.mem_filter]

theorem swapEffect_set2 (before : List Player) (k1 k2 : Nat) (i1 i2 : Int) (p1 p2 : Player)
    (h1 : before[k1]? = some p1) (h2 : before[k2]? = some p2) (hk : k1 ≠ k2) :
    SwapEffect before
      ((before.set k1
          { p1 with
            hand := p1.hand.set i1.toNat (p2.hand[i2.toNat]?).join
            handHoles := p1.handHoles.filter (fun h => h ≠ i1.toNat)
            knownCards := p1.knownCards.filter (fun x => x ≠ i1) }).set k2
          { p2 with
            hand := p2.hand.set i2.toNat (p1.hand[i1.toNat]?).join
            handHoles := p2.handHoles.filter (fun h => h ≠ i2.toNat)
            knownCards := p2.knownCards.filter (fun x => x ≠ i2) })
      k1 i1 k2 i2 := by
  have hl1 := lt_of_getElem?_some h1
  have hl2 := lt_of_getElem?_some h2
  refine ⟨p1, p2,
    { p1 with
      hand := p1.hand.set i1.toNat (p2.hand[i2.toNat]?).join
      handHoles := p1.handHoles.filter (fun h => h ≠ i1.toNat)
      knownCards := p1.knownCards.filter (fun x => x ≠ i1) },
    { p2 with
      hand := p2.hand.set i2.toNat (p1.hand[i1.toNat]?).join
      handHoles := p2.handHoles.filter (fun h => h ≠ i2.toNat)
      knownCards := p2.knownCards.filter (fun x => x ≠ i2) },
    h1, h2, ?_, ?_, hk, by simp, not_mem_filter_self _ _,
    not_mem_filter_self _ _, rfl, rfl, fun j hj => mem_filter_ne _ _ _ hj,
    fun j hj => mem_filter_ne _ _ _ hj, rfl, rfl, ?_⟩
  · rw [List.getElem?_set_ne (Ne.symm hk), List.getElem?_set_self hl1]
  · rw [List.getElem?_set_self (by simpa using hl2)]
  · intro k hk1 hk2
    rw [List.getElem?_set_ne (Ne.symm hk2), List.getElem?_set_ne (Ne.symm hk1)]

theorem getPlayerById_of_idx (g : Game) (id k : Nat) (p : Player)
    (hk : g.playerIdx id = some k) (hp : g.players[k]? = some p) :
    g.getPlayerById id = some p := by
  unfold Game.getPlayerById
  rw [hk]
  exact hp

/-- C27. Swap knowledge invalidation.  After every successful `resolveQueenSwap` and after
every successful `resolveBlackJackSwap` with indices inside the two hands, whatever was known
before: the first index is not known to the first player and the second index not to the
second player, the two cards at those slots have changed places, and every other slot, every
other known index and every other player is unchanged.  Hands are JavaScript arrays, of at
most `maxArrayLength` elements. -/
theorem swap_invalidates_knowledge (g : Game) :
    (∀ (playerId player1Id : Nat) (card1Index : Int) (player2Id : Nat) (card2Index : Int),
      (g.resolveQueenSwap playerId player1Id card1Index player2Id card2Index).1 =
          Outcome.success →
        ∃ k1 k2, g.playerIdx player1Id = some k1 ∧ g.playerIdx player2Id = some k2 ∧
          SwapEffect g.players
            (g.resolveQueenSwap playerId player1Id card1Index player2Id card2Index).2.players
            k1 card1Index k2 card2Index) ∧
    (∀ (playerId : Nat) (myCardIndex : Int) (targetPlayerId : Nat) (targetCardIndex : Int),
      (g.resolveBlackJackSwap playerId myCardIndex targetPlayerId targetCardIndex).1 =
          Outcome.success →
        indexInHand (g.getPlayerById playerId) myCardIndex →
        indexInHand (g.getPlayerById targetPlayerId) targetCardIndex →
        (∀ p ∈ g.players, p.hand.length ≤ maxArrayLength) →
        ∃ k1 k2, g.playerIdx playerId = some k1 ∧ g.playerIdx targetPlayerId = some k2 ∧
          SwapEffect g.players
            (g.resolveBlackJackSwap playerId myCardIndex targetPlayerId
              targetCardIndex).2.players
            k1 myCardIndex k2 targetCardIndex) := by
  constructor
  · intro playerId player1Id card1Index player2Id card2Index
    unfold Game.resolveQueenSwap
    cases hpp : g.pendingPower with
    | none => intro h; cases h
    | some pp =>
      simp only []
      split
      · intro h; cases h
      · cases hk1 : g.playerIdx player1Id with
        | none => intro h; cases h
        | some k1 =>
          cases hk2 : g.playerIdx player2Id with
          | none => intro h; cases h
          | some k2 =>
            simp only []
            cases hp1 : g.players[k1]? with
            | none => intro h; cases h
            | some p1 =>
              cases hp2 : g.players[k2]? with
              | none => intro h; cases h
              | some p2 =>
                simp only []
                split
                · intro h; cases h
                · rename_i hne
                  split
                  · intro h; cases h
                  · split
                    · intro h; cases h
                    · intro _
                      exact ⟨k1, k2, rfl, rfl,
                        swapEffect_set2 g.players k1 k2 card1Index card2Index p1 p2 hp1 hp2
                          (playerIdx_ne g player1Id player2Id k1 k2 hne hk1 hk2)⟩
  · intro playerId myCardIndex targetPlayerId targetCardIndex
    unfold Game.resolveBlackJackSwap
    cases hpp : g.pendingPower with
    | none => intro h; cases h
    | some pp =>
      simp only []
      split
      · intro h; cases h
      · cases hk1 : g.playerIdx playerId with
        | none => intro h; cases h
        | some k1 =>
          cases hk2 : g.playerIdx targetPlayerId with
          | none => intro h; cases h
          | some k2 =>
            simp only []
            cases hp1 : g.players[k1]? with
            | none => intro h; cases h
            | some p1 =>
              cases hp2 : g.players[k2]? with
              | none => intro h; cases h
              | some p2 =>
                simp only []
                split
                · intro h; cases h
                · rename_i hne
                  intro _ hi1 hi2 hsmall
                  rw [getPlayerById_of_idx g playerId k1 p1 hk1 hp1] at hi1
                  rw [getPlayerById_of_idx g targetPlayerId k2 p2 hk2 hp2] at hi2
                  have hs1 := hsmall p1 (List.getElem?_mem hp1)
                  have hs2 := hsmall p2 (List.getElem?_mem hp2)
                  rw [handGet_inHand p1 _ hi1.1 hi1.2 hs1, handGet_inHand p2 _ hi2.1 hi2.2 hs2,
                    handSet_inHand p1 _ _ hi1.1 hi1.2 hs1, handSet_inHand p2 _ _ hi2.1 hi2.2 hs2]
                  exact ⟨k1, k2, rfl, rfl,
                    swapEffect_set2 g.players k1 k2 myCardIndex targetCardIndex p1 p2 hp1 hp2
                      (playerIdx_ne g playerId targetPlayerId k1 k2 hne hk1 hk2)⟩

/-- C27, instance: the queen swap exchanges slot 0 of the second seat with slot 1 of the
third seat, and the black-jack swap exchanges slot 1 of the first seat with slot 0 of the
second; all four slots were known before. -/
theorem swap_invalidates_knowledge_witness :
    ((queenPending.resolveQueenSwap 1 2 0 3 1).1 = Outcome.success ∧
      (jackPending.resolveBlackJackSwap 1 1 2 0).1 = Outcome.success ∧
      indexInHand (jackPending.getPlayerById 1) 1 ∧
      indexInHand (jackPending.getPlayerById 2) 0 ∧
      (∀ p ∈ jackPending.players, p.hand.length ≤ maxArrayLength)) ∧
    (∃ k1 k2, queenPending.playerIdx 2 = some k1 ∧ queenPending.playerIdx 3 = some k2 ∧
      SwapEffect queenPending.players (queenPending.resolveQueenSwap 1 2 0 3 1).2.players
        k1 0 k2 1) ∧
    (∃ k1 k2, jackPending.playerIdx 1 = some k1 ∧ jackPending.playerIdx 2 = some k2 ∧
      SwapEffect jackPending.players (jackPending.resolveBlackJackSwap 1 1 2 0).2.players
        k1 1 k2 0) ∧
    (queenPending.resolveQueenSwap 1 2 0 3 1).2.players.map
        (fun p => (p.hand, p.knownCards)) =
      [([some ⟨Suit.hearts, Rank.n5⟩, some ⟨Suit.clubs, Rank.n7⟩], [0, 1]),
       ([some ⟨Suit.clubs, Rank.n6⟩, some ⟨Suit.clubs, Rank.n2⟩], [1]),
       ([some ⟨Suit.clubs, Rank.n4⟩, some ⟨Suit.hearts, Rank.n9⟩], [0])] :=
  ⟨⟨by decide, by decide, by decide, by decide, by decide⟩,
   (swap_invalidates_knowledge queenPending).1 1 2 0 3 1 (by decide),
   (swap_invalidates_knowledge jackPending).2 1 1 2 0 (by decide) (by decide) (by decide)
     (by decide),
   by decide⟩

/-! ### The guards of the power resolutions -/

/-- C28, amended.  With indices inside the two hands, `resolveBlackJackSwap` succeeds exactly
when a black-jack power is pending in its swap phase, both players are seated and they are
different players; it is rejected and changes nothing otherwise.  The peeked indices play no
part: the call returns the same result and the same state whatever indices the pending
record holds. -/
theorem blackJackSwap_guard (g : Game) (playerId : Nat) (myCardIndex : Int)
    (targetPlayerId : Nat) (targetCardIndex : Int)
    (_hi1 : indexInHand (g.getPlayerById playerId) myCardIndex)
    (_hi2 : indexInHand (g.getPlayerById targetPlayerId) targetCardIndex) :
    ((g.resolveBlackJackSwap playerId myCardIndex targetPlayerId targetCardIndex).1 =
        Outcome.success ↔
      (g.pendingKind Power.blackJack true ∧ (g.getPlayerById playerId).isSome = true ∧
        (g.getPlayerById targetPlayerId).isSome = true ∧ playerId ≠ targetPlayerId)) ∧
    ((g.resolveBlackJackSwap playerId myCardIndex targetPlayerId targetCardIndex).1 ≠
        Outcome.success →
      ∃ msg, g.resolveBlackJackSwap playerId myCardIndex targetPlayerId targetCardIndex =
        (Outcome.error msg, g)) ∧
    (∀ (pp : PendingPower) (idxs : Option (List Int)), g.pendingPower = some pp →
      (({ g with pendingPower := some { pp with peekedIndices := idxs } } :
          Game).resolveBlackJackSwap playerId myCardIndex targetPlayerId targetCardIndex).1 =
        (g.resolveBlackJackSwap playerId myCardIndex targetPlayerId targetCardIndex).1 ∧
      ((g.resolveBlackJackSwap playerId myCardIndex targetPlayerId targetCardIndex).1 =
          Outcome.success →
        (({ g with pendingPower := some { pp with peekedIndices := idxs } } :
          Game).resolveBlackJackSwap playerId myCardIndex targetPlayerId targetCardIndex).2 =
        (g.resolveBlackJackSwap playerId myCardIndex targetPlayerId targetCardIndex).2)) := by
  refine ⟨?_, ?_, ?_⟩
  · unfold Game.resolveBlackJackSwap Game.pendingKind Game.getPlayerById
    cases hpp : g.pendingPower with
    | none =>
      simp only []
      constructor
      · intro h; cases h
      · rintro ⟨⟨pp, h, _⟩, _⟩; cases h
    | some pp =>
      simp only []
      by_cases hty : pp.type ≠ Power.blackJack ∨ pp.swapPhase ≠ true
      · rw [if_pos hty]
        constructor
        · intro h; cases h
        · rintro ⟨⟨pp2, h, h1, h2⟩, _⟩
          cases h
          exfalso
          rcases hty with hty | hty
          · exact hty h1
          · exact hty (h2 (by first | rfl | trivial))
      · rw [if_neg hty]
        have hty2 : pp.type = Power.blackJack ∧ pp.swapPhase = true := by
          constructor
          · by_contra h; exact hty (Or.inl h)
          · by_contra h; exact hty (Or.inr h)
        cases hk1 : g.playerIdx playerId with
        | none =>
          simp only []
          constructor
          · intro h; cases h
          · rintro ⟨_, h, _⟩; cases h
        | some k1 =>
          cases hk2 : g.playerIdx targetPlayerId with
          | none =>
            simp only []
            constructor
            · intro h; cases h
            · rintro ⟨_, _, h, _⟩; cases h
          | some k2 =>
            simp only []
            cases hp1 : g.players[k1]? with
            | none =>
              simp only []
              constructor
              · intro h; cases h
              · rintro ⟨_, h, _⟩; cases h
            | some p1 =>
              cases hp2 : g.players[k2]? with
              | none =>
                simp only []
                constructor
                · intro h; cases h
                · rintro ⟨_, _, h, _⟩; cases h
              | some p2 =>
                simp only []
                by_cases hne : playerId = targetPlayerId
                · rw [if_pos hne]
                  constructor
                  · intro h; cases h
                  · rintro ⟨_, _, _, h⟩; exact absurd hne h
                · rw [if_neg hne]
                  constructor
                  · intro _
                    exact ⟨⟨pp, rfl, hty2.1, fun _ => hty2.2⟩, rfl, rfl, hne⟩
                  · intro _; rfl
  · unfold Game.resolveBlackJackSwap
    repeat' split
    all_goals first
      | (intro _; exact ⟨_, rfl⟩)
      | (intro h; exact absurd rfl h)
  · intro pp idxs hpp
    unfold Game.resolveBlackJackSwap
    rw [hpp]
    simp only []
    by_cases hty : pp.type ≠ Power.blackJack ∨ pp.swapPhase ≠ true
    · rw [if_pos hty, if_pos hty]
      exact ⟨rfl, fun h => by cases h⟩
    · rw [if_neg hty, if_neg hty]
      unfold Game.playerIdx
      simp only []
      repeat' split
      all_goals first
        | exact ⟨rfl, fun _ => rfl⟩
        | exact ⟨rfl, fun h => by cases h⟩

set_option maxRecDepth 1000000 in
/-- C28, instance of the amended statement: the first seat has peeked at its slots 0 and 1
and swaps its slot 2 with slot 0 of the second seat. -/
theorem blackJackSwap_guard_witness :
    (indexInHand (jackPeeked.getPlayerById 1) 2 ∧ indexInHand (jackPeeked.getPlayerById 2) 0) ∧
    ((jackPeeked.resolveBlackJackSwap 1 2 2 0).1 = Outcome.success ↔
      (jackPeeked.pendingKind Power.blackJack true ∧
        (jackPeeked.getPlayerById 1).isSome = true ∧
        (jackPeeked.getPlayerById 2).isSome = true ∧ (1 : Nat) ≠ 2)) ∧
    (jackPeeked.resolveBlackJackSwap 1 2 2 0).1 = Outcome.success :=
  ⟨⟨by decide, by decide⟩,
   (blackJackSwap_guard jackPeeked 1 2 2 0 (by decide) (by decide)).1, by decide⟩

set_option maxRecDepth 1000000 in
/-- C28, refuted as stated.  The first seat has drawn the jack of spades, activated it and
peeked at its slots 0 and 1.  `resolveBlackJackSwap` with its own slot 2, which was not
peeked, succeeds: the 4 of spades at that slot goes to slot 0 of the second seat and the 9 of
spades comes back. -/
theorem blackJackSwap_unpeeked_slot :
    PlayReachable jackPeeked ∧
    jackPeeked.pendingPower.map (fun pp => (pp.type, pp.swapPhase, pp.peekedIndices)) =
      some (Power.blackJack, true, some [0, 1]) ∧
    (step jackPeeked (Op.resolveBlackJackSwap 1 2 2 0)).1 = Outcome.success ∧
    jackPeeked.players.map (fun p => p.hand[2]?) =
      [some (some ⟨Suit.spades, Rank.n4⟩), some (some ⟨Suit.spades, Rank.n7⟩)] ∧
    (step jackPeeked (Op.resolveBlackJackSwap 1 2 2 0)).2.players.map
        (fun p => (p.hand[0]?, p.hand[2]?)) =
      [(some (some ⟨Suit.spades, Rank.K⟩), some (some ⟨Suit.spades, Rank.n9⟩)),
       (some (some ⟨Suit.spades, Rank.n4⟩), some (some ⟨Suit.spades, Rank.n7⟩))] :=
  ⟨dealtGame_reachable _ _, by decide, by decide, by decide, by decide⟩

set_option maxRecDepth 1000000 in
/-- C29, the code at the failing input.  With the black-jack power pending in its swap phase
and hands of four cards, `resolveBlackJackSwap` with the target index 7 succeeds: slot 0 of
the acting player now holds a missing card and the target's hand has grown to eight slots,
three of them missing.  With the own index 9 it succeeds as well: the acting player's hand
grows to ten slots and the target's slot 0 holds a missing card.  The queen swap rejects an
index outside the hand and changes nothing. -/
theorem blackJackSwap_unchecked_index :
    PlayReachable jackPeeked ∧
    jackPeeked.players.map (fun p => p.hand.length) = [4, 4] ∧
    (step jackPeeked (Op.resolveBlackJackSwap 1 0 2 7)).1 = Outcome.success ∧
    (step jackPeeked (Op.resolveBlackJackSwap 1 0 2 7)).2.players.map (fun p => p.hand) =
      [[none, some ⟨Suit.spades, Rank.Q⟩, some ⟨Suit.spades, Rank.n4⟩,
        some ⟨Suit.spades, Rank.n10⟩],
       [some ⟨Suit.spades, Rank.n9⟩, some ⟨Suit.spades, Rank.n8⟩, some ⟨Suit.spades, Rank.n7⟩,
        some ⟨Suit.spades, Rank.n6⟩, none, none, none, some ⟨Suit.spades, Rank.K⟩]] ∧
    (step jackPeeked (Op.resolveBlackJackSwap 1 9 2 0)).1 = Outcome.success ∧
    (step jackPeeked (Op.resolveBlackJackSwap 1 9 2 0)).2.players.map
        (fun p => (p.hand.length, p.hand[0]?)) =
      [(10, some (some ⟨Suit.spades, Rank.K⟩)), (4, some none)] ∧
    queenPending.resolveQueenSwap 1 2 0 3 7 =
      (Outcome.error "Invalid card index for player 2", queenPending) :=
  ⟨dealtGame_reachable _ _, by decide, by decide, by decide, by decide, by decide, by decide⟩

/-- C30, amended.  A power resolution is bound to the pending power: each of
`resolvePeekOwn`, `resolvePeekOther`, `resolveQueenSwap`, `resolveBlackJackPeek`,
`resolveBlackJackSwap` and `resolveBlackJackSkip` is rejected with an error and changes
nothing unless a power of its kind is pending (for the black-jack swap and skip: in its swap
phase). -/
theorem resolution_needs_pending (g : Game) (op : Op) (kind : Power) (needSwap : Bool)
    (hop : op.resolves = some (kind, needSwap)) (hpend : ¬ g.pendingKind kind needSwap) :
    ∃ msg, (step g op).1 = Outcome.error msg ∧ (step g op).2 = g := by
  have key : ∀ pp, g.pendingPower = some pp →
      ¬ (pp.type = kind ∧ (needSwap = true → pp.swapPhase = true)) := by
    intro pp hpp hc
    exact hpend ⟨pp, hpp, hc.1, hc.2⟩
  cases op with
  | resolvePeekOwn playerId i =>
    cases hop
    simp only [step]
    unfold Game.resolvePeekOwn
    cases hpp : g.pendingPower with
    | none => exact ⟨_, rfl, rfl⟩
    | some pp =>
      simp only []
      rw [if_pos (fun h => key pp hpp ⟨h, fun h2 => by cases h2⟩)]
      exact ⟨_, rfl, rfl⟩
  | resolvePeekOther playerId t i =>
    cases hop
    simp only [step]
    unfold Game.resolvePeekOther
    cases hpp : g.pendingPower with
    | none => exact ⟨_, rfl, rfl⟩
    | some pp =>
      simp only []
      rw [if_pos (fun h => key pp hpp ⟨h, fun h2 => by cases h2⟩)]
      exact ⟨_, rfl, rfl⟩
  | resolveQueenSwap playerId p1 i1 p2 i2 =>
    cases hop
    simp only [step]
    unfold Game.resolveQueenSwap
    cases hpp : g.pendingPower with
    | none => exact ⟨_, rfl, rfl⟩
    | some pp =>
      simp only []
      rw [if_pos (fun h => key pp hpp ⟨h, fun h2 => by cases h2⟩)]
      exact ⟨_, rfl, rfl⟩
  | resolveBlackJackPeek playerId idxs =>
    cases hop
    simp only [step]
    unfold Game.resolveBlackJackPeek
    cases hpp : g.pendingPower with
    | none => exact ⟨_, rfl, rfl⟩
    | some pp =>
      simp only []
      rw [if_pos (fun h => key pp hpp ⟨h, fun h2 => by cases h2⟩)]
      exact ⟨_, rfl, rfl⟩
  | resolveBlackJackSwap playerId i1 t i2 =>
    cases hop
    simp only [step]
    unfold Game.resolveBlackJackSwap
    cases hpp : g.pendingPower with
    | none => exact ⟨_, rfl, rfl⟩
    | some pp =>
      simp only []
      have hor : pp.type ≠ Power.blackJack ∨ pp.swapPhase ≠ true := by
        by_contra hc
        apply key pp hpp
        constructor
        · by_contra h; exact hc (Or.inl h)
        · intro _; by_contra h; exact hc (Or.inr h)
      rw [if_pos hor]
      exact ⟨_, rfl, rfl⟩
  | resolveBlackJackSkip playerId =>
    cases hop
    simp only [step]
    unfold Game.resolveBlackJackSkip
    cases hpp : g.pendingPower with
    | none => exact ⟨_, rfl, rfl⟩
    | some pp =>
      simp only []
      have hor : pp.type ≠ Power.blackJack ∨ pp.swapPhase ≠ true := by
        by_contra hc
        apply key pp hpp
        constructor
        · by_contra h; exact hc (Or.inl h)
        · intro _; by_contra h; exact hc (Or.inr h)
      rw [if_pos hor]
      exact ⟨_, rfl, rfl⟩
  | _ => cases hop

set_option maxRecDepth 1000000 in
/-- C30, instance of the amended statement: with no power pending `resolvePeekOwn` is
rejected, and with the peek-own power pending `resolveBlackJackSkip` is rejected. -/
theorem resolution_needs_pending_witness :
    ((Op.resolvePeekOwn 1 0).resolves = some (Power.peekOwn, false) ∧
      ¬ discardedGame.pendingKind Power.peekOwn false ∧
      (Op.resolveBlackJackSkip 1).resolves = some (Power.blackJack, true) ∧
      ¬ powerGame.pendingKind Power.blackJack true) ∧
    (∃ msg, (step discardedGame (Op.resolvePeekOwn 1 0)).1 = Outcome.error msg ∧
      (step discardedGame (Op.resolvePeekOwn 1 0)).2 = discardedGame) ∧
    (∃ msg, (step powerGame (Op.resolveBlackJackSkip 1)).1 = Outcome.error msg ∧
      (step powerGame (Op.resolveBlackJackSkip 1)).2 = powerGame) :=
  ⟨⟨by decide, by decide, by decide, by decide⟩,
   resolution_needs_pending discardedGame (Op.resolvePeekOwn 1 0) Power.peekOwn false
     (by decide) (by decide),
   resolution_needs_pending powerGame (Op.resolveBlackJackSkip 1) Power.blackJack true
     (by decide) (by decide)⟩

set_option maxRecDepth 1000000 in
/-- C30, refuted as stated.  The first seat holds the turn, has drawn the 7 of spades and
activated its power, which the pending record assigns to the player 1.  `resolvePeekOwn`
called by the player 2 succeeds: it shows that player its own slot 0, records that slot as
known to the player 2 and uses up the pending power.  In the same way the black-jack swap
phase of the player 1 is ended by `resolveBlackJackSkip` of the player 2. -/
theorem resolution_by_other_player :
    PlayReachable powerGame ∧ PlayReachable jackPeeked ∧
    powerGame.currentPlayerIndex = 0 ∧ powerGame.holdsTurn 1 = true ∧
    powerGame.pendingPower.map (fun pp => (pp.type, pp.playerId)) =
      some (Power.peekOwn, 1) ∧
    (step powerGame (Op.resolvePeekOwn 2 0)).1 =
      Outcome.peeked [some ⟨Suit.spades, Rank.n9⟩] ∧
    (step powerGame (Op.resolvePeekOwn 2 0)).2.players.map (fun p => (p.id, p.knownCards)) =
      [(1, []), (2, [0])] ∧
    (step powerGame (Op.resolvePeekOwn 2 0)).2.pendingPower = none ∧
    jackPeeked.pendingPower.map (fun pp => (pp.type, pp.playerId)) =
      some (Power.blackJack, 1) ∧
    (step jackPeeked (Op.resolveBlackJackSkip 2)).1 = Outcome.success ∧
    (step jackPeeked (Op.resolveBlackJackSkip 2)).2.pendingPower = none :=
  ⟨dealtGame_reachable _ _, dealtGame_reachable _ _, by decide, by decide, by decide,
   by decide, by decide, by decide, by decide, by decide, by decide⟩

/-! ### The reactions -/

theorem top_discard (d : Deck) (x : Slot) : (d.discard x).getTopDiscard = x := by
  simp [Deck.getTopDiscard, Deck.discard, popVal]

/-- C31. Successful snap: with the window open, a last discard, and a valid index of the
player whose card has the rank of the last discard, `snapCard` reports the match, removes
exactly that card from the player's hand (the hand is the old one with that slot deleted, one
card shorter, and the known indices are re-aligned as `removeCard` does), pushes the card on
top of the discard pile and makes it `lastDiscard`; the window stays open, the draw pile and
every other player are unchanged.  With the window closed or without a last discard
`snapCard` is rejected and changes nothing. -/
theorem snapCard_match (g : Game) (playerId : Nat) (i : Int) (rnd : Rnd) :
    (∀ (k : Nat) (player : Player) (last card : Card),
      g.snapWindow = true → g.lastDiscard = some last →
      g.playerIdx playerId = some k → g.players[k]? = some player →
      (0 ≤ i ∧ i < player.hand.length) → player.hand[i.toNat]? = some (some card) →
      card.rank = last.rank →
        (g.snapCard playerId i rnd).1 = Outcome.reaction true (some card) false ∧
        (g.snapCard playerId i rnd).2.players = g.players.set k (player.removeCard i).2 ∧
        (player.removeCard i).2.hand = player.hand.eraseIdx i.toNat ∧
        (player.removeCard i).2.hand.length + 1 = player.hand.length ∧
        (player.removeCard i).2.knownCards =
          (player.knownCards.filter (fun j => j ≠ i)).map (fun j => if j > i then j - 1 else j) ∧
        (g.snapCard playerId i rnd).2.deck.discardPile = g.deck.discardPile ++ [some card] ∧
        (g.snapCard playerId i rnd).2.deck.getTopDiscard = some card ∧
        (g.snapCard playerId i rnd).2.lastDiscard = some card ∧
        (g.snapCard playerId i rnd).2.snapWindow = true ∧
        (g.snapCard playerId i rnd).2.deck.cards = g.deck.cards) ∧
    (g.snapWindow = false ∨ g.lastDiscard = none →
      ∃ msg, g.snapCard playerId i rnd = (Outcome.error msg, g)) := by
  constructor
  · intro k player last card hw hl hk hp hi hc hr
    have hnot : ¬ (i < 0 ∨ i ≥ player.hand.length) := by omega
    have hj : (player.hand[i.toNat]?).join = some card := by rw [hc]; rfl
    have hrm : player.removeCard i =
        ((player.hand[i.toNat]?).join,
         { player with
           hand := player.hand.eraseIdx i.toNat
           handHoles := (player.handHoles.filter (fun h => h ≠ i.toNat)).map
             (fun h => if h > i.toNat then h - 1 else h)
           knownCards := (player.knownCards.filter (fun j => j ≠ i)).map
             (fun j => if j > i then j - 1 else j) }) := by
      unfold Player.removeCard
      rw [if_neg hnot]
    unfold Game.snapCard
    rw [hl]
    simp only []
    rw [if_neg (by rw [hw]; simp), hk]
    simp only []
    rw [hp]
    simp only []
    rw [if_neg hnot, hj]
    simp only []
    rw [if_pos hr]
    refine ⟨rfl, rfl, by rw [hrm], ?_, by rw [hrm], rfl, top_discard _ _, rfl, hw, rfl⟩
    rw [hrm]
    simp only [List.length_eraseIdx]
    have : i.toNat < player.hand.length := by omega
    simp only [this, if_true]
    omega
  · intro h
    unfold Game.snapCard
    rcases h with h | h
    · cases hl : g.lastDiscard with
      | none => exact ⟨_, rfl⟩
      | some last =>
        simp only []
        rw [if_pos h]
        exact ⟨_, rfl⟩
    · rw [h]
      exact ⟨_, rfl⟩

/-- C31, instance: the first seat holds 5, 7, 7 and snaps the 7 of clubs at slot 1 onto the
discarded 7 of spades. -/
theorem snapCard_match_witness :
    (snapGame.snapWindow = true ∧ snapGame.lastDiscard = some ⟨Suit.spades, Rank.n7⟩ ∧
      snapGame.playerIdx 1 = some 0 ∧ snapGame.players[0]? = some snapBefore ∧
      ((0 : Int) ≤ 1 ∧ (1 : Int) < snapBefore.hand.length) ∧
      snapBefore.hand[(1 : Int).toNat]? = some (some ⟨Suit.clubs, Rank.n7⟩) ∧
      (⟨Suit.clubs, Rank.n7⟩ : Card).rank = (⟨Suit.spades, Rank.n7⟩ : Card).rank) ∧
    (snapGame.snapCard 1 1 rndId).1 = Outcome.reaction true (some ⟨Suit.clubs, Rank.n7⟩) false ∧
    (snapGame.snapCard 1 1 rndId).2.players = snapGame.players.set 0 (snapBefore.removeCard 1).2 ∧
    (snapGame.snapCard 1 1 rndId).2.lastDiscard = some ⟨Suit.clubs, Rank.n7⟩ ∧
    (stealGame.snapWindow = false ∨ stealGame.lastDiscard = none) ∧
    (∃ msg, stealGame.snapCard 1 1 rndId = (Outcome.error msg, stealGame)) :=
  have h := (snapCard_match snapGame 1 1 rndId).1 0 snapBefore ⟨Suit.spades, Rank.n7⟩
    ⟨Suit.clubs, Rank.n7⟩ (by decide) (by decide) (by decide) (by decide) (by decide)
    (by decide) (by decide)
  ⟨⟨by decide, by decide, by decide, by decide, by decide, by decide, by decide⟩,
   h.1, h.2.1, h.2.2.2.2.2.2.2.1, by decide,
   (snapCard_match stealGame 1 1 rndId).2 (by decide)⟩

/-- C32. Failed snap: with the window open, a last discard, a valid index whose card has
another rank than the last discard, and a card at the back of the draw pile, `snapCard`
reports the mismatch and the penalty; that back card is appended to the end of the player's
hand, whose original slots (the attempted card among them) and known indices are unchanged;
the discard pile, `lastDiscard`, the window and every other player are unchanged.  The new
slot is not known (for a player whose known indices are valid). -/
theorem snapCard_mismatch (g : Game) (playerId : Nat) (i : Int) (rnd : Rnd) (k : Nat)
    (player : Player) (last card c : Card) (front : List Slot)
    (hw : g.snapWindow = true) (hl : g.lastDiscard = some last)
    (hk : g.playerIdx playerId = some k) (hp : g.players[k]? = some player)
    (hi : 0 ≤ i ∧ i < player.hand.length)
    (hc : player.hand[i.toNat]? = some (some card)) (hr : card.rank ≠ last.rank)
    (hdeck : g.deck.cards = front ++ [some c]) :
    (g.snapCard playerId i rnd).1 = Outcome.reaction false (some card) true ∧
    (g.snapCard playerId i rnd).2 =
      { g with
        deck := { cards := front, discardPile := g.deck.discardPile }
        players := g.players.set k (player.addCard (some c)) } ∧
    (player.addCard (some c)).hand = player.hand ++ [some c] ∧
    (player.addCard (some c)).hand[i.toNat]? = some (some card) ∧
    (player.addCard (some c)).knownCards = player.knownCards ∧
    (player.knownValid → (player.hand.length : Int) ∉ (player.addCard (some c)).knownCards) ∧
    (g.snapCard playerId i rnd).2.deck.discardPile = g.deck.discardPile ∧
    (g.snapCard playerId i rnd).2.lastDiscard = g.lastDiscard := by
  have hnot : ¬ (i < 0 ∨ i ≥ player.hand.length) := by omega
  have hj : (player.hand[i.toNat]?).join = some card := by rw [hc]; rfl
  have hstate : g.snapCard playerId i rnd =
      (Outcome.reaction false (some card) true,
       { g with
         deck := { cards := front, discardPile := g.deck.discardPile }
         players := g.players.set k (player.addCard (some c)) }) := by
    unfold Game.snapCard
    rw [hl]
    simp only []
    rw [if_neg (by rw [hw]; simp), hk]
    simp only []
    rw [hp]
    simp only []
    rw [if_neg hnot, hj]
    simp only []
    rw [if_neg hr]
    unfold Game.penaltyCard
    simp only []
    rw [draw_snoc g.deck rnd front c hdeck]
    simp only []
    rw [hl]
  refine ⟨by rw [hstate], by rw [hstate], rfl, ?_, rfl, ?_, by rw [hstate], by rw [hstate]⟩
  · simp only [Player.addCard]
    rw [List.getElem?_append_left (by omega)]
    exact hc
  · intro hkv hmem
    have := hkv _ hmem
    omega

/-- C32, instance: the first seat attempts the 5 of hearts at slot 0 against the discarded 7
of spades and receives the 2 of spades from the back of the draw pile. -/
theorem snapCard_mismatch_witness :
    (snapGame.snapWindow = true ∧ snapGame.lastDiscard = some ⟨Suit.spades, Rank.n7⟩ ∧
      snapGame.playerIdx 1 = some 0 ∧ snapGame.players[0]? = some snapBefore ∧
      ((0 : Int) ≤ 0 ∧ (0 : Int) < snapBefore.hand.length) ∧
      snapBefore.hand[(0 : Int).toNat]? = some (some ⟨Suit.hearts, Rank.n5⟩) ∧
      (⟨Suit.hearts, Rank.n5⟩ : Card).rank ≠ (⟨Suit.spades, Rank.n7⟩ : Card).rank ∧
      snapGame.deck.cards = [some ⟨Suit.spades, Rank.A⟩] ++ [some ⟨Suit.spades, Rank.n2⟩]) ∧
    (snapGame.snapCard 1 0 rndId).1 = Outcome.reaction false (some ⟨Suit.hearts, Rank.n5⟩) true ∧
    (snapGame.snapCard 1 0 rndId).2 =
      { snapGame with
        deck := { cards := [some ⟨Suit.spades, Rank.A⟩],
                  discardPile := snapGame.deck.discardPile }
        players := snapGame.players.set 0 (snapBefore.addCard (some ⟨Suit.spades, Rank.n2⟩)) } :=
  have h := snapCard_mismatch snapGame 1 0 rndId 0 snapBefore ⟨Suit.spades, Rank.n7⟩
    ⟨Suit.hearts, Rank.n5⟩ ⟨Suit.spades, Rank.n2⟩ [some ⟨Suit.spades, Rank.A⟩]
    (by decide) (by decide) (by decide) (by decide) (by decide) (by decide) (by decide)
    (by decide)
  ⟨⟨by decide, by decide, by decide, by decide, by decide, by decide, by decide, by decide⟩,
   h.1, h.2.1⟩

theorem mem_of_mem_set (l : List Slot) (i : Nat) (v x : Slot) (h : x ∈ l.set i v) :
    x = v ∨ ∃ j, j ≠ i ∧ l[j]? = some x := by
  obtain ⟨j, hj, hx⟩ := List.getElem_of_mem h
  rw [List.getElem_set] at hx
  split at hx
  · exact Or.inl hx.symm
  · rename_i hne
    right
    refine ⟨j, fun h => hne h.symm, ?_⟩
    rw [List.getElem?_eq_getElem (by simpa using hj)]
    exact congrArg some hx

theorem mem_of_mem_eraseIdx (l : List Slot) (i : Nat) (x : Slot) (h : x ∈ l.eraseIdx i) :
    ∃ j, j ≠ i ∧ l[j]? = some x := by
  obtain ⟨m, hm⟩ := List.getElem?_of_mem h
  rw [List.getElem?_eraseIdx] at hm
  split at hm
  · rename_i hlt
    exact ⟨m, by omega, hm⟩
  · rename_i hge
    exact ⟨m + 1, by omega, hm⟩

/-- C33. Successful steal: with a last discard, two different seated players, valid indices
and a card of the last discard's rank at the target's slot, `stealCard` reports the match;
the target's slot holds the thief's card formerly at the thief's index, the target's hand
keeps its size and the target no longer knows that slot; the thief's record is what
`removeCard` makes of it at the thief's index (that slot deleted, one card fewer, the
remaining known indices re-aligned); the stolen card is the top of the discard pile and
`lastDiscard`; every other player is unchanged.  If the stolen card lay nowhere else in the
hands, it ends in no hand. -/
theorem stealCard_match (g : Game) (thiefId targetId : Nat) (ti oi : Int) (rnd : Rnd)
    (kth kta : Nat) (thief target : Player) (last stolen : Card)
    (hl : g.lastDiscard = some last)
    (hkth : g.playerIdx thiefId = some kth) (hkta : g.playerIdx targetId = some kta)
    (hth : g.players[kth]? = some thief) (hta : g.players[kta]? = some target)
    (hne : thiefId ≠ targetId)
    (hti : 0 ≤ ti ∧ ti < target.hand.length) (hoi : 0 ≤ oi ∧ oi < thief.hand.length)
    (hc : target.hand[ti.toNat]? = some (some stolen)) (hr : stolen.rank = last.rank) :
    (g.stealCard thiefId targetId ti oi rnd).1 = Outcome.reaction true (some stolen) false ∧
    (∃ thief2 target2,
      (g.stealCard thiefId targetId ti oi rnd).2.players =
        (g.players.set kth thief2).set kta target2 ∧ kth ≠ kta ∧
      target2.hand = target.hand.set ti.toNat (thief.hand[oi.toNat]?).join ∧
      target2.hand.length = target.hand.length ∧
      target2.knownCards = target.knownCards.filter (fun j => j ≠ ti) ∧
      ti ∉ target2.knownCards ∧
      target2.identity = target.identity ∧
      thief2 = (thief.removeCard oi).2 ∧
      thief2.hand = thief.hand.eraseIdx oi.toNat ∧
      thief2.knownCards = (thief.knownCards.filter (fun j => j ≠ oi)).map
        (fun j => if j > oi then j - 1 else j) ∧
      thief2.hand.length + 1 = thief.hand.length ∧
      ((∀ (k : Nat) (p : Player) (j : Nat), g.players[k]? = some p →
          p.hand[j]? = some (some stolen) → k = kta ∧ j = ti.toNat) →
        ∀ p ∈ (g.stealCard thiefId targetId ti oi rnd).2.players, some stolen ∉ p.hand)) ∧
    (g.stealCard thiefId targetId ti oi rnd).2.deck.discardPile =
      g.deck.discardPile ++ [some stolen] ∧
    (g.stealCard thiefId targetId ti oi rnd).2.deck.getTopDiscard = some stolen ∧
    (g.stealCard thiefId targetId ti oi rnd).2.lastDiscard = some stolen ∧
    (g.stealCard thiefId targetId ti oi rnd).2.deck.cards = g.deck.cards := by
  have hk : kth ≠ kta := playerIdx_ne g thiefId targetId kth kta hne hkth hkta
  have hnt : ¬ (ti < 0 ∨ ti ≥ target.hand.length) := by omega
  have hno : ¬ (oi < 0 ∨ oi ≥ thief.hand.length) := by omega
  have hj : (target.hand[ti.toNat]?).join = some stolen := by rw [hc]; rfl
  have hrm := removeCard_after_set thief oi hoi.1 hoi.2 (some stolen)
  have hrmv : thief.removeCard oi =
      ((thief.hand[oi.toNat]?).join,
       { thief with
         hand := thief.hand.eraseIdx oi.toNat
         handHoles := (thief.handHoles.filter (fun h => h ≠ oi.toNat)).map
           (fun h => if h > oi.toNat then h - 1 else h)
         knownCards := (thief.knownCards.filter (fun j => j ≠ oi)).map
           (fun j => if j > oi then j - 1 else j) }) := by
    unfold Player.removeCard
    rw [if_neg hno]
  have hstate : g.stealCard thiefId targetId ti oi rnd =
      (Outcome.reaction true (some stolen) false,
       { g with
         players := (g.players.set kth (thief.removeCard oi).2).set kta
           { target with
             hand := target.hand.set ti.toNat (thief.hand[oi.toNat]?).join
             handHoles := target.handHoles.filter (fun h => h ≠ ti.toNat)
             knownCards := target.knownCards.filter (fun j => j ≠ ti) }
         deck := g.deck.discard (some stolen)
         lastDiscard := some stolen }) := by
    unfold Game.stealCard
    rw [hl]
    simp only []
    rw [hkth, hkta]
    simp only []
    rw [hth, hta]
    simp only []
    rw [if_neg hne, if_neg hnt, if_neg hno, hj]
    simp only []
    rw [if_pos hr, hrm]
  have hlen1 := lt_of_getElem?_some hth
  have hlen2 := lt_of_getElem?_some hta
  refine ⟨by rw [hstate], ⟨(thief.removeCard oi).2,
    { target with
      hand := target.hand.set ti.toNat (thief.hand[oi.toNat]?).join
      handHoles := target.handHoles.filter (fun h => h ≠ ti.toNat)
      knownCards := target.knownCards.filter (fun j => j ≠ ti) },
    by rw [hstate], hk, rfl, by simp, rfl, by simp [List.mem_filter], rfl, rfl,
    by rw [hrmv], by rw [hrmv], ?_, ?_⟩, by rw [hstate]; rfl, by rw [hstate]; exact top_discard _ _,
    by rw [hstate], by rw [hstate]; rfl⟩
  · rw [hrmv]
    simp only [List.length_eraseIdx]
    have : oi.toNat < thief.hand.length := by omega
    simp only [this, if_true]
    omega
  · intro huniq p hp
    rw [hstate] at hp
    simp only at hp
    obtain ⟨m, hm⟩ := List.getElem?_of_mem hp
    intro hmem
    by_cases hm1 : m = kta
    · subst hm1
      rw [List.getElem?_set_self (by simpa using hlen2)] at hm
      cases hm
      rcases mem_of_mem_set _ _ _ _ hmem with h | ⟨j, hj1, hj2⟩
      · have hth2 : thief.hand[oi.toNat]? = some (some stolen) := by
          rw [List.getElem?_eq_getElem (by omega)] at h ⊢
          simp only [Option.join] at h
          simpa using h.symm
        exact hk (huniq kth thief oi.toNat hth hth2).1
      · exact hj1 (huniq m target j hta hj2).2
    · rw [List.getElem?_set_ne (fun h => hm1 h.symm)] at hm
      by_cases hm2 : m = kth
      · subst hm2
        rw [List.getElem?_set_self hlen1] at hm
        cases hm
        rw [hrmv] at hmem
        obtain ⟨j, _, hj2⟩ := mem_of_mem_eraseIdx _ _ _ hmem
        exact hk (huniq m thief j hth hj2).1
      · rw [List.getElem?_set_ne (fun h => hm2 h.symm)] at hm
        obtain ⟨j, hj2⟩ := List.getElem?_of_mem hmem
        exact hm1 (huniq m p j hm hj2).1

set_option maxRecDepth 1000000 in
theorem stealCard_match_witness :
    stealGame.lastDiscard = some ⟨Suit.spades, Rank.n7⟩ ∧
    (stealGame.stealCard 1 2 1 0 rndId).1 =
      Outcome.reaction true (some ⟨Suit.hearts, Rank.n7⟩) false ∧
    (stealGame.stealCard 1 2 1 0 rndId).2.lastDiscard = some ⟨Suit.hearts, Rank.n7⟩ ∧
    (stealGame.stealCard 1 2 1 0 rndId).2.players.map (fun p => p.hand) =
      [[some ⟨Suit.clubs, Rank.n7⟩, some ⟨Suit.diamonds, Rank.n7⟩],
       [some ⟨Suit.hearts, Rank.n9⟩, some ⟨Suit.hearts, Rank.n5⟩]] :=
  have h := stealCard_match stealGame 1 2 1 0 rndId 0 1 snapBefore
    (seat 2 "bob" [some ⟨Suit.hearts, Rank.n9⟩, some ⟨Suit.hearts, Rank.n7⟩])
    ⟨Suit.spades, Rank.n7⟩ ⟨Suit.hearts, Rank.n7⟩ (by decide) (by decide) (by decide)
    (by decide) (by decide) (by decide) (by decide) (by decide) (by decide) (by decide)
  ⟨by decide, h.1, h.2.2.2.2.1, by decide⟩

/-! ### The reaction window -/

theorem swapWithHand_opens (g : Game) (playerId : Nat) (i : Int) :
    (g.swapWithHand playerId i).1.accepted = true →
      (g.swapWithHand playerId i).2.snapWindow = true := by
  unfold Game.swapWithHand
  repeat' split
  all_goals first | (intro h; cases h; done) | (intro _; rfl)

theorem discardDrawnCard_opens (g : Game) (playerId : Nat) :
    (g.discardDrawnCard playerId).1.accepted = true →
      (g.discardDrawnCard playerId).2.snapWindow = true := by
  unfold Game.discardDrawnCard
  repeat' split
  all_goals first | (intro h; cases h; done) | (intro _; rfl)

theorem doubleDrop_opens (g : Game) (playerId : Nat) (i : Int) (usePowerToo : Bool)
    (rnds : Nat → Rnd) :
    (g.doubleDrop playerId i usePowerToo rnds).1.accepted = true →
      (g.doubleDrop playerId i usePowerToo rnds).2.snapWindow = true := by
  unfold Game.doubleDrop
  repeat' split
  all_goals first
    | (intro h; cases h; done)
    | (intro _; rfl)
    | (simp only []
       repeat' split
       all_goals (intro _; rfl))

theorem resolvePeekOwn_opens (g : Game) (playerId : Nat) (i : Int) :
    (g.resolvePeekOwn playerId i).1.accepted = true →
      (g.resolvePeekOwn playerId i).2.snapWindow = true := by
  unfold Game.resolvePeekOwn
  repeat' split
  all_goals first | (intro h; cases h; done) | (intro _; rfl)

theorem resolvePeekOther_opens (g : Game) (playerId targetPlayerId : Nat) (i : Int) :
    (g.resolvePeekOther playerId targetPlayerId i).1.accepted = true →
      (g.resolvePeekOther playerId targetPlayerId i).2.snapWindow = true := by
  unfold Game.resolvePeekOther
  repeat' split
  all_goals first | (intro h; cases h; done) | (intro _; rfl)

theorem resolveQueenSwap_opens (g : Game) (playerId player1Id : Nat) (card1Index : Int)
    (player2Id : Nat) (card2Index : Int) :
    (g.resolveQueenSwap playerId player1Id card1Index player2Id card2Index).1.accepted = true →
      (g.resolveQueenSwap playerId player1Id card1Index player2Id card2Index).2.snapWindow =
        true := by
  unfold Game.resolveQueenSwap
  repeat' split
  all_goals first | (intro h; cases h; done) | (intro _; rfl)

theorem resolveBlackJackSwap_opens (g : Game) (playerId : Nat) (myCardIndex : Int)
    (targetPlayerId : Nat) (targetCardIndex : Int) :
    (g.resolveBlackJackSwap playerId myCardIndex targetPlayerId targetCardIndex).1.accepted =
        true →
      (g.resolveBlackJackSwap playerId myCardIndex targetPlayerId targetCardIndex).2.snapWindow =
        true := by
  unfold Game.resolveBlackJackSwap
  repeat' split
  all_goals first | (intro h; cases h; done) | (intro _; rfl)

theorem resolveBlackJackSkip_opens (g : Game) (playerId : Nat) :
    (g.resolveBlackJackSkip playerId).1.accepted = true →
      (g.resolveBlackJackSkip playerId).2.snapWindow = true := by
  unfold Game.resolveBlackJackSkip
  repeat' split
  all_goals first | (intro h; cases h; done) | (intro _; rfl)

theorem snapCard_window (g : Game) (playerId : Nat) (i : Int) (rnd : Rnd) (card : Slot)
    (pen : Bool) (h : (g.snapCard playerId i rnd).1 = Outcome.reaction true card pen) :
    (g.snapCard playerId i rnd).2.snapWindow = true := by
  revert h
  unfold Game.snapCard
  repeat' split
  all_goals first
    | (intro h; cases h; done)
    | (intro _
       simp only []
       cases hw : g.snapWindow with
       | true => rfl
       | false => simp_all)

theorem stealCard_window (g : Game) (thiefId targetId : Nat) (ti oi : Int) (rnd : Rnd)
    (card : Slot) (pen : Bool)
    (h : (g.stealCard thiefId targetId ti oi rnd).1 = Outcome.reaction true card pen) :
    (g.stealCard thiefId targetId ti oi rnd).2.snapWindow = g.snapWindow := by
  revert h
  unfold Game.stealCard
  repeat' split
  all_goals first
    | (intro h; cases h; done)
    | (intro _; rfl)

/-- C34, amended.  The reaction window after a discard: every `swapWithHand`,
`discardDrawnCard`, `doubleDrop` (match or mismatch), `resolvePeekOwn`, `resolvePeekOther`,
`resolveQueenSwap`, `resolveBlackJackSwap` and `resolveBlackJackSkip` that is carried out,
from any state, leaves `snapWindow` true; so does every matching `snapCard`, and every
matching `stealCard` made while the window is open. -/
theorem window_after_discard (g : Game) :
    (∀ op : Op, op.resolvesDrawn = true → (step g op).1.accepted = true →
      (step g op).2.snapWindow = true) ∧
    (∀ (playerId : Nat) (i : Int) (rnd : Rnd) (card : Slot) (pen : Bool),
      (step g (Op.snapCard playerId i rnd)).1 = Outcome.reaction true card pen →
        (step g (Op.snapCard playerId i rnd)).2.snapWindow = true) ∧
    (∀ (thiefId targetId : Nat) (ti oi : Int) (rnd : Rnd) (card : Slot) (pen : Bool),
      g.snapWindow = true →
      (step g (Op.stealCard thiefId targetId ti oi rnd)).1 = Outcome.reaction true card pen →
        (step g (Op.stealCard thiefId targetId ti oi rnd)).2.snapWindow = true) := by
  refine ⟨?_, ?_, ?_⟩
  · intro op hop
    cases op with
    | swapWithHand playerId i => exact swapWithHand_opens g playerId i
    | discardDrawnCard playerId => exact discardDrawnCard_opens g playerId
    | doubleDrop playerId i u rnds => exact doubleDrop_opens g playerId i u rnds
    | resolvePeekOwn playerId i => exact resolvePeekOwn_opens g playerId i
    | resolvePeekOther playerId t i => exact resolvePeekOther_opens g playerId t i
    | resolveQueenSwap playerId p1 i1 p2 i2 => exact resolveQueenSwap_opens g playerId p1 i1 p2 i2
    | resolveBlackJackSwap playerId i1 t i2 => exact resolveBlackJackSwap_opens g playerId i1 t i2
    | resolveBlackJackSkip playerId => exact resolveBlackJackSkip_opens g playerId
    | _ => cases hop
  · intro playerId i rnd card pen h
    exact snapCard_window g playerId i rnd card pen h
  · intro thiefId targetId ti oi rnd card pen hw h
    exact (stealCard_window g thiefId targetId ti oi rnd card pen h).trans hw

set_option maxRecDepth 1000000 in
theorem window_after_discard_witness :
    (((Op.discardDrawnCard 1).resolvesDrawn = true ∧
        (step (run (dealtGame rndId) drawOps) (Op.discardDrawnCard 1)).1.accepted = true) ∧
      (step (run (dealtGame rndId) drawOps) (Op.discardDrawnCard 1)).2.snapWindow = true) ∧
    ((step snapGame (Op.snapCard 1 1 rndId)).1 =
        Outcome.reaction true (some ⟨Suit.clubs, Rank.n7⟩) false ∧
      (step snapGame (Op.snapCard 1 1 rndId)).2.snapWindow = true) ∧
    ((({ stealGame with snapWindow := true } : Game).snapWindow = true ∧
        (step { stealGame with snapWindow := true } (Op.stealCard 1 2 1 0 rndId)).1 =
          Outcome.reaction true (some ⟨Suit.hearts, Rank.n7⟩) false) ∧
      (step { stealGame with snapWindow := true } (Op.stealCard 1 2 1 0 rndId)).2.snapWindow =
        true) :=
  ⟨⟨⟨by decide, by decide⟩,
    (window_after_discard (run (dealtGame rndId) drawOps)).1 (Op.discardDrawnCard 1)
      (by decide) (by decide)⟩,
   ⟨by decide,
    (window_after_discard snapGame).2.1 1 1 rndId (some ⟨Suit.clubs, Rank.n7⟩) false
      (by decide)⟩,
   ⟨⟨by decide, by decide⟩,
    (window_after_discard { stealGame with snapWindow := true }).2.2 1 2 1 0 rndId
      (some ⟨Suit.hearts, Rank.n7⟩) false (by decide) (by decide)⟩⟩

set_option maxRecDepth 1000000 in
/-- C34, refuted as stated.  The first seat draws the 9 of hearts and discards it, and the
turn advances, which closes the reaction window.  The first seat then steals the 9 of spades
from slot 0 of the second seat: the steal matches, the 9 of spades lands on the discard pile
and becomes the last discard, and `snapWindow` is still false. -/
theorem steal_leaves_window_closed :
    PlayReachable closedGame ∧
    closedGame.lastDiscard = some ⟨Suit.hearts, Rank.n9⟩ ∧
    closedGame.snapWindow = false ∧
    (step closedGame (Op.stealCard 1 2 0 0 rndNine)).1 =
      Outcome.reaction true (some ⟨Suit.spades, Rank.n9⟩) false ∧
    (step closedGame (Op.stealCard 1 2 0 0 rndNine)).2.deck.getTopDiscard =
      some ⟨Suit.spades, Rank.n9⟩ ∧
    (step closedGame (Op.stealCard 1 2 0 0 rndNine)).2.lastDiscard =
      some ⟨Suit.spades, Rank.n9⟩ ∧
    (step closedGame (Op.stealCard 1 2 0 0 rndNine)).2.snapWindow = false :=
  ⟨dealtGame_reachable _ _, by decide, by decide, by decide, by decide, by decide, by decide⟩

/-! ### The cobra call -/

theorem endRound_caller (g : Game) : g.endRound.2.cobraCaller = g.cobraCaller := by
  unfold Game.endRound
  simp only
  split
  · rfl
  · rw [applyTotals_frame]

theorem nextTurn_caller (g : Game) : g.nextTurn.2.cobraCaller = g.cobraCaller := by
  unfold Game.nextTurn
  simp only
  split
  · rfl
  · split
    · split
      · rw [endRound_caller]
      · rfl
    · rfl

theorem removePlayer_caller (g : Game) (socketId : Nat) :
    (g.removePlayer socketId).2.cobraCaller = g.cobraCaller := by
  unfold Game.removePlayer
  split
  · rfl
  · split
    · rfl
    · simp only
      split
      · rw [nextTurn_caller]; rfl
      · rfl

theorem penaltyCard_caller (g : Game) (k : Nat) (player : Player) (rnd : Rnd) :
    (g.penaltyCard k player rnd).2.cobraCaller = g.cobraCaller := by
  unfold Game.penaltyCard
  simp only []
  split <;> rfl

/-- Every operation other than `startGame` and `callCobra` leaves the recorded caller as it
is. -/
theorem step_caller (g : Game) (op : Op) (h1 : op.isStartGame = false)
    (h2 : op.isCallCobra = false) : (step g op).2.cobraCaller = g.cobraCaller := by
  cases op with
  | startGame rnd => cases h1
  | callCobra playerId => cases h2
  | nextTurn => exact nextTurn_caller g
  | removePlayer socketId => exact removePlayer_caller g socketId
  | addPlayer id name socketId => rfl
  | startPlaying => rfl
  | reconnectPlayer socketId playerId =>
    show (g.reconnectPlayer socketId playerId).2.cobraCaller = g.cobraCaller
    unfold Game.reconnectPlayer
    repeat' split
    all_goals rfl
  | initialPeek playerId indices =>
    show (g.initialPeek playerId indices).2.cobraCaller = g.cobraCaller
    unfold Game.initialPeek
    repeat' split
    all_goals rfl
  | drawCard playerId rnd =>
    show (g.drawCard playerId rnd).2.cobraCaller = g.cobraCaller
    unfold Game.drawCard
    try simp only []
    repeat' split
    all_goals rfl
  | swapWithHand playerId handIndex =>
    show (g.swapWithHand playerId handIndex).2.cobraCaller = g.cobraCaller
    unfold Game.swapWithHand
    try simp only []
    repeat' split
    all_goals rfl
  | discardDrawnCard playerId =>
    show (g.discardDrawnCard playerId).2.cobraCaller = g.cobraCaller
    unfold Game.discardDrawnCard
    repeat' split
    all_goals rfl
  | usePower playerId =>
    show (g.usePower playerId).2.cobraCaller = g.cobraCaller
    unfold Game.usePower
    repeat' split
    all_goals rfl
  | doubleDrop playerId handIndex usePowerToo rnds =>
    show (g.doubleDrop playerId handIndex usePowerToo rnds).2.cobraCaller = g.cobraCaller
    unfold Game.doubleDrop
    try simp only []
    repeat' split
    all_goals rfl
  | resolvePeekOwn playerId cardIndex =>
    show (g.resolvePeekOwn playerId cardIndex).2.cobraCaller = g.cobraCaller
    unfold Game.resolvePeekOwn
    try simp only []
    repeat' split
    all_goals rfl
  | resolvePeekOther playerId targetPlayerId cardIndex =>
    show (g.resolvePeekOther playerId targetPlayerId cardIndex).2.cobraCaller = g.cobraCaller
    unfold Game.resolvePeekOther
    try simp only []
    repeat' split
    all_goals rfl
  | resolveQueenSwap playerId player1Id card1Index player2Id card2Index =>
    show (g.resolveQueenSwap playerId player1Id card1Index player2Id card2Index).2.cobraCaller =
      g.cobraCaller
    unfold Game.resolveQueenSwap
    try simp only []
    repeat' split
    all_goals rfl
  | resolveBlackJackPeek playerId indices =>
    show (g.resolveBlackJackPeek playerId indices).2.cobraCaller = g.cobraCaller
    unfold Game.resolveBlackJackPeek
    try simp only []
    repeat' split
    all_goals rfl
  | resolveBlackJackSwap playerId myCardIndex targetPlayerId targetCardIndex =>
    show (g.resolveBlackJackSwap playerId myCardIndex targetPlayerId
      targetCardIndex).2.cobraCaller = g.cobraCaller
    unfold Game.resolveBlackJackSwap
    try simp only []
    repeat' split
    all_goals rfl
  | resolveBlackJackSkip playerId =>
    show (g.resolveBlackJackSkip playerId).2.cobraCaller = g.cobraCaller
    unfold Game.resolveBlackJackSkip
    repeat' split
    all_goals rfl
  | snapCard playerId cardIndex rnd =>
    show (g.snapCard playerId cardIndex rnd).2.cobraCaller = g.cobraCaller
    unfold Game.snapCard
    try simp only []
    repeat' split
    all_goals first | rfl | exact penaltyCard_caller _ _ _ _
  | stealCard thiefId targetId targetCardIndex thiefCardIndex rnd =>
    show (g.stealCard thiefId targetId targetCardIndex thiefCardIndex rnd).2.cobraCaller =
      g.cobraCaller
    unfold Game.stealCard
    try simp only []
    repeat' split
    all_goals first | rfl | exact penaltyCard_caller _ _ _ _

theorem callCobra_eq (g : Game) (playerId k : Nat) (hph : g.phase = Phase.playing)
    (hcc : g.cobraCaller = none) (hk : g.playerIdx playerId = some k) :
    g.callCobra playerId =
      (Outcome.success,
       { g with
         cobraCaller := some playerId
         cobraCallerIndex := some k
         phase := Phase.cobraCalled
         turnsSinceCobra := 0 }) := by
  unfold Game.callCobra
  rw [if_neg (by simp [hph]), if_neg (by simp [hcc]), hk]

theorem callCobra_success_iff (g : Game) (playerId : Nat) :
    (g.callCobra playerId).1 = Outcome.success ↔
      g.phase = Phase.playing ∧ g.cobraCaller = none ∧
        (g.playerIdx playerId).isSome = true := by
  constructor
  · intro h
    unfold Game.callCobra at h
    split at h
    · cases h
    · rename_i hph
      split at h
      · cases h
      · rename_i hcc
        split at h
        · cases h
        · rename_i k hk
          refine ⟨by simpa using hph, ?_, by rw [hk]; rfl⟩
          cases hc : g.cobraCaller with
          | none => rfl
          | some c => rw [hc] at hcc; simp at hcc
  · rintro ⟨hph, hcc, hk⟩
    cases hk2 : g.playerIdx playerId with
    | none => rw [hk2] at hk; cases hk
    | some k => rw [callCobra_eq g playerId k hph hcc hk2]

theorem callCobra_rejected (g : Game) (playerId : Nat)
    (h : (g.callCobra playerId).1 ≠ Outcome.success) :
    ∃ msg, g.callCobra playerId = (Outcome.error msg, g) := by
  revert h
  unfold Game.callCobra
  repeat' split
  all_goals first | (intro _; exact ⟨_, rfl⟩) | (intro h; exact absurd rfl h)

theorem callCobra_again (g : Game) (playerId : Nat) (h : g.cobraCaller.isSome = true) :
    ∃ msg, g.callCobra playerId = (Outcome.error msg, g) := by
  apply callCobra_rejected
  intro hs
  have := ((callCobra_success_iff g playerId).mp hs).2.1
  rw [this] at h
  cases h

theorem step_caller_isSome (g : Game) (op : Op) (h1 : op.isStartGame = false)
    (h : g.cobraCaller.isSome = true) : (step g op).2.cobraCaller.isSome = true := by
  by_cases h2 : op.isCallCobra = true
  · cases op with
    | callCobra playerId =>
      obtain ⟨msg, hm⟩ := callCobra_again g playerId h
      show (g.callCobra playerId).2.cobraCaller.isSome = true
      rw [hm]
      exact h
    | _ => cases h2
  · rw [step_caller g op h1 (by simpa using h2)]
    exact h

theorem cobraCalls_zero (ops : List Op) (g : Game) (h : g.cobraCaller.isSome = true)
    (hops : ∀ op ∈ ops, op.isStartGame = false) : cobraCalls g ops = 0 := by
  induction ops generalizing g with
  | nil => rfl
  | cons op ops ih =>
    unfold cobraCalls
    rw [ih _ (step_caller_isSome g op (hops op (List.mem_cons_self _ _)) h)
      (fun o ho => hops o (List.mem_cons_of_mem _ ho))]
    cases op with
    | callCobra playerId =>
      obtain ⟨msg, hm⟩ := callCobra_again g playerId h
      show (match Op.callCobra playerId, (g.callCobra playerId).1 with
        | Op.callCobra _, Outcome.success => 1
        | _, _ => 0) + 0 = 0
      rw [hm]
    | _ => rfl

theorem cobraCalls_le_one (ops : List Op) (g : Game)
    (hops : ∀ op ∈ ops, op.isStartGame = false) : cobraCalls g ops ≤ 1 := by
  induction ops generalizing g with
  | nil => exact Nat.zero_le _
  | cons op ops ih =>
    have hrest : ∀ o ∈ ops, o.isStartGame = false :=
      fun o ho => hops o (List.mem_cons_of_mem _ ho)
    by_cases hs : op.isCallCobra = true ∧ (step g op).1 = Outcome.success
    · cases op with
      | callCobra playerId =>
        have hsucc : (g.callCobra playerId).1 = Outcome.success := hs.2
        obtain ⟨hph, hcc, hk⟩ := (callCobra_success_iff g playerId).mp hsucc
        cases hk2 : g.playerIdx playerId with
        | none => rw [hk2] at hk; cases hk
        | some k =>
          have hst : (step g (Op.callCobra playerId)).2.cobraCaller.isSome = true := by
            show (g.callCobra playerId).2.cobraCaller.isSome = true
            rw [callCobra_eq g playerId k hph hcc hk2]
            rfl
          unfold cobraCalls
          rw [cobraCalls_zero ops _ hst hrest]
          show (match Op.callCobra playerId, (g.callCobra playerId).1 with
            | Op.callCobra _, Outcome.success => 1
            | _, _ => 0) + 0 ≤ 1
          rw [hsucc]
      | _ => exact absurd hs.1 (by simp [Op.isCallCobra])
    · unfold cobraCalls
      have h0 : (match op, (step g op).1 with
          | Op.callCobra _, Outcome.success => 1
          | _, _ => 0) = 0 := by
        split
        · rename_i p hp
          exact absurd ⟨rfl, hp⟩ hs
        · rfl
      rw [h0, Nat.zero_add]
      exact ih _ hrest

/-- C35. `callCobra` guard and effect.  `callCobra p` succeeds exactly when the phase is
PLAYING, no caller is recorded and `p` is a seated player, and otherwise returns an error and
changes nothing.  On success the state is the old one with the caller `p`, the seat index of
`p` (the seat `k` found for `p`, whose player has the identity `p`), the phase COBRA_CALLED
and the lap counter 0, and nothing else changed.  In any sequence of operations without a
`startGame`, run from any state, at most one `callCobra` succeeds. -/
theorem callCobra_guard_effect (g : Game) (playerId : Nat) :
    ((g.callCobra playerId).1 = Outcome.success ↔
      g.phase = Phase.playing ∧ g.cobraCaller = none ∧
        (g.playerIdx playerId).isSome = true) ∧
    ((g.callCobra playerId).1 ≠ Outcome.success →
      ∃ msg, g.callCobra playerId = (Outcome.error msg, g)) ∧
    ((g.callCobra playerId).1 = Outcome.success →
      ∃ k, g.playerIdx playerId = some k ∧
        (g.players[k]?).map (fun p => p.id) = some playerId ∧
        (g.callCobra playerId).2 =
          { g with
            cobraCaller := some playerId
            cobraCallerIndex := some k
            phase := Phase.cobraCalled
            turnsSinceCobra := 0 }) ∧
    (∀ ops : List Op, (∀ op ∈ ops, op.isStartGame = false) → cobraCalls g ops ≤ 1) := by
  refine ⟨callCobra_success_iff g playerId, callCobra_rejected g playerId, ?_,
    fun ops hops => cobraCalls_le_one ops g hops⟩
  intro hs
  obtain ⟨hph, hcc, hk⟩ := (callCobra_success_iff g playerId).mp hs
  cases hk2 : g.playerIdx playerId with
  | none => rw [hk2] at hk; cases hk
  | some k =>
    obtain ⟨p, hp, hpid⟩ := playerIdx_some g playerId k hk2
    refine ⟨k, rfl, by rw [hp]; simp [hpid], ?_⟩
    rw [callCobra_eq g playerId k hph hcc hk2]

set_option maxRecDepth 1000000 in
theorem callCobra_guard_effect_witness :
    ((run (dealtGame rndId) [Op.startPlaying]).callCobra 2).1 = Outcome.success ∧
    (∃ k, (run (dealtGame rndId) [Op.startPlaying]).playerIdx 2 = some k ∧
      ((run (dealtGame rndId) [Op.startPlaying]).players[k]?).map (fun p => p.id) = some 2 ∧
      ((run (dealtGame rndId) [Op.startPlaying]).callCobra 2).2 =
        { run (dealtGame rndId) [Op.startPlaying] with
          cobraCaller := some 2
          cobraCallerIndex := some k
          phase := Phase.cobraCalled
          turnsSinceCobra := 0 }) ∧
    ((dealtGame rndId).callCobra 2).1 ≠ Outcome.success ∧
    (∃ msg, (dealtGame rndId).callCobra 2 = (Outcome.error msg, dealtGame rndId)) ∧
    (∀ op ∈ [Op.callCobra 2, Op.nextTurn, Op.callCobra 1], op.isStartGame = false) ∧
    cobraCalls (run (dealtGame rndId) [Op.startPlaying])
      [Op.callCobra 2, Op.nextTurn, Op.callCobra 1] ≤ 1 :=
  ⟨by decide,
   (callCobra_guard_effect (run (dealtGame rndId) [Op.startPlaying]) 2).2.2.1 (by decide),
   by decide,
   (callCobra_guard_effect (dealtGame rndId) 2).2.1 (by decide),
   by decide,
   (callCobra_guard_effect (run (dealtGame rndId) [Op.startPlaying]) 2).2.2.2
     [Op.callCobra 2, Op.nextTurn, Op.callCobra 1] (by decide)⟩

set_option maxRecDepth 1000000 in
/-- C36, the code at the failing inputs.  In play with the first seat holding the turn,
`callCobra` by the player 2, who does not hold the turn, succeeds, records that player as the
caller and sets the phase COBRA_CALLED, while `drawCard` by the same player is rejected as out
of turn.  After the turn holder has drawn the 4 of spades, `callCobra` by the turn holder
succeeds with the drawn card outstanding, while `drawCard` is rejected because a card is
drawn already.  After the turn holder has drawn the 7 of spades and activated its power,
`callCobra` succeeds with the power pending (and `drawCard` is rejected), and the drawn card
and the pending power are still there afterwards. -/
theorem callCobra_out_of_turn :
    PlayReachable (run (dealtGame rndId) [Op.startPlaying]) ∧
    (run (dealtGame rndId) [Op.startPlaying]).currentPlayerIndex = 0 ∧
    (run (dealtGame rndId) [Op.startPlaying]).holdsTurn 2 = false ∧
    (step (run (dealtGame rndId) [Op.startPlaying]) (Op.callCobra 2)).1 = Outcome.success ∧
    (step (run (dealtGame rndId) [Op.startPlaying]) (Op.callCobra 2)).2.cobraCaller = some 2 ∧
    (step (run (dealtGame rndId) [Op.startPlaying]) (Op.callCobra 2)).2.phase =
      Phase.cobraCalled ∧
    (step (run (dealtGame rndId) [Op.startPlaying]) (Op.drawCard 2 rndId)).1 =
      Outcome.error "Not your turn" ∧
    PlayReachable (run (dealtGame rndId) drawOps) ∧
    (run (dealtGame rndId) drawOps).holdsTurn 1 = true ∧
    (run (dealtGame rndId) drawOps).drawnCard = some ⟨Suit.spades, Rank.n4⟩ ∧
    (step (run (dealtGame rndId) drawOps) (Op.callCobra 1)).1 = Outcome.success ∧
    (step (run (dealtGame rndId) drawOps) (Op.callCobra 1)).2.phase = Phase.cobraCalled ∧
    (step (run (dealtGame rndId) drawOps) (Op.drawCard 1 rndId)).1 =
      Outcome.error "Already drew a card" ∧
    PlayReachable powerGame ∧
    powerGame.holdsTurn 1 = true ∧
    powerGame.pendingPower.map (fun pp => (pp.type, pp.playerId)) = some (Power.peekOwn, 1) ∧
    (step powerGame (Op.callCobra 1)).1 = Outcome.success ∧
    (step powerGame (Op.drawCard 1 rndId)).1 = Outcome.error "Already drew a card" ∧
    (step powerGame (Op.callCobra 1)).2.drawnCard = some ⟨Suit.spades, Rank.n7⟩ ∧
    (step powerGame (Op.callCobra 1)).2.pendingPower.map (fun pp => (pp.type, pp.playerId)) =
      some (Power.peekOwn, 1) :=
  ⟨dealtGame_reachable _ _, by decide, by decide, by decide, by decide, by decide, by decide,
   dealtGame_reachable _ _, by decide, by decide, by decide, by decide, by decide,
   dealtGame_reachable _ _, by decide, by decide, by decide, by decide, by decide, by decide⟩

/-! ### Disconnection during the cobra lap -/

set_option maxRecDepth 1000000 in
/-- C37, the code at the failing input.  Two seats, the first holds the turn and calls cobra.
When the first seat then disconnects, `removePlayer` marks it disconnected but the turn index
stays at that seat and the phase stays COBRA_CALLED; `drawCard` by the remaining player is
rejected as out of turn.  Likewise, when the caller has ended its turn and the second seat,
holding the turn, disconnects, the turn index stays at the disconnected second seat.  In
phase PLAYING the same departure moves the turn to the second seat. -/
theorem removePlayer_cobra_stall :
    PlayReachable (run (dealtGame rndId) [Op.startPlaying, Op.callCobra 1]) ∧
    (run (dealtGame rndId) [Op.startPlaying, Op.callCobra 1]).phase = Phase.cobraCalled ∧
    (run (dealtGame rndId) [Op.startPlaying, Op.callCobra 1]).currentPlayerIndex = 0 ∧
    (run (dealtGame rndId) [Op.startPlaying, Op.callCobra 1]).players.map
      (fun p => (p.id, p.socketId, p.connected)) = [(1, 101, true), (2, 102, true)] ∧
    (step (run (dealtGame rndId) [Op.startPlaying, Op.callCobra 1])
      (Op.removePlayer 101)).2.players.map (fun p => p.connected) = [false, true] ∧
    (step (run (dealtGame rndId) [Op.startPlaying, Op.callCobra 1])
      (Op.removePlayer 101)).2.currentPlayerIndex = 0 ∧
    (step (run (dealtGame rndId) [Op.startPlaying, Op.callCobra 1])
      (Op.removePlayer 101)).2.phase = Phase.cobraCalled ∧
    (step (run (dealtGame rndId) [Op.startPlaying, Op.callCobra 1, Op.removePlayer 101])
      (Op.drawCard 2 rndId)).1 = Outcome.error "Not your turn" ∧
    (run (dealtGame rndId) [Op.startPlaying, Op.callCobra 1, Op.nextTurn]).currentPlayerIndex =
      1 ∧
    (step (run (dealtGame rndId) [Op.startPlaying, Op.callCobra 1, Op.nextTurn])
      (Op.removePlayer 102)).2.players.map (fun p => p.connected) = [true, false] ∧
    (step (run (dealtGame rndId) [Op.startPlaying, Op.callCobra 1, Op.nextTurn])
      (Op.removePlayer 102)).2.currentPlayerIndex = 1 ∧
    (step (run (dealtGame rndId) [Op.startPlaying, Op.callCobra 1, Op.nextTurn])
      (Op.removePlayer 102)).2.phase = Phase.cobraCalled ∧
    (run (dealtGame rndId) [Op.startPlaying]).phase = Phase.playing ∧
    (step (run (dealtGame rndId) [Op.startPlaying]) (Op.removePlayer 101)).2.players.map
      (fun p => p.connected) = [false, true] ∧
    (step (run (dealtGame rndId) [Op.startPlaying])
      (Op.removePlayer 101)).2.currentPlayerIndex = 1 :=
  ⟨dealtGame_reachable _ _, by decide, by decide, by decide, by decide, by decide, by decide,
   by decide, by decide, by decide, by decide, by decide, by decide, by decide, by decide⟩

/-- While the caller's seat is disconnected and some seat is connected, `nextTurn` does not
end the round: it succeeds and leaves the phase, the caller's seat and the players as they
are. -/
theorem nextTurn_stall (g : Game) (k : Nat) (hph : g.phase = Phase.cobraCalled)
    (hcc : g.cobraCallerIndex = some k) (hdis : connectedAt g.players k = false)
    (hconn : ∃ p ∈ g.players, p.connected = true) :
    g.nextTurn.1 = Outcome.success ∧ g.nextTurn.2.phase = Phase.cobraCalled ∧
      g.nextTurn.2.cobraCallerIndex = some k ∧ g.nextTurn.2.players = g.players := by
  obtain ⟨d, _, _, hd3, hd4, _⟩ := nextIndex_first_connected g.players g.currentPlayerIndex hconn
  have hn0 : ¬ g.players.length = 0 := by
    obtain ⟨p, hp, _⟩ := hconn
    intro h0
    rw [List.length_eq_zero] at h0
    rw [h0] at hp
    cases hp
  have hne : ¬ some (nextIndexLoop g.players g.players.length g.currentPlayerIndex 0) =
      g.cobraCallerIndex := by
    rw [hcc, hd3]
    intro he
    simp only [Option.some.injEq] at he
    rw [he, hdis] at hd4
    cases hd4
  unfold Game.nextTurn
  simp only
  rw [if_neg hn0, if_pos hph, if_neg hne]
  exact ⟨rfl, hph, hcc, rfl⟩

theorem run_stall (m : Nat) (g : Game) (k : Nat) (hph : g.phase = Phase.cobraCalled)
    (hcc : g.cobraCallerIndex = some k) (hdis : connectedAt g.players k = false)
    (hconn : ∃ p ∈ g.players, p.connected = true) :
    (run g (List.replicate m Op.nextTurn)).phase = Phase.cobraCalled := by
  induction m generalizing g with
  | zero => exact hph
  | succ m ih =>
    obtain ⟨_, h2, h3, h4⟩ := nextTurn_stall g k hph hcc hdis hconn
    rw [List.replicate_succ]
    show (run g.nextTurn.2 (List.replicate m Op.nextTurn)).phase = Phase.cobraCalled
    exact ih _ h2 h3 (by rw [h4]; exact hdis) (by rw [h4]; exact hconn)

set_option maxRecDepth 1000000 in
/-- C39, the code at the failing input.  Two seats; the first calls cobra, ends its turn and
disconnects.  The state is in phase COBRA_CALLED with the caller's seat 0 disconnected and the
second seat connected and holding the turn.  Two consecutive `nextTurn` calls, as many as
there are seats, leave the phase COBRA_CALLED and the turn at the second seat, and so does
any number of them: the round does not end. -/
theorem cobra_lap_never_closes :
    PlayReachable stuckGame ∧
    stuckGame.phase = Phase.cobraCalled ∧
    stuckGame.cobraCallerIndex = some 0 ∧
    stuckGame.players.map (fun p => p.connected) = [false, true] ∧
    stuckGame.currentPlayerIndex = 1 ∧
    (run stuckGame [Op.nextTurn, Op.nextTurn]).phase = Phase.cobraCalled ∧
    (run stuckGame [Op.nextTurn, Op.nextTurn]).currentPlayerIndex = 1 ∧
    (step stuckGame Op.nextTurn).1 = Outcome.success ∧
    ∀ m : Nat, (run stuckGame (List.replicate m Op.nextTurn)).phase = Phase.cobraCalled :=
  ⟨dealtGame_reachable _ _, by decide, by decide, by decide, by decide, by decide, by decide,
   by decide,
   fun m => run_stall m stuckGame 0 (by decide) (by decide) (by decide) (by decide)⟩

/-! ### The last discard and the discard pile -/

theorem draw_top (d : Deck) (rnd : Rnd) : (d.draw rnd).2.getTopDiscard = d.getTopDiscard := by
  unfold Deck.draw
  split
  · split
    · rfl
    · simp only [Deck.getTopDiscard, popVal, List.getLast?_singleton, Option.join]
      rfl
  · rfl

theorem penaltyDraws_top (rnds : Nat → Rnd) (n : Nat) (p : Player) (d : Deck) (cnt : Nat) :
    (penaltyDraws rnds n p d cnt).2.1.getTopDiscard = d.getTopDiscard := by
  induction n generalizing p d cnt with
  | zero => rfl
  | succ n ih =>
    unfold penaltyDraws
    simp only
    split
    · rw [ih, draw_top]
    · rw [ih, draw_top]

theorem Tracks.same (g h : Game) (h1 : h.lastDiscard = g.lastDiscard)
    (h2 : h.deck.getTopDiscard = g.deck.getTopDiscard) : Tracks g h := Or.inl ⟨h1, h2⟩

theorem penaltyCard_tracks (g : Game) (k : Nat) (player : Player) (rnd : Rnd) :
    Tracks g (g.penaltyCard k player rnd).2 := by
  unfold Game.penaltyCard
  simp only []
  split
  · exact Tracks.same _ _ rfl (draw_top _ _)
  · exact Tracks.same _ _ rfl (draw_top _ _)

theorem endRound_last (g : Game) : g.endRound.2.lastDiscard = g.lastDiscard := by
  unfold Game.endRound
  simp only
  split
  · rfl
  · rw [applyTotals_frame]

theorem nextTurn_last (g : Game) : g.nextTurn.2.lastDiscard = g.lastDiscard := by
  unfold Game.nextTurn
  simp only
  split
  · rfl
  · split
    · split
      · rw [endRound_last]
      · rfl
    · rfl

theorem removePlayer_last (g : Game) (socketId : Nat) :
    (g.removePlayer socketId).2.lastDiscard = g.lastDiscard := by
  unfold Game.removePlayer
  split
  · rfl
  · split
    · rfl
    · simp only
      split
      · rw [nextTurn_last]; rfl
      · rfl

/-- Every engine call moves the last discard and the top of the discard pile together. -/
theorem step_tracks (g : Game) (op : Op) : Tracks g (step g op).2 := by
  cases op with
  | startGame rnd =>
    show Tracks g (g.startGame rnd).2
    unfold Game.startGame
    split
    · exact Tracks.same _ _ rfl rfl
    · exact Or.inr (Or.inr rfl)
  | callCobra playerId =>
    show Tracks g (g.callCobra playerId).2
    unfold Game.callCobra
    repeat' split
    all_goals exact Tracks.same _ _ rfl rfl
  | nextTurn =>
    exact Tracks.same _ _ (nextTurn_last g) (congrArg Deck.getTopDiscard (nextTurn_deck g))
  | removePlayer socketId =>
    exact Tracks.same _ _ (removePlayer_last g socketId)
      (congrArg Deck.getTopDiscard (removePlayer_deck g socketId))
  | addPlayer id name socketId => exact Tracks.same _ _ rfl rfl
  | startPlaying => exact Tracks.same _ _ rfl rfl
  | reconnectPlayer socketId playerId =>
    show Tracks g (g.reconnectPlayer socketId playerId).2
    unfold Game.reconnectPlayer
    repeat' split
    all_goals exact Tracks.same _ _ rfl rfl
  | initialPeek playerId indices =>
    show Tracks g (g.initialPeek playerId indices).2
    unfold Game.initialPeek
    repeat' split
    all_goals exact Tracks.same _ _ rfl rfl
  | drawCard playerId rnd =>
    show Tracks g (g.drawCard playerId rnd).2
    unfold Game.drawCard
    simp only []
    repeat' split
    all_goals first
      | exact Tracks.same _ _ rfl rfl
      | exact Tracks.same _ _ rfl (draw_top _ _)
  | swapWithHand playerId handIndex =>
    show Tracks g (g.swapWithHand playerId handIndex).2
    unfold Game.swapWithHand
    simp only []
    repeat' split
    all_goals first
      | exact Tracks.same _ _ rfl rfl
      | exact Or.inr (Or.inl (top_discard _ _))
  | discardDrawnCard playerId =>
    show Tracks g (g.discardDrawnCard playerId).2
    unfold Game.discardDrawnCard
    repeat' split
    all_goals first
      | exact Tracks.same _ _ rfl rfl
      | exact Or.inr (Or.inl (top_discard _ _))
  | usePower playerId =>
    show Tracks g (g.usePower playerId).2
    unfold Game.usePower
    repeat' split
    all_goals exact Tracks.same _ _ rfl rfl
  | doubleDrop playerId handIndex usePowerToo rnds =>
    show Tracks g (g.doubleDrop playerId handIndex usePowerToo rnds).2
    unfold Game.doubleDrop
    simp only []
    repeat' split
    all_goals first
      | exact Tracks.same _ _ rfl rfl
      | exact Or.inr (Or.inl (top_discard _ _))
  | resolvePeekOwn playerId cardIndex =>
    show Tracks g (g.resolvePeekOwn playerId cardIndex).2
    unfold Game.resolvePeekOwn
    simp only []
    repeat' split
    all_goals first
      | exact Tracks.same _ _ rfl rfl
      | exact Or.inr (Or.inl (top_discard _ _))
  | resolvePeekOther playerId targetPlayerId cardIndex =>
    show Tracks g (g.resolvePeekOther playerId targetPlayerId cardIndex).2
    unfold Game.resolvePeekOther
    try simp only []
    repeat' split
    all_goals first
      | exact Tracks.same _ _ rfl rfl
      | exact Or.inr (Or.inl (top_discard _ _))
  | resolveQueenSwap playerId player1Id card1Index player2Id card2Index =>
    show Tracks g (g.resolveQueenSwap playerId player1Id card1Index player2Id card2Index).2
    unfold Game.resolveQueenSwap
    simp only []
    repeat' split
    all_goals first
      | exact Tracks.same _ _ rfl rfl
      | exact Or.inr (Or.inl (top_discard _ _))
  | resolveBlackJackPeek playerId indices =>
    show Tracks g (g.resolveBlackJackPeek playerId indices).2
    unfold Game.resolveBlackJackPeek
    simp only []
    repeat' split
    all_goals exact Tracks.same _ _ rfl rfl
  | resolveBlackJackSwap playerId myCardIndex targetPlayerId targetCardIndex =>
    show Tracks g (g.resolveBlackJackSwap playerId myCardIndex targetPlayerId targetCardIndex).2
    unfold Game.resolveBlackJackSwap
    simp only []
    repeat' split
    all_goals first
      | exact Tracks.same _ _ rfl rfl
      | exact Or.inr (Or.inl (top_discard _ _))
  | resolveBlackJackSkip playerId =>
    show Tracks g (g.resolveBlackJackSkip playerId).2
    unfold Game.resolveBlackJackSkip
    repeat' split
    all_goals first
      | exact Tracks.same _ _ rfl rfl
      | exact Or.inr (Or.inl (top_discard _ _))
  | snapCard playerId cardIndex rnd =>
    show Tracks g (g.snapCard playerId cardIndex rnd).2
    unfold Game.snapCard
    simp only []
    repeat' split
    all_goals first
      | exact Tracks.same _ _ rfl rfl
      | exact Or.inr (Or.inl (top_discard _ _))
      | exact penaltyCard_tracks _ _ _ _
  | stealCard thiefId targetId targetCardIndex thiefCardIndex rnd =>
    show Tracks g (g.stealCard thiefId targetId targetCardIndex thiefCardIndex rnd).2
    unfold Game.stealCard
    simp only []
    repeat' split
    all_goals first
      | exact Tracks.same _ _ rfl rfl
      | exact Or.inr (Or.inl (top_discard _ _))
      | exact penaltyCard_tracks _ _ _ _

theorem top_some_nonempty (d : Deck) (c : Card) (h : d.getTopDiscard = some c) :
    d.discardPile ≠ [] := by
  intro he
  unfold Deck.getTopDiscard popVal at h
  rw [he] at h
  cases h

theorem reachable_top (g : Game) (h : Reachable g) (c : Card) (hc : g.lastDiscard = some c) :
    g.deck.getTopDiscard = some c := by
  induction h generalizing c with
  | init roomCode => cases hc
  | step g op _ ih =>
    rcases step_tracks g op with ⟨h1, h2⟩ | h1 | h1
    · rw [h2]
      exact ih c (h1.symm.trans hc)
    · rw [h1]; exact hc
    · rw [h1] at hc; cases hc

/-- C38. The last discard tracks the discard pile: in every state reachable from a new match
by engine calls, when `lastDiscard` is set the discard pile is not empty and its top card is
`lastDiscard`.  A draw that reshuffles the discard pile into the draw pile keeps the top card
of the discard pile, so the statement holds after it as well. -/
theorem lastDiscard_tracks_pile (g : Game) (h : Reachable g) :
    (∀ c : Card, g.lastDiscard = some c →
      g.deck.discardPile ≠ [] ∧ g.deck.getTopDiscard = some c) ∧
    (∀ rnd : Rnd, (g.deck.draw rnd).2.getTopDiscard = g.deck.getTopDiscard) :=
  ⟨fun c hc => ⟨top_some_nonempty _ c (reachable_top g h c hc), reachable_top g h c hc⟩,
   fun rnd => draw_top _ rnd⟩

set_option maxRecDepth 1000000 in
theorem lastDiscard_tracks_pile_witness :
    (run (Game.new "ROOM") firstDiscardOps).lastDiscard = some ⟨Suit.spades, Rank.n4⟩ ∧
    (run (Game.new "ROOM") firstDiscardOps).deck.discardPile ≠ [] ∧
    (run (Game.new "ROOM") firstDiscardOps).deck.getTopDiscard = some ⟨Suit.spades, Rank.n4⟩ :=
  ⟨by decide,
   (lastDiscard_tracks_pile (run (Game.new "ROOM") firstDiscardOps)
     (reachable_run _ _ (Reachable.init "ROOM"))).1 ⟨Suit.spades, Rank.n4⟩ (by decide)⟩

/-! ### Duplicated cards -/

set_option maxRecDepth 1000000 in
/-- C40, the code at the failing inputs.  After the deal every card lies in one place.  The
first seat draws the 10 of hearts, and its slot 3 holds the 10 of spades: `doubleDrop` with
`usePowerToo` discards both and leaves the power pending, and `resolvePeekOther` then discards
the 10 of hearts a second time, so it lies twice on the discard pile.  The first seat draws
the 7 of spades and `usePower` succeeds: after `swapWithHand` and `resolvePeekOwn` the 7 of
spades is in slot 0 of the first seat and on top of the discard pile, and after
`discardDrawnCard` and `resolvePeekOwn` it lies twice on the discard pile.  Without
`usePowerToo`, and with `usePower` followed by the resolution alone, the card lies in one
place. -/
theorem card_duplicated :
    (dealtGame rndTen).occurrences ⟨Suit.hearts, Rank.n10⟩ = 1 ∧
    PlayReachable
      (run (dealtGame rndTen)
        [Op.startPlaying, Op.drawCard 1 rndTen, Op.doubleDrop 1 3 true (fun _ => rndId),
         Op.resolvePeekOther 1 2 0]) ∧
    (run (dealtGame rndTen) [Op.startPlaying, Op.drawCard 1 rndTen]).drawnCard =
      some ⟨Suit.hearts, Rank.n10⟩ ∧
    (step (run (dealtGame rndTen) [Op.startPlaying, Op.drawCard 1 rndTen])
      (Op.doubleDrop 1 3 true (fun _ => rndId))).1 = Outcome.dropped (some Power.peekOther) true ∧
    (step (run (dealtGame rndTen)
        [Op.startPlaying, Op.drawCard 1 rndTen, Op.doubleDrop 1 3 true (fun _ => rndId)])
      (Op.resolvePeekOther 1 2 0)).1 = Outcome.peeked [some ⟨Suit.spades, Rank.n9⟩] ∧
    (run (dealtGame rndTen)
      [Op.startPlaying, Op.drawCard 1 rndTen, Op.doubleDrop 1 3 true (fun _ => rndId),
       Op.resolvePeekOther 1 2 0]).deck.discardPile =
      [some ⟨Suit.spades, Rank.n5⟩, some ⟨Suit.spades, Rank.n10⟩,
       some ⟨Suit.hearts, Rank.n10⟩, some ⟨Suit.hearts, Rank.n10⟩] ∧
    (run (dealtGame rndTen)
      [Op.startPlaying, Op.drawCard 1 rndTen, Op.doubleDrop 1 3 true (fun _ => rndId),
       Op.resolvePeekOther 1 2 0]).occurrences ⟨Suit.hearts, Rank.n10⟩ = 2 ∧
    (run (dealtGame rndTen)
      [Op.startPlaying, Op.drawCard 1 rndTen,
       Op.doubleDrop 1 3 false (fun _ => rndId)]).occurrences ⟨Suit.hearts, Rank.n10⟩ = 1 ∧
    (dealtGame rndSeven).occurrences ⟨Suit.spades, Rank.n7⟩ = 1 ∧
    PlayReachable powerGame ∧
    (run powerGame [Op.swapWithHand 1 0, Op.resolvePeekOwn 1 0]).players.map
      (fun p => p.hand[0]?) =
      [some (some ⟨Suit.spades, Rank.n7⟩), some (some ⟨Suit.spades, Rank.n9⟩)] ∧
    (run powerGame [Op.swapWithHand 1 0, Op.resolvePeekOwn 1 0]).deck.getTopDiscard =
      some ⟨Suit.spades, Rank.n7⟩ ∧
    (run powerGame [Op.swapWithHand 1 0, Op.resolvePeekOwn 1 0]).occurrences
      ⟨Suit.spades, Rank.n7⟩ = 2 ∧
    (step (step powerGame (Op.discardDrawnCard 1)).2 (Op.resolvePeekOwn 1 0)).1 =
      Outcome.peeked [some ⟨Suit.spades, Rank.K⟩] ∧
    (run powerGame [Op.discardDrawnCard 1, Op.resolvePeekOwn 1 0]).occurrences
      ⟨Suit.spades, Rank.n7⟩ = 2 ∧
    (run powerGame [Op.resolvePeekOwn 1 0]).occurrences ⟨Suit.spades, Rank.n7⟩ = 1 :=
  ⟨by decide, dealtGame_reachable _ _, by decide, by decide, by decide, by decide, by decide,
   by decide, by decide, dealtGame_reachable _ _, by decide, by decide, by decide, by decide,
   by decide, by decide⟩

end Cobra
